import Mathlib

/-!
# Flow: shape model, hit-testing and persistence

A shallow embedding of the diagram editor's core (`DiagramShape.cpp`,
`ConnectorShape.cpp`, `TextShape.cpp`, `FlowIO.cpp`) together with the Qt value types
and stream operators that code relies on.

Conventions of the embedding

* `qreal` is a type parameter `R`.  Geometry is stated over an exact ordered field
  (`LinearOrderedField R`, with a square root where the code calls `qSqrt`/`QLineF::length`:
  class `QReal`); rounding is not modelled, and the tolerance comparisons Qt uses against
  rounding (`qFuzzyCompare`, equality of `QPointF`) are exact comparisons.  Persistence is
  stated over `QDoubleBits`, the 64-bit IEEE-754 image of a `double`, because `QDataStream`
  transports a `qreal` as eight octets.
* `std::numeric_limits<qreal>::max()` is a parameter `qrealMax` of the functions that use
  it; a coordinate is finite when it lies between `-qrealMax` and `qrealMax`.
* C++ `int` is `Int`; the stream operators reduce it modulo `2 ^ 32` and decode it as a
  two's complement 32-bit value.  The predicate `IsInt32` records that a value is a genuine
  `int`.
* A `QDataStream` opened for reading is the unread remainder of the device plus the sticky
  status word; a stream opened for writing is the list of octets written so far.
  The stream is used with `QDataStream::Qt_5_12`, and container sizes are `int`
  (`QList::size()`, `QVector::size()` of Qt 5).
* The class hierarchy below `DiagramShape` is the sum type `Shape`; the constructor of a
  value is its dynamic class, while the field `type` is the data member of the same name.
-/

namespace Flow

/-! ## Octets and fixed-width integers -/

/-- One octet of a device. -/
abbrev Byte := Fin 256

/-- Big-endian image of `v` on `n` octets (the value is reduced modulo `256 ^ n`). -/
def beBytes : Nat → Nat → List Byte
  | 0, _ => []
  | n + 1, v => ⟨v / 256 ^ n % 256, Nat.mod_lt _ (by decide)⟩ :: beBytes n v

/-- Value of a big-endian octet string. -/
def beValue (bs : List Byte) : Nat :=
  bs.foldl (fun acc b => acc * 256 + b.val) 0

/-- Two's complement reading of an unsigned `w`-bit pattern. -/
def toSigned (w : Nat) (u : Nat) : Int :=
  if u < 2 ^ (w - 1) then (u : Int) else (u : Int) - 2 ^ w

/-- Unsigned `w`-bit pattern of a signed value. -/
def toUnsigned (w : Nat) (i : Int) : Nat :=
  (i % 2 ^ w).toNat

/-- The values of the C++ type `int`. -/
def IsInt32 (i : Int) : Prop := -2 ^ 31 ≤ i ∧ i < 2 ^ 31

instance (i : Int) : Decidable (IsInt32 i) := by
  unfold IsInt32; infer_instance

/-! ## Qt value types -/

/-- A `QString`: its UTF-16 code units.  The null string and the empty string, which Qt's
`operator==` identifies, are both the empty list. -/
abbrev QString := List Nat

/-- The literal `"FLOWCHART"`. -/
def FLOWCHART : QString := [70, 76, 79, 87, 67, 72, 65, 82, 84]

/-- A `QColor`: colour spec tag and the five 16-bit components Qt stores and streams. -/
structure QColor where
  cspec : Int
  alpha : Nat
  red : Nat
  green : Nat
  blue : Nat
  pad : Nat
deriving DecidableEq, Repr

/-- The colour `Qt::white`. -/
def Qt.white : QColor := ⟨1, 0xffff, 0xffff, 0xffff, 0xffff, 0⟩
/-- The colour `Qt::black`. -/
def Qt.black : QColor := ⟨1, 0xffff, 0, 0, 0, 0⟩
/-- The colour `Qt::red`. -/
def Qt.red : QColor := ⟨1, 0xffff, 0xffff, 0, 0, 0⟩
/-- The colour `Qt::transparent`. -/
def Qt.transparent : QColor := ⟨1, 0, 0, 0, 0, 0⟩

/-- A `QSize`: integer width and height. -/
structure QSize where
  wd : Int
  ht : Int
deriving DecidableEq, Repr

/-- A `QFont`, reduced to the attributes the editor sets (`QFont("Arial", 10)`). -/
structure QFont where
  family : QString
  pointSize : Int
deriving DecidableEq, Repr

/-- A `QPointF`. -/
structure QPointF (R : Type) where
  xp : R
  yp : R
deriving DecidableEq, Repr

/-- A `QSizeF`. -/
structure QSizeF (R : Type) where
  wd : R
  ht : R
deriving DecidableEq, Repr

/-- A `QRectF`: top-left corner, width, height. -/
structure QRectF (R : Type) where
  xp : R
  yp : R
  w : R
  h : R
deriving DecidableEq, Repr

/-- The 64-bit IEEE-754 image of a `double`. -/
structure QDoubleBits where
  bits : Nat
deriving DecidableEq, Repr

/-- Conversion of an integer literal of the source to `qreal`. -/
class QRealLit (R : Type) where
  lit : Nat → R

instance (R : Type) [LinearOrderedField R] : QRealLit R := ⟨fun n => (n : R)⟩

/-- Position of the leading binary digit of `n`, by halving at most `fuel` times. -/
def leadingBit : Nat → Nat → Nat
  | 0, _ => 0
  | fuel + 1, n => if 2 ≤ n then leadingBit fuel (n / 2) + 1 else 0

/-- IEEE-754 binary64 pattern of a natural number below `2 ^ 53`: biased exponent
`1023 + e` and the fraction below the leading bit, `e` being the position of that bit. -/
def ieeeOfNat (n : Nat) : Nat :=
  if n = 0 then 0
  else (1023 + leadingBit 64 n) * 2 ^ 52 + (n - 2 ^ leadingBit 64 n) * 2 ^ (52 - leadingBit 64 n)

instance : QRealLit QDoubleBits := ⟨fun n => ⟨ieeeOfNat n⟩⟩

/-- An exact model of `qreal` with the square root used by `qSqrt` and `QLineF::length`. -/
class QReal (R : Type) extends LinearOrderedField R where
  qSqrt : R → R
  qSqrt_nonneg : ∀ x, 0 ≤ qSqrt x
  qSqrt_mul_self : ∀ x, 0 ≤ x → qSqrt x * qSqrt x = x

noncomputable instance : QReal ℝ :=
  { Real.instLinearOrderedField with
    qSqrt := Real.sqrt
    qSqrt_nonneg := Real.sqrt_nonneg
    qSqrt_mul_self := fun _ hx => Real.mul_self_sqrt hx }

/-! ## QDataStream -/

/-- The status word of a `QDataStream`. -/
inductive Status
  | Ok
  | ReadPastEnd
  | ReadCorruptData
deriving DecidableEq, Repr

/-- A `QDataStream` opened for reading: the unread octets of the device and the status. -/
structure QDataStream where
  dev : List Byte
  status : Status
deriving DecidableEq, Repr

/-- `QDataStream::setStatus`: the first error sticks. -/
def QDataStream.setStatus (s : QDataStream) (st : Status) : QDataStream :=
  if s.status = Status.Ok then { s with status := st } else s

/-- `QDataStream::readBlock`: take `len` octets; a short read consumes what is left and
sets `ReadPastEnd`. -/
def QDataStream.readBlock (s : QDataStream) (len : Nat) : Option (List Byte) × QDataStream :=
  if len ≤ s.dev.length then
    (some (s.dev.take len), { s with dev := s.dev.drop len })
  else
    (none, QDataStream.setStatus { s with dev := [] } Status.ReadPastEnd)

/-- Read an unsigned big-endian integer of `n` octets; `0` on a short read. -/
def readUInt (n : Nat) (s : QDataStream) : Nat × QDataStream :=
  match s.readBlock n with
  | (some bs, s1) => (beValue bs, s1)
  | (none, s1) => (0, s1)

/-- Stream extraction of a `qint32` / `int`. -/
def readInt32 (s : QDataStream) : Int × QDataStream :=
  let (u, s1) := readUInt 4 s
  (toSigned 32 u, s1)

/-- Stream insertion of a `qint32` / `int`. -/
def writeInt32 (i : Int) : List Byte := beBytes 4 (toUnsigned 32 i)

/-- Stream extraction of a `bool` (a `qint8`, then `!!v`). -/
def readBool (s : QDataStream) : Bool × QDataStream :=
  let (u, s1) := readUInt 1 s
  (decide (u ≠ 0), s1)

/-- Stream insertion of a `bool`. -/
def writeBool (b : Bool) : List Byte := beBytes 1 (if b then 1 else 0)

/-- Stream extraction of a `double`. -/
def readDouble (s : QDataStream) : QDoubleBits × QDataStream :=
  let (u, s1) := readUInt 8 s
  (⟨u⟩, s1)

/-- Stream insertion of a `double`. -/
def writeDouble (d : QDoubleBits) : List Byte := beBytes 8 d.bits

/-- Stream extraction of a `QPointF`: `x`, then `y`. -/
def readQPointF (s : QDataStream) : QPointF QDoubleBits × QDataStream :=
  let (x, s1) := readDouble s
  let (y, s2) := readDouble s1
  (⟨x, y⟩, s2)

/-- Stream insertion of a `QPointF`. -/
def writeQPointF (p : QPointF QDoubleBits) : List Byte :=
  writeDouble p.xp ++ writeDouble p.yp

/-- Stream extraction of a `QSizeF`: width, then height. -/
def readQSizeF (s : QDataStream) : QSizeF QDoubleBits × QDataStream :=
  let (w, s1) := readDouble s
  let (h, s2) := readDouble s1
  (⟨w, h⟩, s2)

/-- Stream insertion of a `QSizeF`. -/
def writeQSizeF (sz : QSizeF QDoubleBits) : List Byte :=
  writeDouble sz.wd ++ writeDouble sz.ht

/-- Stream extraction of a `QSize`: two `qint32`. -/
def readQSize (s : QDataStream) : QSize × QDataStream :=
  let (w, s1) := readInt32 s
  let (h, s2) := readInt32 s1
  (⟨w, h⟩, s2)

/-- Stream insertion of a `QSize`. -/
def writeQSize (sz : QSize) : List Byte :=
  writeInt32 sz.wd ++ writeInt32 sz.ht

/-- Stream extraction of a `QColor`: a `qint8` spec and five `quint16`. -/
def readQColor (s : QDataStream) : QColor × QDataStream :=
  let (cspec, s1) := readUInt 1 s
  let (a, s2) := readUInt 2 s1
  let (r, s3) := readUInt 2 s2
  let (g, s4) := readUInt 2 s3
  let (b, s5) := readUInt 2 s4
  let (p, s6) := readUInt 2 s5
  (⟨toSigned 8 cspec, a, r, g, b, p⟩, s6)

/-- Stream insertion of a `QColor`. -/
def writeQColor (c : QColor) : List Byte :=
  beBytes 1 (toUnsigned 8 c.cspec) ++ beBytes 2 c.alpha ++ beBytes 2 c.red ++
    beBytes 2 c.green ++ beBytes 2 c.blue ++ beBytes 2 c.pad

/-- UTF-16 code units of a big-endian octet string. -/
def unitsOfBytes : List Byte → List Nat
  | hi :: lo :: rest => (hi.val * 256 + lo.val) :: unitsOfBytes rest
  | _ => []

/-- Big-endian octets of a list of UTF-16 code units. -/
def bytesOfUnits : List Nat → List Byte
  | [] => []
  | u :: rest => beBytes 2 u ++ bytesOfUnits rest

/-- Stream extraction of a `QString`: the byte length as `quint32`, then the code units.
`0xffffffff` is the null string, an odd length is corrupt data, a short read clears the
string. -/
def readQString (s : QDataStream) : QString × QDataStream :=
  let (bytes, s1) := readUInt 4 s
  if bytes = 0xffffffff then ([], s1)
  else if bytes > 0 then
    if bytes % 2 = 1 then ([], s1.setStatus Status.ReadCorruptData)
    else
      match s1.readBlock bytes with
      | (some raw, s2) => (unitsOfBytes raw, s2)
      | (none, s2) => ([], s2)
  else ([], s1)

/-- Stream insertion of a `QString`: byte length, then the code units. -/
def writeQString (str : QString) : List Byte :=
  beBytes 4 (2 * str.length) ++ bytesOfUnits str

/-- The stream operators of `QFont`, which belong to Qt and are taken as given. -/
structure QFontCodec where
  write : QFont → List Byte
  read : QDataStream → QFont × QDataStream

/-- A concrete font codec: the family as a `QString`, the point size as a `qint32`. -/
def simpleFontCodec : QFontCodec where
  write f := writeQString f.family ++ writeInt32 f.pointSize
  read s :=
    let (fam, s1) := readQString s
    let (ps, s2) := readInt32 s1
    (⟨fam, ps⟩, s2)

/-! ## The shape classes: data -/

/-- The enumerators of `DiagramShape::Type`, as the integers they convert to. -/
def DiagramShape.None : Int := 0
/-- Enumerator `Rectangle`. -/
def DiagramShape.Rectangle : Int := 1
/-- Enumerator `Ellipse`. -/
def DiagramShape.Ellipse : Int := 2
/-- Enumerator `Diamond`. -/
def DiagramShape.Diamond : Int := 3
/-- Enumerator `Triangle`. -/
def DiagramShape.Triangle : Int := 4
/-- Enumerator `Connector`. -/
def DiagramShape.Connector : Int := 5
/-- Enumerator `Text`. -/
def DiagramShape.Text : Int := 6

/-- The enumerators of `ConnectorShape::ArrowStyle`. -/
def ConnectorShape.None : Int := 0
/-- Enumerator `Start`. -/
def ConnectorShape.Start : Int := 1
/-- Enumerator `End`. -/
def ConnectorShape.End : Int := 2
/-- Enumerator `Both`. -/
def ConnectorShape.Both : Int := 3

/-- The data members of the base class `DiagramShape`. -/
structure DiagramShape (R : Type) where
  position : QPointF R
  shapeColor : QColor
  lineColor : QColor
  lineWidth : Int
  isSelected : Bool
  type : Int
  m_text : QString
deriving DecidableEq, Repr

/-- Class `RectangleShape`. -/
structure RectangleShape (R : Type) extends DiagramShape R where
  size : QSizeF R
deriving DecidableEq, Repr

/-- Class `EllipseShape`. -/
structure EllipseShape (R : Type) extends DiagramShape R where
  size : QSizeF R
deriving DecidableEq, Repr

/-- Class `DiamondShape`. -/
structure DiamondShape (R : Type) extends DiagramShape R where
  size : QSizeF R
deriving DecidableEq, Repr

/-- Class `TriangleShape`. -/
structure TriangleShape (R : Type) extends DiagramShape R where
  size : QSizeF R
deriving DecidableEq, Repr

/-- Class `ConnectorShape`. -/
structure ConnectorShape (R : Type) extends DiagramShape R where
  startPoint : QPointF R
  endPoint : QPointF R
  controlPoints : List (QPointF R)
  arrowStyle : Int
deriving DecidableEq, Repr

/-- Class `TextShape`. -/
structure TextShape (R : Type) extends DiagramShape R where
  size : QSizeF R
  font : QFont
  textColor : QColor
deriving DecidableEq, Repr

/-- A `std::shared_ptr<DiagramShape>` that is not null: an object of one of the six
concrete classes. -/
inductive Shape (R : Type)
  | rectangle (s : RectangleShape R)
  | ellipse (s : EllipseShape R)
  | diamond (s : DiamondShape R)
  | triangle (s : TriangleShape R)
  | connector (s : ConnectorShape R)
  | text (s : TextShape R)
deriving DecidableEq, Repr

/-- The base-class part of a shape. -/
def Shape.base {R : Type} : Shape R → DiagramShape R
  | .rectangle s => s.toDiagramShape
  | .ellipse s => s.toDiagramShape
  | .diamond s => s.toDiagramShape
  | .triangle s => s.toDiagramShape
  | .connector s => s.toDiagramShape
  | .text s => s.toDiagramShape

/-- `DiagramShape::getType`. -/
def Shape.getType {R : Type} (s : Shape R) : Int := s.base.type

/-! ## Constructors and the factory -/

/-- `DiagramShape::DiagramShape(Type t)`; the position is the default `QPointF()`. -/
def DiagramShape.ctor {R : Type} [QRealLit R] (t : Int) : DiagramShape R where
  position := ⟨QRealLit.lit 0, QRealLit.lit 0⟩
  shapeColor := Qt.white
  lineColor := Qt.black
  lineWidth := 1
  isSelected := false
  type := t
  m_text := []

/-- `RectangleShape::RectangleShape()`. -/
def RectangleShape.ctor {R : Type} [QRealLit R] : RectangleShape R :=
  { DiagramShape.ctor DiagramShape.Rectangle with size := ⟨QRealLit.lit 120, QRealLit.lit 80⟩ }

/-- `EllipseShape::EllipseShape()`. -/
def EllipseShape.ctor {R : Type} [QRealLit R] : EllipseShape R :=
  { DiagramShape.ctor DiagramShape.Ellipse with size := ⟨QRealLit.lit 120, QRealLit.lit 80⟩ }

/-- `DiamondShape::DiamondShape()`. -/
def DiamondShape.ctor {R : Type} [QRealLit R] : DiamondShape R :=
  { DiagramShape.ctor DiagramShape.Diamond with size := ⟨QRealLit.lit 120, QRealLit.lit 80⟩ }

/-- `TriangleShape::TriangleShape()`. -/
def TriangleShape.ctor {R : Type} [QRealLit R] : TriangleShape R :=
  { DiagramShape.ctor DiagramShape.Triangle with size := ⟨QRealLit.lit 120, QRealLit.lit 80⟩ }

/-- `ConnectorShape::ConnectorShape()`. -/
def ConnectorShape.ctor {R : Type} [QRealLit R] : ConnectorShape R :=
  { DiagramShape.ctor DiagramShape.Connector with
    startPoint := ⟨QRealLit.lit 0, QRealLit.lit 0⟩
    endPoint := ⟨QRealLit.lit 0, QRealLit.lit 0⟩
    controlPoints := []
    arrowStyle := ConnectorShape.End }

/-- `TextShape::TextShape()`: Arial 10, transparent background. -/
def TextShape.ctor {R : Type} [QRealLit R] : TextShape R :=
  { DiagramShape.ctor DiagramShape.Text with
    shapeColor := Qt.transparent
    size := ⟨QRealLit.lit 100, QRealLit.lit 30⟩
    font := ⟨[65, 114, 105, 97, 108], 10⟩
    textColor := Qt.black }

/-- `DiagramShape::createShape`; `none` is the null pointer. -/
def DiagramShape.createShape {R : Type} [QRealLit R] (type : Int) : Option (Shape R) :=
  if type = DiagramShape.Rectangle then some (.rectangle RectangleShape.ctor)
  else if type = DiagramShape.Ellipse then some (.ellipse EllipseShape.ctor)
  else if type = DiagramShape.Diamond then some (.diamond DiamondShape.ctor)
  else if type = DiagramShape.Triangle then some (.triangle TriangleShape.ctor)
  else if type = DiagramShape.Connector then some (.connector ConnectorShape.ctor)
  else if type = DiagramShape.Text then some (.text TextShape.ctor)
  else none

/-! ## Persistence of shapes -/

/-- `DiagramShape::save`. -/
def DiagramShape.save (self : DiagramShape QDoubleBits) (out : List Byte) : List Byte :=
  let out := out ++ writeInt32 self.type
  let out := out ++ writeQPointF self.position
  let out := out ++ writeQColor self.shapeColor
  let out := out ++ writeQColor self.lineColor
  let out := out ++ writeInt32 self.lineWidth
  let out := out ++ writeBool self.isSelected
  out ++ writeQString self.m_text

/-- `DiagramShape::load`. -/
def DiagramShape.load (_self : DiagramShape QDoubleBits) (s : QDataStream) :
    DiagramShape QDoubleBits × QDataStream :=
  let (t, s1) := readInt32 s
  let (position, s2) := readQPointF s1
  let (shapeColor, s3) := readQColor s2
  let (lineColor, s4) := readQColor s3
  let (lineWidth, s5) := readInt32 s4
  let (isSelected, s6) := readBool s5
  let (m_text, s7) := readQString s6
  ({ position := position, shapeColor := shapeColor, lineColor := lineColor,
     lineWidth := lineWidth, isSelected := isSelected, type := t, m_text := m_text }, s7)

/-- `RectangleShape::save`. -/
def RectangleShape.save (self : RectangleShape QDoubleBits) (out : List Byte) : List Byte :=
  let out := self.toDiagramShape.save out
  out ++ writeQSizeF self.size

/-- `RectangleShape::load`. -/
def RectangleShape.load (self : RectangleShape QDoubleBits) (s : QDataStream) :
    RectangleShape QDoubleBits × QDataStream :=
  let (base, s1) := self.toDiagramShape.load s
  let (size, s2) := readQSizeF s1
  ({ toDiagramShape := base, size := size }, s2)

/-- `EllipseShape::save`. -/
def EllipseShape.save (self : EllipseShape QDoubleBits) (out : List Byte) : List Byte :=
  let out := self.toDiagramShape.save out
  out ++ writeQSizeF self.size

/-- `EllipseShape::load`. -/
def EllipseShape.load (self : EllipseShape QDoubleBits) (s : QDataStream) :
    EllipseShape QDoubleBits × QDataStream :=
  let (base, s1) := self.toDiagramShape.load s
  let (size, s2) := readQSizeF s1
  ({ toDiagramShape := base, size := size }, s2)

/-- `DiamondShape::save`. -/
def DiamondShape.save (self : DiamondShape QDoubleBits) (out : List Byte) : List Byte :=
  let out := self.toDiagramShape.save out
  out ++ writeQSizeF self.size

/-- `DiamondShape::load`. -/
def DiamondShape.load (self : DiamondShape QDoubleBits) (s : QDataStream) :
    DiamondShape QDoubleBits × QDataStream :=
  let (base, s1) := self.toDiagramShape.load s
  let (size, s2) := readQSizeF s1
  ({ toDiagramShape := base, size := size }, s2)

/-- `TriangleShape::save`. -/
def TriangleShape.save (self : TriangleShape QDoubleBits) (out : List Byte) : List Byte :=
  let out := self.toDiagramShape.save out
  out ++ writeQSizeF self.size

/-- `TriangleShape::load`. -/
def TriangleShape.load (self : TriangleShape QDoubleBits) (s : QDataStream) :
    TriangleShape QDoubleBits × QDataStream :=
  let (base, s1) := self.toDiagramShape.load s
  let (size, s2) := readQSizeF s1
  ({ toDiagramShape := base, size := size }, s2)

/-- `TextShape::save`. -/
def TextShape.save (fc : QFontCodec) (self : TextShape QDoubleBits) (out : List Byte) :
    List Byte :=
  let out := self.toDiagramShape.save out
  let out := out ++ writeQSizeF self.size
  let out := out ++ fc.write self.font
  out ++ writeQColor self.textColor

/-- `TextShape::load`. -/
def TextShape.load (fc : QFontCodec) (self : TextShape QDoubleBits) (s : QDataStream) :
    TextShape QDoubleBits × QDataStream :=
  let (base, s1) := self.toDiagramShape.load s
  let (size, s2) := readQSizeF s1
  let (font, s3) := fc.read s2
  let (textColor, s4) := readQColor s3
  ({ toDiagramShape := base, size := size, font := font, textColor := textColor }, s4)

/-- The loop of `ConnectorShape::save` over the control points. -/
def ConnectorShape.savePoints : List (QPointF QDoubleBits) → List Byte → List Byte
  | [], out => out
  | point :: rest, out => ConnectorShape.savePoints rest (out ++ writeQPointF point)

/-- `ConnectorShape::save`. -/
def ConnectorShape.save (self : ConnectorShape QDoubleBits) (out : List Byte) : List Byte :=
  let out := self.toDiagramShape.save out
  let out := out ++ writeQPointF self.startPoint
  let out := out ++ writeQPointF self.endPoint
  let out := out ++ writeInt32 self.arrowStyle
  let out := out ++ writeInt32 self.controlPoints.length
  ConnectorShape.savePoints self.controlPoints out

/-- The loop `for (int i = 0; i < pointCount; ++i)` of `ConnectorShape::load`; the first
argument is the number of iterations still to run. -/
def ConnectorShape.loadPoints :
    Nat → QDataStream → List (QPointF QDoubleBits) → List (QPointF QDoubleBits) × QDataStream
  | 0, s, controlPoints => (controlPoints, s)
  | n + 1, s, controlPoints =>
    let (point, s1) := readQPointF s
    ConnectorShape.loadPoints n s1 (controlPoints ++ [point])

/-- `ConnectorShape::load`. -/
def ConnectorShape.load (self : ConnectorShape QDoubleBits) (s : QDataStream) :
    ConnectorShape QDoubleBits × QDataStream :=
  let (base, s1) := self.toDiagramShape.load s
  let (startPoint, s2) := readQPointF s1
  let (endPoint, s3) := readQPointF s2
  let (style, s4) := readInt32 s3
  let (pointCount, s5) := readInt32 s4
  let (controlPoints, s6) := ConnectorShape.loadPoints pointCount.toNat s5 []
  ({ toDiagramShape := base, startPoint := startPoint, endPoint := endPoint,
     controlPoints := controlPoints, arrowStyle := style }, s6)

/-- The virtual call `shape->save(out)`. -/
def Shape.save (fc : QFontCodec) : Shape QDoubleBits → List Byte → List Byte
  | .rectangle s, out => s.save out
  | .ellipse s, out => s.save out
  | .diamond s, out => s.save out
  | .triangle s, out => s.save out
  | .connector s, out => s.save out
  | .text s, out => s.save fc out

/-- The virtual call `shape->load(in)`. -/
def Shape.load (fc : QFontCodec) :
    Shape QDoubleBits → QDataStream → Shape QDoubleBits × QDataStream
  | .rectangle s, i => Prod.map Shape.rectangle id (s.load i)
  | .ellipse s, i => Prod.map Shape.ellipse id (s.load i)
  | .diamond s, i => Prod.map Shape.diamond id (s.load i)
  | .triangle s, i => Prod.map Shape.triangle id (s.load i)
  | .connector s, i => Prod.map Shape.connector id (s.load i)
  | .text s, i => Prod.map Shape.text id (s.load fc i)

/-! ## The canvas and the file codec -/

/-- The part of `DiagramCanvas` that `FlowIO` reads and writes. -/
structure DiagramCanvas (R : Type) where
  m_shapes : List (Shape R)
  m_backgroundColor : QColor
  m_canvasSize : QSize
deriving DecidableEq, Repr

/-- `DiagramCanvas::setBackgroundColor` (the repaint request is not part of the state). -/
def DiagramCanvas.setBackgroundColor {R : Type} (c : DiagramCanvas R) (color : QColor) :
    DiagramCanvas R :=
  { c with m_backgroundColor := color }

/-- `DiagramCanvas::setCanvasSize`. -/
def DiagramCanvas.setCanvasSize {R : Type} (c : DiagramCanvas R) (size : QSize) :
    DiagramCanvas R :=
  { c with m_canvasSize := size }

/-- Modelled from the spec: `DiagramCanvas::clear`, whose body is in `DiagramCanvas.cpp`,
empties the ordered shape list ("Load clears the current Document before rebuilding it"). -/
def DiagramCanvas.clear {R : Type} (c : DiagramCanvas R) : DiagramCanvas R :=
  { c with m_shapes := [] }

/-- Modelled from the spec: `DiagramCanvas::addShape`, whose body is in `DiagramCanvas.cpp`,
puts the shape at the end of the ordered list (on top of the z-order). -/
def DiagramCanvas.addShape {R : Type} (c : DiagramCanvas R) (shape : Shape R) :
    DiagramCanvas R :=
  { c with m_shapes := c.m_shapes ++ [shape] }

/-- The loop `for (const auto& shape : shapes) shape->save(stream)` of `FlowIO::save`. -/
def FlowIO.saveShapes (fc : QFontCodec) : List (Shape QDoubleBits) → List Byte → List Byte
  | [], out => out
  | shape :: rest, out => FlowIO.saveShapes fc rest (shape.save fc out)

/-- `FlowIO::save`: `writable` tells whether the file could be opened for writing; the
result is the return value and the octets written. -/
def FlowIO.save (fc : QFontCodec) (writable : Bool) (canvas : DiagramCanvas QDoubleBits) :
    Bool × List Byte :=
  if !writable then (false, [])
  else
    let stream : List Byte := []
    let stream := stream ++ writeQString FLOWCHART
    let stream := stream ++ writeInt32 1
    let stream := stream ++ writeQColor canvas.m_backgroundColor
    let stream := stream ++ writeQSize canvas.m_canvasSize
    let stream := stream ++ writeInt32 canvas.m_shapes.length
    let stream := FlowIO.saveShapes fc canvas.m_shapes stream
    (true, stream)

/-- The loop `for (int i = 0; i < shapeCount; ++i)` of `FlowIO::load`; the first argument is
the number of iterations still to run. -/
def FlowIO.loadShapes (fc : QFontCodec) :
    Nat → QDataStream → DiagramCanvas QDoubleBits → DiagramCanvas QDoubleBits × QDataStream
  | 0, s, canvas => (canvas, s)
  | n + 1, s, canvas =>
    let (type, s1) := readInt32 s
    match (DiagramShape.createShape type : Option (Shape QDoubleBits)) with
    | some shape =>
      let (shape, s2) := shape.load fc s1
      FlowIO.loadShapes fc n s2 (canvas.addShape shape)
    | none => FlowIO.loadShapes fc n s1 canvas

/-- `FlowIO::load` on an opened stream: return value, canvas afterwards, stream afterwards. -/
def FlowIO.loadStream (fc : QFontCodec) (stream : QDataStream)
    (canvas : DiagramCanvas QDoubleBits) : Bool × DiagramCanvas QDoubleBits × QDataStream :=
  let (header, s1) := readQString stream
  if header ≠ FLOWCHART then (false, canvas, s1)
  else
    let (_version, s2) := readInt32 s1
    let (backgroundColor, s3) := readQColor s2
    let (canvasSize, s4) := readQSize s3
    let canvas := canvas.setBackgroundColor backgroundColor
    let canvas := canvas.setCanvasSize canvasSize
    let canvas := canvas.clear
    let (shapeCount, s5) := readInt32 s4
    let (canvas, s6) := FlowIO.loadShapes fc shapeCount.toNat s5 canvas
    (true, canvas, s6)

/-- `FlowIO::load`: `file` is `none` when the file cannot be opened for reading, and the
device contents otherwise; the result is the return value and the canvas afterwards. -/
def FlowIO.load (fc : QFontCodec) (file : Option (List Byte))
    (canvas : DiagramCanvas QDoubleBits) : Bool × DiagramCanvas QDoubleBits :=
  match file with
  | none => (false, canvas)
  | some bytes =>
    let r := FlowIO.loadStream fc ⟨bytes, Status.Ok⟩ canvas
    (r.1, r.2.1)

/-! ## Qt geometry helpers -/

/-- Operator `+` of `QPointF`. -/
def QPointF.add {R : Type} [LinearOrderedField R] (p q : QPointF R) : QPointF R :=
  ⟨p.xp + q.xp, p.yp + q.yp⟩

/-- The constructor `QRectF(topLeft, size)`. -/
def QRectF.ofTopLeftSize {R : Type} (topLeft : QPointF R) (size : QSizeF R) : QRectF R :=
  ⟨topLeft.xp, topLeft.yp, size.wd, size.ht⟩

/-- `QRectF::left`. -/
def QRectF.left {R : Type} (r : QRectF R) : R := r.xp
/-- `QRectF::top`. -/
def QRectF.top {R : Type} (r : QRectF R) : R := r.yp
/-- `QRectF::right`. -/
def QRectF.right {R : Type} [LinearOrderedField R] (r : QRectF R) : R := r.xp + r.w
/-- `QRectF::bottom`. -/
def QRectF.bottom {R : Type} [LinearOrderedField R] (r : QRectF R) : R := r.yp + r.h
/-- `QRectF::center`. -/
def QRectF.center {R : Type} [LinearOrderedField R] (r : QRectF R) : QPointF R :=
  ⟨r.xp + r.w / 2, r.yp + r.h / 2⟩

/-- `QRectF::translated`. -/
def QRectF.translated {R : Type} [LinearOrderedField R] (r : QRectF R) (d : QPointF R) :
    QRectF R :=
  ⟨r.xp + d.xp, r.yp + d.yp, r.w, r.h⟩

/-- `QRectF::contains(const QPointF&)`: edges included, a rectangle of zero width or zero
height contains nothing, negative extents are normalised. -/
def QRectF.contains {R : Type} [LinearOrderedField R] (r : QRectF R) (p : QPointF R) : Bool :=
  let l := if r.w < 0 then r.xp + r.w else r.xp
  let rr := if r.w < 0 then r.xp else r.xp + r.w
  if l = rr then false
  else if p.xp < l ∨ p.xp > rr then false
  else
    let t := if r.h < 0 then r.yp + r.h else r.yp
    let b := if r.h < 0 then r.yp else r.yp + r.h
    if t = b then false
    else if p.yp < t ∨ p.yp > b then false
    else true

/-- A `QLineF`. -/
structure QLineF (R : Type) where
  pt1 : QPointF R
  pt2 : QPointF R

/-- `QLineF::length`: `qSqrt(x*x + y*y)` of the difference of the end points. -/
def QLineF.length {R : Type} [QReal R] (l : QLineF R) : R :=
  let x := l.pt2.xp - l.pt1.xp
  let y := l.pt2.yp - l.pt1.yp
  QReal.qSqrt (x * x + y * y)

/-- Qt's `qt_polygon_isect_line`: the contribution of the edge `p1 → p2` to the winding
number of `pos`.  Horizontal edges are ignored (Qt tests this with `qFuzzyCompare`, a
tolerance against rounding, which is equality in exact arithmetic); an edge counts when
`pos.y` is in its half-open vertical range and the edge is at or left of `pos`. -/
def qt_polygon_isect_line {R : Type} [LinearOrderedField R] (p1 p2 pos : QPointF R)
    (winding : Int) : Int :=
  if p1.yp = p2.yp then winding
  else
    let x1 := if p2.yp < p1.yp then p2.xp else p1.xp
    let y1 := if p2.yp < p1.yp then p2.yp else p1.yp
    let x2 := if p2.yp < p1.yp then p1.xp else p2.xp
    let y2 := if p2.yp < p1.yp then p1.yp else p2.yp
    let dir : Int := if p2.yp < p1.yp then -1 else 1
    if y1 ≤ pos.yp ∧ pos.yp < y2 then
      let x := x1 + ((x2 - x1) / (y2 - y1)) * (pos.yp - y1)
      if x ≤ pos.xp then winding + dir else winding
    else winding

/-- The loop of `QPolygonF::containsPoint` over the vertices after the first. -/
def QPolygonF.windingLoop {R : Type} [LinearOrderedField R] (pt : QPointF R) :
    List (QPointF R) → QPointF R → Int → QPointF R × Int
  | [], last_pt, winding_number => (last_pt, winding_number)
  | e :: rest, last_pt, winding_number =>
    QPolygonF.windingLoop pt rest e (qt_polygon_isect_line last_pt e pt winding_number)

/-- `QPolygonF::containsPoint(pt, Qt::OddEvenFill)`: the polygon is closed implicitly when
its last vertex differs from the first (Qt compares the two points with a rounding
tolerance, which is equality in exact arithmetic), and the point is inside when
`winding_number % 2 != 0`, `%` being the truncating remainder of C++. -/
def QPolygonF.containsPoint {R : Type} [LinearOrderedField R] (poly : List (QPointF R))
    (pt : QPointF R) : Bool :=
  match poly with
  | [] => false
  | first :: rest =>
    let (last_pt, winding_number) := QPolygonF.windingLoop pt rest first 0
    let winding_number :=
      if last_pt ≠ first then qt_polygon_isect_line last_pt first pt winding_number
      else winding_number
    decide (Int.tmod winding_number 2 ≠ 0)

/-- `QPainterPath::addEllipse(rect)` followed by `QPainterPath::contains(pt)`: a null
rectangle adds nothing, a point outside the rectangle of the control points is rejected
first, and the interior test is that of the exact ellipse inscribed in `rect` (Qt traces it
with four cubic Bézier arcs), the outline counting as inside. -/
def QPainterPath.ellipseContains {R : Type} [LinearOrderedField R] (rect : QRectF R)
    (pt : QPointF R) : Bool :=
  if rect.w = 0 ∧ rect.h = 0 then false
  else if !(rect.contains pt) then false
  else
    let a := rect.w / 2
    let b := rect.h / 2
    let dx := pt.xp - rect.center.xp
    let dy := pt.yp - rect.center.yp
    decide (dx * dx * (b * b) + dy * dy * (a * a) ≤ a * a * (b * b))

/-! ## Geometry of the box kinds -/

/-- `RectangleShape::contains`. -/
def RectangleShape.contains {R : Type} [LinearOrderedField R] (self : RectangleShape R)
    (point : QPointF R) : Bool :=
  (QRectF.ofTopLeftSize self.position self.size).contains point

/-- `RectangleShape::boundingRect`. -/
def RectangleShape.boundingRect {R : Type} (self : RectangleShape R) : QRectF R :=
  QRectF.ofTopLeftSize self.position self.size

/-- `RectangleShape::moveBy`. -/
def RectangleShape.moveBy {R : Type} [LinearOrderedField R] (self : RectangleShape R)
    (delta : QPointF R) : RectangleShape R :=
  { self with position := self.position.add delta }

/-- `EllipseShape::contains`. -/
def EllipseShape.contains {R : Type} [LinearOrderedField R] (self : EllipseShape R)
    (point : QPointF R) : Bool :=
  QPainterPath.ellipseContains (QRectF.ofTopLeftSize self.position self.size) point

/-- `EllipseShape::boundingRect`. -/
def EllipseShape.boundingRect {R : Type} (self : EllipseShape R) : QRectF R :=
  QRectF.ofTopLeftSize self.position self.size

/-- `EllipseShape::moveBy`. -/
def EllipseShape.moveBy {R : Type} [LinearOrderedField R] (self : EllipseShape R)
    (delta : QPointF R) : EllipseShape R :=
  { self with position := self.position.add delta }

/-- `DiamondShape::contains`. -/
def DiamondShape.contains {R : Type} [LinearOrderedField R] (self : DiamondShape R)
    (point : QPointF R) : Bool :=
  let rect := QRectF.ofTopLeftSize self.position self.size
  let diamond : List (QPointF R) :=
    [⟨rect.center.xp, rect.top⟩, ⟨rect.right, rect.center.yp⟩,
     ⟨rect.center.xp, rect.bottom⟩, ⟨rect.left, rect.center.yp⟩]
  QPolygonF.containsPoint diamond point

/-- `DiamondShape::boundingRect`. -/
def DiamondShape.boundingRect {R : Type} (self : DiamondShape R) : QRectF R :=
  QRectF.ofTopLeftSize self.position self.size

/-- `DiamondShape::moveBy`. -/
def DiamondShape.moveBy {R : Type} [LinearOrderedField R] (self : DiamondShape R)
    (delta : QPointF R) : DiamondShape R :=
  { self with position := self.position.add delta }

/-- `TriangleShape::contains`. -/
def TriangleShape.contains {R : Type} [LinearOrderedField R] (self : TriangleShape R)
    (point : QPointF R) : Bool :=
  let rect := QRectF.ofTopLeftSize self.position self.size
  let triangle : List (QPointF R) :=
    [⟨rect.center.xp, rect.top⟩, ⟨rect.right, rect.bottom⟩, ⟨rect.left, rect.bottom⟩]
  QPolygonF.containsPoint triangle point

/-- `TriangleShape::boundingRect`. -/
def TriangleShape.boundingRect {R : Type} (self : TriangleShape R) : QRectF R :=
  QRectF.ofTopLeftSize self.position self.size

/-- `TriangleShape::moveBy`. -/
def TriangleShape.moveBy {R : Type} [LinearOrderedField R] (self : TriangleShape R)
    (delta : QPointF R) : TriangleShape R :=
  { self with position := self.position.add delta }

/-- `TextShape::contains`. -/
def TextShape.contains {R : Type} [LinearOrderedField R] (self : TextShape R)
    (point : QPointF R) : Bool :=
  (QRectF.ofTopLeftSize self.position self.size).contains point

/-- `TextShape::boundingRect`. -/
def TextShape.boundingRect {R : Type} (self : TextShape R) : QRectF R :=
  QRectF.ofTopLeftSize self.position self.size

/-- `TextShape::moveBy`. -/
def TextShape.moveBy {R : Type} [LinearOrderedField R] (self : TextShape R)
    (delta : QPointF R) : TextShape R :=
  { self with position := self.position.add delta }

/-! ## Geometry of the connector -/

/-- The test both branches of `ConnectorShape::contains` apply to one segment:
`qAbs(distance - segmentLength) < threshold`. -/
def ConnectorShape.nearSegment {R : Type} [QReal R] (threshold : R) (p1 p2 point : QPointF R) :
    Bool :=
  let segment : QLineF R := ⟨p1, p2⟩
  let distance :=
    (QLineF.mk segment.pt1 point).length + (QLineF.mk segment.pt2 point).length
  let segmentLength := segment.length
  decide (|distance - segmentLength| < threshold)

/-- The polyline loop of `ConnectorShape::contains`, with its early `return true`, followed
by the last segment to `endPoint`. -/
def ConnectorShape.containsLoop {R : Type} [QReal R] (threshold : R)
    (point endPoint : QPointF R) : QPointF R → List (QPointF R) → Bool
  | prevPoint, [] => ConnectorShape.nearSegment threshold prevPoint endPoint point
  | prevPoint, currPoint :: rest =>
    if ConnectorShape.nearSegment threshold prevPoint currPoint point then true
    else ConnectorShape.containsLoop threshold point endPoint currPoint rest

/-- `ConnectorShape::contains`. -/
def ConnectorShape.contains {R : Type} [QReal R] (self : ConnectorShape R)
    (point : QPointF R) : Bool :=
  let threshold : R := 5
  if self.controlPoints.isEmpty then
    ConnectorShape.nearSegment threshold self.startPoint self.endPoint point
  else
    ConnectorShape.containsLoop threshold point self.endPoint self.startPoint
      self.controlPoints

/-- The loop of `ConnectorShape::boundingRect` over `allPoints`, on the running values
`(minX, minY, maxX, maxY)`. -/
def ConnectorShape.extent {R : Type} [LinearOrderedField R] :
    List (QPointF R) → R × R × R × R → R × R × R × R
  | [], acc => acc
  | point :: rest, (minX, minY, maxX, maxY) =>
    ConnectorShape.extent rest
      (min minX point.xp, min minY point.yp, max maxX point.xp, max maxY point.yp)

/-- `ConnectorShape::boundingRect`; `qrealMax` is `std::numeric_limits<qreal>::max()`, and
`lowest()` is its negative. -/
def ConnectorShape.boundingRect {R : Type} [LinearOrderedField R] (qrealMax : R)
    (self : ConnectorShape R) : QRectF R :=
  let allPoints := self.startPoint :: self.controlPoints ++ [self.endPoint]
  let (minX, minY, maxX, maxY) :=
    ConnectorShape.extent allPoints (qrealMax, qrealMax, -qrealMax, -qrealMax)
  let margin : R := 10
  ⟨minX - margin, minY - margin, maxX - minX + 2 * margin, maxY - minY + 2 * margin⟩

/-- `ConnectorShape::moveBy`. -/
def ConnectorShape.moveBy {R : Type} [LinearOrderedField R] (self : ConnectorShape R)
    (delta : QPointF R) : ConnectorShape R :=
  { self with
    startPoint := self.startPoint.add delta
    endPoint := self.endPoint.add delta
    controlPoints := self.controlPoints.map (fun point => point.add delta) }

/-! ## Virtual dispatch of the geometry -/

/-- The virtual call `shape->contains(point)`. -/
def Shape.contains {R : Type} [QReal R] : Shape R → QPointF R → Bool
  | .rectangle s, p => s.contains p
  | .ellipse s, p => s.contains p
  | .diamond s, p => s.contains p
  | .triangle s, p => s.contains p
  | .connector s, p => s.contains p
  | .text s, p => s.contains p

/-- The virtual call `shape->boundingRect()`. -/
def Shape.boundingRect {R : Type} [LinearOrderedField R] (qrealMax : R) : Shape R → QRectF R
  | .rectangle s => s.boundingRect
  | .ellipse s => s.boundingRect
  | .diamond s => s.boundingRect
  | .triangle s => s.boundingRect
  | .connector s => s.boundingRect qrealMax
  | .text s => s.boundingRect

/-- The virtual call `shape->moveBy(delta)`. -/
def Shape.moveBy {R : Type} [LinearOrderedField R] : Shape R → QPointF R → Shape R
  | .rectangle s, d => .rectangle (s.moveBy d)
  | .ellipse s, d => .ellipse (s.moveBy d)
  | .diamond s, d => .diamond (s.moveBy d)
  | .triangle s, d => .triangle (s.moveBy d)
  | .connector s, d => .connector (s.moveBy d)
  | .text s, d => .text (s.moveBy d)

/-! ## Validity: values that fit their C++ types -/

/-- A `double` image fits 64 bits. -/
def QDoubleBits.Valid (d : QDoubleBits) : Prop := d.bits < 2 ^ 64

/-- Both coordinates are `double` images. -/
def QPointF.Valid (p : QPointF QDoubleBits) : Prop := p.xp.Valid ∧ p.yp.Valid

/-- Both extents are `double` images. -/
def QSizeF.Valid (sz : QSizeF QDoubleBits) : Prop := sz.wd.Valid ∧ sz.ht.Valid

/-- The spec tag is a `qint8` and the components are `quint16`. -/
def QColor.Valid (c : QColor) : Prop :=
  (-128 ≤ c.cspec ∧ c.cspec < 128) ∧ c.alpha < 65536 ∧ c.red < 65536 ∧ c.green < 65536 ∧
    c.blue < 65536 ∧ c.pad < 65536

/-- The code units are 16-bit and the byte length fits the `quint32` prefix. -/
def QStringValid (str : QString) : Prop :=
  (∀ u ∈ str, u < 65536) ∧ 2 * str.length < 2 ^ 32

/-- The attributes of a font fit their types. -/
def QFont.Valid (f : QFont) : Prop := QStringValid f.family ∧ IsInt32 f.pointSize

/-- Every data member of the base class fits its C++ type. -/
def DiagramShape.Valid (s : DiagramShape QDoubleBits) : Prop :=
  s.position.Valid ∧ s.shapeColor.Valid ∧ s.lineColor.Valid ∧ IsInt32 s.lineWidth ∧
    IsInt32 s.type ∧ QStringValid s.m_text

/-- Every data member of a connector fits its C++ type; the number of control points is an
`int`, as `QVector::size()` is. -/
def ConnectorShape.Valid (c : ConnectorShape QDoubleBits) : Prop :=
  c.toDiagramShape.Valid ∧ c.startPoint.Valid ∧ c.endPoint.Valid ∧
    (∀ p ∈ c.controlPoints, p.Valid) ∧ IsInt32 c.arrowStyle ∧ c.controlPoints.length < 2 ^ 31

/-- Every data member of a shape fits its C++ type. -/
def Shape.Valid : Shape QDoubleBits → Prop
  | .rectangle s => s.toDiagramShape.Valid ∧ s.size.Valid
  | .ellipse s => s.toDiagramShape.Valid ∧ s.size.Valid
  | .diamond s => s.toDiagramShape.Valid ∧ s.size.Valid
  | .triangle s => s.toDiagramShape.Valid ∧ s.size.Valid
  | .connector s => s.Valid
  | .text s => s.toDiagramShape.Valid ∧ s.size.Valid ∧ s.font.Valid ∧ s.textColor.Valid

/-- A font codec reads back every valid font it wrote and leaves the rest of the stream
alone. -/
def QFontCodec.Lossless (fc : QFontCodec) : Prop :=
  ∀ (f : QFont) (rest : List Byte) (st : Status), f.Valid →
    fc.read ⟨fc.write f ++ rest, st⟩ = (f, ⟨rest, st⟩)

/-- The enumerator of the dynamic class of a shape (what its constructor passes to the
base class). -/
def Shape.kind {R : Type} : Shape R → Int
  | .rectangle _ => DiagramShape.Rectangle
  | .ellipse _ => DiagramShape.Ellipse
  | .diamond _ => DiagramShape.Diamond
  | .triangle _ => DiagramShape.Triangle
  | .connector _ => DiagramShape.Connector
  | .text _ => DiagramShape.Text

instance (d : QDoubleBits) : Decidable d.Valid := by
  unfold QDoubleBits.Valid; infer_instance

instance (p : QPointF QDoubleBits) : Decidable p.Valid := by
  unfold QPointF.Valid; infer_instance

instance (sz : QSizeF QDoubleBits) : Decidable sz.Valid := by
  unfold QSizeF.Valid; infer_instance

instance (c : QColor) : Decidable c.Valid := by
  unfold QColor.Valid; infer_instance

instance (str : QString) : Decidable (QStringValid str) := by
  unfold QStringValid; infer_instance

instance (f : QFont) : Decidable f.Valid := by
  unfold QFont.Valid; infer_instance

instance (s : DiagramShape QDoubleBits) : Decidable s.Valid := by
  unfold DiagramShape.Valid; infer_instance

instance (c : ConnectorShape QDoubleBits) : Decidable c.Valid := by
  unfold ConnectorShape.Valid; infer_instance

instance (s : Shape QDoubleBits) : Decidable s.Valid := by
  cases s <;> unfold Shape.Valid <;> infer_instance

/-! ## Concrete documents and streams used as test inputs -/

/-- A Rectangle at (10,10) with size (120,80) and fill red. -/
def Example.rect : RectangleShape QDoubleBits :=
  { (RectangleShape.ctor : RectangleShape QDoubleBits) with
    position := ⟨QRealLit.lit 10, QRealLit.lit 10⟩
    shapeColor := Qt.red }

/-- A white 800 x 600 document holding `Example.rect`. -/
def Example.doc : DiagramCanvas QDoubleBits :=
  ⟨[.rectangle Example.rect], Qt.white, ⟨800, 600⟩⟩

/-- A cleared document. -/
def Example.cleared : DiagramCanvas QDoubleBits :=
  ⟨[], Qt.white, ⟨800, 600⟩⟩

/-- A selected Text shape labelled "Hi" at (10,10). -/
def Example.text : TextShape QDoubleBits :=
  { (TextShape.ctor : TextShape QDoubleBits) with
    position := ⟨QRealLit.lit 10, QRealLit.lit 10⟩
    isSelected := true
    m_text := [72, 105] }

/-- A connector from (0,0) to (100,0) through (50,30) and (80,30), arrows at both ends. -/
def Example.connector : ConnectorShape QDoubleBits :=
  { (ConnectorShape.ctor : ConnectorShape QDoubleBits) with
    endPoint := ⟨QRealLit.lit 100, QRealLit.lit 0⟩
    controlPoints := [⟨QRealLit.lit 50, QRealLit.lit 30⟩, ⟨QRealLit.lit 80, QRealLit.lit 30⟩]
    arrowStyle := ConnectorShape.Both }

/-- A connector that already holds one control point, used as the loading object. -/
def Example.usedConnector : ConnectorShape QDoubleBits :=
  { (ConnectorShape.ctor : ConnectorShape QDoubleBits) with
    controlPoints := [⟨QRealLit.lit 7, QRealLit.lit 7⟩] }

/-- One shape record in the layout `FlowIO::load` consumes: the tag read by the loop, then
the record read by `shape->load`. -/
def Example.slot : List Byte :=
  writeInt32 DiagramShape.Rectangle ++ Example.rect.save []

/-- A stream with a valid header that declares ten shapes and ends after the third. -/
def Example.truncated : List Byte :=
  writeQString FLOWCHART ++ writeInt32 1 ++ writeQColor Qt.white ++ writeQSize ⟨800, 600⟩ ++
    writeInt32 10 ++ Example.slot ++ Example.slot ++ Example.slot

/-- A stream whose header differs from the magic in its last letter. -/
def Example.badMagic : List Byte :=
  writeQString [70, 76, 79, 87, 67, 72, 65, 82, 88] ++ writeInt32 1

/-- What `FlowIO::load` rebuilds from the stream `FlowIO::save` wrote for `Example.doc`. -/
def Example.reloaded : DiagramCanvas QDoubleBits :=
  ⟨[.rectangle
      { position := ⟨⟨0x40240000⟩, ⟨0x01ffffff⟩⟩
        shapeColor := ⟨-1, 0, 0, 0, 0x01ff, 0xff00⟩
        lineColor := ⟨0, 0, 0, 0, 0, 1⟩
        lineWidth := 0
        isSelected := false
        type := 0x40240000
        m_text := []
        size := ⟨⟨0⟩, ⟨0⟩⟩ }],
   Qt.white, ⟨800, 600⟩⟩

/-! ## Vocabulary of the geometric claims -/

/-- The path of a connector as the specification names it: start, the control points in
order, end. -/
def ConnectorShape.path {R : Type} (c : ConnectorShape R) : List (QPointF R) :=
  c.startPoint :: c.controlPoints ++ [c.endPoint]

/-- The consecutive segments of the path. -/
def ConnectorShape.segments {R : Type} (c : ConnectorShape R) :
    List (QPointF R × QPointF R) :=
  c.path.zip c.path.tail

/-- Euclidean distance between two points, `QLineF(a, b).length()`. -/
def ptDist {R : Type} [QReal R] (a b : QPointF R) : R := (QLineF.mk a b).length

/-- All coordinates of the path lie between `lowest()` and `max()`. -/
def ConnectorShape.Finite {R : Type} [LinearOrderedField R] (qrealMax : R)
    (c : ConnectorShape R) : Prop :=
  ∀ pt ∈ c.path, (-qrealMax ≤ pt.xp ∧ pt.xp ≤ qrealMax) ∧ (-qrealMax ≤ pt.yp ∧ pt.yp ≤ qrealMax)

/-- The value `std::numeric_limits<double>::max()`, `(2 ^ 53 - 1) * 2 ^ 971`. -/
def DBL_MAX {R : Type} [LinearOrderedField R] : R := (2 ^ 53 - 1) * 2 ^ 971

/-- The straight connector from (0,0) to (30,0) over the reals. -/
noncomputable def Example.short : ConnectorShape ℝ :=
  { (ConnectorShape.ctor : ConnectorShape ℝ) with
    startPoint := ⟨0, 0⟩
    endPoint := ⟨30, 0⟩ }

/-- A connector from (0,0) to (100,0) through the control point (50,70), over the
rationals. -/
def Example.bent : ConnectorShape ℚ :=
  { (ConnectorShape.ctor : ConnectorShape ℚ) with
    startPoint := ⟨0, 0⟩
    endPoint := ⟨100, 0⟩
    controlPoints := [⟨50, 70⟩] }

/-! ## Sizes -/

/-- `RectangleShape::getSize`. -/
def RectangleShape.getSize {R : Type} (self : RectangleShape R) : QSizeF R := self.size

/-- `EllipseShape::getSize`. -/
def EllipseShape.getSize {R : Type} (self : EllipseShape R) : QSizeF R := self.size

/-- `DiamondShape::getSize`. -/
def DiamondShape.getSize {R : Type} (self : DiamondShape R) : QSizeF R := self.size

/-- `TriangleShape::getSize`. -/
def TriangleShape.getSize {R : Type} (self : TriangleShape R) : QSizeF R := self.size

/-- `TextShape::getSize`. -/
def TextShape.getSize {R : Type} (self : TextShape R) : QSizeF R := self.size

/-- `ConnectorShape::getSize`: the distance from start to end as the width, height 0. -/
def ConnectorShape.getSize {R : Type} [QReal R] (self : ConnectorShape R) : QSizeF R :=
  let diffX := self.endPoint.xp - self.startPoint.xp
  let diffY := self.endPoint.yp - self.startPoint.yp
  ⟨QReal.qSqrt (diffX * diffX + diffY * diffY), 0⟩

/-- The virtual call `shape->getSize()`. -/
def Shape.getSize {R : Type} [QReal R] : Shape R → QSizeF R
  | .rectangle s => s.getSize
  | .ellipse s => s.getSize
  | .diamond s => s.getSize
  | .triangle s => s.getSize
  | .connector s => s.getSize
  | .text s => s.getSize

/-- A Diamond at (0,0) with size (120,80), over the reals. -/
noncomputable def Example.diamond : DiamondShape ℝ :=
  { (DiamondShape.ctor : DiamondShape ℝ) with
    position := ⟨0, 0⟩
    size := ⟨120, 80⟩ }

/-! ## Getters and setters of the base class -/

/-- `DiagramShape::getPos`. -/
def DiagramShape.getPos {R : Type} (self : DiagramShape R) : QPointF R := self.position
/-- `DiagramShape::getSelected`. -/
def DiagramShape.getSelected {R : Type} (self : DiagramShape R) : Bool := self.isSelected
/-- `DiagramShape::getColor`. -/
def DiagramShape.getColor {R : Type} (self : DiagramShape R) : QColor := self.shapeColor
/-- `DiagramShape::getLineColor`. -/
def DiagramShape.getLineColor {R : Type} (self : DiagramShape R) : QColor := self.lineColor
/-- `DiagramShape::getLineWidth`. -/
def DiagramShape.getLineWidth {R : Type} (self : DiagramShape R) : Int := self.lineWidth
/-- `DiagramShape::getText`. -/
def DiagramShape.getText {R : Type} (self : DiagramShape R) : QString := self.m_text
/-- `DiagramShape::getType`. -/
def DiagramShape.getType {R : Type} (self : DiagramShape R) : Int := self.type

/-- `DiagramShape::setPos`. -/
def DiagramShape.setPos {R : Type} (self : DiagramShape R) (pos : QPointF R) :
    DiagramShape R :=
  { self with position := pos }

/-- `DiagramShape::setSelected`. -/
def DiagramShape.setSelected {R : Type} (self : DiagramShape R) (selected : Bool) :
    DiagramShape R :=
  { self with isSelected := selected }

/-- `DiagramShape::setColor`. -/
def DiagramShape.setColor {R : Type} (self : DiagramShape R) (color : QColor) :
    DiagramShape R :=
  { self with shapeColor := color }

/-- `DiagramShape::setLineColor`. -/
def DiagramShape.setLineColor {R : Type} (self : DiagramShape R) (color : QColor) :
    DiagramShape R :=
  { self with lineColor := color }

/-- `DiagramShape::setLineWidth`. -/
def DiagramShape.setLineWidth {R : Type} (self : DiagramShape R) (width : Int) :
    DiagramShape R :=
  { self with lineWidth := width }

/-- `DiagramShape::setText`. -/
def DiagramShape.setText {R : Type} (self : DiagramShape R) (text : QString) :
    DiagramShape R :=
  { self with m_text := text }

/-- A call of a non-virtual member of the base class through a shape pointer: the
base-class part is replaced, the derived members stay. -/
def Shape.withBase {R : Type} (f : DiagramShape R → DiagramShape R) : Shape R → Shape R
  | .rectangle s => .rectangle { s with toDiagramShape := f s.toDiagramShape }
  | .ellipse s => .ellipse { s with toDiagramShape := f s.toDiagramShape }
  | .diamond s => .diamond { s with toDiagramShape := f s.toDiagramShape }
  | .triangle s => .triangle { s with toDiagramShape := f s.toDiagramShape }
  | .connector s => .connector { s with toDiagramShape := f s.toDiagramShape }
  | .text s => .text { s with toDiagramShape := f s.toDiagramShape }

/-- The call `shape->setPos(pos)`. -/
def Shape.setPos {R : Type} (s : Shape R) (pos : QPointF R) : Shape R :=
  s.withBase (fun b => b.setPos pos)
/-- The call `shape->setSelected(selected)`. -/
def Shape.setSelected {R : Type} (s : Shape R) (selected : Bool) : Shape R :=
  s.withBase (fun b => b.setSelected selected)
/-- The call `shape->setColor(color)`. -/
def Shape.setColor {R : Type} (s : Shape R) (color : QColor) : Shape R :=
  s.withBase (fun b => b.setColor color)
/-- The call `shape->setLineColor(color)`. -/
def Shape.setLineColor {R : Type} (s : Shape R) (color : QColor) : Shape R :=
  s.withBase (fun b => b.setLineColor color)
/-- The call `shape->setLineWidth(width)`. -/
def Shape.setLineWidth {R : Type} (s : Shape R) (width : Int) : Shape R :=
  s.withBase (fun b => b.setLineWidth width)
/-- The call `shape->setText(text)`. -/
def Shape.setText {R : Type} (s : Shape R) (text : QString) : Shape R :=
  s.withBase (fun b => b.setText text)

/-! ## Resizing -/

/-- `RectangleShape::setSize`. -/
def RectangleShape.setSize {R : Type} (self : RectangleShape R) (newSize : QSizeF R) :
    RectangleShape R :=
  { self with size := newSize }

/-- `EllipseShape::setSize`. -/
def EllipseShape.setSize {R : Type} (self : EllipseShape R) (newSize : QSizeF R) :
    EllipseShape R :=
  { self with size := newSize }

/-- `DiamondShape::setSize`. -/
def DiamondShape.setSize {R : Type} (self : DiamondShape R) (newSize : QSizeF R) :
    DiamondShape R :=
  { self with size := newSize }

/-- `TriangleShape::setSize`. -/
def TriangleShape.setSize {R : Type} (self : TriangleShape R) (newSize : QSizeF R) :
    TriangleShape R :=
  { self with size := newSize }

/-- `TextShape::setSize`. -/
def TextShape.setSize {R : Type} (self : TextShape R) (newSize : QSizeF R) : TextShape R :=
  { self with size := newSize }

/-- Operator `-` of `QPointF`. -/
def QPointF.sub {R : Type} [LinearOrderedField R] (p q : QPointF R) : QPointF R :=
  ⟨p.xp - q.xp, p.yp - q.yp⟩

/-- Operator `/=` of `QPointF` with a scalar. -/
def QPointF.divBy {R : Type} [LinearOrderedField R] (p : QPointF R) (c : R) : QPointF R :=
  ⟨p.xp / c, p.yp / c⟩

/-- Operator `*` of `QPointF` with a scalar. -/
def QPointF.mulBy {R : Type} [LinearOrderedField R] (p : QPointF R) (c : R) : QPointF R :=
  ⟨p.xp * c, p.yp * c⟩

/-- `ConnectorShape::setSize`: the end point is moved to the distance `newSize.width()`
from the start point along the current direction; nothing happens when the length is not
positive. -/
def ConnectorShape.setSize {R : Type} [QReal R] (self : ConnectorShape R)
    (newSize : QSizeF R) : ConnectorShape R :=
  let direction := self.endPoint.sub self.startPoint
  let length := QReal.qSqrt (direction.xp * direction.xp + direction.yp * direction.yp)
  if length > 0 then
    let direction := direction.divBy length
    { self with endPoint := self.startPoint.add (direction.mulBy newSize.wd) }
  else self

/-- The virtual call `shape->setSize(size)`. -/
def Shape.setSize {R : Type} [QReal R] : Shape R → QSizeF R → Shape R
  | .rectangle s, sz => .rectangle (s.setSize sz)
  | .ellipse s, sz => .ellipse (s.setSize sz)
  | .diamond s, sz => .diamond (s.setSize sz)
  | .triangle s, sz => .triangle (s.setSize sz)
  | .connector s, sz => .connector (s.setSize sz)
  | .text s, sz => .text (s.setSize sz)

/-! ## Members of the connector and of the text shape -/

/-- `ConnectorShape::setStartPoint`. -/
def ConnectorShape.setStartPoint {R : Type} (self : ConnectorShape R) (point : QPointF R) :
    ConnectorShape R :=
  { self with startPoint := point }

/-- `ConnectorShape::setEndPoint`. -/
def ConnectorShape.setEndPoint {R : Type} (self : ConnectorShape R) (point : QPointF R) :
    ConnectorShape R :=
  { self with endPoint := point }

/-- `ConnectorShape::getStartPoint`. -/
def ConnectorShape.getStartPoint {R : Type} (self : ConnectorShape R) : QPointF R :=
  self.startPoint

/-- `ConnectorShape::getEndPoint`. -/
def ConnectorShape.getEndPoint {R : Type} (self : ConnectorShape R) : QPointF R :=
  self.endPoint

/-- `ConnectorShape::setArrowStyle`. -/
def ConnectorShape.setArrowStyle {R : Type} (self : ConnectorShape R) (style : Int) :
    ConnectorShape R :=
  { self with arrowStyle := style }

/-- `ConnectorShape::getArrowStyle`. -/
def ConnectorShape.getArrowStyle {R : Type} (self : ConnectorShape R) : Int :=
  self.arrowStyle

/-- `ConnectorShape::addControlPoint`. -/
def ConnectorShape.addControlPoint {R : Type} (self : ConnectorShape R)
    (point : QPointF R) : ConnectorShape R :=
  { self with controlPoints := self.controlPoints ++ [point] }

/-- `ConnectorShape::clearControlPoints`. -/
def ConnectorShape.clearControlPoints {R : Type} (self : ConnectorShape R) :
    ConnectorShape R :=
  { self with controlPoints := [] }

/-- `ConnectorShape::getControlPoints`. -/
def ConnectorShape.getControlPoints {R : Type} (self : ConnectorShape R) :
    List (QPointF R) :=
  self.controlPoints

/-- `TextShape::getFont`. -/
def TextShape.getFont {R : Type} (self : TextShape R) : QFont := self.font

/-- `TextShape::setTextColor`. -/
def TextShape.setTextColor {R : Type} (self : TextShape R) (color : QColor) : TextShape R :=
  { self with textColor := color }

/-- `TextShape::getTextColor`. -/
def TextShape.getTextColor {R : Type} (self : TextShape R) : QColor := self.textColor

/-- `TextShape::calculateTextSize`; `fm font text` is the width and height of
`QFontMetrics(font).boundingRect(QRect(0, 0, 1000, 1000), Qt::TextWordWrap, text)`, which
Qt computes from the installed font. -/
def TextShape.calculateTextSize {R : Type} [LinearOrderedField R]
    (fm : QFont → QString → QSize) (self : TextShape R) : QSizeF R :=
  if self.m_text.isEmpty then ⟨100, 30⟩
  else
    let textRect := fm self.font self.m_text
    ⟨((textRect.wd + 20 : Int) : R), ((textRect.ht + 10 : Int) : R)⟩

/-- `TextShape::setFont`: the size is recomputed when the label is not empty. -/
def TextShape.setFont {R : Type} [LinearOrderedField R] (fm : QFont → QString → QSize)
    (self : TextShape R) (newFont : QFont) : TextShape R :=
  let self1 := { self with font := newFont }
  if !self1.m_text.isEmpty then { self1 with size := self1.calculateTextSize fm }
  else self1

/-! ## Corners of a rectangle -/

/-- `QRectF::topLeft`. -/
def QRectF.topLeft {R : Type} (r : QRectF R) : QPointF R := ⟨r.xp, r.yp⟩
/-- `QRectF::topRight`. -/
def QRectF.topRight {R : Type} [LinearOrderedField R] (r : QRectF R) : QPointF R :=
  ⟨r.xp + r.w, r.yp⟩
/-- `QRectF::bottomLeft`. -/
def QRectF.bottomLeft {R : Type} [LinearOrderedField R] (r : QRectF R) : QPointF R :=
  ⟨r.xp, r.yp + r.h⟩
/-- `QRectF::bottomRight`. -/
def QRectF.bottomRight {R : Type} [LinearOrderedField R] (r : QRectF R) : QPointF R :=
  ⟨r.xp + r.w, r.yp + r.h⟩

/-! ## The arrowhead -/

/-- `QLineF::dx`. -/
def QLineF.dx {R : Type} [LinearOrderedField R] (l : QLineF R) : R := l.pt2.xp - l.pt1.xp
/-- `QLineF::dy`. -/
def QLineF.dy {R : Type} [LinearOrderedField R] (l : QLineF R) : R := l.pt2.yp - l.pt1.yp

/-- `std::atan2(y, x)` over the reals: the argument of `x + y i`, in `(-π, π]`, and `0` at
the origin. -/
noncomputable def atan2 (y x : ℝ) : ℝ := Complex.arg ⟨x, y⟩

/-- `ConnectorShape::drawArrow`: the polygon handed to `painter->drawPolygon`. -/
noncomputable def ConnectorShape.drawArrow (tip fromPt : QPointF ℝ) : List (QPointF ℝ) :=
  let arrowSize : ℝ := 10
  let line : QLineF ℝ := ⟨fromPt, tip⟩
  let angle := atan2 (-line.dy) (-line.dx)
  let arrowP1 := tip.add
    ⟨Real.sin (angle + Real.pi / 3) * arrowSize, Real.cos (angle + Real.pi / 3) * arrowSize⟩
  let arrowP2 := tip.add
    ⟨Real.sin (angle + Real.pi - Real.pi / 3) * arrowSize,
     Real.cos (angle + Real.pi - Real.pi / 3) * arrowSize⟩
  [tip, arrowP1, arrowP2]

/-- The connector from (0,0) to (3,4) over the reals. -/
noncomputable def Example.slanted : ConnectorShape ℝ :=
  { (ConnectorShape.ctor : ConnectorShape ℝ) with
    startPoint := ⟨0, 0⟩
    endPoint := ⟨3, 4⟩ }

/-- An Ellipse at (0,0) with size (120,80), over the rationals. -/
def Example.ellipse : EllipseShape ℚ :=
  { (EllipseShape.ctor : EllipseShape ℚ) with
    position := ⟨0, 0⟩
    size := ⟨120, 80⟩ }

/-- A Rectangle at (0,0) with size (120,80), over the reals. -/
noncomputable def Example.box : RectangleShape ℝ :=
  { (RectangleShape.ctor : RectangleShape ℝ) with
    position := ⟨0, 0⟩
    size := ⟨120, 80⟩ }

/-! ## Vocabulary of the layout claims -/

/-- The control points of a connector as consecutive `QPointF` fields. -/
def pointsRecord : List (QPointF QDoubleBits) → List Byte
  | [] => []
  | point :: rest => writeQPointF point ++ pointsRecord rest

/-- The connector record in the order the specification lists its fields: base fields,
start, end, control-point count, control points, and then the arrow style. -/
def claimedConnectorRecord (c : ConnectorShape QDoubleBits) : List Byte :=
  c.toDiagramShape.save [] ++ writeQPointF c.startPoint ++ writeQPointF c.endPoint ++
    writeInt32 c.controlPoints.length ++ pointsRecord c.controlPoints ++
    writeInt32 c.arrowStyle

/-! ## Vocabulary of the arrowhead claim -/

/-- The colour `Qt::blue`. -/
def Qt.blue : QColor := ⟨1, 0xffff, 0, 0, 0xffff, 0⟩
/-- The pen style `Qt::SolidLine`. -/
def Qt.SolidLine : Int := 1
/-- The pen style `Qt::DashLine`. -/
def Qt.DashLine : Int := 2
/-- The flag `Qt::AlignCenter` (`Qt::AlignVCenter | Qt::AlignHCenter`). -/
def Qt.AlignCenter : Nat := 0x84
/-- The flag `Qt::TextWordWrap`. -/
def Qt.TextWordWrap : Nat := 0x1000

/-- A call on `QPainter`.  A paint function is modelled by the list of the calls it makes,
in order; `setPen` carries colour, width and style of the pen, `setBrush none` is
`Qt::NoBrush`, `drawPath` carries the points of a path made by `moveTo` and `lineTo`. -/
inductive PaintCmd (R : Type)
  | save
  | restore
  | setPen (color : QColor) (width : Int) (style : Int)
  | setBrush (brush : Option QColor)
  | setFontPointSize (pointSize : Int)
  | drawLine (p1 p2 : QPointF R)
  | drawPath (points : List (QPointF R))
  | drawPolygon (points : List (QPointF R))
  | drawEllipse (center : QPointF R) (rx ry : R)
  | drawRect (rect : QRectF R)
  | drawText (rect : QRectF R) (flags : Nat) (text : QString)
deriving DecidableEq, Repr

/-- `DiagramShape::paintSelectionHandles`: a dashed outline and eight handle squares of side
`handleSize`, at the corners and edge midpoints of `rect`. -/
def DiagramShape.paintSelectionHandles {R : Type} [LinearOrderedField R]
    (_self : DiagramShape R) (rect : QRectF R) : List (PaintCmd R) :=
  let handleSize : Int := 8
  let handlePositions : List (QPointF R) :=
    [rect.topLeft, ⟨rect.center.xp, rect.top⟩, rect.topRight, ⟨rect.right, rect.center.yp⟩,
     rect.bottomRight, ⟨rect.center.xp, rect.bottom⟩, rect.bottomLeft,
     ⟨rect.left, rect.center.yp⟩]
  [PaintCmd.setPen Qt.blue 1 Qt.DashLine, PaintCmd.setBrush none, PaintCmd.drawRect rect,
   PaintCmd.setPen Qt.blue 1 Qt.SolidLine, PaintCmd.setBrush (some Qt.white)] ++
  handlePositions.map (fun point =>
    PaintCmd.drawRect
      ⟨point.xp - ((Int.tdiv handleSize 2 : Int) : R),
       point.yp - ((Int.tdiv handleSize 2 : Int) : R), (handleSize : R), (handleSize : R)⟩)

/-- `DiagramShape::paintText`. -/
def DiagramShape.paintText {R : Type} (self : DiagramShape R) (rect : QRectF R) :
    List (PaintCmd R) :=
  if self.m_text.isEmpty then []
  else
    [PaintCmd.save, PaintCmd.setPen Qt.black 1 Qt.SolidLine, PaintCmd.setFontPointSize 10,
     PaintCmd.drawText rect (Qt.AlignCenter ||| Qt.TextWordWrap) self.m_text,
     PaintCmd.restore]

/-- `DiamondShape::paint`. -/
def DiamondShape.paint {R : Type} [LinearOrderedField R] (self : DiamondShape R) :
    List (PaintCmd R) :=
  let rect := QRectF.ofTopLeftSize self.position self.size
  let diamond : List (QPointF R) :=
    [⟨rect.center.xp, rect.top⟩, ⟨rect.right, rect.center.yp⟩,
     ⟨rect.center.xp, rect.bottom⟩, ⟨rect.left, rect.center.yp⟩]
  [PaintCmd.save, PaintCmd.setPen self.lineColor self.lineWidth Qt.SolidLine,
   PaintCmd.setBrush (some self.shapeColor), PaintCmd.drawPolygon diamond] ++
  self.toDiagramShape.paintText rect ++
  (if self.isSelected then self.toDiagramShape.paintSelectionHandles rect else []) ++
  [PaintCmd.restore]

/-- `TriangleShape::paint`. -/
def TriangleShape.paint {R : Type} [LinearOrderedField R] (self : TriangleShape R) :
    List (PaintCmd R) :=
  let rect := QRectF.ofTopLeftSize self.position self.size
  let triangle : List (QPointF R) :=
    [⟨rect.center.xp, rect.top⟩, ⟨rect.right, rect.bottom⟩, ⟨rect.left, rect.bottom⟩]
  [PaintCmd.save, PaintCmd.setPen self.lineColor self.lineWidth Qt.SolidLine,
   PaintCmd.setBrush (some self.shapeColor), PaintCmd.drawPolygon triangle] ++
  self.toDiagramShape.paintText rect ++
  (if self.isSelected then self.toDiagramShape.paintSelectionHandles rect else []) ++
  [PaintCmd.restore]

/-- `ConnectorShape::drawArrow` as calls on the painter: the brush is set to the line colour
and the arrowhead polygon is drawn. -/
noncomputable def ConnectorShape.drawArrowCalls (self : ConnectorShape ℝ)
    (tip fromPt : QPointF ℝ) : List (PaintCmd ℝ) :=
  [PaintCmd.setBrush (some self.lineColor),
   PaintCmd.drawPolygon (ConnectorShape.drawArrow tip fromPt)]

/-- `ConnectorShape::paint`, the block "Draw connector line": the line or the path through
the control points, then the arrowheads the arrow style asks for. -/
noncomputable def ConnectorShape.paintLine (self : ConnectorShape ℝ) : List (PaintCmd ℝ) :=
  if self.controlPoints.isEmpty then
    [PaintCmd.drawLine self.startPoint self.endPoint] ++
    (if self.arrowStyle = ConnectorShape.Start ∨ self.arrowStyle = ConnectorShape.Both then
      self.drawArrowCalls self.startPoint self.endPoint else []) ++
    (if self.arrowStyle = ConnectorShape.End ∨ self.arrowStyle = ConnectorShape.Both then
      self.drawArrowCalls self.endPoint self.startPoint else [])
  else
    [PaintCmd.drawPath (self.startPoint :: self.controlPoints ++ [self.endPoint])] ++
    (if self.arrowStyle = ConnectorShape.Start ∨ self.arrowStyle = ConnectorShape.Both then
      let dir := match self.controlPoints with
        | [] => self.endPoint
        | first :: _ => first
      self.drawArrowCalls self.startPoint dir else []) ++
    (if self.arrowStyle = ConnectorShape.End ∨ self.arrowStyle = ConnectorShape.Both then
      let dir := match self.controlPoints.getLast? with
        | none => self.startPoint
        | some last => last
      self.drawArrowCalls self.endPoint dir else [])

/-- `ConnectorShape::paint`, the block "Draw handles if selected".  `handleSize / 2` and
`-handleSize / 2` are divisions of `int`. -/
def ConnectorShape.paintHandles {R : Type} [LinearOrderedField R] (self : ConnectorShape R) :
    List (PaintCmd R) :=
  if self.isSelected then
    let handleSize : Int := 6
    let handleRect : QRectF R :=
      ⟨((Int.tdiv (-handleSize) 2 : Int) : R), ((Int.tdiv (-handleSize) 2 : Int) : R),
       (handleSize : R), (handleSize : R)⟩
    [PaintCmd.setBrush (some Qt.white), PaintCmd.setPen Qt.blue 1 Qt.SolidLine,
     PaintCmd.drawEllipse self.startPoint ((Int.tdiv handleSize 2 : Int) : R)
       ((Int.tdiv handleSize 2 : Int) : R),
     PaintCmd.drawEllipse self.endPoint ((Int.tdiv handleSize 2 : Int) : R)
       ((Int.tdiv handleSize 2 : Int) : R)] ++
    self.controlPoints.map (fun point => PaintCmd.drawRect (handleRect.translated point))
  else []

/-- `QVector::operator[]` with an `int` index; `none` stands for an index out of range,
where the behaviour of the program is undefined. -/
def QVector.subscript {α : Type} (v : List α) (i : Int) : Option α :=
  if 0 ≤ i then v[i.toNat]? else none

/-- The local `midPoint` of `ConnectorShape::paint`: the middle of start and end, or the
control point at `controlPoints.size() / 2`, a division of `int`. -/
def ConnectorShape.paintMidPoint {R : Type} [LinearOrderedField R] (self : ConnectorShape R) :
    Option (QPointF R) :=
  if self.controlPoints.isEmpty then
    some ((self.startPoint.add self.endPoint).divBy 2)
  else
    let midIndex : Int := Int.tdiv (self.controlPoints.length : Int) 2
    QVector.subscript self.controlPoints midIndex

/-- `ConnectorShape::paint`, the block "Draw text at midpoint if any". -/
def ConnectorShape.paintLabel {R : Type} [LinearOrderedField R] (self : ConnectorShape R) :
    Option (List (PaintCmd R)) :=
  if !self.m_text.isEmpty then
    match self.paintMidPoint with
    | none => none
    | some midPoint =>
      let textRect : QRectF R := ⟨midPoint.xp - 50, midPoint.yp - 20, 100, 40⟩
      some [PaintCmd.setPen Qt.black 1 Qt.SolidLine,
        PaintCmd.drawText textRect Qt.AlignCenter self.m_text]
  else some []

/-- `ConnectorShape::paint`: the calls made on the painter, or `none` when a control point
is read out of range. -/
noncomputable def ConnectorShape.paint (self : ConnectorShape ℝ) :
    Option (List (PaintCmd ℝ)) :=
  let pen : PaintCmd ℝ :=
    if self.isSelected then PaintCmd.setPen Qt.blue (self.lineWidth + 1) Qt.SolidLine
    else PaintCmd.setPen self.lineColor self.lineWidth Qt.SolidLine
  match self.paintLabel with
  | none => none
  | some label =>
    some ([PaintCmd.save, pen] ++ self.paintLine ++ self.paintHandles ++ label ++
      [PaintCmd.restore])

/-! ## Vocabulary of the outline, handle and label claims -/

/-- The side of the directed edge `a → b` on which `p` lies: twice the signed area of the
triangle `a b p`.  With the y axis pointing down, as on screen, it is positive when `p` is
on the inner side of an edge of a polygon whose vertices are listed clockwise. -/
def edgeSide {R : Type} [LinearOrderedField R] (a b p : QPointF R) : R :=
  (b.xp - a.xp) * (p.yp - a.yp) - (b.yp - a.yp) * (p.xp - a.xp)

/-- The edges of a closed polygon: consecutive vertices, and the last with the first. -/
def polygonEdges {R : Type} : List (QPointF R) → List (QPointF R × QPointF R)
  | [] => []
  | first :: rest => (first :: rest).zip (rest ++ [first])

/-- `p` is strictly inside the convex polygon `poly` (vertices clockwise on screen): it is
strictly on the inner side of every edge. -/
def StrictlyInside {R : Type} [LinearOrderedField R] (poly : List (QPointF R))
    (p : QPointF R) : Prop :=
  ∀ e ∈ polygonEdges poly, 0 < edgeSide e.1 e.2 p

/-- `p` is strictly outside the convex polygon `poly` (vertices clockwise on screen): it is
strictly on the outer side of some edge. -/
def StrictlyOutside {R : Type} [LinearOrderedField R] (poly : List (QPointF R))
    (p : QPointF R) : Prop :=
  ∃ e ∈ polygonEdges poly, edgeSide e.1 e.2 p < 0

/-- The quadrilateral through the midpoints of the four sides of a box: top, right, bottom,
left. -/
def sideMidpoints {R : Type} [LinearOrderedField R] (box : QRectF R) : List (QPointF R) :=
  [⟨box.xp + box.w / 2, box.yp⟩, ⟨box.xp + box.w, box.yp + box.h / 2⟩,
   ⟨box.xp + box.w / 2, box.yp + box.h⟩, ⟨box.xp, box.yp + box.h / 2⟩]

/-- The triangle with apex at the middle of the top side of a box and base corners at
bottom-right and bottom-left. -/
def apexAndBase {R : Type} [LinearOrderedField R] (box : QRectF R) : List (QPointF R) :=
  [⟨box.xp + box.w / 2, box.yp⟩, ⟨box.xp + box.w, box.yp + box.h⟩,
   ⟨box.xp, box.yp + box.h⟩]

/-- The point of the segment from `a` to `b` at parameter `t`. -/
def segmentPoint {R : Type} [LinearOrderedField R] (a b : QPointF R) (t : R) : QPointF R :=
  ⟨a.xp + t * (b.xp - a.xp), a.yp + t * (b.yp - a.yp)⟩

/-- The Euclidean distance from `p` to the segment from `a` to `b` is less than `r`: some
point of the segment is closer to `p` than `r`. -/
def SegmentCloserThan {R : Type} [QReal R] (r : R) (a b p : QPointF R) : Prop :=
  ∃ t : R, 0 ≤ t ∧ t ≤ 1 ∧ ptDist p (segmentPoint a b t) < r

/-- The calls that draw a handle shape: ellipses and rectangles. -/
def PaintCmd.isHandle {R : Type} : PaintCmd R → Bool
  | .drawEllipse _ _ _ => true
  | .drawRect _ => true
  | _ => false

/-- The calls that draw text. -/
def PaintCmd.isText {R : Type} : PaintCmd R → Bool
  | .drawText _ _ _ => true
  | _ => false

/-- The shape count a stream declares: the `int` that follows header, version, background
colour and canvas size. -/
def declaredShapeCount (stream : QDataStream) : Int :=
  (readInt32 (readQSize (readQColor (readInt32 (readQString stream).2).2).2).2).1

/-- A stream with a valid header that declares three shapes: the tag `None`, the tag 99, and
one Rectangle slot. -/
def Example.unknownTags : List Byte :=
  writeQString FLOWCHART ++ writeInt32 1 ++ writeQColor Qt.white ++ writeQSize ⟨800, 600⟩ ++
    writeInt32 3 ++ writeInt32 DiagramShape.None ++ writeInt32 99 ++ Example.slot

/-- A selected connector from (0,0) to (100,0) through the control point (50,30), labelled
"Hi", over the reals. -/
noncomputable def Example.selected : ConnectorShape ℝ :=
  { (ConnectorShape.ctor : ConnectorShape ℝ) with
    startPoint := ⟨0, 0⟩
    endPoint := ⟨100, 0⟩
    controlPoints := [⟨50, 30⟩]
    isSelected := true
    m_text := [72, 105] }

/-- A Triangle at (0,0) with size (120,80), over the reals. -/
noncomputable def Example.triangle : TriangleShape ℝ :=
  { (TriangleShape.ctor : TriangleShape ℝ) with
    position := ⟨0, 0⟩
    size := ⟨120, 80⟩ }

/-! ## Double-precision arithmetic -/

/-- A value of the C++ type `double`, which `qreal` is: not-a-number, an infinity, or the
finite number `m * 2 ^ e`.  Every operation below returns its finite results in the form a
binary64 has: `2 ^ 52 ≤ |m| < 2 ^ 53` with `-1074 ≤ e ≤ 971`, or `|m| < 2 ^ 52` with
`e = -1074`, or `m = 0` with `e = 0`.  The sign of a zero is not represented: no comparison
made by the embedded code depends on it. -/
inductive Double
  | nan
  | inf (negative : Bool)
  | fin (m : Int) (e : Int)
deriving DecidableEq, Repr

/-- Number of binary digits of `n`, by halving at most `fuel` times. -/
def bitLength : Nat → Nat → Nat
  | 0, _ => 0
  | fuel + 1, n => if n = 0 then 0 else bitLength fuel (n / 2) + 1

/-- The quotient `M / 2 ^ sh` rounded to the nearest integer, ties to the even one. -/
def roundShift (M sh : Nat) : Nat :=
  if sh = 0 then M
  else
    let hi := M / 2 ^ sh
    let lo := M % 2 ^ sh
    let half := 2 ^ (sh - 1)
    if half < lo ∨ (lo = half ∧ hi % 2 = 1) then hi + 1 else hi

/-- The `double` nearest to `M * 2 ^ E`, negated when `negative`: round to nearest, ties to
even, with 53 significant bits, gradual underflow below `2 ^ -1022` and overflow to an
infinity from `2 ^ 1024` on. -/
def Double.round (negative : Bool) (M : Nat) (E : Int) : Double :=
  if M = 0 then .fin 0 0
  else
    let n : Int := bitLength M M
    let q : Int := max (E + n - 53) (-1074)
    let t : Nat := if q ≤ E then M * 2 ^ (E - q).toNat else roundShift M (q - E).toNat
    let t1 : Nat := if t = 2 ^ 53 then 2 ^ 52 else t
    let q1 : Int := if t = 2 ^ 53 then q + 1 else q
    if t1 = 0 then .fin 0 0
    else if 971 < q1 then .inf negative
    else .fin (if negative then -(t1 : Int) else t1) q1

/-- Rounding of the integer multiple `m * 2 ^ e`. -/
def Double.roundInt (m : Int) (e : Int) : Double :=
  Double.round (decide (m < 0)) m.natAbs e

/-- Conversion of an `int` to `double`. -/
def Double.ofInt (i : Int) : Double := Double.roundInt i 0

/-- Unary minus. -/
def Double.neg : Double → Double
  | .nan => .nan
  | .inf s => .inf (!s)
  | .fin m e => .fin (-m) e

/-- The operator `+` of `double`. -/
def Double.add : Double → Double → Double
  | .nan, _ => .nan
  | _, .nan => .nan
  | .inf a, .inf b => if a = b then .inf a else .nan
  | .inf a, .fin _ _ => .inf a
  | .fin _ _, .inf b => .inf b
  | .fin m1 e1, .fin m2 e2 =>
    Double.roundInt (m1 * 2 ^ (e1 - min e1 e2).toNat + m2 * 2 ^ (e2 - min e1 e2).toNat)
      (min e1 e2)

/-- The operator `-` of `double`. -/
def Double.sub (a b : Double) : Double := Double.add a (Double.neg b)

/-- The operator `*` of `double`. -/
def Double.mul : Double → Double → Double
  | .nan, _ => .nan
  | _, .nan => .nan
  | .inf a, .inf b => .inf (a != b)
  | .inf a, .fin m _ => if m = 0 then .nan else .inf (a != decide (m < 0))
  | .fin m _, .inf b => if m = 0 then .nan else .inf (decide (m < 0) != b)
  | .fin m1 e1, .fin m2 e2 => Double.roundInt (m1 * m2) (e1 + e2)

/-- The operator `/` of `double`.  The quotient of the significands is taken with 64 extra
binary digits and a sticky digit for the remainder, which rounds as the exact quotient does.
A zero divisor counts as `+0`. -/
def Double.div : Double → Double → Double
  | .nan, _ => .nan
  | _, .nan => .nan
  | .inf _, .inf _ => .nan
  | .inf a, .fin m _ => .inf (a != decide (m < 0))
  | .fin _ _, .inf _ => .fin 0 0
  | .fin m1 e1, .fin m2 e2 =>
    if m2 = 0 then (if m1 = 0 then .nan else .inf (decide (m1 < 0)))
    else
      let k : Nat := bitLength m2.natAbs m2.natAbs + 64
      let num : Nat := m1.natAbs * 2 ^ k
      let quot : Nat := num / m2.natAbs
      let sticky : Nat := if num % m2.natAbs = 0 then 0 else 1
      Double.round (decide (m1 < 0) != decide (m2 < 0)) (2 * quot + sticky)
        (e1 - e2 - (k : Int) - 1)

/-- Newton's iteration for the integer square root, started above the root. -/
def isqrtLoop : Nat → Nat → Nat → Nat
  | 0, _, x => x
  | fuel + 1, n, x =>
    let y := (x + n / x) / 2
    if y < x then isqrtLoop fuel n y else x

/-- The integer part of the square root of `n`. -/
def isqrt (n : Nat) : Nat :=
  if n = 0 then 0 else isqrtLoop (bitLength n n + 8) n (2 ^ ((bitLength n n + 1) / 2))

/-- The function `sqrt` of `double`, correctly rounded: the integer square root of the
significand scaled by `2 ^ 128`, with a sticky digit when it is not exact. -/
def Double.sqrt : Double → Double
  | .nan => .nan
  | .inf s => if s then .nan else .inf false
  | .fin m e =>
    if m < 0 then .nan
    else
      let m1 : Nat := if e % 2 = 0 then m.natAbs else 2 * m.natAbs
      let e1 : Int := if e % 2 = 0 then e else e - 1
      let x : Nat := m1 * 2 ^ 128
      let s : Nat := isqrt x
      let sticky : Nat := if s * s = x then 0 else 1
      Double.round false (2 * s + sticky) (e1 / 2 - 64 - 1)

/-- The operator `<` of `double`: false when an operand is not a number. -/
def Double.lt : Double → Double → Bool
  | .nan, _ => false
  | _, .nan => false
  | .inf a, .inf b => a && !b
  | .inf a, .fin _ _ => a
  | .fin _ _, .inf b => !b
  | .fin m1 e1, .fin m2 e2 =>
    decide (m1 * 2 ^ (e1 - min e1 e2).toNat < m2 * 2 ^ (e2 - min e1 e2).toNat)

/-- The operator `==` of `double`: false when an operand is not a number. -/
def Double.eq : Double → Double → Bool
  | .nan, _ => false
  | _, .nan => false
  | .inf a, .inf b => a == b
  | .inf _, .fin _ _ => false
  | .fin _ _, .inf _ => false
  | .fin m1 e1, .fin m2 e2 =>
    decide (m1 * 2 ^ (e1 - min e1 e2).toNat = m2 * 2 ^ (e2 - min e1 e2).toNat)

/-- The operator `<=` of `double`. -/
def Double.le (a b : Double) : Bool := Double.lt a b || Double.eq a b

/-- The value of a decimal literal `n / d` of the source, correctly rounded. -/
def Double.ofRatio (n d : Nat) : Double := Double.div (.fin n 0) (.fin d 0)

/-- The exact value of a finite `double` as a rational number (`0` for the others). -/
def Double.toRat : Double → ℚ
  | .fin m e => m * (2 : ℚ) ^ e
  | _ => 0

instance : QRealLit Double := ⟨fun n => Double.ofInt n⟩

/-- The value `std::numeric_limits<double>::max()`. -/
def Double.DBL_MAX : Double := .fin (2 ^ 53 - 1) 971

/-- The constant `M_PI`, the literal `3.14159265358979323846`. -/
def Double.M_PI : Double := Double.ofRatio 314159265358979323846 (10 ^ 20)

/-- `qAbs`: `t >= 0 ? t : -t`. -/
def Double.qAbs (t : Double) : Double := if Double.le (Double.ofInt 0) t then t else t.neg

/-- `qMin`: `(a < b) ? a : b`. -/
def Double.qMin (a b : Double) : Double := if a.lt b then a else b

/-- `qMax`: `(a < b) ? b : a`. -/
def Double.qMax (a b : Double) : Double := if a.lt b then b else a

/-- `qFuzzyCompare(double, double)`:
`qAbs(p1 - p2) * 1000000000000. <= qMin(qAbs(p1), qAbs(p2))`. -/
def Double.qFuzzyCompare (p1 p2 : Double) : Bool :=
  Double.le ((p1.sub p2).qAbs.mul (Double.ofInt 1000000000000))
    (Double.qMin p1.qAbs p2.qAbs)

/-- `qFuzzyIsNull(double)`: `qAbs(d) <= 0.000000000001`. -/
def Double.qFuzzyIsNull (d : Double) : Bool :=
  Double.le d.qAbs (Double.ofRatio 1 1000000000000)

/-! ## The geometry in double-precision arithmetic

The functions of this section embed the same source functions as their namesakes above,
with every operation on `qreal` taken as the operation on `double` and with the rounding
tolerances of Qt 5 in place. -/

namespace IEEE

/-- `QPointF::operator+`. -/
def QPointF.add (p q : QPointF Double) : QPointF Double := ⟨p.xp.add q.xp, p.yp.add q.yp⟩

/-- `QPointF::operator-`. -/
def QPointF.sub (p q : QPointF Double) : QPointF Double := ⟨p.xp.sub q.xp, p.yp.sub q.yp⟩

/-- `QPointF::operator/` and `operator/=` by a `qreal`. -/
def QPointF.divBy (p : QPointF Double) (c : Double) : QPointF Double :=
  ⟨p.xp.div c, p.yp.div c⟩

/-- `QPointF::operator*` by a `qreal`. -/
def QPointF.mulBy (p : QPointF Double) (c : Double) : QPointF Double :=
  ⟨p.xp.mul c, p.yp.mul c⟩

/-- `operator==` of `QPointF` as of Qt 5.12:
`qFuzzyIsNull(p1.xp - p2.xp) && qFuzzyIsNull(p1.yp - p2.yp)`. -/
def QPointF.fuzzyEq (p1 p2 : QPointF Double) : Bool :=
  (p1.xp.sub p2.xp).qFuzzyIsNull && (p1.yp.sub p2.yp).qFuzzyIsNull

/-- `QRectF::right`. -/
def QRectF.right (r : QRectF Double) : Double := r.xp.add r.w
/-- `QRectF::bottom`. -/
def QRectF.bottom (r : QRectF Double) : Double := r.yp.add r.h

/-- `QRectF::center`. -/
def QRectF.center (r : QRectF Double) : QPointF Double :=
  ⟨r.xp.add (r.w.div (Double.ofInt 2)), r.yp.add (r.h.div (Double.ofInt 2))⟩

/-- `QRectF::topRight`. -/
def QRectF.topRight (r : QRectF Double) : QPointF Double := ⟨r.xp.add r.w, r.yp⟩
/-- `QRectF::bottomLeft`. -/
def QRectF.bottomLeft (r : QRectF Double) : QPointF Double := ⟨r.xp, r.yp.add r.h⟩
/-- `QRectF::bottomRight`. -/
def QRectF.bottomRight (r : QRectF Double) : QPointF Double :=
  ⟨r.xp.add r.w, r.yp.add r.h⟩

/-- `QRectF::translated`. -/
def QRectF.translated (r : QRectF Double) (d : QPointF Double) : QRectF Double :=
  ⟨r.xp.add d.xp, r.yp.add d.yp, r.w, r.h⟩

/-- `QRectF::contains(const QPointF&)`. -/
def QRectF.contains (r : QRectF Double) (p : QPointF Double) : Bool :=
  let l := if r.w.lt (Double.ofInt 0) then r.xp.add r.w else r.xp
  let rr := if r.w.lt (Double.ofInt 0) then r.xp else r.xp.add r.w
  if l.eq rr then false
  else if p.xp.lt l || rr.lt p.xp then false
  else
    let t := if r.h.lt (Double.ofInt 0) then r.yp.add r.h else r.yp
    let b := if r.h.lt (Double.ofInt 0) then r.yp else r.yp.add r.h
    if t.eq b then false
    else if p.yp.lt t || b.lt p.yp then false
    else true

/-- `QLineF::length`: `qSqrt(x * x + y * y)` of the difference of the end points. -/
def QLineF.length (l : QLineF Double) : Double :=
  let x := l.pt2.xp.sub l.pt1.xp
  let y := l.pt2.yp.sub l.pt1.yp
  ((x.mul x).add (y.mul y)).sqrt

/-- Qt's `qt_polygon_isect_line`: the contribution of the edge `p1 → p2` to the winding
number of `pos`; an edge whose end heights pass `qFuzzyCompare` is ignored. -/
def qt_polygon_isect_line (p1 p2 pos : QPointF Double) (winding : Int) : Int :=
  if Double.qFuzzyCompare p1.yp p2.yp then winding
  else
    let x1 := if p2.yp.lt p1.yp then p2.xp else p1.xp
    let y1 := if p2.yp.lt p1.yp then p2.yp else p1.yp
    let x2 := if p2.yp.lt p1.yp then p1.xp else p2.xp
    let y2 := if p2.yp.lt p1.yp then p1.yp else p2.yp
    let dir : Int := if p2.yp.lt p1.yp then -1 else 1
    if Double.le y1 pos.yp && pos.yp.lt y2 then
      let x := x1.add (((x2.sub x1).div (y2.sub y1)).mul (pos.yp.sub y1))
      if Double.le x pos.xp then winding + dir else winding
    else winding

/-- The loop of `QPolygonF::containsPoint` over the vertices after the first. -/
def QPolygonF.windingLoop (pt : QPointF Double) :
    List (QPointF Double) → QPointF Double → Int → QPointF Double × Int
  | [], last_pt, winding_number => (last_pt, winding_number)
  | e :: rest, last_pt, winding_number =>
    QPolygonF.windingLoop pt rest e (qt_polygon_isect_line last_pt e pt winding_number)

/-- `QPolygonF::containsPoint(pt, Qt::OddEvenFill)`: the polygon is closed implicitly when
its last vertex differs from the first under `operator!=` of `QPointF`. -/
def QPolygonF.containsPoint (poly : List (QPointF Double)) (pt : QPointF Double) : Bool :=
  match poly with
  | [] => false
  | first :: rest =>
    let (last_pt, winding_number) := QPolygonF.windingLoop pt rest first 0
    let winding_number :=
      if !(QPointF.fuzzyEq last_pt first) then
        qt_polygon_isect_line last_pt first pt winding_number
      else winding_number
    decide (Int.tmod winding_number 2 ≠ 0)

/-- `RectangleShape::contains`. -/
def RectangleShape.contains (self : RectangleShape Double) (point : QPointF Double) : Bool :=
  QRectF.contains (QRectF.ofTopLeftSize self.position self.size) point

/-- `RectangleShape::moveBy`. -/
def RectangleShape.moveBy (self : RectangleShape Double) (delta : QPointF Double) :
    RectangleShape Double :=
  { self with position := QPointF.add self.position delta }

/-- `EllipseShape::moveBy`. -/
def EllipseShape.moveBy (self : EllipseShape Double) (delta : QPointF Double) :
    EllipseShape Double :=
  { self with position := QPointF.add self.position delta }

/-- `DiamondShape::contains`. -/
def DiamondShape.contains (self : DiamondShape Double) (point : QPointF Double) : Bool :=
  let rect := QRectF.ofTopLeftSize self.position self.size
  let diamond : List (QPointF Double) :=
    [⟨(QRectF.center rect).xp, rect.top⟩, ⟨QRectF.right rect, (QRectF.center rect).yp⟩,
     ⟨(QRectF.center rect).xp, QRectF.bottom rect⟩, ⟨rect.left, (QRectF.center rect).yp⟩]
  QPolygonF.containsPoint diamond point

/-- `DiamondShape::moveBy`. -/
def DiamondShape.moveBy (self : DiamondShape Double) (delta : QPointF Double) :
    DiamondShape Double :=
  { self with position := QPointF.add self.position delta }

/-- `TriangleShape::contains`. -/
def TriangleShape.contains (self : TriangleShape Double) (point : QPointF Double) : Bool :=
  let rect := QRectF.ofTopLeftSize self.position self.size
  let triangle : List (QPointF Double) :=
    [⟨(QRectF.center rect).xp, rect.top⟩, ⟨QRectF.right rect, QRectF.bottom rect⟩,
     ⟨rect.left, QRectF.bottom rect⟩]
  QPolygonF.containsPoint triangle point

/-- `TriangleShape::moveBy`. -/
def TriangleShape.moveBy (self : TriangleShape Double) (delta : QPointF Double) :
    TriangleShape Double :=
  { self with position := QPointF.add self.position delta }

/-- `TextShape::contains`. -/
def TextShape.contains (self : TextShape Double) (point : QPointF Double) : Bool :=
  QRectF.contains (QRectF.ofTopLeftSize self.position self.size) point

/-- `TextShape::moveBy`. -/
def TextShape.moveBy (self : TextShape Double) (delta : QPointF Double) : TextShape Double :=
  { self with position := QPointF.add self.position delta }

/-- The test both branches of `ConnectorShape::contains` apply to one segment:
`qAbs(distance - segmentLength) < threshold`. -/
def ConnectorShape.nearSegment (threshold : Double) (p1 p2 point : QPointF Double) : Bool :=
  let segment : QLineF Double := ⟨p1, p2⟩
  let distance :=
    (QLineF.length ⟨segment.pt1, point⟩).add (QLineF.length ⟨segment.pt2, point⟩)
  let segmentLength := QLineF.length segment
  (distance.sub segmentLength).qAbs.lt threshold

/-- The polyline loop of `ConnectorShape::contains`, with its early `return true`, followed
by the last segment to `endPoint`. -/
def ConnectorShape.containsLoop (threshold : Double) (point endPoint : QPointF Double) :
    QPointF Double → List (QPointF Double) → Bool
  | prevPoint, [] => ConnectorShape.nearSegment threshold prevPoint endPoint point
  | prevPoint, currPoint :: rest =>
    if ConnectorShape.nearSegment threshold prevPoint currPoint point then true
    else ConnectorShape.containsLoop threshold point endPoint currPoint rest

/-- `ConnectorShape::contains`. -/
def ConnectorShape.contains (self : ConnectorShape Double) (point : QPointF Double) : Bool :=
  let threshold : Double := Double.ofInt 5
  if self.controlPoints.isEmpty then
    ConnectorShape.nearSegment threshold self.startPoint self.endPoint point
  else
    ConnectorShape.containsLoop threshold point self.endPoint self.startPoint
      self.controlPoints

/-- The loop of `ConnectorShape::boundingRect` over `allPoints`, on the running values
`(minX, minY, maxX, maxY)`. -/
def ConnectorShape.extent :
    List (QPointF Double) → Double × Double × Double × Double →
      Double × Double × Double × Double
  | [], acc => acc
  | point :: rest, (minX, minY, maxX, maxY) =>
    ConnectorShape.extent rest
      (Double.qMin minX point.xp, Double.qMin minY point.yp, Double.qMax maxX point.xp,
        Double.qMax maxY point.yp)

/-- `ConnectorShape::boundingRect`. -/
def ConnectorShape.boundingRect (self : ConnectorShape Double) : QRectF Double :=
  let allPoints := self.startPoint :: self.controlPoints ++ [self.endPoint]
  let (minX, minY, maxX, maxY) :=
    ConnectorShape.extent allPoints
      (Double.DBL_MAX, Double.DBL_MAX, Double.DBL_MAX.neg, Double.DBL_MAX.neg)
  let margin : Double := Double.ofInt 10
  ⟨minX.sub margin, minY.sub margin,
   ((maxX.sub minX).add ((Double.ofInt 2).mul margin)),
   ((maxY.sub minY).add ((Double.ofInt 2).mul margin))⟩

/-- `ConnectorShape::moveBy`. -/
def ConnectorShape.moveBy (self : ConnectorShape Double) (delta : QPointF Double) :
    ConnectorShape Double :=
  { self with
    startPoint := QPointF.add self.startPoint delta
    endPoint := QPointF.add self.endPoint delta
    controlPoints := self.controlPoints.map (fun point => QPointF.add point delta) }

/-- `ConnectorShape::setSize`. -/
def ConnectorShape.setSize (self : ConnectorShape Double) (newSize : QSizeF Double) :
    ConnectorShape Double :=
  let direction := QPointF.sub self.endPoint self.startPoint
  let length := ((direction.xp.mul direction.xp).add (direction.yp.mul direction.yp)).sqrt
  if (Double.ofInt 0).lt length then
    let direction := QPointF.divBy direction length
    { self with endPoint := QPointF.add self.startPoint (QPointF.mulBy direction newSize.wd) }
  else self

/-- `ConnectorShape::getSize`. -/
def ConnectorShape.getSize (self : ConnectorShape Double) : QSizeF Double :=
  let diff := QPointF.sub self.endPoint self.startPoint
  ⟨((diff.xp.mul diff.xp).add (diff.yp.mul diff.yp)).sqrt, Double.ofInt 0⟩

/-- The virtual call `shape->contains(point)` for the classes whose hit test is made of
`double` comparisons and Qt's polygon test; the ellipse, tested through `QPainterPath`, is
left out. -/
def Shape.contains : Shape Double → QPointF Double → Option Bool
  | .rectangle s, p => some (RectangleShape.contains s p)
  | .ellipse _, _ => none
  | .diamond s, p => some (DiamondShape.contains s p)
  | .triangle s, p => some (TriangleShape.contains s p)
  | .connector s, p => some (ConnectorShape.contains s p)
  | .text s, p => some (TextShape.contains s p)

/-- The virtual call `shape->boundingRect()`. -/
def Shape.boundingRect : Shape Double → QRectF Double
  | .rectangle s => s.boundingRect
  | .ellipse s => s.boundingRect
  | .diamond s => s.boundingRect
  | .triangle s => s.boundingRect
  | .connector s => ConnectorShape.boundingRect s
  | .text s => s.boundingRect

/-- The virtual call `shape->moveBy(delta)`. -/
def Shape.moveBy : Shape Double → QPointF Double → Shape Double
  | .rectangle s, d => .rectangle (RectangleShape.moveBy s d)
  | .ellipse s, d => .ellipse (EllipseShape.moveBy s d)
  | .diamond s, d => .diamond (DiamondShape.moveBy s d)
  | .triangle s, d => .triangle (TriangleShape.moveBy s d)
  | .connector s, d => .connector (ConnectorShape.moveBy s d)
  | .text s, d => .text (TextShape.moveBy s d)

/-- `DiagramShape::paintSelectionHandles`. -/
def DiagramShape.paintSelectionHandles (_self : DiagramShape Double) (rect : QRectF Double) :
    List (PaintCmd Double) :=
  let handleSize : Int := 8
  let handlePositions : List (QPointF Double) :=
    [rect.topLeft, ⟨(QRectF.center rect).xp, rect.top⟩, QRectF.topRight rect,
     ⟨QRectF.right rect, (QRectF.center rect).yp⟩, QRectF.bottomRight rect,
     ⟨(QRectF.center rect).xp, QRectF.bottom rect⟩, QRectF.bottomLeft rect,
     ⟨rect.left, (QRectF.center rect).yp⟩]
  [PaintCmd.setPen Qt.blue 1 Qt.DashLine, PaintCmd.setBrush none, PaintCmd.drawRect rect,
   PaintCmd.setPen Qt.blue 1 Qt.SolidLine, PaintCmd.setBrush (some Qt.white)] ++
  handlePositions.map (fun point =>
    PaintCmd.drawRect
      ⟨point.xp.sub (Double.ofInt (Int.tdiv handleSize 2)),
       point.yp.sub (Double.ofInt (Int.tdiv handleSize 2)), Double.ofInt handleSize,
       Double.ofInt handleSize⟩)

/-- `DiamondShape::paint`. -/
def DiamondShape.paint (self : DiamondShape Double) : List (PaintCmd Double) :=
  let rect := QRectF.ofTopLeftSize self.position self.size
  let diamond : List (QPointF Double) :=
    [⟨(QRectF.center rect).xp, rect.top⟩, ⟨QRectF.right rect, (QRectF.center rect).yp⟩,
     ⟨(QRectF.center rect).xp, QRectF.bottom rect⟩, ⟨rect.left, (QRectF.center rect).yp⟩]
  [PaintCmd.save, PaintCmd.setPen self.lineColor self.lineWidth Qt.SolidLine,
   PaintCmd.setBrush (some self.shapeColor), PaintCmd.drawPolygon diamond] ++
  self.toDiagramShape.paintText rect ++
  (if self.isSelected then DiagramShape.paintSelectionHandles self.toDiagramShape rect
   else []) ++
  [PaintCmd.restore]

/-- `TriangleShape::paint`. -/
def TriangleShape.paint (self : TriangleShape Double) : List (PaintCmd Double) :=
  let rect := QRectF.ofTopLeftSize self.position self.size
  let triangle : List (QPointF Double) :=
    [⟨(QRectF.center rect).xp, rect.top⟩, ⟨QRectF.right rect, QRectF.bottom rect⟩,
     ⟨rect.left, QRectF.bottom rect⟩]
  [PaintCmd.save, PaintCmd.setPen self.lineColor self.lineWidth Qt.SolidLine,
   PaintCmd.setBrush (some self.shapeColor), PaintCmd.drawPolygon triangle] ++
  self.toDiagramShape.paintText rect ++
  (if self.isSelected then DiagramShape.paintSelectionHandles self.toDiagramShape rect
   else []) ++
  [PaintCmd.restore]

end IEEE

/-! ## Loading with the allocation limit of `QVector` -/

/-- The loop of `ConnectorShape::load` with the failure `controlPoints.append(point)` can
end in: `capacity` is the number of points the allocator grants a `QVector<QPointF>`, and
an `append` beyond it throws `std::bad_alloc`, the result `none`.  Qt 5 never grants more
than `2 ^ 27` points (an allocation is limited to 2 GiB and a point takes 16 octets). -/
def ConnectorShape.loadPointsThrowing (capacity : Nat) :
    Nat → QDataStream → List (QPointF QDoubleBits) →
      Option (List (QPointF QDoubleBits) × QDataStream)
  | 0, s, controlPoints => some (controlPoints, s)
  | n + 1, s, controlPoints =>
    let (point, s1) := readQPointF s
    if controlPoints.length < capacity then
      ConnectorShape.loadPointsThrowing capacity n s1 (controlPoints ++ [point])
    else none

/-- `ConnectorShape::load`, `none` when the loop throws. -/
def ConnectorShape.loadThrowing (capacity : Nat) (self : ConnectorShape QDoubleBits)
    (s : QDataStream) : Option (ConnectorShape QDoubleBits × QDataStream) :=
  let (base, s1) := self.toDiagramShape.load s
  let (startPoint, s2) := readQPointF s1
  let (endPoint, s3) := readQPointF s2
  let (style, s4) := readInt32 s3
  let (pointCount, s5) := readInt32 s4
  match ConnectorShape.loadPointsThrowing capacity pointCount.toNat s5 [] with
  | none => none
  | some (controlPoints, s6) =>
    some ({ toDiagramShape := base, startPoint := startPoint, endPoint := endPoint,
            controlPoints := controlPoints, arrowStyle := style }, s6)

/-- The virtual call `shape->load(in)`, `none` when it throws. -/
def Shape.loadThrowing (capacity : Nat) (fc : QFontCodec) :
    Shape QDoubleBits → QDataStream → Option (Shape QDoubleBits × QDataStream)
  | .rectangle s, i => some (Prod.map Shape.rectangle id (s.load i))
  | .ellipse s, i => some (Prod.map Shape.ellipse id (s.load i))
  | .diamond s, i => some (Prod.map Shape.diamond id (s.load i))
  | .triangle s, i => some (Prod.map Shape.triangle id (s.load i))
  | .connector s, i => (ConnectorShape.loadThrowing capacity s i).map (Prod.map Shape.connector id)
  | .text s, i => some (Prod.map Shape.text id (s.load fc i))

/-- The shape loop of `FlowIO::load`, `none` when `shape->load(stream)` throws: the
exception leaves the loop and the function. -/
def FlowIO.loadShapesThrowing (capacity : Nat) (fc : QFontCodec) :
    Nat → QDataStream → DiagramCanvas QDoubleBits →
      Option (DiagramCanvas QDoubleBits × QDataStream)
  | 0, s, canvas => some (canvas, s)
  | n + 1, s, canvas =>
    let (type, s1) := readInt32 s
    match (DiagramShape.createShape type : Option (Shape QDoubleBits)) with
    | some shape =>
      match shape.loadThrowing capacity fc s1 with
      | none => none
      | some (shape, s2) => FlowIO.loadShapesThrowing capacity fc n s2 (canvas.addShape shape)
    | none => FlowIO.loadShapesThrowing capacity fc n s1 canvas

/-- `FlowIO::load` on an opened stream, `none` when an exception leaves it. -/
def FlowIO.loadStreamThrowing (capacity : Nat) (fc : QFontCodec) (stream : QDataStream)
    (canvas : DiagramCanvas QDoubleBits) :
    Option (Bool × DiagramCanvas QDoubleBits × QDataStream) :=
  let (header, s1) := readQString stream
  if header ≠ FLOWCHART then some (false, canvas, s1)
  else
    let (_version, s2) := readInt32 s1
    let (backgroundColor, s3) := readQColor s2
    let (canvasSize, s4) := readQSize s3
    let canvas := canvas.setBackgroundColor backgroundColor
    let canvas := canvas.setCanvasSize canvasSize
    let canvas := canvas.clear
    let (shapeCount, s5) := readInt32 s4
    match FlowIO.loadShapesThrowing capacity fc shapeCount.toNat s5 canvas with
    | none => none
    | some (canvas, s6) => some (true, canvas, s6)

/-- `FlowIO::load` with the outcome a caller can observe: `none` when the call ends in
`std::bad_alloc`, else the return value and the canvas afterwards. -/
def FlowIO.loadThrowing (capacity : Nat) (fc : QFontCodec) (file : Option (List Byte))
    (canvas : DiagramCanvas QDoubleBits) : Option (Bool × DiagramCanvas QDoubleBits) :=
  match file with
  | none => some (false, canvas)
  | some bytes =>
    ( FlowIO.loadStreamThrowing capacity fc ⟨bytes, Status.Ok⟩ canvas).map
      (fun r => (r.1, r.2.1))

/-- A stream with a valid header that declares one shape, a Connector whose record ends
with the arrow style and the control-point count `0x7fffffff`. -/
def Example.hugePointCount : List Byte :=
  writeQString FLOWCHART ++ writeInt32 1 ++ writeQColor Qt.white ++ writeQSize ⟨800, 600⟩ ++
    writeInt32 1 ++ writeInt32 DiagramShape.Connector ++
    (ConnectorShape.ctor : ConnectorShape QDoubleBits).toDiagramShape.save [] ++
    writeQPointF ⟨⟨0⟩, ⟨0⟩⟩ ++ writeQPointF ⟨⟨0⟩, ⟨0⟩⟩ ++ writeInt32 0 ++
    writeInt32 0x7fffffff

namespace IEEE

/-- A Diamond at (0,0) with size (2e-12, 2e-12). -/
def Example.tinyDiamond : DiamondShape Double :=
  { (DiamondShape.ctor : DiamondShape Double) with
    position := ⟨Double.ofInt 0, Double.ofInt 0⟩
    size := ⟨Double.ofRatio 2 1000000000000, Double.ofRatio 2 1000000000000⟩ }

/-- A Diamond at (1000,1000) with size (4e-10, 4e-10). -/
def Example.smallDiamond : DiamondShape Double :=
  { (DiamondShape.ctor : DiamondShape Double) with
    position := ⟨Double.ofInt 1000, Double.ofInt 1000⟩
    size := ⟨Double.ofRatio 4 10000000000, Double.ofRatio 4 10000000000⟩ }

/-- A Rectangle at (0.1,0) with size (0.1,10). -/
def Example.slimBox : RectangleShape Double :=
  { (RectangleShape.ctor : RectangleShape Double) with
    position := ⟨Double.ofRatio 1 10, Double.ofInt 0⟩
    size := ⟨Double.ofRatio 1 10, Double.ofInt 10⟩ }

/-- A Rectangle at (10,10) with size (120,80). -/
def Example.box : RectangleShape Double :=
  { (RectangleShape.ctor : RectangleShape Double) with
    position := ⟨Double.ofInt 10, Double.ofInt 10⟩
    size := ⟨Double.ofInt 120, Double.ofInt 80⟩ }

/-- A connector with start and end at `(x, y)` and no control points. -/
def Example.dot (x y : Double) : ConnectorShape Double :=
  { (ConnectorShape.ctor : ConnectorShape Double) with
    startPoint := ⟨x, y⟩
    endPoint := ⟨x, y⟩ }

/-- The straight connector from (0,0) to `(x, y)`. -/
def Example.ray (x y : Double) : ConnectorShape Double :=
  { (ConnectorShape.ctor : ConnectorShape Double) with
    startPoint := ⟨Double.ofInt 0, Double.ofInt 0⟩
    endPoint := ⟨x, y⟩ }

/-- A connector from (0,0) to (100,0) through the control point (50,30). -/
def Example.bent : ConnectorShape Double :=
  { (ConnectorShape.ctor : ConnectorShape Double) with
    startPoint := ⟨Double.ofInt 0, Double.ofInt 0⟩
    endPoint := ⟨Double.ofInt 100, Double.ofInt 0⟩
    controlPoints := [⟨Double.ofInt 50, Double.ofInt 30⟩] }

end IEEE

/-- The value of a finite `double` as a rational number; `0` for the others. -/
def QPointF.toRat (p : QPointF Double) : QPointF ℚ := ⟨p.xp.toRat, p.yp.toRat⟩

/-- The rectangle with the exact values of the four members. -/
def QRectF.toRat (r : QRectF Double) : QRectF ℚ := ⟨r.xp.toRat, r.yp.toRat, r.w.toRat, r.h.toRat⟩

/-- The form every operation gives its finite results: zero as `0 * 2 ^ 0`, a normal number
with `2 ^ 52 ≤ |m| < 2 ^ 53` and `-1074 ≤ e ≤ 971`, a subnormal one with `|m| < 2 ^ 52` and
`e = -1074`. -/
def Double.Canonical : Double → Prop
  | .fin m e =>
    (m = 0 ∧ e = 0) ∨
      (m ≠ 0 ∧ m.natAbs < 2 ^ 53 ∧ -1074 ≤ e ∧ e ≤ 971 ∧ (2 ^ 52 ≤ m.natAbs ∨ e = -1074))
  | _ => True

/-- The value is a finite number. -/
def Double.IsFinite : Double → Prop
  | .fin _ _ => True
  | _ => False

/-- The value lies between `lowest()` and `max()`. -/
def Double.InRange (x : Double) : Prop :=
  Double.le Double.DBL_MAX.neg x = true ∧ Double.le x Double.DBL_MAX = true

/-- The value is an integer of magnitude at most `2 ^ 50`, as the conversion of an `int`
gives it. -/
def Double.Integral (x : Double) : Prop := ∃ i : Int, -2 ^ 50 ≤ i ∧ i ≤ 2 ^ 50 ∧ x = Double.ofInt i

/-- Both coordinates are integers of magnitude at most `2 ^ 50`. -/
def QPointF.Integral (p : QPointF Double) : Prop := p.xp.Integral ∧ p.yp.Integral

/-- Both dimensions are integers of magnitude at most `2 ^ 50`. -/
def QSizeF.Integral (sz : QSizeF Double) : Prop := sz.wd.Integral ∧ sz.ht.Integral

/-- Position and size, or for a connector every point of the path, have integer
coordinates of magnitude at most `2 ^ 50`. -/
def Shape.Integral : Shape Double → Prop
  | .rectangle s => s.position.Integral ∧ s.size.Integral
  | .ellipse s => s.position.Integral ∧ s.size.Integral
  | .diamond s => s.position.Integral ∧ s.size.Integral
  | .triangle s => s.position.Integral ∧ s.size.Integral
  | .connector s => ∀ pt ∈ s.path, pt.Integral
  | .text s => s.position.Integral ∧ s.size.Integral

/-! ## The arrowhead in double precision -/

/-- The functions of the C library that `drawArrow` calls: `std::atan2`, and `std::sin` and
`std::cos` behind `qSin` and `qCos`.  Their results are not fixed to the last bit by the
language standard; what is kept of them is that a sine and a cosine is not-a-number or lies
between -1 and 1.  `std::atan2` also looks at the sign of a zero argument, which `Double`
does not carry; a statement proved for every `Libm` holds whatever the library returns. -/
structure Libm where
  atan2 : Double → Double → Double
  sin : Double → Double
  cos : Double → Double
  sin_range : ∀ x, sin x = .nan ∨
    (Double.le (Double.ofInt (-1)) (sin x) = true ∧ Double.le (sin x) (Double.ofInt 1) = true)
  cos_range : ∀ x, cos x = .nan ∨
    (Double.le (Double.ofInt (-1)) (cos x) = true ∧ Double.le (cos x) (Double.ofInt 1) = true)

/-- The conditions on a `Libm` can be met: the library that takes every angle for zero. -/
instance : Inhabited Libm :=
  ⟨{ atan2 := fun _ _ => Double.ofInt 0
     sin := fun _ => Double.ofInt 0
     cos := fun _ => Double.ofInt 1
     sin_range := fun _ =>
       Or.inr ⟨(by decide : (Double.ofInt (-1)).le (Double.ofInt 0) = true),
         (by decide : (Double.ofInt 0).le (Double.ofInt 1) = true)⟩
     cos_range := fun _ =>
       Or.inr ⟨(by decide : (Double.ofInt (-1)).le (Double.ofInt 1) = true),
         (by decide : (Double.ofInt 1).le (Double.ofInt 1) = true)⟩ }⟩

namespace IEEE

/-- `QLineF::dx`. -/
def QLineF.dx (l : QLineF Double) : Double := l.pt2.xp.sub l.pt1.xp
/-- `QLineF::dy`. -/
def QLineF.dy (l : QLineF Double) : Double := l.pt2.yp.sub l.pt1.yp

/-- `ConnectorShape::drawArrow`: the polygon handed to `painter->drawPolygon`. -/
def ConnectorShape.drawArrow (libm : Libm) (tip fromPt : QPointF Double) :
    List (QPointF Double) :=
  let arrowSize : Double := Double.ofInt 10
  let line : QLineF Double := ⟨fromPt, tip⟩
  let angle := libm.atan2 (QLineF.dy line).neg (QLineF.dx line).neg
  let arrowP1 := QPointF.add tip
    ⟨(libm.sin (angle.add (Double.M_PI.div (Double.ofInt 3)))).mul arrowSize,
     (libm.cos (angle.add (Double.M_PI.div (Double.ofInt 3)))).mul arrowSize⟩
  let arrowP2 := QPointF.add tip
    ⟨(libm.sin ((angle.add Double.M_PI).sub (Double.M_PI.div (Double.ofInt 3)))).mul arrowSize,
     (libm.cos ((angle.add Double.M_PI).sub (Double.M_PI.div (Double.ofInt 3)))).mul arrowSize⟩
  [tip, arrowP1, arrowP2]

end IEEE

/-! # Properties -/

/-! ## Stream primitives read back what was written -/

theorem length_beBytes (n v : Nat) : (beBytes n v).length = n := by
  induction n with
  | zero => rfl
  | succ k ih => simp [beBytes, ih]

theorem foldl_beBytes (n v acc : Nat) :
    (beBytes n v).foldl (fun a (b : Byte) => a * 256 + b.val) acc
      = acc * 256 ^ n + v % 256 ^ n := by
  induction n generalizing acc with
  | zero => simp [beBytes, Nat.mod_one]
  | succ k ih =>
    simp only [beBytes, List.foldl_cons, ih]
    rw [Nat.mod_pow_succ]
    ring

theorem beValue_beBytes (n v : Nat) : beValue (beBytes n v) = v % 256 ^ n := by
  unfold beValue
  rw [foldl_beBytes]
  simp

theorem readBlock_append (bs rest : List Byte) (st : Status) :
    QDataStream.readBlock ⟨bs ++ rest, st⟩ bs.length = (some bs, ⟨rest, st⟩) := by
  simp [QDataStream.readBlock]

theorem readUInt_beBytes (n v : Nat) (rest : List Byte) (st : Status) :
    readUInt n ⟨beBytes n v ++ rest, st⟩ = (v % 256 ^ n, ⟨rest, st⟩) := by
  have h := readBlock_append (beBytes n v) rest st
  rw [length_beBytes] at h
  simp [readUInt, h, beValue_beBytes]

theorem toSigned_toUnsigned32 (i : Int) (h : IsInt32 i) :
    toSigned 32 (toUnsigned 32 i % 256 ^ 4) = i := by
  unfold IsInt32 at h
  unfold toSigned toUnsigned
  have h1 : ((i % 2 ^ 32).toNat : Int) = i % 2 ^ 32 :=
    Int.toNat_of_nonneg (Int.emod_nonneg _ (by norm_num))
  have h2 : (i % 2 ^ 32).toNat < 2 ^ 32 := by
    have : i % 2 ^ 32 < 2 ^ 32 := Int.emod_lt_of_pos _ (by norm_num)
    omega
  have h3 : (i % 2 ^ 32).toNat % 256 ^ 4 = (i % 2 ^ 32).toNat := Nat.mod_eq_of_lt (by omega)
  rw [h3]
  split_ifs with hlt <;> omega

theorem readInt32_writeInt32 (i : Int) (h : IsInt32 i) (rest : List Byte) (st : Status) :
    readInt32 ⟨writeInt32 i ++ rest, st⟩ = (i, ⟨rest, st⟩) := by
  simp only [readInt32, writeInt32, readUInt_beBytes, toSigned_toUnsigned32 i h]

theorem readBool_writeBool (b : Bool) (rest : List Byte) (st : Status) :
    readBool ⟨writeBool b ++ rest, st⟩ = (b, ⟨rest, st⟩) := by
  cases b <;> simp [readBool, writeBool, readUInt_beBytes]

theorem readDouble_writeDouble (d : QDoubleBits) (h : d.Valid) (rest : List Byte)
    (st : Status) : readDouble ⟨writeDouble d ++ rest, st⟩ = (d, ⟨rest, st⟩) := by
  unfold QDoubleBits.Valid at h
  have h1 : d.bits % 256 ^ 8 = d.bits := Nat.mod_eq_of_lt (by omega)
  simp only [readDouble, writeDouble, readUInt_beBytes, h1]

theorem readQPointF_writeQPointF (p : QPointF QDoubleBits) (h : p.Valid) (rest : List Byte)
    (st : Status) : readQPointF ⟨writeQPointF p ++ rest, st⟩ = (p, ⟨rest, st⟩) := by
  simp only [readQPointF, writeQPointF, List.append_assoc,
    readDouble_writeDouble _ h.1, readDouble_writeDouble _ h.2]

theorem readQSizeF_writeQSizeF (sz : QSizeF QDoubleBits) (h : sz.Valid) (rest : List Byte)
    (st : Status) : readQSizeF ⟨writeQSizeF sz ++ rest, st⟩ = (sz, ⟨rest, st⟩) := by
  simp only [readQSizeF, writeQSizeF, List.append_assoc,
    readDouble_writeDouble _ h.1, readDouble_writeDouble _ h.2]

theorem toSigned_toUnsigned8 (i : Int) (h : -128 ≤ i ∧ i < 128) :
    toSigned 8 (toUnsigned 8 i % 256 ^ 1) = i := by
  unfold toSigned toUnsigned
  have h1 : ((i % 2 ^ 8).toNat : Int) = i % 2 ^ 8 :=
    Int.toNat_of_nonneg (Int.emod_nonneg _ (by norm_num))
  have h2 : (i % 2 ^ 8).toNat < 2 ^ 8 := by
    have : i % 2 ^ 8 < 2 ^ 8 := Int.emod_lt_of_pos _ (by norm_num)
    omega
  have h3 : (i % 2 ^ 8).toNat % 256 ^ 1 = (i % 2 ^ 8).toNat := Nat.mod_eq_of_lt (by omega)
  rw [h3]
  split_ifs with hlt <;> omega

theorem readQColor_writeQColor (c : QColor) (h : c.Valid) (rest : List Byte) (st : Status) :
    readQColor ⟨writeQColor c ++ rest, st⟩ = (c, ⟨rest, st⟩) := by
  obtain ⟨hs, ha, hr, hg, hb, hp⟩ := h
  have e (v : Nat) (hv : v < 65536) : v % 256 ^ 2 = v := Nat.mod_eq_of_lt (by omega)
  simp only [readQColor, writeQColor, List.append_assoc, readUInt_beBytes,
    toSigned_toUnsigned8 _ hs, e _ ha, e _ hr, e _ hg, e _ hb, e _ hp]

theorem length_bytesOfUnits (str : List Nat) : (bytesOfUnits str).length = 2 * str.length := by
  induction str with
  | nil => rfl
  | cons u rest ih => simp [bytesOfUnits, length_beBytes, ih]; omega

theorem unitsOfBytes_bytesOfUnits (str : List Nat) (h : ∀ u ∈ str, u < 65536) :
    unitsOfBytes (bytesOfUnits str) = str := by
  induction str with
  | nil => rfl
  | cons u rest ih =>
    have hu : u < 65536 := h u (List.mem_cons_self _ _)
    have hr : ∀ v ∈ rest, v < 65536 := fun v hv => h v (List.mem_cons_of_mem _ hv)
    have e : bytesOfUnits (u :: rest)
        = ⟨u / 256 ^ 1 % 256, Nat.mod_lt _ (by decide)⟩ ::
            ⟨u / 256 ^ 0 % 256, Nat.mod_lt _ (by decide)⟩ :: bytesOfUnits rest := rfl
    rw [e, unitsOfBytes, ih hr]
    congr 1
    simp only [pow_one, pow_zero, Nat.div_one]
    omega

theorem readQString_writeQString (str : QString) (h : QStringValid str) (rest : List Byte)
    (st : Status) : readQString ⟨writeQString str ++ rest, st⟩ = (str, ⟨rest, st⟩) := by
  obtain ⟨hu, hl⟩ := h
  have h1 : 2 * str.length % 256 ^ 4 = 2 * str.length := Nat.mod_eq_of_lt (by omega)
  have hb := readBlock_append (bytesOfUnits str) rest st
  rw [length_bytesOfUnits] at hb
  simp only [readQString, writeQString, List.append_assoc, readUInt_beBytes, h1]
  have hne : ¬ (2 * str.length = 0xffffffff) := by omega
  rw [if_neg hne]
  by_cases h0 : 2 * str.length > 0
  · have hodd : ¬ (2 * str.length % 2 = 1) := by omega
    rw [if_pos h0, if_neg hodd, hb]
    simp [unitsOfBytes_bytesOfUnits str hu]
  · rw [if_neg h0]
    have : str = [] := by
      cases str with
      | nil => rfl
      | cons a l => simp at h0
    subst this
    simp [bytesOfUnits]

theorem simpleFontCodec_lossless : simpleFontCodec.Lossless := by
  intro f rest st hf
  simp only [simpleFontCodec, List.append_assoc, readQString_writeQString _ hf.1,
    readInt32_writeInt32 _ hf.2]

/-! ## Shape records read back what was written -/

theorem diagramShape_save_eq (self : DiagramShape QDoubleBits) (out : List Byte) :
    self.save out = out ++ (writeInt32 self.type ++ (writeQPointF self.position ++
      (writeQColor self.shapeColor ++ (writeQColor self.lineColor ++
      (writeInt32 self.lineWidth ++ (writeBool self.isSelected ++
      writeQString self.m_text)))))) := by
  simp only [DiagramShape.save, List.append_assoc]

theorem diagramShape_load_save (self other : DiagramShape QDoubleBits) (h : self.Valid)
    (rest : List Byte) (st : Status) :
    other.load ⟨self.save [] ++ rest, st⟩ = (self, ⟨rest, st⟩) := by
  obtain ⟨hp, hc, hl, hw, ht, hm⟩ := h
  rw [diagramShape_save_eq]
  unfold DiagramShape.load
  simp only [List.nil_append, List.append_assoc]
  rw [readInt32_writeInt32 _ ht]
  simp only []
  rw [readQPointF_writeQPointF _ hp]
  simp only []
  rw [readQColor_writeQColor _ hc]
  simp only []
  rw [readQColor_writeQColor _ hl]
  simp only []
  rw [readInt32_writeInt32 _ hw]
  simp only []
  rw [readBool_writeBool]
  simp only []
  rw [readQString_writeQString _ hm]

theorem rectangleShape_load_save (self other : RectangleShape QDoubleBits)
    (h : self.toDiagramShape.Valid ∧ self.size.Valid) (rest : List Byte) (st : Status) :
    other.load ⟨self.save [] ++ rest, st⟩ = (self, ⟨rest, st⟩) := by
  have hb := diagramShape_load_save self.toDiagramShape other.toDiagramShape h.1
  unfold RectangleShape.save RectangleShape.load
  simp only [List.append_assoc]
  rw [hb]
  simp only []
  rw [readQSizeF_writeQSizeF _ h.2]

theorem ellipseShape_load_save (self other : EllipseShape QDoubleBits)
    (h : self.toDiagramShape.Valid ∧ self.size.Valid) (rest : List Byte) (st : Status) :
    other.load ⟨self.save [] ++ rest, st⟩ = (self, ⟨rest, st⟩) := by
  have hb := diagramShape_load_save self.toDiagramShape other.toDiagramShape h.1
  unfold EllipseShape.save EllipseShape.load
  simp only [List.append_assoc]
  rw [hb]
  simp only []
  rw [readQSizeF_writeQSizeF _ h.2]

theorem diamondShape_load_save (self other : DiamondShape QDoubleBits)
    (h : self.toDiagramShape.Valid ∧ self.size.Valid) (rest : List Byte) (st : Status) :
    other.load ⟨self.save [] ++ rest, st⟩ = (self, ⟨rest, st⟩) := by
  have hb := diagramShape_load_save self.toDiagramShape other.toDiagramShape h.1
  unfold DiamondShape.save DiamondShape.load
  simp only [List.append_assoc]
  rw [hb]
  simp only []
  rw [readQSizeF_writeQSizeF _ h.2]

theorem triangleShape_load_save (self other : TriangleShape QDoubleBits)
    (h : self.toDiagramShape.Valid ∧ self.size.Valid) (rest : List Byte) (st : Status) :
    other.load ⟨self.save [] ++ rest, st⟩ = (self, ⟨rest, st⟩) := by
  have hb := diagramShape_load_save self.toDiagramShape other.toDiagramShape h.1
  unfold TriangleShape.save TriangleShape.load
  simp only [List.append_assoc]
  rw [hb]
  simp only []
  rw [readQSizeF_writeQSizeF _ h.2]

theorem textShape_load_save (fc : QFontCodec) (hfc : fc.Lossless)
    (self other : TextShape QDoubleBits)
    (h : self.toDiagramShape.Valid ∧ self.size.Valid ∧ self.font.Valid ∧ self.textColor.Valid)
    (rest : List Byte) (st : Status) :
    other.load fc ⟨self.save fc [] ++ rest, st⟩ = (self, ⟨rest, st⟩) := by
  have hb := diagramShape_load_save self.toDiagramShape other.toDiagramShape h.1
  obtain ⟨w, r⟩ := fc
  have e : r ⟨w self.font ++ (writeQColor self.textColor ++ rest), st⟩
      = (self.font, ⟨writeQColor self.textColor ++ rest, st⟩) := hfc _ _ _ h.2.2.1
  unfold TextShape.save TextShape.load
  simp only [List.append_assoc]
  rw [hb]
  simp only []
  rw [readQSizeF_writeQSizeF _ h.2.1]
  simp only []
  rw [e]
  simp only []
  rw [readQColor_writeQColor _ h.2.2.2]

theorem connector_savePoints_eq (pts : List (QPointF QDoubleBits)) (out : List Byte) :
    ConnectorShape.savePoints pts out = out ++ ConnectorShape.savePoints pts [] := by
  induction pts generalizing out with
  | nil => simp [ConnectorShape.savePoints]
  | cons p rest ih =>
    simp only [ConnectorShape.savePoints, List.nil_append]
    rw [ih (out ++ writeQPointF p), ih (writeQPointF p), List.append_assoc]

theorem connector_loadPoints_savePoints (pts : List (QPointF QDoubleBits))
    (h : ∀ p ∈ pts, p.Valid) (acc : List (QPointF QDoubleBits)) (rest : List Byte)
    (st : Status) :
    ConnectorShape.loadPoints pts.length ⟨ConnectorShape.savePoints pts [] ++ rest, st⟩ acc
      = (acc ++ pts, ⟨rest, st⟩) := by
  induction pts generalizing acc with
  | nil => simp [ConnectorShape.loadPoints, ConnectorShape.savePoints]
  | cons p tl ih =>
    have hp : p.Valid := h p (List.mem_cons_self _ _)
    have ht : ∀ q ∈ tl, q.Valid := fun q hq => h q (List.mem_cons_of_mem _ hq)
    simp only [List.length_cons, ConnectorShape.loadPoints, ConnectorShape.savePoints,
      List.nil_append]
    rw [connector_savePoints_eq, List.append_assoc, readQPointF_writeQPointF _ hp]
    simp only [ih ht, List.append_assoc, List.singleton_append]

theorem connectorShape_load_save (self other : ConnectorShape QDoubleBits) (h : self.Valid)
    (rest : List Byte) (st : Status) :
    other.load ⟨self.save [] ++ rest, st⟩ = (self, ⟨rest, st⟩) := by
  obtain ⟨hb, hs, he, hp, ha, hn⟩ := h
  have hb2 := diagramShape_load_save self.toDiagramShape other.toDiagramShape hb
  have hlen : IsInt32 (self.controlPoints.length : Int) := by
    unfold IsInt32
    constructor <;> omega
  have hpts := connector_loadPoints_savePoints self.controlPoints hp [] rest st
  unfold ConnectorShape.save ConnectorShape.load
  simp only []
  rw [connector_savePoints_eq]
  simp only [List.append_assoc]
  rw [hb2]
  simp only []
  rw [readQPointF_writeQPointF _ hs]
  simp only []
  rw [readQPointF_writeQPointF _ he]
  simp only []
  rw [readInt32_writeInt32 _ ha]
  simp only []
  rw [readInt32_writeInt32 _ hlen]
  simp only [Int.toNat_ofNat]
  rw [hpts]
  simp only [List.nil_append]

/-! ## Persistence: the claims -/

/-- C2: a freshly factory-created shape of kind Rectangle, Ellipse, Diamond, Triangle or
Text that loads exactly the record written by `s.save` consumes that record and nothing
more, and ends equal to `s` in every data member (position, fill colour, line colour, line
width, selection flag, label text, size and, for Text, font and text colour); in particular
the selection flag is the one `s` had. -/
theorem shape_record_roundtrip (fc : QFontCodec) (hfc : fc.Lossless)
    (s fresh : Shape QDoubleBits) (hv : s.Valid) (hk : s.kind ≠ DiagramShape.Connector)
    (hfresh : DiagramShape.createShape s.kind = some fresh)
    (rest : List Byte) (st : Status) :
    fresh.load fc ⟨s.save fc [] ++ rest, st⟩ = (s, ⟨rest, st⟩) ∧
      (fresh.load fc ⟨s.save fc [] ++ rest, st⟩).1.base.isSelected = s.base.isSelected := by
  have key : fresh.load fc ⟨s.save fc [] ++ rest, st⟩ = (s, ⟨rest, st⟩) := by
    cases s with
    | rectangle r =>
      have hf : fresh = .rectangle RectangleShape.ctor := by
        simpa [Shape.kind, DiagramShape.createShape] using hfresh.symm
      subst hf
      rw [Shape.load, Shape.save, rectangleShape_load_save r _ hv]
      rfl
    | ellipse r =>
      have hf : fresh = .ellipse EllipseShape.ctor := by
        simpa [Shape.kind, DiagramShape.createShape, DiagramShape.Ellipse,
          DiagramShape.Rectangle] using hfresh.symm
      subst hf
      rw [Shape.load, Shape.save, ellipseShape_load_save r _ hv]
      rfl
    | diamond r =>
      have hf : fresh = .diamond DiamondShape.ctor := by
        simpa [Shape.kind, DiagramShape.createShape, DiagramShape.Ellipse,
          DiagramShape.Rectangle, DiagramShape.Diamond] using hfresh.symm
      subst hf
      rw [Shape.load, Shape.save, diamondShape_load_save r _ hv]
      rfl
    | triangle r =>
      have hf : fresh = .triangle TriangleShape.ctor := by
        simpa [Shape.kind, DiagramShape.createShape, DiagramShape.Ellipse,
          DiagramShape.Rectangle, DiagramShape.Diamond, DiagramShape.Triangle]
          using hfresh.symm
      subst hf
      rw [Shape.load, Shape.save, triangleShape_load_save r _ hv]
      rfl
    | connector r => exact absurd rfl hk
    | text r =>
      have hf : fresh = .text TextShape.ctor := by
        simpa [Shape.kind, DiagramShape.createShape, DiagramShape.Ellipse,
          DiagramShape.Rectangle, DiagramShape.Diamond, DiagramShape.Triangle,
          DiagramShape.Connector, DiagramShape.Text] using hfresh.symm
      subst hf
      rw [Shape.load, Shape.save, textShape_load_save fc hfc r _ hv]
      rfl
  refine ⟨key, ?_⟩
  rw [key]

/-- C3: a connector holding any control points that loads exactly the record written by
`c.save` ends equal to `c` in every data member: start point, end point, arrow style, the
control points in the same order and number, and the base fields; the record is consumed
and nothing more. -/
theorem connector_record_roundtrip (c loader : ConnectorShape QDoubleBits) (hv : c.Valid)
    (rest : List Byte) (st : Status) :
    loader.load ⟨c.save [] ++ rest, st⟩ = (c, ⟨rest, st⟩) :=
  connectorShape_load_save c loader hv rest st

/-- C4: when the leading string field of the stream is not `"FLOWCHART"` (also when it
cannot be read at all), `FlowIO::load` returns false. -/
theorem load_rejects_wrong_magic (fc : QFontCodec) (bytes : List Byte)
    (canvas : DiagramCanvas QDoubleBits)
    (h : (readQString ⟨bytes, Status.Ok⟩).1 ≠ FLOWCHART) :
    ( FlowIO.load fc (some bytes) canvas).1 = false := by
  show ( FlowIO.loadStream fc ⟨bytes, Status.Ok⟩ canvas).1 = false
  unfold FlowIO.loadStream
  generalize readQString ⟨bytes, Status.Ok⟩ = q at h ⊢
  obtain ⟨header, s1⟩ := q
  show (if header ≠ FLOWCHART then (false, canvas, s1) else _).1 = false
  rw [if_pos h]

theorem readInt32_exhausted (st : Status) :
    ∃ st1, readInt32 ⟨[], st⟩ = (0, ⟨[], st1⟩) := by
  cases st <;> exact ⟨_, rfl⟩

theorem loadShapes_exhausted (fc : QFontCodec) (n : Nat) (st : Status)
    (canvas : DiagramCanvas QDoubleBits) :
    ( FlowIO.loadShapes fc n ⟨[], st⟩ canvas).1 = canvas := by
  induction n generalizing st with
  | zero => rfl
  | succ k ih =>
    obtain ⟨st1, h1⟩ := readInt32_exhausted st
    unfold FlowIO.loadShapes
    rw [h1]
    exact ih st1

set_option maxRecDepth 100000 in
/-- C1 (defect): on the stream `FlowIO::save` wrote for the document holding one Rectangle
at (10,10) with size (120,80) and fill red, `FlowIO::load` returns true but rebuilds a
different document: the loop has already consumed the kind tag when `shape->load` reads a
tag again, so every later field is taken four octets too late (the `type` member becomes
`0x40240000`, the upper half of the `double` 10.0, the fill is no longer red, the size is
zero). -/
theorem file_roundtrip_rectangle_misaligned :
    FlowIO.load simpleFontCodec (some ( FlowIO.save simpleFontCodec true Example.doc).2)
        Example.cleared = (true, Example.reloaded) ∧
      Example.reloaded ≠ Example.doc := by
  decide

set_option maxRecDepth 100000 in
theorem shape_record_roundtrip_witness :
    simpleFontCodec.Lossless ∧ (Shape.text Example.text).Valid ∧
      (Shape.text Example.text).kind ≠ DiagramShape.Connector ∧
      DiagramShape.createShape (Shape.text Example.text).kind
        = some (Shape.text (TextShape.ctor : TextShape QDoubleBits)) ∧
      (Shape.load simpleFontCodec (Shape.text TextShape.ctor)
          ⟨Shape.save simpleFontCodec (Shape.text Example.text) [] ++ [], Status.Ok⟩
          = (Shape.text Example.text, ⟨[], Status.Ok⟩) ∧
        (Shape.load simpleFontCodec (Shape.text TextShape.ctor)
          ⟨Shape.save simpleFontCodec (Shape.text Example.text) [] ++ [],
            Status.Ok⟩).1.base.isSelected = (Shape.text Example.text).base.isSelected) :=
  ⟨simpleFontCodec_lossless, by decide, by decide, by decide,
    shape_record_roundtrip simpleFontCodec simpleFontCodec_lossless _ _
      (by decide) (by decide) (by decide) [] Status.Ok⟩

set_option maxRecDepth 100000 in
theorem connector_record_roundtrip_witness :
    Example.connector.Valid ∧
      Example.usedConnector.load ⟨Example.connector.save [] ++ [], Status.Ok⟩
        = (Example.connector, ⟨[], Status.Ok⟩) :=
  ⟨by decide, connector_record_roundtrip Example.connector Example.usedConnector
    (by decide) [] Status.Ok⟩

set_option maxRecDepth 100000 in
theorem load_rejects_wrong_magic_witness :
    (readQString ⟨Example.badMagic, Status.Ok⟩).1 ≠ FLOWCHART ∧
      ( FlowIO.load simpleFontCodec (some Example.badMagic) Example.doc).1 = false :=
  ⟨by decide, load_rejects_wrong_magic simpleFontCodec Example.badMagic Example.doc
    (by decide)⟩

set_option maxRecDepth 100000 in
/-- C5 (as stated, refuted): the stream `Example.truncated` has a valid header, declares ten
shapes and ends after the third; `FlowIO::load` returns true and leaves a document of three
shapes, the stream status being `ReadPastEnd`. -/
theorem load_truncated_reports_success :
    FlowIO.load simpleFontCodec (some Example.truncated) Example.cleared
        = (true, ⟨[.rectangle Example.rect, .rectangle Example.rect, .rectangle Example.rect],
            Qt.white, ⟨800, 600⟩⟩) ∧
      ( FlowIO.loadStream simpleFontCodec ⟨Example.truncated, Status.Ok⟩ Example.cleared).2.2
        = ⟨[], Status.ReadPastEnd⟩ := by
  decide

/-! ## Square root and distance -/

theorem qSqrt_unique {R : Type} [QReal R] (x y : R) (hy : 0 ≤ y) (h : y * y = x) :
    QReal.qSqrt x = y := by
  have hx : 0 ≤ x := h ▸ mul_self_nonneg y
  have h1 := QReal.qSqrt_mul_self x hx
  have h2 := QReal.qSqrt_nonneg x
  nlinarith [mul_self_nonneg (QReal.qSqrt x - y), mul_nonneg h2 hy]

theorem length_nonneg {R : Type} [QReal R] (l : QLineF R) : 0 ≤ l.length :=
  QReal.qSqrt_nonneg _

theorem length_mul_self {R : Type} [QReal R] (l : QLineF R) :
    l.length * l.length
      = (l.pt2.xp - l.pt1.xp) * (l.pt2.xp - l.pt1.xp)
        + (l.pt2.yp - l.pt1.yp) * (l.pt2.yp - l.pt1.yp) :=
  QReal.qSqrt_mul_self _ (add_nonneg (mul_self_nonneg _) (mul_self_nonneg _))

/-! ## Connector hit test -/

theorem nearSegment_iff {R : Type} [QReal R] (thr : R) (a b p : QPointF R) :
    ConnectorShape.nearSegment thr a b p = true ↔ |ptDist a p + ptDist b p - ptDist a b| < thr := by
  simp [ConnectorShape.nearSegment, ptDist]

theorem ptDist_comm {R : Type} [QReal R] (a b : QPointF R) : ptDist a b = ptDist b a := by
  show QReal.qSqrt ((b.xp - a.xp) * (b.xp - a.xp) + (b.yp - a.yp) * (b.yp - a.yp))
    = QReal.qSqrt ((a.xp - b.xp) * (a.xp - b.xp) + (a.yp - b.yp) * (a.yp - b.yp))
  congr 1
  ring

theorem extent_bounds {R : Type} [LinearOrderedField R] (pts : List (QPointF R))
    (a b c d : R) :
    ((ConnectorShape.extent pts (a, b, c, d)).1 ≤ a ∧
      (ConnectorShape.extent pts (a, b, c, d)).2.1 ≤ b ∧
      c ≤ (ConnectorShape.extent pts (a, b, c, d)).2.2.1 ∧
      d ≤ (ConnectorShape.extent pts (a, b, c, d)).2.2.2) ∧
    ∀ pt ∈ pts,
      (ConnectorShape.extent pts (a, b, c, d)).1 ≤ pt.xp ∧
      (ConnectorShape.extent pts (a, b, c, d)).2.1 ≤ pt.yp ∧
      pt.xp ≤ (ConnectorShape.extent pts (a, b, c, d)).2.2.1 ∧
      pt.yp ≤ (ConnectorShape.extent pts (a, b, c, d)).2.2.2 := by
  induction pts generalizing a b c d with
  | nil => simp [ConnectorShape.extent]
  | cons q rest ih =>
    obtain ⟨⟨h1, h2, h3, h4⟩, hall⟩ := ih (min a q.xp) (min b q.yp) (max c q.xp) (max d q.yp)
    simp only [ConnectorShape.extent]
    refine ⟨⟨le_trans h1 (min_le_left _ _), le_trans h2 (min_le_left _ _),
      le_trans (le_max_left _ _) h3, le_trans (le_max_left _ _) h4⟩, ?_⟩
    intro pt hpt
    rcases List.mem_cons.mp hpt with rfl | hr
    · exact ⟨le_trans h1 (min_le_right _ _), le_trans h2 (min_le_right _ _),
        le_trans (le_max_right _ _) h3, le_trans (le_max_right _ _) h4⟩
    · exact hall pt hr

theorem extent_attained {R : Type} [LinearOrderedField R] (pts : List (QPointF R))
    (a b c d : R) :
    ((ConnectorShape.extent pts (a, b, c, d)).1 = a ∨
        ∃ pt ∈ pts, pt.xp = (ConnectorShape.extent pts (a, b, c, d)).1) ∧
    ((ConnectorShape.extent pts (a, b, c, d)).2.1 = b ∨
        ∃ pt ∈ pts, pt.yp = (ConnectorShape.extent pts (a, b, c, d)).2.1) ∧
    ((ConnectorShape.extent pts (a, b, c, d)).2.2.1 = c ∨
        ∃ pt ∈ pts, pt.xp = (ConnectorShape.extent pts (a, b, c, d)).2.2.1) ∧
    ((ConnectorShape.extent pts (a, b, c, d)).2.2.2 = d ∨
        ∃ pt ∈ pts, pt.yp = (ConnectorShape.extent pts (a, b, c, d)).2.2.2) := by
  induction pts generalizing a b c d with
  | nil => simp [ConnectorShape.extent]
  | cons q rest ih =>
    obtain ⟨h1, h2, h3, h4⟩ := ih (min a q.xp) (min b q.yp) (max c q.xp) (max d q.yp)
    simp only [ConnectorShape.extent, List.mem_cons, exists_eq_or_imp]
    refine ⟨?_, ?_, ?_, ?_⟩
    · rcases h1 with h | ⟨pt, hp, h⟩
      · rcases min_choice a q.xp with e | e
        · left; rw [h, e]
        · right; left; rw [h, e]
      · right; right; exact ⟨pt, hp, h⟩
    · rcases h2 with h | ⟨pt, hp, h⟩
      · rcases min_choice b q.yp with e | e
        · left; rw [h, e]
        · right; left; rw [h, e]
      · right; right; exact ⟨pt, hp, h⟩
    · rcases h3 with h | ⟨pt, hp, h⟩
      · rcases max_choice c q.xp with e | e
        · left; rw [h, e]
        · right; left; rw [h, e]
      · right; right; exact ⟨pt, hp, h⟩
    · rcases h4 with h | ⟨pt, hp, h⟩
      · rcases max_choice d q.yp with e | e
        · left; rw [h, e]
        · right; left; rw [h, e]
      · right; right; exact ⟨pt, hp, h⟩

theorem extent_translate {R : Type} [LinearOrderedField R] (pts : List (QPointF R))
    (delta : QPointF R) (a b c d : R) :
    ConnectorShape.extent (pts.map (fun point => point.add delta))
        (a + delta.xp, b + delta.yp, c + delta.xp, d + delta.yp)
      = ((ConnectorShape.extent pts (a, b, c, d)).1 + delta.xp,
         (ConnectorShape.extent pts (a, b, c, d)).2.1 + delta.yp,
         (ConnectorShape.extent pts (a, b, c, d)).2.2.1 + delta.xp,
         (ConnectorShape.extent pts (a, b, c, d)).2.2.2 + delta.yp) := by
  induction pts generalizing a b c d with
  | nil => simp [ConnectorShape.extent]
  | cons q rest ih =>
    simp only [List.map_cons, ConnectorShape.extent, QPointF.add]
    rw [min_add_add_right, min_add_add_right, max_add_add_right, max_add_add_right]
    exact ih _ _ _ _

theorem boundingRect_eq_of_finite {R : Type} [LinearOrderedField R] (M : R)
    (c : ConnectorShape R) (hfin : c.Finite M) :
    c.boundingRect M =
      ⟨(ConnectorShape.extent (c.controlPoints ++ [c.endPoint])
            (c.startPoint.xp, c.startPoint.yp, c.startPoint.xp, c.startPoint.yp)).1 - 10,
       (ConnectorShape.extent (c.controlPoints ++ [c.endPoint])
            (c.startPoint.xp, c.startPoint.yp, c.startPoint.xp, c.startPoint.yp)).2.1 - 10,
       (ConnectorShape.extent (c.controlPoints ++ [c.endPoint])
            (c.startPoint.xp, c.startPoint.yp, c.startPoint.xp, c.startPoint.yp)).2.2.1
         - (ConnectorShape.extent (c.controlPoints ++ [c.endPoint])
            (c.startPoint.xp, c.startPoint.yp, c.startPoint.xp, c.startPoint.yp)).1 + 2 * 10,
       (ConnectorShape.extent (c.controlPoints ++ [c.endPoint])
            (c.startPoint.xp, c.startPoint.yp, c.startPoint.xp, c.startPoint.yp)).2.2.2
         - (ConnectorShape.extent (c.controlPoints ++ [c.endPoint])
            (c.startPoint.xp, c.startPoint.yp, c.startPoint.xp, c.startPoint.yp)).2.1
         + 2 * 10⟩ := by
  obtain ⟨⟨hx1, hx2⟩, ⟨hy1, hy2⟩⟩ := hfin c.startPoint (by simp [ConnectorShape.path])
  simp only [ConnectorShape.boundingRect, List.cons_append, ConnectorShape.extent,
    min_eq_right hx2, min_eq_right hy2, max_eq_right hx1, max_eq_right hy1]
  rfl

theorem connector_boundingRect_moveBy {R : Type} [LinearOrderedField R] (M : R)
    (c : ConnectorShape R) (delta : QPointF R) (h1 : c.Finite M)
    (h2 : (c.moveBy delta).Finite M) :
    (c.moveBy delta).boundingRect M = (c.boundingRect M).translated delta := by
  rw [boundingRect_eq_of_finite M c h1, boundingRect_eq_of_finite M _ h2]
  have hm : (c.moveBy delta).controlPoints ++ [(c.moveBy delta).endPoint]
      = (c.controlPoints ++ [c.endPoint]).map (fun point => point.add delta) := by
    simp [ConnectorShape.moveBy]
  have hs : (c.moveBy delta).startPoint = c.startPoint.add delta := rfl
  rw [hm, hs]
  have ht := extent_translate (c.controlPoints ++ [c.endPoint]) delta
    c.startPoint.xp c.startPoint.yp c.startPoint.xp c.startPoint.yp
  simp only [QPointF.add] at ht ⊢
  rw [ht]
  simp only [QRectF.translated, QRectF.mk.injEq]
  refine ⟨by ring, by ring, by ring, by ring⟩

/-! ## Rectangle containment -/

theorem QRectF_contains_iff {R : Type} [LinearOrderedField R] (r : QRectF R) (p : QPointF R)
    (hw : 0 ≤ r.w) (hh : 0 ≤ r.h) :
    r.contains p = true ↔
      (r.w ≠ 0 ∧ r.h ≠ 0) ∧ (r.xp ≤ p.xp ∧ p.xp ≤ r.xp + r.w) ∧
        (r.yp ≤ p.yp ∧ p.yp ≤ r.yp + r.h) := by
  unfold QRectF.contains
  simp only [not_lt.mpr hw, not_lt.mpr hh, if_false]
  by_cases h1 : r.w = 0
  · simp [h1]
  · by_cases h2 : r.h = 0
    · simp [h1, h2]
    · have e1 : ¬ (r.xp = r.xp + r.w) := fun h => h1 (by linarith)
      have e2 : ¬ (r.yp = r.yp + r.h) := fun h => h2 (by linarith)
      simp only [e1, e2, if_false, h1, h2, ne_eq, not_false_eq_true, and_self, true_and]
      by_cases c1 : p.xp < r.xp ∨ p.xp > r.xp + r.w
      · simp only [c1, if_true, Bool.false_eq_true, false_iff]
        rintro ⟨⟨h3, h4⟩, _⟩
        rcases c1 with c | c <;> linarith
      · simp only [c1, if_false]
        push_neg at c1
        by_cases c2 : p.yp < r.yp ∨ p.yp > r.yp + r.h
        · simp only [c2, if_true, Bool.false_eq_true, false_iff]
          rintro ⟨_, h3, h4⟩
          rcases c2 with c | c <;> linarith
        · simp only [c2, if_false, true_iff]
          push_neg at c2
          exact ⟨c1, c2⟩

/-! ## Connector hit test against the bounding rectangle -/

theorem focal_sum_excess {R : Type} [LinearOrderedField R] (u v s t L da db : R)
    (hda : 0 ≤ da) (hdb : 0 ≤ db)
    (ea : da * da = u * u + s * s) (eb : db * db = v * v + t * t)
    (eL : L * L = (u - v) * (u - v) + (s - t) * (s - t))
    (hu : 10 < u) (hv : 10 < v) (hLs : L ≤ 75 / 2) : L + 5 < da + db := by
  have key : (u * u + s * s) * (v * v + t * t)
      = (u * v - s * t) * (u * v - s * t) + (u * t + s * v) * (u * t + s * v) := by ring
  have hprod : u * v - s * t ≤ da * db := by
    by_contra hlt
    push_neg at hlt
    have h0 : 0 ≤ da * db := mul_nonneg hda hdb
    have hsq : (da * db) * (da * db) < (u * v - s * t) * (u * v - s * t) :=
      mul_self_lt_mul_self h0 hlt
    have hid : (da * db) * (da * db) = (u * u + s * s) * (v * v + t * t) := by
      rw [← ea, ← eb]; ring
    have := mul_self_nonneg (u * t + s * v)
    linarith
  have huv : 100 < u * v := by
    have h := mul_pos (sub_pos.mpr hu) (sub_pos.mpr hv)
    have e : (u - 10) * (v - 10) = u * v - 10 * u - 10 * v + 100 := by ring
    linarith
  by_contra hle
  push_neg at hle
  have h1 : (da + db) * (da + db) ≤ (L + 5) * (L + 5) :=
    mul_self_le_mul_self (add_nonneg hda hdb) hle
  have e1 : (da + db) * (da + db) = da * da + db * db + 2 * (da * db) := by ring
  have e2 : (L + 5) * (L + 5) = L * L + 10 * L + 25 := by ring
  have e3 : (u - v) * (u - v) + (s - t) * (s - t)
      = u * u + s * s + (v * v + t * t) - 2 * (u * v) - 2 * (s * t) := by ring
  linarith

theorem mem_path_of_mem_segments {R : Type} (c : ConnectorShape R)
    (seg : QPointF R × QPointF R) (h : seg ∈ c.segments) :
    seg.1 ∈ c.path ∧ seg.2 ∈ c.path := by
  unfold ConnectorShape.segments at h
  obtain ⟨a, b⟩ := seg
  have := List.of_mem_zip h
  exact ⟨this.1, List.mem_of_mem_tail this.2⟩

theorem boundingRect_bounds {R : Type} [LinearOrderedField R] (M : R) (c : ConnectorShape R) :
    (20 ≤ (c.boundingRect M).w ∧ 20 ≤ (c.boundingRect M).h) ∧
    ∀ pt ∈ c.path,
      (c.boundingRect M).xp + 10 ≤ pt.xp ∧
      pt.xp + 10 ≤ (c.boundingRect M).xp + (c.boundingRect M).w ∧
      (c.boundingRect M).yp + 10 ≤ pt.yp ∧
      pt.yp + 10 ≤ (c.boundingRect M).yp + (c.boundingRect M).h := by
  have hb := extent_bounds c.path M M (-M) (-M)
  have hr : c.boundingRect M =
      ⟨(ConnectorShape.extent c.path (M, M, -M, -M)).1 - 10,
       (ConnectorShape.extent c.path (M, M, -M, -M)).2.1 - 10,
       (ConnectorShape.extent c.path (M, M, -M, -M)).2.2.1
         - (ConnectorShape.extent c.path (M, M, -M, -M)).1 + 2 * 10,
       (ConnectorShape.extent c.path (M, M, -M, -M)).2.2.2
         - (ConnectorShape.extent c.path (M, M, -M, -M)).2.1 + 2 * 10⟩ := rfl
  have hstart : c.startPoint ∈ c.path := List.mem_cons_self _ _
  generalize ConnectorShape.extent c.path (M, M, -M, -M) = e at hb hr
  obtain ⟨mnx, mny, mxx, mxy⟩ := e
  obtain ⟨_, ball⟩ := hb
  simp only at ball hr
  rw [hr]
  simp only
  obtain ⟨s1, s2, s3, s4⟩ := ball c.startPoint hstart
  refine ⟨⟨by linarith, by linarith⟩, ?_⟩
  intro pt hp
  obtain ⟨h1, h2, h3, h4⟩ := ball pt hp
  refine ⟨by linarith, by linarith, by linarith, by linarith⟩

theorem ptDist_of_sq {R : Type} [QReal R] (a b : QPointF R) (d : R) (hd : 0 ≤ d)
    (h : d * d = (b.xp - a.xp) * (b.xp - a.xp) + (b.yp - a.yp) * (b.yp - a.yp)) :
    ptDist a b = d :=
  qSqrt_unique _ d hd h

theorem DBL_MAX_ge {R : Type} [LinearOrderedField R] : (1000 : R) ≤ DBL_MAX := by
  unfold DBL_MAX
  norm_num

theorem finite_of_small {R : Type} [LinearOrderedField R] (c : ConnectorShape R)
    (h : ∀ pt ∈ c.path, (-1000 ≤ pt.xp ∧ pt.xp ≤ 1000) ∧ (-1000 ≤ pt.yp ∧ pt.yp ≤ 1000)) :
    c.Finite DBL_MAX := by
  intro pt hpt
  obtain ⟨⟨h1, h2⟩, ⟨h3, h4⟩⟩ := h pt hpt
  have hM : (1000 : R) ≤ DBL_MAX := DBL_MAX_ge
  exact ⟨⟨by linarith, by linarith⟩, ⟨by linarith, by linarith⟩⟩

theorem bent_finite : Example.bent.Finite DBL_MAX := by
  apply finite_of_small
  intro pt hpt
  have hp : Example.bent.path = [⟨0, 0⟩, ⟨50, 70⟩, ⟨100, 0⟩] := rfl
  rw [hp] at hpt
  simp only [List.mem_cons, List.mem_singleton, List.not_mem_nil, or_false] at hpt
  rcases hpt with rfl | rfl | rfl <;> norm_num

theorem bent_moved_finite : (Example.bent.moveBy ⟨3, 4⟩).Finite DBL_MAX := by
  apply finite_of_small
  intro pt hpt
  have hp : (Example.bent.moveBy ⟨3, 4⟩).path
      = [⟨0 + 3, 0 + 4⟩, ⟨50 + 3, 70 + 4⟩, ⟨100 + 3, 0 + 4⟩] := rfl
  rw [hp] at hpt
  simp only [List.mem_cons, List.mem_singleton, List.not_mem_nil, or_false] at hpt
  rcases hpt with rfl | rfl | rfl <;> norm_num

/-! ## Hit test of the box kinds -/

theorem isect_flat {R : Type} [LinearOrderedField R] (p1 p2 pos : QPointF R) (wn : Int)
    (h : p1.yp = p2.yp) : qt_polygon_isect_line p1 p2 pos wn = wn := by
  simp [qt_polygon_isect_line, h]

theorem isect_up {R : Type} [LinearOrderedField R] (p1 p2 pos : QPointF R) (wn : Int)
    (h : p1.yp < p2.yp) :
    qt_polygon_isect_line p1 p2 pos wn =
      if p1.yp ≤ pos.yp ∧ pos.yp < p2.yp then
        if p1.xp + (p2.xp - p1.xp) / (p2.yp - p1.yp) * (pos.yp - p1.yp) ≤ pos.xp then wn + 1
        else wn
      else wn := by
  have h1 : ¬ p2.yp < p1.yp := not_lt.mpr h.le
  simp only [qt_polygon_isect_line, h.ne, h1, if_false]

theorem isect_down {R : Type} [LinearOrderedField R] (p1 p2 pos : QPointF R) (wn : Int)
    (h : p2.yp < p1.yp) :
    qt_polygon_isect_line p1 p2 pos wn =
      if p2.yp ≤ pos.yp ∧ pos.yp < p1.yp then
        if p2.xp + (p1.xp - p2.xp) / (p1.yp - p2.yp) * (pos.yp - p2.yp) ≤ pos.xp then wn + -1
        else wn
      else wn := by
  simp only [qt_polygon_isect_line, h.ne', h, if_false, if_true]

theorem xint_between {R : Type} [LinearOrderedField R] (x1 x2 y1 y2 py : R) (hy : y1 < y2)
    (h1 : y1 ≤ py) (h2 : py < y2) :
    (x1 ≤ x2 → x1 ≤ x1 + (x2 - x1) / (y2 - y1) * (py - y1) ∧
        x1 + (x2 - x1) / (y2 - y1) * (py - y1) ≤ x2) ∧
    (x2 ≤ x1 → x2 ≤ x1 + (x2 - x1) / (y2 - y1) * (py - y1) ∧
        x1 + (x2 - x1) / (y2 - y1) * (py - y1) ≤ x1) := by
  have hd : 0 < y2 - y1 := sub_pos.mpr hy
  have e : (x2 - x1) / (y2 - y1) * (py - y1) = (x2 - x1) * ((py - y1) / (y2 - y1)) := by
    field_simp
  have t0 : 0 ≤ (py - y1) / (y2 - y1) := div_nonneg (by linarith) hd.le
  have t1 : (py - y1) / (y2 - y1) ≤ 1 := by
    rw [div_le_one hd]; linarith
  rw [e]
  generalize (py - y1) / (y2 - y1) = t at t0 t1
  constructor
  · intro hx
    constructor
    · nlinarith
    · nlinarith
  · intro hx
    constructor
    · nlinarith
    · nlinarith

theorem containsPoint_four {R : Type} [LinearOrderedField R] (a b c d pt : QPointF R) :
    QPolygonF.containsPoint [a, b, c, d] pt =
      decide (Int.tmod
        (if d ≠ a then
          qt_polygon_isect_line d a pt
            (qt_polygon_isect_line c d pt
              (qt_polygon_isect_line b c pt (qt_polygon_isect_line a b pt 0)))
         else
          qt_polygon_isect_line c d pt
            (qt_polygon_isect_line b c pt (qt_polygon_isect_line a b pt 0))) 2 ≠ 0) := rfl

theorem containsPoint_three {R : Type} [LinearOrderedField R] (a b c pt : QPointF R) :
    QPolygonF.containsPoint [a, b, c] pt =
      decide (Int.tmod
        (if c ≠ a then
          qt_polygon_isect_line c a pt
            (qt_polygon_isect_line b c pt (qt_polygon_isect_line a b pt 0))
         else
          qt_polygon_isect_line b c pt (qt_polygon_isect_line a b pt 0)) 2 ≠ 0) := rfl

theorem isect_add {R : Type} [LinearOrderedField R] (p1 p2 pos : QPointF R) (wn : Int) :
    qt_polygon_isect_line p1 p2 pos wn = wn + qt_polygon_isect_line p1 p2 pos 0 := by
  unfold qt_polygon_isect_line
  simp only
  split_ifs <;> simp

theorem diamond_contains_bounds {R : Type} [LinearOrderedField R] (x y w h : R)
    (p : QPointF R) (hw : 0 ≤ w) (hh : 0 ≤ h)
    (hc : QPolygonF.containsPoint
      [⟨x + w / 2, y⟩, ⟨x + w, y + h / 2⟩, ⟨x + w / 2, y + h⟩, ⟨x, y + h / 2⟩] p = true) :
    (w ≠ 0 ∧ h ≠ 0) ∧ (x ≤ p.xp ∧ p.xp ≤ x + w) ∧ (y ≤ p.yp ∧ p.yp ≤ y + h) := by
  rw [containsPoint_four] at hc
  rcases eq_or_lt_of_le hh with h0 | hpos
  · subst h0
    rw [isect_flat _ _ _ _ (by simp), isect_flat _ _ _ _ (by simp),
      isect_flat _ _ _ _ (by simp), isect_flat _ _ _ _ (by simp)] at hc
    simp at hc
  · have k1 : y < y + h / 2 := by linarith
    have k2 : y + h / 2 < y + h := by linarith
    have hne : (⟨x, y + h / 2⟩ : QPointF R) ≠ ⟨x + w / 2, y⟩ := by
      intro e
      injection e with e1 e2
      linarith
    rw [if_pos hne, isect_add _ _ _ (qt_polygon_isect_line _ _ _ _),
      isect_add _ _ _ (qt_polygon_isect_line _ _ _ _),
      isect_add _ _ _ (qt_polygon_isect_line _ _ _ _),
      isect_up _ _ _ _ (show (⟨x + w / 2, y⟩ : QPointF R).yp
        < (⟨x + w, y + h / 2⟩ : QPointF R).yp from k1),
      isect_up _ _ _ _ (show (⟨x + w, y + h / 2⟩ : QPointF R).yp
        < (⟨x + w / 2, y + h⟩ : QPointF R).yp from k2),
      isect_down _ _ _ _ (show (⟨x, y + h / 2⟩ : QPointF R).yp
        < (⟨x + w / 2, y + h⟩ : QPointF R).yp from k2),
      isect_down _ _ _ _ (show (⟨x + w / 2, y⟩ : QPointF R).yp
        < (⟨x, y + h / 2⟩ : QPointF R).yp from k1)] at hc
    simp only at hc
    by_cases hA : y ≤ p.yp ∧ p.yp < y + h / 2
    · have hB : ¬ (y + h / 2 ≤ p.yp ∧ p.yp < y + h) := fun hb => by linarith [hA.2, hb.1]
      have hr := (xint_between (x + w / 2) (x + w) y (y + h / 2) p.yp k1 hA.1 hA.2).1
        (by linarith)
      have hl := (xint_between (x + w / 2) x y (y + h / 2) p.yp k1 hA.1 hA.2).2
        (by linarith)
      simp only [hA, hB, and_self, if_true, if_false] at hc
      generalize x + w / 2 + (x + w - (x + w / 2)) / (y + h / 2 - y) * (p.yp - y) = xr
        at hc hr
      generalize x + w / 2 + (x - (x + w / 2)) / (y + h / 2 - y) * (p.yp - y) = xl
        at hc hl
      by_cases c1 : xr ≤ p.xp <;> by_cases c2 : xl ≤ p.xp <;>
        simp only [c1, c2, if_true, if_false] at hc
      · exact absurd hc (by decide)
      · exact absurd (le_trans (le_trans hl.2 hr.1) c1) c2
      · push_neg at c1
        refine ⟨⟨?_, hpos.ne'⟩, ⟨by linarith, by linarith⟩, ⟨hA.1, by linarith [hA.2]⟩⟩
        intro hw0
        subst hw0
        linarith
      · exact absurd hc (by decide)
    · by_cases hB : y + h / 2 ≤ p.yp ∧ p.yp < y + h
      · have hr := (xint_between (x + w) (x + w / 2) (y + h / 2) (y + h) p.yp k2 hB.1
          hB.2).2 (by linarith)
        have hl := (xint_between x (x + w / 2) (y + h / 2) (y + h) p.yp k2 hB.1 hB.2).1
          (by linarith)
        simp only [hA, hB, and_self, if_true, if_false] at hc
        generalize x + w + (x + w / 2 - (x + w)) / (y + h - (y + h / 2)) * (p.yp - (y + h / 2))
          = xr at hc hr
        generalize x + (x + w / 2 - x) / (y + h - (y + h / 2)) * (p.yp - (y + h / 2)) = xl
          at hc hl
        by_cases c1 : xr ≤ p.xp <;> by_cases c2 : xl ≤ p.xp <;>
          simp only [c1, c2, if_true, if_false] at hc
        · exact absurd hc (by decide)
        · exact absurd (le_trans (le_trans hl.2 hr.1) c1) c2
        · push_neg at c1
          refine ⟨⟨?_, hpos.ne'⟩, ⟨by linarith, by linarith⟩, ⟨by linarith [hB.1], hB.2.le⟩⟩
          intro hw0
          subst hw0
          linarith
        · exact absurd hc (by decide)
      · simp only [hA, hB, if_false] at hc
        exact absurd hc (by decide)

theorem triangle_contains_bounds {R : Type} [LinearOrderedField R] (x y w h : R)
    (p : QPointF R) (hw : 0 ≤ w) (hh : 0 ≤ h)
    (hc : QPolygonF.containsPoint
      [⟨x + w / 2, y⟩, ⟨x + w, y + h⟩, ⟨x, y + h⟩] p = true) :
    (w ≠ 0 ∧ h ≠ 0) ∧ (x ≤ p.xp ∧ p.xp ≤ x + w) ∧ (y ≤ p.yp ∧ p.yp ≤ y + h) := by
  rw [containsPoint_three] at hc
  rcases eq_or_lt_of_le hh with h0 | hpos
  · subst h0
    rw [isect_flat _ _ _ _ (by simp), isect_flat _ _ _ _ (by simp),
      isect_flat _ _ _ _ (by simp)] at hc
    simp at hc
  · have k : y < y + h := by linarith
    have hne : (⟨x, y + h⟩ : QPointF R) ≠ ⟨x + w / 2, y⟩ := by
      intro e
      injection e with e1 e2
      linarith
    rw [if_pos hne, isect_add _ _ _ (qt_polygon_isect_line _ _ _ _),
      isect_flat (⟨x + w, y + h⟩ : QPointF R) ⟨x, y + h⟩ _ _ rfl,
      isect_up _ _ _ _ (show (⟨x + w / 2, y⟩ : QPointF R).yp
        < (⟨x + w, y + h⟩ : QPointF R).yp from k),
      isect_down _ _ _ _ (show (⟨x + w / 2, y⟩ : QPointF R).yp
        < (⟨x, y + h⟩ : QPointF R).yp from k)] at hc
    simp only at hc
    by_cases hA : y ≤ p.yp ∧ p.yp < y + h
    · have hr := (xint_between (x + w / 2) (x + w) y (y + h) p.yp k hA.1 hA.2).1
        (by linarith)
      have hl := (xint_between (x + w / 2) x y (y + h) p.yp k hA.1 hA.2).2 (by linarith)
      simp only [hA, and_self, if_true] at hc
      generalize x + w / 2 + (x + w - (x + w / 2)) / (y + h - y) * (p.yp - y) = xr at hc hr
      generalize x + w / 2 + (x - (x + w / 2)) / (y + h - y) * (p.yp - y) = xl at hc hl
      by_cases c1 : xr ≤ p.xp <;> by_cases c2 : xl ≤ p.xp <;>
        simp only [c1, c2, if_true, if_false] at hc
      · exact absurd hc (by decide)
      · exact absurd (le_trans (le_trans hl.2 hr.1) c1) c2
      · push_neg at c1
        refine ⟨⟨?_, hpos.ne'⟩, ⟨by linarith, by linarith⟩, ⟨hA.1, hA.2.le⟩⟩
        intro hw0
        subst hw0
        linarith
      · exact absurd hc (by decide)
    · simp only [hA, if_false] at hc
      exact absurd hc (by decide)

theorem ellipseContains_imp {R : Type} [LinearOrderedField R] (rect : QRectF R)
    (p : QPointF R) (h : QPainterPath.ellipseContains rect p = true) :
    rect.contains p = true := by
  cases hr : rect.contains p with
  | true => rfl
  | false =>
    unfold QPainterPath.ellipseContains at h
    rw [hr] at h
    simp at h

/-! ## Moving, resizing and the factory -/

/-- C11: `moveBy(delta)` changes only the geometry-defining points.  For a box kind or Text
the position becomes position + delta and the size is unchanged; for a connector start, end
and every control point are shifted by delta, in the same order and number; and for every
kind the dynamic class, `getType()`, fill colour, line colour, line width, selection flag
and label text (and arrow style, font, text colour) are unchanged. -/
theorem moveBy_changes_only_geometry {R : Type} [LinearOrderedField R] (s : Shape R)
    (delta : QPointF R) :
    ((s.moveBy delta).kind = s.kind ∧ (s.moveBy delta).getType = s.getType ∧
      (s.moveBy delta).base.getColor = s.base.getColor ∧
      (s.moveBy delta).base.getLineColor = s.base.getLineColor ∧
      (s.moveBy delta).base.getLineWidth = s.base.getLineWidth ∧
      (s.moveBy delta).base.getSelected = s.base.getSelected ∧
      (s.moveBy delta).base.getText = s.base.getText) ∧
    (∀ r, s = Shape.rectangle r →
      s.moveBy delta = Shape.rectangle (r.moveBy delta) ∧
      (r.moveBy delta).getPos = r.getPos.add delta ∧ (r.moveBy delta).getSize = r.getSize) ∧
    (∀ r, s = Shape.ellipse r →
      s.moveBy delta = Shape.ellipse (r.moveBy delta) ∧
      (r.moveBy delta).getPos = r.getPos.add delta ∧ (r.moveBy delta).getSize = r.getSize) ∧
    (∀ r, s = Shape.diamond r →
      s.moveBy delta = Shape.diamond (r.moveBy delta) ∧
      (r.moveBy delta).getPos = r.getPos.add delta ∧ (r.moveBy delta).getSize = r.getSize) ∧
    (∀ r, s = Shape.triangle r →
      s.moveBy delta = Shape.triangle (r.moveBy delta) ∧
      (r.moveBy delta).getPos = r.getPos.add delta ∧ (r.moveBy delta).getSize = r.getSize) ∧
    (∀ t, s = Shape.text t →
      s.moveBy delta = Shape.text (t.moveBy delta) ∧
      (t.moveBy delta).getPos = t.getPos.add delta ∧ (t.moveBy delta).getSize = t.getSize ∧
      (t.moveBy delta).getFont = t.getFont ∧
      (t.moveBy delta).getTextColor = t.getTextColor) ∧
    (∀ c, s = Shape.connector c →
      s.moveBy delta = Shape.connector (c.moveBy delta) ∧
      (c.moveBy delta).getStartPoint = c.getStartPoint.add delta ∧
      (c.moveBy delta).getEndPoint = c.getEndPoint.add delta ∧
      (c.moveBy delta).getControlPoints
        = c.getControlPoints.map (fun point => point.add delta) ∧
      (c.moveBy delta).getControlPoints.length = c.getControlPoints.length ∧
      (c.moveBy delta).getArrowStyle = c.getArrowStyle) := by
  refine ⟨?_, ?_, ?_, ?_, ?_, ?_, ?_⟩
  · cases s <;> exact ⟨rfl, rfl, rfl, rfl, rfl, rfl, rfl⟩
  · rintro r rfl
    exact ⟨rfl, rfl, rfl⟩
  · rintro r rfl
    exact ⟨rfl, rfl, rfl⟩
  · rintro r rfl
    exact ⟨rfl, rfl, rfl⟩
  · rintro r rfl
    exact ⟨rfl, rfl, rfl⟩
  · rintro t rfl
    exact ⟨rfl, rfl, rfl, rfl, rfl⟩
  · rintro c rfl
    refine ⟨rfl, rfl, rfl, rfl, ?_, rfl⟩
    simp [ConnectorShape.moveBy, ConnectorShape.getControlPoints]

theorem qSqrt_zero {R : Type} [QReal R] : QReal.qSqrt (0 : R) = 0 :=
  qSqrt_unique 0 0 le_rfl (by ring)

theorem qSqrt_pos_of_pos {R : Type} [QReal R] (x : R) (hx : 0 < x) : 0 < QReal.qSqrt x := by
  rcases eq_or_lt_of_le (QReal.qSqrt_nonneg x) with h | h
  · have := QReal.qSqrt_mul_self x hx.le
    rw [← h] at this
    simp at this
    exact absurd this.symm (ne_of_gt hx)
  · exact h

/-- C13: for a connector whose start point equals its end point, `setSize` with any size
leaves the connector as it was: start, end and all control points are unchanged. -/
theorem connector_setSize_noop_when_degenerate {R : Type} [QReal R] (c : ConnectorShape R)
    (newSize : QSizeF R) (h : c.startPoint = c.endPoint) :
    c.setSize newSize = c ∧
    (c.setSize newSize).getStartPoint = c.getStartPoint ∧
    (c.setSize newSize).getEndPoint = c.getEndPoint ∧
    (c.setSize newSize).getControlPoints = c.getControlPoints := by
  have key : c.setSize newSize = c := by
    unfold ConnectorShape.setSize
    simp only [QPointF.sub, h, sub_self, mul_zero, add_zero, qSqrt_zero, gt_iff_lt,
      lt_self_iff_false, if_false]
  rw [key]
  exact ⟨rfl, rfl, rfl, rfl⟩

theorem connector_setSize_noop_when_degenerate_witness :
    (ConnectorShape.ctor : ConnectorShape ℝ).startPoint
        = (ConnectorShape.ctor : ConnectorShape ℝ).endPoint ∧
    ((ConnectorShape.ctor : ConnectorShape ℝ).setSize ⟨50, 0⟩
        = (ConnectorShape.ctor : ConnectorShape ℝ) ∧
      ((ConnectorShape.ctor : ConnectorShape ℝ).setSize ⟨50, 0⟩).getStartPoint
        = (ConnectorShape.ctor : ConnectorShape ℝ).getStartPoint ∧
      ((ConnectorShape.ctor : ConnectorShape ℝ).setSize ⟨50, 0⟩).getEndPoint
        = (ConnectorShape.ctor : ConnectorShape ℝ).getEndPoint ∧
      ((ConnectorShape.ctor : ConnectorShape ℝ).setSize ⟨50, 0⟩).getControlPoints
        = (ConnectorShape.ctor : ConnectorShape ℝ).getControlPoints) :=
  ⟨rfl, connector_setSize_noop_when_degenerate _ ⟨50, 0⟩ rfl⟩

/-- C14: `createShape(k)` returns, for each of the six kinds, a shape of the matching class
whose `getType()` is `k`, and the null pointer for `None` and for every other integer. -/
theorem createShape_by_kind {R : Type} [QRealLit R] :
    (∀ k ∈ [DiagramShape.Rectangle, DiagramShape.Ellipse, DiagramShape.Diamond,
        DiagramShape.Triangle, DiagramShape.Connector, DiagramShape.Text],
      ∃ s : Shape R, DiagramShape.createShape k = some s ∧ s.getType = k ∧ s.kind = k) ∧
    (DiagramShape.createShape DiagramShape.None : Option (Shape R)) = none ∧
    (∀ k : Int, k ∉ [DiagramShape.Rectangle, DiagramShape.Ellipse, DiagramShape.Diamond,
        DiagramShape.Triangle, DiagramShape.Connector, DiagramShape.Text] →
      (DiagramShape.createShape k : Option (Shape R)) = none) := by
  refine ⟨?_, rfl, ?_⟩
  · intro k hk
    simp only [List.mem_cons, List.mem_singleton, List.not_mem_nil, or_false] at hk
    rcases hk with rfl | rfl | rfl | rfl | rfl | rfl <;> exact ⟨_, rfl, rfl, rfl⟩
  · intro k hk
    simp only [List.mem_cons, List.mem_singleton, List.not_mem_nil, or_false, not_or] at hk
    obtain ⟨h1, h2, h3, h4, h5, h6⟩ := hk
    unfold DiagramShape.createShape
    rw [if_neg h1, if_neg h2, if_neg h3, if_neg h4, if_neg h5, if_neg h6]

/-! ## The type member -/

theorem diagramShape_load_type (b : DiagramShape QDoubleBits) (stream : QDataStream) :
    (b.load stream).1.type = (readInt32 stream).1 := by
  unfold DiagramShape.load
  generalize readInt32 stream = q1
  obtain ⟨t, s1⟩ := q1
  simp only []

theorem rectangleShape_load_base (r : RectangleShape QDoubleBits) (stream : QDataStream) :
    (r.load stream).1.toDiagramShape = (r.toDiagramShape.load stream).1 ∧
    (r.load stream).1.size = (readQSizeF (r.toDiagramShape.load stream).2).1 := by
  unfold RectangleShape.load
  generalize r.toDiagramShape.load stream = q
  obtain ⟨b, s1⟩ := q
  simp only []
  generalize readQSizeF s1 = q2
  obtain ⟨sz, s2⟩ := q2
  exact ⟨trivial, trivial⟩

theorem ellipseShape_load_base (r : EllipseShape QDoubleBits) (stream : QDataStream) :
    (r.load stream).1.toDiagramShape = (r.toDiagramShape.load stream).1 ∧
    (r.load stream).1.size = (readQSizeF (r.toDiagramShape.load stream).2).1 := by
  unfold EllipseShape.load
  generalize r.toDiagramShape.load stream = q
  obtain ⟨b, s1⟩ := q
  simp only []
  generalize readQSizeF s1 = q2
  obtain ⟨sz, s2⟩ := q2
  exact ⟨trivial, trivial⟩

theorem diamondShape_load_base (r : DiamondShape QDoubleBits) (stream : QDataStream) :
    (r.load stream).1.toDiagramShape = (r.toDiagramShape.load stream).1 ∧
    (r.load stream).1.size = (readQSizeF (r.toDiagramShape.load stream).2).1 := by
  unfold DiamondShape.load
  generalize r.toDiagramShape.load stream = q
  obtain ⟨b, s1⟩ := q
  simp only []
  generalize readQSizeF s1 = q2
  obtain ⟨sz, s2⟩ := q2
  exact ⟨trivial, trivial⟩

theorem triangleShape_load_base (r : TriangleShape QDoubleBits) (stream : QDataStream) :
    (r.load stream).1.toDiagramShape = (r.toDiagramShape.load stream).1 ∧
    (r.load stream).1.size = (readQSizeF (r.toDiagramShape.load stream).2).1 := by
  unfold TriangleShape.load
  generalize r.toDiagramShape.load stream = q
  obtain ⟨b, s1⟩ := q
  simp only []
  generalize readQSizeF s1 = q2
  obtain ⟨sz, s2⟩ := q2
  exact ⟨trivial, trivial⟩

theorem textShape_load_base (fc : QFontCodec) (r : TextShape QDoubleBits)
    (stream : QDataStream) :
    (r.load fc stream).1.toDiagramShape = (r.toDiagramShape.load stream).1 ∧
    (r.load fc stream).1.size = (readQSizeF (r.toDiagramShape.load stream).2).1 := by
  obtain ⟨w, rd⟩ := fc
  unfold TextShape.load
  generalize r.toDiagramShape.load stream = q
  obtain ⟨b, s1⟩ := q
  simp only []
  generalize readQSizeF s1 = q2
  obtain ⟨sz, s2⟩ := q2
  exact ⟨trivial, trivial⟩

theorem connectorShape_load_base (r : ConnectorShape QDoubleBits) (stream : QDataStream) :
    (r.load stream).1.toDiagramShape = (r.toDiagramShape.load stream).1 := by
  unfold ConnectorShape.load
  generalize r.toDiagramShape.load stream = q
  obtain ⟨b, s1⟩ := q
  simp only []

theorem shape_load_getType (fc : QFontCodec) (s : Shape QDoubleBits) (stream : QDataStream) :
    (s.load fc stream).1.getType = (readInt32 stream).1 ∧
      (s.load fc stream).1.kind = s.kind := by
  cases s with
  | rectangle r =>
    rw [Shape.load]
    simp only [Prod.map_fst, Shape.getType, Shape.base, Shape.kind,
      (rectangleShape_load_base r stream).1, diagramShape_load_type, and_self]
  | ellipse r =>
    rw [Shape.load]
    simp only [Prod.map_fst, Shape.getType, Shape.base, Shape.kind,
      (ellipseShape_load_base r stream).1, diagramShape_load_type, and_self]
  | diamond r =>
    rw [Shape.load]
    simp only [Prod.map_fst, Shape.getType, Shape.base, Shape.kind,
      (diamondShape_load_base r stream).1, diagramShape_load_type, and_self]
  | triangle r =>
    rw [Shape.load]
    simp only [Prod.map_fst, Shape.getType, Shape.base, Shape.kind,
      (triangleShape_load_base r stream).1, diagramShape_load_type, and_self]
  | connector r =>
    rw [Shape.load]
    simp only [Prod.map_fst, Shape.getType, Shape.base, Shape.kind,
      connectorShape_load_base r stream, diagramShape_load_type, and_self]
  | text r =>
    rw [Shape.load]
    simp only [Prod.map_fst, Shape.getType, Shape.base, Shape.kind,
      (textShape_load_base fc r stream).1, diagramShape_load_type, and_self]

set_option maxRecDepth 100000 in
/-- C15 (as stated, refuted): a freshly constructed Rectangle has `getType()` Rectangle;
after it loads the record written by a freshly constructed Ellipse its `getType()` is
Ellipse. -/
theorem load_changes_getType :
    (Shape.rectangle (RectangleShape.ctor : RectangleShape QDoubleBits)).getType
      = DiagramShape.Rectangle ∧
    ((Shape.rectangle (RectangleShape.ctor : RectangleShape QDoubleBits)).load simpleFontCodec
        ⟨(EllipseShape.ctor : EllipseShape QDoubleBits).save [], Status.Ok⟩).1.getType
      = DiagramShape.Ellipse ∧
    DiagramShape.Ellipse ≠ DiagramShape.Rectangle := by
  decide

/-- C15, as the code has it: the setters, `moveBy` and `setSize` leave `getType()`
unchanged; `load` keeps the class of the object and sets `getType()` to the integer tag it
reads from the stream. -/
theorem getType_changed_only_by_load :
    (∀ (R : Type) [QReal R] (s : Shape R),
      (∀ pos, (s.setPos pos).getType = s.getType) ∧
      (∀ b, (s.setSelected b).getType = s.getType) ∧
      (∀ col, (s.setColor col).getType = s.getType) ∧
      (∀ col, (s.setLineColor col).getType = s.getType) ∧
      (∀ w, (s.setLineWidth w).getType = s.getType) ∧
      (∀ t, (s.setText t).getType = s.getType) ∧
      (∀ delta, (s.moveBy delta).getType = s.getType) ∧
      (∀ sz, (s.setSize sz).getType = s.getType)) ∧
    (∀ (R : Type) [QReal R] (c : ConnectorShape R),
      (∀ p, (c.setStartPoint p).getType = c.getType) ∧
      (∀ p, (c.setEndPoint p).getType = c.getType) ∧
      (∀ a, (c.setArrowStyle a).getType = c.getType) ∧
      (∀ p, (c.addControlPoint p).getType = c.getType) ∧
      c.clearControlPoints.getType = c.getType) ∧
    (∀ (R : Type) [QReal R] (t : TextShape R),
      (∀ fm f, (t.setFont fm f).getType = t.getType) ∧
      (∀ col, (t.setTextColor col).getType = t.getType)) ∧
    (∀ (fc : QFontCodec) (s : Shape QDoubleBits) (stream : QDataStream),
      (s.load fc stream).1.getType = (readInt32 stream).1 ∧
      (s.load fc stream).1.kind = s.kind) := by
  refine ⟨?_, ?_, ?_, shape_load_getType⟩
  · intro R _ s
    refine ⟨?_, ?_, ?_, ?_, ?_, ?_, ?_, ?_⟩
    · intro pos; cases s <;> rfl
    · intro b; cases s <;> rfl
    · intro col; cases s <;> rfl
    · intro col; cases s <;> rfl
    · intro w; cases s <;> rfl
    · intro t; cases s <;> rfl
    · intro delta; cases s <;> rfl
    · intro sz
      cases s with
      | connector c =>
        show (c.setSize sz).type = c.type
        unfold ConnectorShape.setSize
        simp only
        split_ifs <;> rfl
      | rectangle r => rfl
      | ellipse r => rfl
      | diamond r => rfl
      | triangle r => rfl
      | text r => rfl
  · intro R _ c
    exact ⟨fun _ => rfl, fun _ => rfl, fun _ => rfl, fun _ => rfl, rfl⟩
  · intro R _ t
    refine ⟨?_, fun _ => rfl⟩
    intro fm f
    show (t.setFont fm f).type = t.type
    unfold TextShape.setFont
    simp only
    split_ifs <;> rfl

/-! ## Exact hit regions of the triangle and the diamond -/

theorem triangle_contains_iff {R : Type} [LinearOrderedField R] (x y w h : R)
    (p : QPointF R) (hw : 0 ≤ w) (hh : 0 < h) :
    QPolygonF.containsPoint [⟨x + w / 2, y⟩, ⟨x + w, y + h⟩, ⟨x, y + h⟩] p = true ↔
      (y ≤ p.yp ∧ p.yp < y + h) ∧
      x + w / 2 + (x - (x + w / 2)) / (y + h - y) * (p.yp - y) ≤ p.xp ∧
      p.xp < x + w / 2 + (x + w - (x + w / 2)) / (y + h - y) * (p.yp - y) := by
  rw [containsPoint_three]
  have k : y < y + h := by linarith
  have hne : (⟨x, y + h⟩ : QPointF R) ≠ ⟨x + w / 2, y⟩ := by
    intro e
    injection e with e1 e2
    linarith
  rw [if_pos hne, isect_add _ _ _ (qt_polygon_isect_line _ _ _ _),
    isect_flat (⟨x + w, y + h⟩ : QPointF R) ⟨x, y + h⟩ _ _ rfl,
    isect_up _ _ _ _ (show (⟨x + w / 2, y⟩ : QPointF R).yp
      < (⟨x + w, y + h⟩ : QPointF R).yp from k),
    isect_down _ _ _ _ (show (⟨x + w / 2, y⟩ : QPointF R).yp
      < (⟨x, y + h⟩ : QPointF R).yp from k)]
  simp only
  by_cases hA : y ≤ p.yp ∧ p.yp < y + h
  · have hr := (xint_between (x + w / 2) (x + w) y (y + h) p.yp k hA.1 hA.2).1
      (by linarith)
    have hl := (xint_between (x + w / 2) x y (y + h) p.yp k hA.1 hA.2).2 (by linarith)
    simp only [hA, and_self, if_true, true_and]
    generalize x + w / 2 + (x + w - (x + w / 2)) / (y + h - y) * (p.yp - y) = xr at hr
    generalize x + w / 2 + (x - (x + w / 2)) / (y + h - y) * (p.yp - y) = xl at hl
    by_cases c1 : xr ≤ p.xp <;> by_cases c2 : xl ≤ p.xp <;>
      simp only [c1, c2, if_true, if_false, not_lt.mpr, true_and, false_and]
    · simp [not_lt.mpr c1]
    · exact absurd (le_trans (le_trans hl.2 hr.1) c1) c2
    · simp [not_le.mp c1]
      decide
    · simp
  · simp only [hA, if_false, false_and]
    simp

theorem diamond_contains_iff {R : Type} [LinearOrderedField R] (x y w h : R)
    (p : QPointF R) (hw : 0 ≤ w) (hh : 0 < h) :
    QPolygonF.containsPoint
        [⟨x + w / 2, y⟩, ⟨x + w, y + h / 2⟩, ⟨x + w / 2, y + h⟩, ⟨x, y + h / 2⟩] p = true ↔
      ((y ≤ p.yp ∧ p.yp < y + h / 2) ∧
        x + w / 2 + (x - (x + w / 2)) / (y + h / 2 - y) * (p.yp - y) ≤ p.xp ∧
        p.xp < x + w / 2 + (x + w - (x + w / 2)) / (y + h / 2 - y) * (p.yp - y)) ∨
      ((y + h / 2 ≤ p.yp ∧ p.yp < y + h) ∧
        x + (x + w / 2 - x) / (y + h - (y + h / 2)) * (p.yp - (y + h / 2)) ≤ p.xp ∧
        p.xp < x + w + (x + w / 2 - (x + w)) / (y + h - (y + h / 2))
          * (p.yp - (y + h / 2))) := by
  rw [containsPoint_four]
  have k1 : y < y + h / 2 := by linarith
  have k2 : y + h / 2 < y + h := by linarith
  have hne : (⟨x, y + h / 2⟩ : QPointF R) ≠ ⟨x + w / 2, y⟩ := by
    intro e
    injection e with e1 e2
    linarith
  rw [if_pos hne, isect_add _ _ _ (qt_polygon_isect_line _ _ _ _),
    isect_add _ _ _ (qt_polygon_isect_line _ _ _ _),
    isect_add _ _ _ (qt_polygon_isect_line _ _ _ _),
    isect_up _ _ _ _ (show (⟨x + w / 2, y⟩ : QPointF R).yp
      < (⟨x + w, y + h / 2⟩ : QPointF R).yp from k1),
    isect_up _ _ _ _ (show (⟨x + w, y + h / 2⟩ : QPointF R).yp
      < (⟨x + w / 2, y + h⟩ : QPointF R).yp from k2),
    isect_down _ _ _ _ (show (⟨x, y + h / 2⟩ : QPointF R).yp
      < (⟨x + w / 2, y + h⟩ : QPointF R).yp from k2),
    isect_down _ _ _ _ (show (⟨x + w / 2, y⟩ : QPointF R).yp
      < (⟨x, y + h / 2⟩ : QPointF R).yp from k1)]
  simp only
  by_cases hA : y ≤ p.yp ∧ p.yp < y + h / 2
  · have hB : ¬ (y + h / 2 ≤ p.yp ∧ p.yp < y + h) := fun hb => by linarith [hA.2, hb.1]
    have hr := (xint_between (x + w / 2) (x + w) y (y + h / 2) p.yp k1 hA.1 hA.2).1
      (by linarith)
    have hl := (xint_between (x + w / 2) x y (y + h / 2) p.yp k1 hA.1 hA.2).2
      (by linarith)
    simp only [hA, hB, and_self, if_true, if_false, true_and, false_and, or_false]
    generalize x + w / 2 + (x + w - (x + w / 2)) / (y + h / 2 - y) * (p.yp - y) = xr at hr
    generalize x + w / 2 + (x - (x + w / 2)) / (y + h / 2 - y) * (p.yp - y) = xl at hl
    by_cases c1 : xr ≤ p.xp <;> by_cases c2 : xl ≤ p.xp <;>
      simp only [c1, c2, if_true, if_false, true_and, false_and]
    · simp [not_lt.mpr c1]
    · exact absurd (le_trans (le_trans hl.2 hr.1) c1) c2
    · simp [not_le.mp c1]
      decide
    · simp
  · by_cases hB : y + h / 2 ≤ p.yp ∧ p.yp < y + h
    · have hr := (xint_between (x + w) (x + w / 2) (y + h / 2) (y + h) p.yp k2 hB.1
        hB.2).2 (by linarith)
      have hl := (xint_between x (x + w / 2) (y + h / 2) (y + h) p.yp k2 hB.1 hB.2).1
        (by linarith)
      simp only [hA, hB, and_self, if_true, if_false, true_and, false_and, false_or]
      generalize x + w + (x + w / 2 - (x + w)) / (y + h - (y + h / 2)) * (p.yp - (y + h / 2))
        = xr at hr
      generalize x + (x + w / 2 - x) / (y + h - (y + h / 2)) * (p.yp - (y + h / 2)) = xl
        at hl
      by_cases c1 : xr ≤ p.xp <;> by_cases c2 : xl ≤ p.xp <;>
        simp only [c1, c2, if_true, if_false, true_and, false_and]
      · simp [not_lt.mpr c1]
      · exact absurd (le_trans (le_trans hl.2 hr.1) c1) c2
      · simp [not_le.mp c1]
        decide
      · simp
    · simp only [hA, hB, if_false, false_and, or_false]
      simp

theorem rect_corner_true {R : Type} [LinearOrderedField R] (r : QRectF R) (p : QPointF R)
    (hw : 0 < r.w) (hh : 0 < r.h) (hx : p.xp = r.xp ∨ p.xp = r.xp + r.w)
    (hy : p.yp = r.yp ∨ p.yp = r.yp + r.h) : r.contains p = true := by
  rw [QRectF_contains_iff r p hw.le hh.le]
  refine ⟨⟨hw.ne', hh.ne'⟩, ⟨?_, ?_⟩, ⟨?_, ?_⟩⟩
  · rcases hx with e | e <;> linarith
  · rcases hx with e | e <;> linarith
  · rcases hy with e | e <;> linarith
  · rcases hy with e | e <;> linarith

theorem ellipse_corner_false {R : Type} [LinearOrderedField R] (r : QRectF R) (p : QPointF R)
    (hw : 0 < r.w) (hh : 0 < r.h) (hx : p.xp = r.xp ∨ p.xp = r.xp + r.w)
    (hy : p.yp = r.yp ∨ p.yp = r.yp + r.h) : QPainterPath.ellipseContains r p = false := by
  have hP : 0 < r.w / 2 * (r.w / 2) * (r.h / 2 * (r.h / 2)) := by positivity
  have hdx : (p.xp - r.center.xp) * (p.xp - r.center.xp) = r.w / 2 * (r.w / 2) := by
    rcases hx with e | e <;> rw [e] <;> simp only [QRectF.center] <;> ring
  have hdy : (p.yp - r.center.yp) * (p.yp - r.center.yp) = r.h / 2 * (r.h / 2) := by
    rcases hy with e | e <;> rw [e] <;> simp only [QRectF.center] <;> ring
  unfold QPainterPath.ellipseContains
  simp only [hdx, hdy]
  split_ifs
  · rfl
  · rfl
  · rw [decide_eq_false_iff_not, not_le]
    linarith

theorem diamond_corner_false {R : Type} [LinearOrderedField R] (x y w h : R) (p : QPointF R)
    (hw : 0 < w) (hh : 0 < h) (hx : p.xp = x ∨ p.xp = x + w) (hy : p.yp = y ∨ p.yp = y + h) :
    QPolygonF.containsPoint
      [⟨x + w / 2, y⟩, ⟨x + w, y + h / 2⟩, ⟨x + w / 2, y + h⟩, ⟨x, y + h / 2⟩] p = false := by
  rw [Bool.eq_false_iff, Ne, diamond_contains_iff x y w h p hw.le hh]
  rintro (⟨⟨h1, h2⟩, h3, h4⟩ | ⟨⟨h1, h2⟩, h3, h4⟩)
  · rcases hy with e | e
    · rw [e] at h3 h4
      simp only [sub_self, mul_zero, add_zero] at h3 h4
      rcases hx with e2 | e2 <;> rw [e2] at h3 h4 <;> linarith
    · rw [e] at h2
      linarith
  · rcases hy with e | e
    · rw [e] at h1
      linarith
    · rw [e] at h2
      linarith

theorem triangle_corner_false {R : Type} [LinearOrderedField R] (x y w h : R)
    (p : QPointF R) (hw : 0 < w) (hh : 0 < h) (hx : p.xp = x ∨ p.xp = x + w)
    (hy : p.yp = y ∨ p.yp = y + h) :
    QPolygonF.containsPoint [⟨x + w / 2, y⟩, ⟨x + w, y + h⟩, ⟨x, y + h⟩] p = false := by
  rw [Bool.eq_false_iff, Ne, triangle_contains_iff x y w h p hw.le hh]
  rintro ⟨⟨h1, h2⟩, h3, h4⟩
  rcases hy with e | e
  · rw [e] at h3 h4
    simp only [sub_self, mul_zero, add_zero] at h3 h4
    rcases hx with e2 | e2 <;> rw [e2] at h3 h4 <;> linarith
  · rw [e] at h2
    linarith

/-- C16 (as stated, refuted): the Ellipse at (0,0) with size (120,80) does not contain the
top-left corner (0,0) of its bounding rectangle. -/
theorem ellipse_misses_corner :
    (0 : ℚ) < Example.ellipse.getSize.wd ∧ (0 : ℚ) < Example.ellipse.getSize.ht ∧
      Example.ellipse.boundingRect.topLeft = ⟨0, 0⟩ ∧
      Example.ellipse.contains Example.ellipse.boundingRect.topLeft = false := by
  refine ⟨by decide, by decide, rfl, ?_⟩
  exact ellipse_corner_false _ _ (by decide) (by decide) (Or.inl rfl) (Or.inl rfl)

/-- C17 (as stated, refuted): `setSize((-5, -3))` on a freshly constructed Rectangle leaves
`getSize()` with negative width and height. -/
theorem setSize_accepts_negative :
    ((RectangleShape.ctor : RectangleShape ℚ).setSize ⟨-5, -3⟩).getSize = ⟨-5, -3⟩ ∧
    ((RectangleShape.ctor : RectangleShape ℚ).setSize ⟨-5, -3⟩).getSize.wd < 0 ∧
    ((RectangleShape.ctor : RectangleShape ℚ).setSize ⟨-5, -3⟩).getSize.ht < 0 := by
  refine ⟨rfl, ?_, ?_⟩
  · show (-5 : ℚ) < 0
    norm_num
  · show (-3 : ℚ) < 0
    norm_num

/-- C17, as the code has it: sizes are not validated.  For a box-kind or Text shape,
`getSize()` after `setSize(sz)` is `sz`, so it is non-negative when `sz` is; `moveBy` and
the setters of the base class leave `getSize()` unchanged; a factory-made shape has positive
width and height; `load` stores the size it reads from the record; `TextShape::setFont`
leaves the size alone when the label is empty and otherwise replaces it by the metrics of
the label in the new font, padded by 20 and 10, which is non-negative when the padded
metrics are; and `TextShape::setTextColor` leaves the size unchanged. -/
theorem box_size_is_last_value_stored {R : Type} [QReal R] (s : Shape R)
    (hk : s.kind ≠ DiagramShape.Connector) :
    (∀ sz, (s.setSize sz).getSize = sz) ∧
    (∀ sz : QSizeF R, 0 ≤ sz.wd → 0 ≤ sz.ht →
      0 ≤ (s.setSize sz).getSize.wd ∧ 0 ≤ (s.setSize sz).getSize.ht) ∧
    (∀ delta, (s.moveBy delta).getSize = s.getSize) ∧
    (∀ pos, (s.setPos pos).getSize = s.getSize) ∧
    (∀ b, (s.setSelected b).getSize = s.getSize) ∧
    (∀ col, (s.setColor col).getSize = s.getSize) ∧
    (∀ col, (s.setLineColor col).getSize = s.getSize) ∧
    (∀ w, (s.setLineWidth w).getSize = s.getSize) ∧
    (∀ t, (s.setText t).getSize = s.getSize) ∧
    (∀ (k : Int) (fresh : Shape R), DiagramShape.createShape k = some fresh →
      fresh.kind ≠ DiagramShape.Connector →
      0 < fresh.getSize.wd ∧ 0 < fresh.getSize.ht) ∧
    (∀ (fc : QFontCodec) (stream : QDataStream),
      (∀ r : RectangleShape QDoubleBits,
        (r.load stream).1.getSize = (readQSizeF (r.toDiagramShape.load stream).2).1) ∧
      (∀ r : EllipseShape QDoubleBits,
        (r.load stream).1.getSize = (readQSizeF (r.toDiagramShape.load stream).2).1) ∧
      (∀ r : DiamondShape QDoubleBits,
        (r.load stream).1.getSize = (readQSizeF (r.toDiagramShape.load stream).2).1) ∧
      (∀ r : TriangleShape QDoubleBits,
        (r.load stream).1.getSize = (readQSizeF (r.toDiagramShape.load stream).2).1) ∧
      (∀ r : TextShape QDoubleBits,
        (r.load fc stream).1.getSize = (readQSizeF (r.toDiagramShape.load stream).2).1)) ∧
    (∀ (fm : QFont → QString → QSize) (t : TextShape R) (newFont : QFont),
      (t.setFont fm newFont).getSize =
        if t.m_text.isEmpty then t.getSize
        else ⟨(((fm newFont t.m_text).wd + 20 : Int) : R),
          (((fm newFont t.m_text).ht + 10 : Int) : R)⟩) ∧
    (∀ (fm : QFont → QString → QSize) (t : TextShape R) (newFont : QFont),
      t.m_text.isEmpty = false →
      0 ≤ (fm newFont t.m_text).wd + 20 → 0 ≤ (fm newFont t.m_text).ht + 10 →
      0 ≤ (t.setFont fm newFont).getSize.wd ∧ 0 ≤ (t.setFont fm newFont).getSize.ht) ∧
    (∀ (t : TextShape R) (color : QColor), (t.setTextColor color).getSize = t.getSize) := by
  have hset : ∀ sz, (s.setSize sz).getSize = sz := by
    intro sz
    cases s with
    | connector c => exact absurd rfl hk
    | rectangle r => rfl
    | ellipse r => rfl
    | diamond r => rfl
    | triangle r => rfl
    | text r => rfl
  have hfont : ∀ (fm : QFont → QString → QSize) (t : TextShape R) (newFont : QFont),
      (t.setFont fm newFont).getSize =
        if t.m_text.isEmpty then t.getSize
        else ⟨(((fm newFont t.m_text).wd + 20 : Int) : R),
          (((fm newFont t.m_text).ht + 10 : Int) : R)⟩ := by
    intro fm t newFont
    unfold TextShape.setFont TextShape.calculateTextSize TextShape.getSize
    cases ht : t.m_text.isEmpty <;> simp [ht]
  refine ⟨hset, ?_, ?_, ?_, ?_, ?_, ?_, ?_, ?_, ?_, ?_, hfont, ?_, fun t color => rfl⟩
  rotate_right
  · intro fm t newFont ht h1 h2
    rw [hfont fm t newFont, ht]
    simp only [Bool.false_eq_true, if_false]
    exact ⟨by exact_mod_cast h1, by exact_mod_cast h2⟩
  · intro sz h1 h2
    rw [hset sz]
    exact ⟨h1, h2⟩
  · intro delta
    cases s with
    | connector c => exact absurd rfl hk
    | rectangle r => rfl
    | ellipse r => rfl
    | diamond r => rfl
    | triangle r => rfl
    | text r => rfl
  · intro pos; cases s <;> rfl
  · intro b; cases s <;> rfl
  · intro col; cases s <;> rfl
  · intro col; cases s <;> rfl
  · intro w; cases s <;> rfl
  · intro t; cases s <;> rfl
  · intro k fresh hf hkf
    unfold DiagramShape.createShape at hf
    have h120 : (0 : R) < ((120 : ℕ) : R) := by norm_num
    have h80 : (0 : R) < ((80 : ℕ) : R) := by norm_num
    have h100 : (0 : R) < ((100 : ℕ) : R) := by norm_num
    have h30 : (0 : R) < ((30 : ℕ) : R) := by norm_num
    split_ifs at hf <;> cases hf
    · exact ⟨h120, h80⟩
    · exact ⟨h120, h80⟩
    · exact ⟨h120, h80⟩
    · exact ⟨h120, h80⟩
    · exact absurd rfl hkf
    · exact ⟨h100, h30⟩
  · intro fc stream
    exact ⟨fun r => (rectangleShape_load_base r stream).2,
      fun r => (ellipseShape_load_base r stream).2,
      fun r => (diamondShape_load_base r stream).2,
      fun r => (triangleShape_load_base r stream).2,
      fun r => (textShape_load_base fc r stream).2⟩

theorem box_size_is_last_value_stored_witness :
    (Shape.rectangle Example.box).kind ≠ DiagramShape.Connector ∧
    ((∀ sz, ((Shape.rectangle Example.box).setSize sz).getSize = sz) ∧
     (∀ sz : QSizeF ℝ, 0 ≤ sz.wd → 0 ≤ sz.ht →
       0 ≤ ((Shape.rectangle Example.box).setSize sz).getSize.wd ∧
       0 ≤ ((Shape.rectangle Example.box).setSize sz).getSize.ht) ∧
     (∀ delta, ((Shape.rectangle Example.box).moveBy delta).getSize
       = (Shape.rectangle Example.box).getSize) ∧
     (∀ pos, ((Shape.rectangle Example.box).setPos pos).getSize
       = (Shape.rectangle Example.box).getSize) ∧
     (∀ b, ((Shape.rectangle Example.box).setSelected b).getSize
       = (Shape.rectangle Example.box).getSize) ∧
     (∀ col, ((Shape.rectangle Example.box).setColor col).getSize
       = (Shape.rectangle Example.box).getSize) ∧
     (∀ col, ((Shape.rectangle Example.box).setLineColor col).getSize
       = (Shape.rectangle Example.box).getSize) ∧
     (∀ w, ((Shape.rectangle Example.box).setLineWidth w).getSize
       = (Shape.rectangle Example.box).getSize) ∧
     (∀ t, ((Shape.rectangle Example.box).setText t).getSize
       = (Shape.rectangle Example.box).getSize) ∧
     (∀ (k : Int) (fresh : Shape ℝ), DiagramShape.createShape k = some fresh →
       fresh.kind ≠ DiagramShape.Connector →
       0 < fresh.getSize.wd ∧ 0 < fresh.getSize.ht) ∧
     (∀ (fc : QFontCodec) (stream : QDataStream),
       (∀ r : RectangleShape QDoubleBits,
         (r.load stream).1.getSize = (readQSizeF (r.toDiagramShape.load stream).2).1) ∧
       (∀ r : EllipseShape QDoubleBits,
         (r.load stream).1.getSize = (readQSizeF (r.toDiagramShape.load stream).2).1) ∧
       (∀ r : DiamondShape QDoubleBits,
         (r.load stream).1.getSize = (readQSizeF (r.toDiagramShape.load stream).2).1) ∧
       (∀ r : TriangleShape QDoubleBits,
         (r.load stream).1.getSize = (readQSizeF (r.toDiagramShape.load stream).2).1) ∧
       (∀ r : TextShape QDoubleBits,
         (r.load fc stream).1.getSize = (readQSizeF (r.toDiagramShape.load stream).2).1)) ∧
     (∀ (fm : QFont → QString → QSize) (t : TextShape ℝ) (newFont : QFont),
       (t.setFont fm newFont).getSize =
         if t.m_text.isEmpty then t.getSize
         else ⟨(((fm newFont t.m_text).wd + 20 : Int) : ℝ),
           (((fm newFont t.m_text).ht + 10 : Int) : ℝ)⟩) ∧
     (∀ (fm : QFont → QString → QSize) (t : TextShape ℝ) (newFont : QFont),
       t.m_text.isEmpty = false →
       0 ≤ (fm newFont t.m_text).wd + 20 → 0 ≤ (fm newFont t.m_text).ht + 10 →
       0 ≤ (t.setFont fm newFont).getSize.wd ∧ 0 ≤ (t.setFont fm newFont).getSize.ht) ∧
     (∀ (t : TextShape ℝ) (color : QColor), (t.setTextColor color).getSize = t.getSize)) :=
  ⟨by decide, box_size_is_last_value_stored (Shape.rectangle Example.box) (by decide)⟩

/-! ## Layout of the stream -/

theorem rectangleShape_save_eq (r : RectangleShape QDoubleBits) (out : List Byte) :
    r.save out = out ++ (r.toDiagramShape.save [] ++ writeQSizeF r.size) := by
  unfold RectangleShape.save
  simp only []
  rw [diagramShape_save_eq, diagramShape_save_eq r.toDiagramShape []]
  simp only [List.nil_append, List.append_assoc]

theorem ellipseShape_save_eq (r : EllipseShape QDoubleBits) (out : List Byte) :
    r.save out = out ++ (r.toDiagramShape.save [] ++ writeQSizeF r.size) := by
  unfold EllipseShape.save
  simp only []
  rw [diagramShape_save_eq, diagramShape_save_eq r.toDiagramShape []]
  simp only [List.nil_append, List.append_assoc]

theorem diamondShape_save_eq (r : DiamondShape QDoubleBits) (out : List Byte) :
    r.save out = out ++ (r.toDiagramShape.save [] ++ writeQSizeF r.size) := by
  unfold DiamondShape.save
  simp only []
  rw [diagramShape_save_eq, diagramShape_save_eq r.toDiagramShape []]
  simp only [List.nil_append, List.append_assoc]

theorem triangleShape_save_eq (r : TriangleShape QDoubleBits) (out : List Byte) :
    r.save out = out ++ (r.toDiagramShape.save [] ++ writeQSizeF r.size) := by
  unfold TriangleShape.save
  simp only []
  rw [diagramShape_save_eq, diagramShape_save_eq r.toDiagramShape []]
  simp only [List.nil_append, List.append_assoc]

theorem textShape_save_eq (fc : QFontCodec) (t : TextShape QDoubleBits) (out : List Byte) :
    t.save fc out = out ++ (t.toDiagramShape.save [] ++ writeQSizeF t.size ++
      fc.write t.font ++ writeQColor t.textColor) := by
  unfold TextShape.save
  simp only []
  rw [diagramShape_save_eq, diagramShape_save_eq t.toDiagramShape []]
  simp only [List.nil_append, List.append_assoc]

theorem savePoints_eq_pointsRecord (pts : List (QPointF QDoubleBits)) (out : List Byte) :
    ConnectorShape.savePoints pts out = out ++ pointsRecord pts := by
  induction pts generalizing out with
  | nil => simp [ConnectorShape.savePoints, pointsRecord]
  | cons p rest ih =>
    simp only [ConnectorShape.savePoints, pointsRecord]
    rw [ih, List.append_assoc]

theorem connectorShape_save_eq (c : ConnectorShape QDoubleBits) (out : List Byte) :
    c.save out = out ++ (c.toDiagramShape.save [] ++ writeQPointF c.startPoint ++
      writeQPointF c.endPoint ++ writeInt32 c.arrowStyle ++
      writeInt32 c.controlPoints.length ++ pointsRecord c.controlPoints) := by
  unfold ConnectorShape.save
  simp only []
  rw [savePoints_eq_pointsRecord, diagramShape_save_eq,
    diagramShape_save_eq c.toDiagramShape []]
  simp only [List.nil_append, List.append_assoc]

set_option maxRecDepth 100000 in
/-- C19 (as stated, refuted): the record `save` writes for the connector from (0,0) to
(100,0) with two control points and arrow style Both is not the one with the arrow style
after the control points. -/
theorem connector_record_not_as_listed :
    Example.connector.save [] ≠ claimedConnectorRecord Example.connector := by
  decide

/-- C19, as the code has it: every record is the `type` tag, position, fill colour, line
colour, line width, selection flag and label text, followed by the size for a box kind; by
start, end, arrow style, control-point count and the control points for a Connector; by
size, font and text colour for Text. -/
theorem shape_record_layout :
    (∀ b : DiagramShape QDoubleBits,
      b.save [] = writeInt32 b.type ++ writeQPointF b.position ++ writeQColor b.shapeColor ++
        writeQColor b.lineColor ++ writeInt32 b.lineWidth ++ writeBool b.isSelected ++
        writeQString b.m_text) ∧
    (∀ r : RectangleShape QDoubleBits,
      r.save [] = r.toDiagramShape.save [] ++ writeQSizeF r.size) ∧
    (∀ r : EllipseShape QDoubleBits,
      r.save [] = r.toDiagramShape.save [] ++ writeQSizeF r.size) ∧
    (∀ r : DiamondShape QDoubleBits,
      r.save [] = r.toDiagramShape.save [] ++ writeQSizeF r.size) ∧
    (∀ r : TriangleShape QDoubleBits,
      r.save [] = r.toDiagramShape.save [] ++ writeQSizeF r.size) ∧
    (∀ c : ConnectorShape QDoubleBits,
      c.save [] = c.toDiagramShape.save [] ++ writeQPointF c.startPoint ++
        writeQPointF c.endPoint ++ writeInt32 c.arrowStyle ++
        writeInt32 (c.controlPoints.length : Int) ++ pointsRecord c.controlPoints) ∧
    (∀ (fc : QFontCodec) (t : TextShape QDoubleBits),
      t.save fc [] = t.toDiagramShape.save [] ++ writeQSizeF t.size ++ fc.write t.font ++
        writeQColor t.textColor) := by
  refine ⟨?_, ?_, ?_, ?_, ?_, ?_, ?_⟩
  · intro b
    rw [diagramShape_save_eq]
    simp only [List.nil_append, List.append_assoc]
  · intro r
    rw [rectangleShape_save_eq]
    simp only [List.nil_append]
  · intro r
    rw [ellipseShape_save_eq]
    simp only [List.nil_append]
  · intro r
    rw [diamondShape_save_eq]
    simp only [List.nil_append]
  · intro r
    rw [triangleShape_save_eq]
    simp only [List.nil_append]
  · intro c
    rw [connectorShape_save_eq]
    simp only [List.nil_append]
  · intro fc t
    rw [textShape_save_eq]
    simp only [List.nil_append]

/-! ## The arrowhead -/

theorem lin_le_iff {R : Type} [LinearOrderedField R] (a n d c px : R) (hd : 0 < d) :
    a + n / d * c ≤ px ↔ 0 ≤ d * (px - a) - n * c := by
  have e : n / d * c = n * c / d := by ring
  rw [e, ← le_sub_iff_add_le', div_le_iff₀ hd, sub_nonneg, mul_comm d]

theorem lin_lt_iff {R : Type} [LinearOrderedField R] (a n d c px : R) (hd : 0 < d) :
    px < a + n / d * c ↔ 0 < n * c - d * (px - a) := by
  have e : n / d * c = n * c / d := by ring
  rw [e, ← sub_lt_iff_lt_add', lt_div_iff₀ hd, sub_pos, mul_comm d]

theorem diamond_contains_sides {R : Type} [LinearOrderedField R] (x y w h : R)
    (p : QPointF R) (hw : 0 < w) (hh : 0 < h) :
    QPolygonF.containsPoint (sideMidpoints ⟨x, y, w, h⟩) p = true ↔
      ((y ≤ p.yp ∧ p.yp < y + h / 2) ∧
        0 ≤ edgeSide ⟨x, y + h / 2⟩ ⟨x + w / 2, y⟩ p ∧
        0 < edgeSide ⟨x + w / 2, y⟩ ⟨x + w, y + h / 2⟩ p) ∨
      ((y + h / 2 ≤ p.yp ∧ p.yp < y + h) ∧
        0 ≤ edgeSide ⟨x + w / 2, y + h⟩ ⟨x, y + h / 2⟩ p ∧
        0 < edgeSide ⟨x + w, y + h / 2⟩ ⟨x + w / 2, y + h⟩ p) := by
  have hd1 : 0 < y + h / 2 - y := by linarith
  have hd2 : 0 < y + h - (y + h / 2) := by linarith
  show QPolygonF.containsPoint
    [⟨x + w / 2, y⟩, ⟨x + w, y + h / 2⟩, ⟨x + w / 2, y + h⟩, ⟨x, y + h / 2⟩] p = true ↔ _
  rw [diamond_contains_iff x y w h p hw.le hh, lin_le_iff _ _ _ _ _ hd1,
    lin_lt_iff _ _ _ _ _ hd1, lin_le_iff _ _ _ _ _ hd2, lin_lt_iff _ _ _ _ _ hd2]
  have e1 : (y + h / 2 - y) * (p.xp - (x + w / 2)) - (x - (x + w / 2)) * (p.yp - y)
      = edgeSide ⟨x, y + h / 2⟩ ⟨x + w / 2, y⟩ p := by
    simp only [edgeSide]
    ring
  have e2 : (x + w - (x + w / 2)) * (p.yp - y) - (y + h / 2 - y) * (p.xp - (x + w / 2))
      = edgeSide ⟨x + w / 2, y⟩ ⟨x + w, y + h / 2⟩ p := by
    simp only [edgeSide]
  have e3 : (y + h - (y + h / 2)) * (p.xp - x) - (x + w / 2 - x) * (p.yp - (y + h / 2))
      = edgeSide ⟨x + w / 2, y + h⟩ ⟨x, y + h / 2⟩ p := by
    simp only [edgeSide]
    ring
  have e4 : (x + w / 2 - (x + w)) * (p.yp - (y + h / 2))
        - (y + h - (y + h / 2)) * (p.xp - (x + w))
      = edgeSide ⟨x + w, y + h / 2⟩ ⟨x + w / 2, y + h⟩ p := by
    simp only [edgeSide]
  rw [e1, e2, e3, e4]

theorem triangle_contains_sides {R : Type} [LinearOrderedField R] (x y w h : R)
    (p : QPointF R) (hw : 0 < w) (hh : 0 < h) :
    QPolygonF.containsPoint (apexAndBase ⟨x, y, w, h⟩) p = true ↔
      (y ≤ p.yp ∧ p.yp < y + h) ∧
        0 ≤ edgeSide ⟨x, y + h⟩ ⟨x + w / 2, y⟩ p ∧
        0 < edgeSide ⟨x + w / 2, y⟩ ⟨x + w, y + h⟩ p := by
  have hd1 : 0 < y + h - y := by linarith
  show QPolygonF.containsPoint [⟨x + w / 2, y⟩, ⟨x + w, y + h⟩, ⟨x, y + h⟩] p = true ↔ _
  rw [triangle_contains_iff x y w h p hw.le hh, lin_le_iff _ _ _ _ _ hd1,
    lin_lt_iff _ _ _ _ _ hd1]
  have e1 : (y + h - y) * (p.xp - (x + w / 2)) - (x - (x + w / 2)) * (p.yp - y)
      = edgeSide ⟨x, y + h⟩ ⟨x + w / 2, y⟩ p := by
    simp only [edgeSide]
    ring
  have e2 : (x + w - (x + w / 2)) * (p.yp - y) - (y + h - y) * (p.xp - (x + w / 2))
      = edgeSide ⟨x + w / 2, y⟩ ⟨x + w, y + h⟩ p := by
    simp only [edgeSide]
  rw [e1, e2]

theorem diamond_inside_outside {R : Type} [LinearOrderedField R] (x y w h : R)
    (p : QPointF R) (hw : 0 < w) (hh : 0 < h) :
    (StrictlyInside (sideMidpoints ⟨x, y, w, h⟩) p →
      QPolygonF.containsPoint (sideMidpoints ⟨x, y, w, h⟩) p = true) ∧
    (StrictlyOutside (sideMidpoints ⟨x, y, w, h⟩) p →
      QPolygonF.containsPoint (sideMidpoints ⟨x, y, w, h⟩) p = false) := by
  have s1 : edgeSide ⟨x + w / 2, y⟩ ⟨x + w, y + h / 2⟩ p
      + edgeSide ⟨x, y + h / 2⟩ ⟨x + w / 2, y⟩ p = w * (p.yp - y) := by
    simp only [edgeSide]
    ring
  have s2 : edgeSide ⟨x + w, y + h / 2⟩ ⟨x + w / 2, y + h⟩ p
      + edgeSide ⟨x + w / 2, y + h⟩ ⟨x, y + h / 2⟩ p = w * (y + h - p.yp) := by
    simp only [edgeSide]
    ring
  have s3 : edgeSide ⟨x + w, y + h / 2⟩ ⟨x + w / 2, y + h⟩ p
      - edgeSide ⟨x + w / 2, y⟩ ⟨x + w, y + h / 2⟩ p = w * (y + h / 2 - p.yp) := by
    simp only [edgeSide]
    ring
  have s4 : edgeSide ⟨x + w / 2, y + h⟩ ⟨x, y + h / 2⟩ p
      - edgeSide ⟨x, y + h / 2⟩ ⟨x + w / 2, y⟩ p = w * (y + h / 2 - p.yp) := by
    simp only [edgeSide]
    ring
  constructor
  · intro hin
    simp only [StrictlyInside, sideMidpoints, polygonEdges, List.cons_append,
      List.nil_append, List.zip_cons_cons, List.zip_nil_right, List.mem_cons,
      List.mem_singleton, List.not_mem_nil, or_false, forall_eq_or_imp, forall_eq] at hin
    obtain ⟨c1, c2, c3, c4⟩ := hin
    rw [diamond_contains_sides x y w h p hw hh]
    have hy1 : y < p.yp := by
      have : 0 < w * (p.yp - y) := by rw [← s1]; linarith
      have := (mul_pos_iff_of_pos_left hw).mp this
      linarith
    have hy2 : p.yp < y + h := by
      have : 0 < w * (y + h - p.yp) := by rw [← s2]; linarith
      have := (mul_pos_iff_of_pos_left hw).mp this
      linarith
    rcases lt_or_le p.yp (y + h / 2) with hm | hm
    · exact Or.inl ⟨⟨hy1.le, hm⟩, c4.le, c1⟩
    · exact Or.inr ⟨⟨hm, hy2⟩, c3.le, c2⟩
  · intro hout
    rw [Bool.eq_false_iff, Ne, diamond_contains_sides x y w h p hw hh]
    simp only [StrictlyOutside, sideMidpoints, polygonEdges, List.cons_append,
      List.nil_append, List.zip_cons_cons, List.zip_nil_right, List.mem_cons,
      List.mem_singleton, List.not_mem_nil, or_false, exists_eq_or_imp, exists_eq_left]
      at hout
    rintro (⟨⟨h1, h2⟩, c4, c1⟩ | ⟨⟨h1, h2⟩, c3, c2⟩)
    · have hp : 0 < w * (y + h / 2 - p.yp) := mul_pos hw (by linarith)
      rcases hout with o | o | o | o <;> linarith
    · have hp : w * (y + h / 2 - p.yp) ≤ 0 :=
        mul_nonpos_of_nonneg_of_nonpos hw.le (by linarith)
      rcases hout with o | o | o | o <;> linarith

theorem triangle_inside_outside {R : Type} [LinearOrderedField R] (x y w h : R)
    (p : QPointF R) (hw : 0 < w) (hh : 0 < h) :
    (StrictlyInside (apexAndBase ⟨x, y, w, h⟩) p →
      QPolygonF.containsPoint (apexAndBase ⟨x, y, w, h⟩) p = true) ∧
    (StrictlyOutside (apexAndBase ⟨x, y, w, h⟩) p →
      QPolygonF.containsPoint (apexAndBase ⟨x, y, w, h⟩) p = false) := by
  have s1 : edgeSide ⟨x + w / 2, y⟩ ⟨x + w, y + h⟩ p
      + edgeSide ⟨x, y + h⟩ ⟨x + w / 2, y⟩ p = w * (p.yp - y) := by
    simp only [edgeSide]
    ring
  have s2 : edgeSide ⟨x + w, y + h⟩ ⟨x, y + h⟩ p = w * (y + h - p.yp) := by
    simp only [edgeSide]
    ring
  constructor
  · intro hin
    simp only [StrictlyInside, apexAndBase, polygonEdges, List.cons_append,
      List.nil_append, List.zip_cons_cons, List.zip_nil_right, List.mem_cons,
      List.mem_singleton, List.not_mem_nil, or_false, forall_eq_or_imp, forall_eq] at hin
    obtain ⟨c1, c2, c3⟩ := hin
    rw [triangle_contains_sides x y w h p hw hh]
    have hy1 : y < p.yp := by
      have : 0 < w * (p.yp - y) := by rw [← s1]; linarith
      have := (mul_pos_iff_of_pos_left hw).mp this
      linarith
    have hy2 : p.yp < y + h := by
      have : 0 < w * (y + h - p.yp) := by rw [← s2]; exact c2
      have := (mul_pos_iff_of_pos_left hw).mp this
      linarith
    exact ⟨⟨hy1.le, hy2⟩, c3.le, c1⟩
  · intro hout
    rw [Bool.eq_false_iff, Ne, triangle_contains_sides x y w h p hw hh]
    simp only [StrictlyOutside, apexAndBase, polygonEdges, List.cons_append,
      List.nil_append, List.zip_cons_cons, List.zip_nil_right, List.mem_cons,
      List.mem_singleton, List.not_mem_nil, or_false, exists_eq_or_imp, exists_eq_left]
      at hout
    rintro ⟨⟨h1, h2⟩, c3, c1⟩
    have hp : 0 < w * (y + h - p.yp) := mul_pos hw (by linarith)
    rcases hout with o | o | o <;> linarith

/-! ## Painting a connector: handles and label -/

theorem drawArrowCalls_filter (c : ConnectorShape ℝ) (tip fromPt : QPointF ℝ) :
    (c.drawArrowCalls tip fromPt).filter PaintCmd.isHandle = [] ∧
    (c.drawArrowCalls tip fromPt).filter PaintCmd.isText = [] :=
  ⟨rfl, rfl⟩

theorem paintLine_filter (c : ConnectorShape ℝ) :
    c.paintLine.filter PaintCmd.isHandle = [] ∧ c.paintLine.filter PaintCmd.isText = [] := by
  unfold ConnectorShape.paintLine
  split_ifs <;>
    simp only [List.filter_append, List.filter_cons, List.filter_nil, List.append_nil,
      PaintCmd.isHandle, PaintCmd.isText, (drawArrowCalls_filter c _ _).1,
      (drawArrowCalls_filter c _ _).2, Bool.false_eq_true, if_false, and_self]

theorem save_restore_filter :
    PaintCmd.isHandle (PaintCmd.save : PaintCmd ℝ) = false ∧
    PaintCmd.isHandle (PaintCmd.restore : PaintCmd ℝ) = false ∧
    PaintCmd.isText (PaintCmd.save : PaintCmd ℝ) = false ∧
    PaintCmd.isText (PaintCmd.restore : PaintCmd ℝ) = false :=
  ⟨rfl, rfl, rfl, rfl⟩

theorem paintHandles_eq {R : Type} [LinearOrderedField R] (c : ConnectorShape R) :
    c.paintHandles =
      if c.isSelected then
        [PaintCmd.setBrush (some Qt.white), PaintCmd.setPen Qt.blue 1 Qt.SolidLine,
         PaintCmd.drawEllipse c.startPoint 3 3, PaintCmd.drawEllipse c.endPoint 3 3] ++
        c.controlPoints.map
          (fun point => PaintCmd.drawRect ⟨point.xp - 3, point.yp - 3, 6, 6⟩)
      else [] := by
  unfold ConnectorShape.paintHandles
  have h3 : ((Int.tdiv (6 : Int) 2 : Int) : R) = 3 := by
    have : Int.tdiv (6 : Int) 2 = 3 := by decide
    rw [this]
    norm_num
  have hm3 : ((Int.tdiv (-(6 : Int)) 2 : Int) : R) = -3 := by
    have : Int.tdiv (-(6 : Int)) 2 = -3 := by decide
    rw [this]
    norm_num
  have h6 : (((6 : Int) : Int) : R) = 6 := by norm_num
  simp only [h3, hm3, h6, QRectF.translated]
  split_ifs
  · congr 1
    apply List.map_congr_left
    intro point _
    congr 1
    congr 1 <;> ring
  · rfl

theorem paintHandles_filter {R : Type} [LinearOrderedField R] (c : ConnectorShape R) :
    c.paintHandles.filter PaintCmd.isHandle =
      (if c.isSelected then
        PaintCmd.drawEllipse c.startPoint 3 3 :: PaintCmd.drawEllipse c.endPoint 3 3 ::
          c.controlPoints.map
            (fun point => PaintCmd.drawRect ⟨point.xp - 3, point.yp - 3, 6, 6⟩)
       else []) ∧
    c.paintHandles.filter PaintCmd.isText = [] := by
  rw [paintHandles_eq]
  split_ifs
  · constructor
    · simp only [List.cons_append, List.nil_append, List.filter_cons, PaintCmd.isHandle,
        Bool.false_eq_true, if_false, if_true, List.cons.injEq, true_and]
      rw [List.filter_eq_self]
      intro a ha
      obtain ⟨q, _, rfl⟩ := List.mem_map.mp ha
      rfl
    · simp only [List.cons_append, List.nil_append, List.filter_cons, PaintCmd.isText,
        Bool.false_eq_true, if_false]
      rw [List.filter_eq_nil_iff]
      intro a ha
      obtain ⟨q, _, rfl⟩ := List.mem_map.mp ha
      simp only [PaintCmd.isText, Bool.false_eq_true, not_false_eq_true]
  · exact ⟨rfl, rfl⟩

theorem subscript_half {α : Type} (v : List α) (hv : v ≠ []) :
    v.length / 2 < v.length ∧
    QVector.subscript v (Int.tdiv (v.length : Int) 2) = v[v.length / 2]? ∧
    ∃ x, v[v.length / 2]? = some x := by
  have hpos : 0 < v.length := List.length_pos.mpr hv
  have hlt : v.length / 2 < v.length := Nat.div_lt_self hpos (by decide)
  have hdiv : Int.tdiv (v.length : Int) 2 = ((v.length / 2 : Nat) : Int) := rfl
  refine ⟨hlt, ?_, ?_⟩
  · unfold QVector.subscript
    rw [hdiv, if_pos (Int.ofNat_nonneg _), Int.toNat_ofNat]
  · exact ⟨v.get ⟨v.length / 2, hlt⟩, List.getElem?_eq_getElem hlt⟩

theorem paintMidPoint_eq {R : Type} [LinearOrderedField R] (c : ConnectorShape R) :
    ∃ midPoint, c.paintMidPoint = some midPoint ∧
      (c.controlPoints = [] →
        midPoint = ⟨(c.startPoint.xp + c.endPoint.xp) / 2,
          (c.startPoint.yp + c.endPoint.yp) / 2⟩) ∧
      (c.controlPoints ≠ [] →
        c.controlPoints.length / 2 < c.controlPoints.length ∧
        c.controlPoints[c.controlPoints.length / 2]? = some midPoint) := by
  unfold ConnectorShape.paintMidPoint
  by_cases h : c.controlPoints = []
  · rw [h]
    exact ⟨_, rfl, fun _ => rfl, fun hne => absurd rfl hne⟩
  · obtain ⟨hlt, hsub, x, hx⟩ := subscript_half c.controlPoints h
    have he : c.controlPoints.isEmpty = false := by
      cases hc : c.controlPoints with
      | nil => exact absurd hc h
      | cons a b => rfl
    simp only [he, Bool.false_eq_true, if_false]
    rw [hsub, hx]
    exact ⟨x, rfl, fun hnil => absurd hnil h, fun _ => ⟨hlt, rfl⟩⟩

theorem paintLabel_eq {R : Type} [LinearOrderedField R] (c : ConnectorShape R) :
    ∃ midPoint, c.paintMidPoint = some midPoint ∧
      c.paintLabel =
        some (if c.m_text = [] then []
          else [PaintCmd.setPen Qt.black 1 Qt.SolidLine,
            PaintCmd.drawText ⟨midPoint.xp - 50, midPoint.yp - 20, 100, 40⟩ Qt.AlignCenter
              c.m_text]) := by
  obtain ⟨m, hm, _, _⟩ := paintMidPoint_eq c
  refine ⟨m, hm, ?_⟩
  unfold ConnectorShape.paintLabel
  rw [hm]
  by_cases ht : c.m_text = []
  · rw [ht]
    rfl
  · have he : c.m_text.isEmpty = false := by
      cases hc : c.m_text with
      | nil => exact absurd hc ht
      | cons a b => rfl
    simp only [he, Bool.not_false, if_true, if_neg ht]

theorem connector_paint_eq (c : ConnectorShape ℝ) :
    ∃ (pen : PaintCmd ℝ) (label : List (PaintCmd ℝ)),
      c.paintLabel = some label ∧ PaintCmd.isHandle pen = false ∧
      PaintCmd.isText pen = false ∧
      c.paint = some ([PaintCmd.save, pen] ++ c.paintLine ++ c.paintHandles ++ label ++
        [PaintCmd.restore]) := by
  obtain ⟨m, _, hl⟩ := paintLabel_eq c
  unfold ConnectorShape.paint
  rw [hl]
  refine ⟨_, _, rfl, ?_, ?_, rfl⟩
  · split_ifs <;> rfl
  · split_ifs <;> rfl

/-- C22, as the code has it: when a connector is selected, `paint` sets a white brush and a
blue pen and draws a circle of radius 3 at the start point and at the end point and a
6 x 6 square centred at each control point; these are the only ellipses and rectangles it
draws, and when the connector is not selected it draws none. -/
theorem connector_handles_circles_and_squares (c : ConnectorShape ℝ) :
    ∃ cmds pre post, c.paint = some cmds ∧ cmds = pre ++ c.paintHandles ++ post ∧
      pre.filter PaintCmd.isHandle = [] ∧ post.filter PaintCmd.isHandle = [] ∧
      c.paintHandles =
        (if c.isSelected then
          [PaintCmd.setBrush (some Qt.white), PaintCmd.setPen Qt.blue 1 Qt.SolidLine,
           PaintCmd.drawEllipse c.startPoint 3 3, PaintCmd.drawEllipse c.endPoint 3 3] ++
          c.controlPoints.map
            (fun point => PaintCmd.drawRect ⟨point.xp - 3, point.yp - 3, 6, 6⟩)
         else []) ∧
      cmds.filter PaintCmd.isHandle =
        (if c.isSelected then
          PaintCmd.drawEllipse c.startPoint 3 3 :: PaintCmd.drawEllipse c.endPoint 3 3 ::
            c.controlPoints.map
              (fun point => PaintCmd.drawRect ⟨point.xp - 3, point.yp - 3, 6, 6⟩)
         else []) := by
  obtain ⟨pen, label, hl, hp, _, hpaint⟩ := connector_paint_eq c
  obtain ⟨m, _, hl2⟩ := paintLabel_eq c
  have hlab : label.filter PaintCmd.isHandle = [] := by
    rw [hl] at hl2
    rw [Option.some.inj hl2]
    split_ifs <;> rfl
  have hpre : ([PaintCmd.save, pen] ++ c.paintLine).filter PaintCmd.isHandle = [] := by
    rw [List.filter_append, (paintLine_filter c).1]
    simp only [List.filter_cons, save_restore_filter.1, hp, Bool.false_eq_true, if_false,
      List.filter_nil, List.append_nil]
  have hpost : (label ++ [PaintCmd.restore]).filter PaintCmd.isHandle = [] := by
    rw [List.filter_append, hlab]
    rfl
  refine ⟨_, [PaintCmd.save, pen] ++ c.paintLine, label ++ [PaintCmd.restore], hpaint,
    by simp only [List.append_assoc], hpre, hpost, paintHandles_eq c, ?_⟩
  have e : [PaintCmd.save, pen] ++ c.paintLine ++ c.paintHandles ++ label ++
      [PaintCmd.restore]
      = ([PaintCmd.save, pen] ++ c.paintLine) ++ c.paintHandles ++
        (label ++ [PaintCmd.restore]) := by
    simp only [List.append_assoc]
  rw [e, List.filter_append, List.filter_append, hpre, hpost, List.nil_append,
    List.append_nil, (paintHandles_filter c).1]

/-- C22 (as stated, refuted): the selected connector from (0,0) to (100,0) through the
control point (50,30) is painted with circles at start and end only; at the control point
`paint` draws the rectangle (47, 27, 6, 6) and no ellipse. -/
theorem control_point_handle_is_square :
    ∃ cmds, Example.selected.paint = some cmds ∧
      cmds.filter PaintCmd.isHandle =
        [PaintCmd.drawEllipse ⟨0, 0⟩ 3 3, PaintCmd.drawEllipse ⟨100, 0⟩ 3 3,
         PaintCmd.drawRect ⟨47, 27, 6, 6⟩] ∧
      ∀ rx ry : ℝ, PaintCmd.drawEllipse ⟨50, 30⟩ rx ry ∉ cmds := by
  obtain ⟨pen, label, hl, hp, _, hpaint⟩ := connector_paint_eq Example.selected
  obtain ⟨m, _, hl2⟩ := paintLabel_eq Example.selected
  have hlab : label.filter PaintCmd.isHandle = [] := by
    rw [hl] at hl2
    rw [Option.some.inj hl2]
    split_ifs <;> rfl
  have hf : ([PaintCmd.save, pen] ++ Example.selected.paintLine ++
      Example.selected.paintHandles ++ label ++ [PaintCmd.restore]).filter PaintCmd.isHandle
      = [PaintCmd.drawEllipse ⟨0, 0⟩ 3 3, PaintCmd.drawEllipse ⟨100, 0⟩ 3 3,
         PaintCmd.drawRect ⟨47, 27, 6, 6⟩] := by
    simp only [List.filter_append, (paintLine_filter Example.selected).1, hlab,
      (paintHandles_filter Example.selected).1, List.filter_cons, List.filter_nil,
      save_restore_filter.1, save_restore_filter.2.1, hp, Bool.false_eq_true, if_false,
      List.nil_append, List.append_nil]
    simp only [Example.selected, if_true, List.map_cons, List.map_nil, List.cons.injEq,
      PaintCmd.drawRect.injEq, QRectF.mk.injEq, and_true, true_and]
    norm_num
  refine ⟨_, hpaint, hf, ?_⟩
  intro rx ry hmem
  have hin : PaintCmd.drawEllipse (⟨50, 30⟩ : QPointF ℝ) rx ry ∈
      ([PaintCmd.save, pen] ++ Example.selected.paintLine ++
        Example.selected.paintHandles ++ label ++ [PaintCmd.restore]).filter
          PaintCmd.isHandle :=
    List.mem_filter.mpr ⟨hmem, rfl⟩
  rw [hf] at hin
  simp only [List.mem_cons, PaintCmd.drawEllipse.injEq, QPointF.mk.injEq, List.not_mem_nil,
    or_false, reduceCtorEq] at hin
  rcases hin with ⟨⟨h, _⟩, _⟩ | ⟨⟨h, _⟩, _⟩
  · norm_num at h
  · norm_num at h

/-- C23: with a non-empty label, `paint` draws the text in the 100 x 40 rectangle centred
at the middle of start and end when there are no control points, and otherwise at the
control point with index `n / 2` of its `n` control points, an index that is always in
range, so that `paint` never reads out of bounds; with an empty label no text is drawn. -/
theorem connector_label_anchor (c : ConnectorShape ℝ) :
    ∃ cmds midPoint, c.paint = some cmds ∧ c.paintMidPoint = some midPoint ∧
      (c.controlPoints = [] →
        midPoint = ⟨(c.startPoint.xp + c.endPoint.xp) / 2,
          (c.startPoint.yp + c.endPoint.yp) / 2⟩) ∧
      (c.controlPoints ≠ [] →
        c.controlPoints.length / 2 < c.controlPoints.length ∧
        c.controlPoints[c.controlPoints.length / 2]? = some midPoint) ∧
      (c.m_text ≠ [] →
        cmds.filter PaintCmd.isText =
          [PaintCmd.drawText ⟨midPoint.xp - 50, midPoint.yp - 20, 100, 40⟩ Qt.AlignCenter
            c.m_text]) ∧
      (c.m_text = [] → cmds.filter PaintCmd.isText = []) := by
  obtain ⟨pen, label, hl, _, hp, hpaint⟩ := connector_paint_eq c
  obtain ⟨m, hm, hl2⟩ := paintLabel_eq c
  obtain ⟨m2, hm2, h1, h2⟩ := paintMidPoint_eq c
  have hmm : m2 = m := Option.some.inj (hm2.symm.trans hm)
  subst hmm
  have hlab := Option.some.inj (hl.symm.trans hl2)
  have hf : ([PaintCmd.save, pen] ++ c.paintLine ++ c.paintHandles ++ label ++
      [PaintCmd.restore]).filter PaintCmd.isText = label.filter PaintCmd.isText := by
    simp only [List.filter_append, (paintLine_filter c).2, (paintHandles_filter c).2,
      List.filter_cons, List.filter_nil, save_restore_filter.2.2.1,
      save_restore_filter.2.2.2, hp, Bool.false_eq_true, if_false, List.nil_append,
      List.append_nil]
  refine ⟨_, m2, hpaint, hm, h1, h2, ?_, ?_⟩
  · intro ht
    rw [hf, hlab, if_neg ht]
    rfl
  · intro ht
    rw [hf, hlab, if_pos ht]
    rfl

/-! ## Hit test and moving -/

theorem QRectF_contains_translate {R : Type} [LinearOrderedField R] (pos delta : QPointF R)
    (size : QSizeF R) (p : QPointF R) :
    (QRectF.ofTopLeftSize (pos.add delta) size).contains (p.add delta)
      = (QRectF.ofTopLeftSize pos size).contains p := by
  simp only [QRectF.contains, QRectF.ofTopLeftSize, QPointF.add]
  have e1 : ∀ a b : R, (a + delta.xp = b + delta.xp) = (a = b) := fun a b => by simp
  have e2 : ∀ a b : R, (a + delta.yp = b + delta.yp) = (a = b) := fun a b => by simp
  have hx1 : pos.xp + delta.xp + size.wd = pos.xp + size.wd + delta.xp := by ring
  have hy1 : pos.yp + delta.yp + size.ht = pos.yp + size.ht + delta.yp := by ring
  rw [hx1, hy1]
  by_cases hw : size.wd < 0 <;> by_cases hh : size.ht < 0 <;>
    simp only [hw, hh, if_true, if_false, e1, e2, add_lt_add_iff_right, gt_iff_lt]

theorem ellipseContains_translate {R : Type} [LinearOrderedField R] (pos delta : QPointF R)
    (size : QSizeF R) (p : QPointF R) :
    QPainterPath.ellipseContains (QRectF.ofTopLeftSize (pos.add delta) size) (p.add delta)
      = QPainterPath.ellipseContains (QRectF.ofTopLeftSize pos size) p := by
  unfold QPainterPath.ellipseContains
  rw [QRectF_contains_translate]
  have hx : (p.add delta).xp - (QRectF.ofTopLeftSize (pos.add delta) size).center.xp
      = p.xp - (QRectF.ofTopLeftSize pos size).center.xp := by
    simp only [QRectF.center, QRectF.ofTopLeftSize, QPointF.add]
    ring
  have hy : (p.add delta).yp - (QRectF.ofTopLeftSize (pos.add delta) size).center.yp
      = p.yp - (QRectF.ofTopLeftSize pos size).center.yp := by
    simp only [QRectF.center, QRectF.ofTopLeftSize, QPointF.add]
    ring
  simp only [hx, hy]
  rfl

theorem isect_translate {R : Type} [LinearOrderedField R] (p1 p2 pos delta : QPointF R)
    (wn : Int) :
    qt_polygon_isect_line (p1.add delta) (p2.add delta) (pos.add delta) wn
      = qt_polygon_isect_line p1 p2 pos wn := by
  simp only [qt_polygon_isect_line, QPointF.add, add_left_inj, add_lt_add_iff_right,
    add_le_add_iff_right]
  have e : ∀ a b c d e : R,
      a + delta.xp + (b + delta.xp - (a + delta.xp)) / (c + delta.yp - (d + delta.yp))
        * (e + delta.yp - (d + delta.yp)) = a + (b - a) / (c - d) * (e - d) + delta.xp := by
    intro a b c d e
    have h1 : b + delta.xp - (a + delta.xp) = b - a := by ring
    have h2 : c + delta.yp - (d + delta.yp) = c - d := by ring
    have h3 : e + delta.yp - (d + delta.yp) = e - d := by ring
    rw [h1, h2, h3]
    ring
  by_cases h1 : p1.yp = p2.yp
  · simp only [h1, if_true]
  · by_cases h2 : p2.yp < p1.yp <;>
      simp only [h1, h2, if_true, if_false, e, add_le_add_iff_right, add_lt_add_iff_right]

theorem windingLoop_translate {R : Type} [LinearOrderedField R] (pt delta : QPointF R)
    (rest : List (QPointF R)) (last : QPointF R) (wn : Int) :
    QPolygonF.windingLoop (pt.add delta) (rest.map (fun v => v.add delta)) (last.add delta) wn
      = (((QPolygonF.windingLoop pt rest last wn).1).add delta,
          (QPolygonF.windingLoop pt rest last wn).2) := by
  induction rest generalizing last wn with
  | nil => rfl
  | cons e rest ih =>
    simp only [List.map_cons, QPolygonF.windingLoop]
    rw [isect_translate, ih]

theorem QPointF_add_right_inj {R : Type} [LinearOrderedField R] (a b delta : QPointF R) :
    a.add delta = b.add delta ↔ a = b := by
  constructor
  · intro h
    have hx : a.xp + delta.xp = b.xp + delta.xp := congrArg QPointF.xp h
    have hy : a.yp + delta.yp = b.yp + delta.yp := congrArg QPointF.yp h
    cases a
    cases b
    simp only [QPointF.mk.injEq]
    exact ⟨add_right_cancel hx, add_right_cancel hy⟩
  · intro h
    rw [h]

theorem containsPoint_translate {R : Type} [LinearOrderedField R] (poly : List (QPointF R))
    (pt delta : QPointF R) :
    QPolygonF.containsPoint (poly.map (fun v => v.add delta)) (pt.add delta)
      = QPolygonF.containsPoint poly pt := by
  cases poly with
  | nil => rfl
  | cons first rest =>
    simp only [List.map_cons, QPolygonF.containsPoint]
    rw [windingLoop_translate]
    simp only [ne_eq, QPointF_add_right_inj, isect_translate]

theorem ptDist_translate {R : Type} [QReal R] (a b delta : QPointF R) :
    ptDist (a.add delta) (b.add delta) = ptDist a b := by
  simp only [ptDist, QLineF.length, QPointF.add]
  congr 1
  ring

theorem nearSegment_translate {R : Type} [QReal R] (thr : R) (a b p delta : QPointF R) :
    ConnectorShape.nearSegment thr (a.add delta) (b.add delta) (p.add delta)
      = ConnectorShape.nearSegment thr a b p := by
  rw [Bool.eq_iff_iff, nearSegment_iff, nearSegment_iff, ptDist_translate, ptDist_translate,
    ptDist_translate]

theorem containsLoop_translate {R : Type} [QReal R] (thr : R) (p e delta : QPointF R)
    (prev : QPointF R) (cps : List (QPointF R)) :
    ConnectorShape.containsLoop thr (p.add delta) (e.add delta) (prev.add delta)
        (cps.map (fun point => point.add delta))
      = ConnectorShape.containsLoop thr p e prev cps := by
  induction cps generalizing prev with
  | nil => simp only [List.map_nil, ConnectorShape.containsLoop, nearSegment_translate]
  | cons c rest ih =>
    simp only [List.map_cons, ConnectorShape.containsLoop, nearSegment_translate, ih]

/-! ## Connector hit test: points close to the path -/

theorem ptDist_nonneg {R : Type} [QReal R] (a b : QPointF R) : 0 ≤ ptDist a b :=
  length_nonneg _

theorem ptDist_mul_self {R : Type} [QReal R] (a b : QPointF R) :
    ptDist a b * ptDist a b
      = (b.xp - a.xp) * (b.xp - a.xp) + (b.yp - a.yp) * (b.yp - a.yp) :=
  length_mul_self _

theorem ptDist_self {R : Type} [QReal R] (a : QPointF R) : ptDist a a = 0 :=
  ptDist_of_sq a a 0 le_rfl (by ring)

theorem ptDist_triangle {R : Type} [QReal R] (a b c : QPointF R) :
    ptDist a c ≤ ptDist a b + ptDist b c := by
  have h1 := ptDist_mul_self a b
  have h2 := ptDist_mul_self b c
  have h3 := ptDist_mul_self a c
  have n1 := ptDist_nonneg a b
  have n2 := ptDist_nonneg b c
  have n3 := ptDist_nonneg a c
  generalize ptDist a b = d1 at h1 n1 ⊢
  generalize ptDist b c = d2 at h2 n2 ⊢
  generalize ptDist a c = d3 at h3 n3 ⊢
  generalize hu1 : b.xp - a.xp = u1 at h1
  generalize hu2 : b.yp - a.yp = u2 at h1
  generalize hv1 : c.xp - b.xp = v1 at h2
  generalize hv2 : c.yp - b.yp = v2 at h2
  have e1 : c.xp - a.xp = u1 + v1 := by rw [← hu1, ← hv1]; ring
  have e2 : c.yp - a.yp = u2 + v2 := by rw [← hu2, ← hv2]; ring
  rw [e1, e2] at h3
  have hcs : (u1 * v1 + u2 * v2) * (u1 * v1 + u2 * v2) ≤ (d1 * d2) * (d1 * d2) := by
    have e : (d1 * d2) * (d1 * d2) = (d1 * d1) * (d2 * d2) := by ring
    rw [e, h1, h2]
    nlinarith [mul_self_nonneg (u1 * v2 - u2 * v1)]
  have hdot : u1 * v1 + u2 * v2 ≤ d1 * d2 := by
    by_contra hcon
    push_neg at hcon
    have := mul_self_lt_mul_self (mul_nonneg n1 n2) hcon
    exact absurd hcs (not_le.mpr this)
  by_contra hcon
  push_neg at hcon
  have hlt := mul_self_lt_mul_self (add_nonneg n1 n2) hcon
  have e : (d1 + d2) * (d1 + d2) = d1 * d1 + d2 * d2 + 2 * (d1 * d2) := by ring
  rw [e, h1, h2, h3] at hlt
  nlinarith [hlt, hdot]

theorem ptDist_segmentPoint {R : Type} [QReal R] (a b : QPointF R) (t : R) (h0 : 0 ≤ t)
    (h1 : t ≤ 1) :
    ptDist a (segmentPoint a b t) = t * ptDist a b ∧
    ptDist b (segmentPoint a b t) = (1 - t) * ptDist a b := by
  have hL := ptDist_mul_self a b
  have nL := ptDist_nonneg a b
  constructor
  · apply ptDist_of_sq _ _ _ (mul_nonneg h0 nL)
    simp only [segmentPoint]
    have e : t * ptDist a b * (t * ptDist a b) = t * t * (ptDist a b * ptDist a b) := by ring
    rw [e, hL]
    ring
  · apply ptDist_of_sq _ _ _ (mul_nonneg (sub_nonneg.mpr h1) nL)
    simp only [segmentPoint]
    have e : (1 - t) * ptDist a b * ((1 - t) * ptDist a b)
        = (1 - t) * (1 - t) * (ptDist a b * ptDist a b) := by ring
    rw [e, hL]
    ring

theorem near_of_segmentCloser {R : Type} [QReal R] (a b p : QPointF R)
    (h : SegmentCloserThan (5 / 2) a b p) :
    |ptDist a p + ptDist b p - ptDist a b| < 5 := by
  obtain ⟨t, h0, h1, hd⟩ := h
  obtain ⟨ea, eb⟩ := ptDist_segmentPoint a b t h0 h1
  have t1 := ptDist_triangle a (segmentPoint a b t) p
  have t2 := ptDist_triangle b (segmentPoint a b t) p
  have t3 := ptDist_triangle a p b
  rw [ptDist_comm p b] at t3
  rw [ptDist_comm (segmentPoint a b t) p, ea] at t1
  rw [ptDist_comm (segmentPoint a b t) p, eb] at t2
  rw [abs_lt]
  constructor
  · linarith
  · have : t * ptDist a b + (1 - t) * ptDist a b = ptDist a b := by ring
    linarith

theorem mem_zip_tail {α : Type} (l : List α) (hl : 2 ≤ l.length) (q : α) (hq : q ∈ l) :
    ∃ seg ∈ l.zip l.tail, q = seg.1 ∨ q = seg.2 := by
  induction l with
  | nil => simp at hl
  | cons x rest ih =>
    cases rest with
    | nil => simp at hl
    | cons y rest2 =>
      simp only [List.tail_cons, List.zip_cons_cons, List.mem_cons] at hq ⊢
      rcases hq with rfl | hq
      · exact ⟨(q, y), Or.inl rfl, Or.inl rfl⟩
      · cases rest2 with
        | nil =>
          simp only [List.not_mem_nil, or_false] at hq
          exact ⟨(x, y), Or.inl rfl, Or.inr hq⟩
        | cons z rest3 =>
          have hq2 : q ∈ y :: z :: rest3 := by
            simpa only [List.mem_cons] using hq
          obtain ⟨seg, hs, hseg⟩ := ih (by simp) hq2
          exact ⟨seg, Or.inr (by simpa only [List.tail_cons] using hs), hseg⟩

/-! ## Loading: rejected headers and unknown tags -/

/-- C26: when the header string is not `"FLOWCHART"`, `FlowIO::load` returns false and the
canvas is what it was before the call: background colour, canvas size and shape list are
unchanged. -/
theorem load_failure_leaves_canvas (fc : QFontCodec) (bytes : List Byte)
    (canvas : DiagramCanvas QDoubleBits)
    (h : (readQString ⟨bytes, Status.Ok⟩).1 ≠ FLOWCHART) :
    FlowIO.load fc (some bytes) canvas = (false, canvas) ∧
    ( FlowIO.load fc (some bytes) canvas).2.m_backgroundColor = canvas.m_backgroundColor ∧
    ( FlowIO.load fc (some bytes) canvas).2.m_canvasSize = canvas.m_canvasSize ∧
    ( FlowIO.load fc (some bytes) canvas).2.m_shapes = canvas.m_shapes := by
  have key : FlowIO.load fc (some bytes) canvas = (false, canvas) := by
    show (( FlowIO.loadStream fc ⟨bytes, Status.Ok⟩ canvas).1,
      ( FlowIO.loadStream fc ⟨bytes, Status.Ok⟩ canvas).2.1) = (false, canvas)
    unfold FlowIO.loadStream
    generalize readQString ⟨bytes, Status.Ok⟩ = q at h ⊢
    obtain ⟨header, s1⟩ := q
    show ((if header ≠ FLOWCHART then (false, canvas, s1) else _).1,
      (if header ≠ FLOWCHART then (false, canvas, s1) else _).2.1) = (false, canvas)
    rw [if_pos h]
  rw [key]
  exact ⟨rfl, rfl, rfl, rfl⟩

set_option maxRecDepth 100000 in
theorem load_failure_leaves_canvas_witness :
    (readQString ⟨Example.badMagic, Status.Ok⟩).1 ≠ FLOWCHART ∧
    ( FlowIO.load simpleFontCodec (some Example.badMagic) Example.doc = (false, Example.doc) ∧
      ( FlowIO.load simpleFontCodec (some Example.badMagic) Example.doc).2.m_backgroundColor
        = Example.doc.m_backgroundColor ∧
      ( FlowIO.load simpleFontCodec (some Example.badMagic) Example.doc).2.m_canvasSize
        = Example.doc.m_canvasSize ∧
      ( FlowIO.load simpleFontCodec (some Example.badMagic) Example.doc).2.m_shapes
        = Example.doc.m_shapes) :=
  ⟨by decide, load_failure_leaves_canvas simpleFontCodec Example.badMagic Example.doc
    (by decide)⟩

theorem loadShapes_unknown_tag (fc : QFontCodec) (n : Nat) (s : QDataStream)
    (cv : DiagramCanvas QDoubleBits)
    (h : (DiagramShape.createShape (readInt32 s).1 : Option (Shape QDoubleBits)) = none) :
    FlowIO.loadShapes fc (n + 1) s cv = FlowIO.loadShapes fc n (readInt32 s).2 cv := by
  rw [ FlowIO.loadShapes]
  generalize readInt32 s = q at h ⊢
  obtain ⟨type, s1⟩ := q
  simp only [] at h ⊢
  rw [h]

theorem loadShapes_length_le (fc : QFontCodec) (n : Nat) (s : QDataStream)
    (cv : DiagramCanvas QDoubleBits) :
    ( FlowIO.loadShapes fc n s cv).1.m_shapes.length ≤ cv.m_shapes.length + n := by
  induction n generalizing s cv with
  | zero => simp [ FlowIO.loadShapes]
  | succ k ih =>
    rw [ FlowIO.loadShapes]
    generalize readInt32 s = q
    obtain ⟨type, s1⟩ := q
    simp only []
    cases hc : (DiagramShape.createShape type : Option (Shape QDoubleBits)) with
    | none =>
      simp only []
      have := ih s1 cv
      omega
    | some shape =>
      simp only []
      generalize shape.load fc s1 = q2
      obtain ⟨shape2, s2⟩ := q2
      simp only []
      have := ih s2 (cv.addShape shape2)
      have hl : (cv.addShape shape2).m_shapes.length = cv.m_shapes.length + 1 := by
        simp only [DiagramCanvas.addShape, List.length_append, List.length_singleton]
      omega

theorem loadStream_of_magic (fc : QFontCodec) (stream : QDataStream)
    (canvas : DiagramCanvas QDoubleBits) (h : (readQString stream).1 = FLOWCHART) :
    ∃ (s5 : QDataStream) (cleared : DiagramCanvas QDoubleBits), cleared.m_shapes = [] ∧
      FlowIO.loadStream fc stream canvas =
        (true, ( FlowIO.loadShapes fc (declaredShapeCount stream).toNat s5 cleared).1,
          ( FlowIO.loadShapes fc (declaredShapeCount stream).toNat s5 cleared).2) := by
  unfold FlowIO.loadStream declaredShapeCount
  generalize readQString stream = q at h ⊢
  obtain ⟨header, s1⟩ := q
  replace h : header = FLOWCHART := h
  dsimp only
  rw [if_neg (not_not.mpr h)]
  generalize readInt32 s1 = q2
  obtain ⟨version, s2⟩ := q2
  dsimp only
  generalize readQColor s2 = q3
  obtain ⟨bg, s3⟩ := q3
  dsimp only
  generalize readQSize s3 = q4
  obtain ⟨sz, s4⟩ := q4
  dsimp only
  generalize readInt32 s4 = q5
  obtain ⟨cnt, s5⟩ := q5
  dsimp only
  exact ⟨s5, _, rfl, rfl⟩

/-! ## The arrowhead: distance of the base vertices -/

/-! ## Loading with the allocation limit -/

theorem loadPointsThrowing_none (capacity n : Nat) (s : QDataStream)
    (controlPoints : List (QPointF QDoubleBits)) (hle : controlPoints.length ≤ capacity)
    (h : capacity < controlPoints.length + n) :
    ConnectorShape.loadPointsThrowing capacity n s controlPoints = none := by
  induction n generalizing s controlPoints with
  | zero => omega
  | succ k ih =>
    rw [ConnectorShape.loadPointsThrowing]
    generalize readQPointF s = q
    obtain ⟨point, s1⟩ := q
    dsimp only
    by_cases hc : controlPoints.length < capacity
    · rw [if_pos hc]
      apply ih
      · simp only [List.length_append, List.length_singleton]
        omega
      · simp only [List.length_append, List.length_singleton]
        omega
    · rw [if_neg hc]

theorem loadPointsThrowing_refines (capacity n : Nat) (s : QDataStream)
    (controlPoints : List (QPointF QDoubleBits)) :
    ConnectorShape.loadPointsThrowing capacity n s controlPoints = none ∨
      ConnectorShape.loadPointsThrowing capacity n s controlPoints
        = some (ConnectorShape.loadPoints n s controlPoints) := by
  induction n generalizing s controlPoints with
  | zero => exact Or.inr rfl
  | succ k ih =>
    rw [ConnectorShape.loadPointsThrowing, ConnectorShape.loadPoints]
    generalize readQPointF s = q
    obtain ⟨point, s1⟩ := q
    dsimp only
    by_cases hc : controlPoints.length < capacity
    · rw [if_pos hc]
      exact ih s1 _
    · rw [if_neg hc]
      exact Or.inl rfl

theorem connector_loadThrowing_refines (capacity : Nat) (self : ConnectorShape QDoubleBits)
    (s : QDataStream) :
    ConnectorShape.loadThrowing capacity self s = none ∨
      ConnectorShape.loadThrowing capacity self s = some (self.load s) := by
  unfold ConnectorShape.loadThrowing ConnectorShape.load
  generalize self.toDiagramShape.load s = q
  obtain ⟨base, s1⟩ := q
  dsimp only
  generalize readQPointF s1 = q
  obtain ⟨startPoint, s2⟩ := q
  dsimp only
  generalize readQPointF s2 = q
  obtain ⟨endPoint, s3⟩ := q
  dsimp only
  generalize readInt32 s3 = q
  obtain ⟨style, s4⟩ := q
  dsimp only
  generalize readInt32 s4 = q
  obtain ⟨pointCount, s5⟩ := q
  dsimp only
  rcases loadPointsThrowing_refines capacity pointCount.toNat s5 [] with h | h
  · rw [h]
    exact Or.inl rfl
  · rw [h]
    exact Or.inr rfl

theorem shape_loadThrowing_refines (capacity : Nat) (fc : QFontCodec)
    (shape : Shape QDoubleBits) (s : QDataStream) :
    shape.loadThrowing capacity fc s = none ∨
      shape.loadThrowing capacity fc s = some (shape.load fc s) := by
  cases shape with
  | connector c =>
    rw [Shape.loadThrowing, Shape.load]
    rcases connector_loadThrowing_refines capacity c s with h | h
    · rw [h]
      exact Or.inl rfl
    · rw [h]
      exact Or.inr rfl
  | rectangle r => exact Or.inr rfl
  | ellipse r => exact Or.inr rfl
  | diamond r => exact Or.inr rfl
  | triangle r => exact Or.inr rfl
  | text r => exact Or.inr rfl

theorem loadShapesThrowing_refines (capacity : Nat) (fc : QFontCodec) (n : Nat)
    (s : QDataStream) (cv : DiagramCanvas QDoubleBits) :
    FlowIO.loadShapesThrowing capacity fc n s cv = none ∨
      FlowIO.loadShapesThrowing capacity fc n s cv = some ( FlowIO.loadShapes fc n s cv) := by
  induction n generalizing s cv with
  | zero => exact Or.inr rfl
  | succ k ih =>
    rw [ FlowIO.loadShapesThrowing, FlowIO.loadShapes]
    generalize readInt32 s = q
    obtain ⟨type, s1⟩ := q
    dsimp only
    cases hc : (DiagramShape.createShape type : Option (Shape QDoubleBits)) with
    | none =>
      dsimp only
      exact ih s1 cv
    | some shape =>
      dsimp only
      rcases shape_loadThrowing_refines capacity fc shape s1 with h | h
      · rw [h]
        exact Or.inl rfl
      · rw [h]
        generalize shape.load fc s1 = q2
        obtain ⟨shape2, s2⟩ := q2
        dsimp only
        exact ih s2 _

theorem loadStreamThrowing_refines (capacity : Nat) (fc : QFontCodec) (stream : QDataStream)
    (cv : DiagramCanvas QDoubleBits) :
    FlowIO.loadStreamThrowing capacity fc stream cv = none ∨
      FlowIO.loadStreamThrowing capacity fc stream cv
        = some ( FlowIO.loadStream fc stream cv) := by
  unfold FlowIO.loadStreamThrowing FlowIO.loadStream
  generalize readQString stream = q
  obtain ⟨header, s1⟩ := q
  dsimp only
  by_cases hh : header ≠ FLOWCHART
  · rw [if_pos hh, if_pos hh]
    exact Or.inr rfl
  · rw [if_neg hh, if_neg hh]
    generalize readInt32 s1 = q2
    obtain ⟨version, s2⟩ := q2
    dsimp only
    generalize readQColor s2 = q3
    obtain ⟨bg, s3⟩ := q3
    dsimp only
    generalize readQSize s3 = q4
    obtain ⟨sz, s4⟩ := q4
    dsimp only
    generalize readInt32 s4 = q5
    obtain ⟨cnt, s5⟩ := q5
    dsimp only
    rcases loadShapesThrowing_refines capacity fc cnt.toNat s5
      (((cv.setBackgroundColor bg).setCanvasSize sz).clear) with h | h
    · rw [h]
      exact Or.inl rfl
    · rw [h]
      exact Or.inr rfl

/-- An exception apart, the observable outcome of `FlowIO::load` is the one of the loader
that never runs out of memory. -/
theorem loadThrowing_refines (capacity : Nat) (fc : QFontCodec) (file : Option (List Byte))
    (cv : DiagramCanvas QDoubleBits) :
    FlowIO.loadThrowing capacity fc file cv = none ∨
      FlowIO.loadThrowing capacity fc file cv = some ( FlowIO.load fc file cv) := by
  cases file with
  | none => exact Or.inr rfl
  | some bytes =>
    unfold FlowIO.loadThrowing FlowIO.load
    dsimp only
    rcases loadStreamThrowing_refines capacity fc ⟨bytes, Status.Ok⟩ cv with h | h
    · rw [h]
      exact Or.inl rfl
    · rw [h]
      exact Or.inr rfl

theorem loadShapesThrowing_exhausted (capacity : Nat) (fc : QFontCodec) (n : Nat)
    (st : Status) (canvas : DiagramCanvas QDoubleBits) :
    ∃ st1, FlowIO.loadShapesThrowing capacity fc n ⟨[], st⟩ canvas
      = some (canvas, ⟨[], st1⟩) := by
  induction n generalizing st with
  | zero => exact ⟨st, rfl⟩
  | succ k ih =>
    obtain ⟨st1, h1⟩ := readInt32_exhausted st
    unfold FlowIO.loadShapesThrowing
    rw [h1]
    exact ih st1

theorem loadShapesThrowing_unknown_tag (capacity : Nat) (fc : QFontCodec) (n : Nat)
    (s : QDataStream) (cv : DiagramCanvas QDoubleBits)
    (h : (DiagramShape.createShape (readInt32 s).1 : Option (Shape QDoubleBits)) = none) :
    FlowIO.loadShapesThrowing capacity fc (n + 1) s cv
      = FlowIO.loadShapesThrowing capacity fc n (readInt32 s).2 cv := by
  rw [ FlowIO.loadShapesThrowing]
  generalize readInt32 s = q at h ⊢
  obtain ⟨type, s1⟩ := q
  dsimp only at h ⊢
  rw [h]

theorem loadThrowing_after_magic (capacity : Nat) (fc : QFontCodec) (bytes : List Byte)
    (canvas : DiagramCanvas QDoubleBits)
    (h : (readQString ⟨bytes, Status.Ok⟩).1 = FLOWCHART) :
    ∃ cleared : DiagramCanvas QDoubleBits, cleared.m_shapes = [] ∧
      FlowIO.loadThrowing capacity fc (some bytes) canvas =
        ( FlowIO.loadShapesThrowing capacity fc
          (declaredShapeCount ⟨bytes, Status.Ok⟩).toNat
          (readInt32 (readQSize (readQColor (readInt32
            (readQString ⟨bytes, Status.Ok⟩).2).2).2).2).2 cleared).map
          (fun r => (true, r.1)) := by
  unfold FlowIO.loadThrowing FlowIO.loadStreamThrowing declaredShapeCount
  dsimp only
  generalize readQString ⟨bytes, Status.Ok⟩ = q at h ⊢
  obtain ⟨header, s1⟩ := q
  replace h : header = FLOWCHART := h
  dsimp only
  rw [if_neg (not_not.mpr h)]
  generalize readInt32 s1 = q2
  obtain ⟨version, s2⟩ := q2
  dsimp only
  generalize readQColor s2 = q3
  obtain ⟨bg, s3⟩ := q3
  dsimp only
  generalize readQSize s3 = q4
  obtain ⟨sz, s4⟩ := q4
  dsimp only
  generalize readInt32 s4 = q5
  obtain ⟨cnt, s5⟩ := q5
  dsimp only
  refine ⟨((canvas.setBackgroundColor bg).setCanvasSize sz).clear, rfl, ?_⟩
  cases FlowIO.loadShapesThrowing capacity fc cnt.toNat s5
    (((canvas.setBackgroundColor bg).setCanvasSize sz).clear) with
  | none => rfl
  | some r => rfl

theorem loadShapesThrowing_length_le (capacity : Nat) (fc : QFontCodec) (n : Nat)
    (s : QDataStream) (cv : DiagramCanvas QDoubleBits) (r : DiagramCanvas QDoubleBits × QDataStream)
    (h : FlowIO.loadShapesThrowing capacity fc n s cv = some r) :
    r.1.m_shapes.length ≤ cv.m_shapes.length + n := by
  rcases loadShapesThrowing_refines capacity fc n s cv with h1 | h1
  · rw [h1] at h
    exact absurd h (by simp)
  · rw [h1] at h
    have := loadShapes_length_le fc n s cv
    rw [← Option.some.inj h]
    exact this

/-- C5, as the code has it: once the header is `"FLOWCHART"`, `FlowIO::load` never returns
false, whatever the later reads yield: unless the allocation of a connector's control
points fails, which ends the call in `std::bad_alloc`, it returns true.  From the point
where the device is exhausted the remaining iterations of the shape loop add no shape and
allocate nothing, so a truncated stream gives success with the shapes read so far. -/
theorem load_never_false_after_magic (capacity : Nat) (fc : QFontCodec) (bytes : List Byte)
    (canvas : DiagramCanvas QDoubleBits)
    (h : (readQString ⟨bytes, Status.Ok⟩).1 = FLOWCHART) :
    ( FlowIO.loadThrowing capacity fc (some bytes) canvas = none ∨
      ∃ cv, FlowIO.loadThrowing capacity fc (some bytes) canvas = some (true, cv)) ∧
      ∀ (n : Nat) (st : Status) (cv : DiagramCanvas QDoubleBits),
        ∃ st1, FlowIO.loadShapesThrowing capacity fc n ⟨[], st⟩ cv
          = some (cv, ⟨[], st1⟩) := by
  refine ⟨?_, fun n st cv => loadShapesThrowing_exhausted capacity fc n st cv⟩
  obtain ⟨cleared, -, hl⟩ := loadThrowing_after_magic capacity fc bytes canvas h
  rw [hl]
  cases FlowIO.loadShapesThrowing capacity fc
      (declaredShapeCount ⟨bytes, Status.Ok⟩).toNat _ cleared with
  | none => exact Or.inl rfl
  | some r => exact Or.inr ⟨r.1, rfl⟩

set_option maxRecDepth 100000 in
theorem load_never_false_after_magic_witness :
    (readQString ⟨Example.truncated, Status.Ok⟩).1 = FLOWCHART ∧
      (( FlowIO.loadThrowing 1000 simpleFontCodec (some Example.truncated) Example.cleared
            = none ∨
          ∃ cv, FlowIO.loadThrowing 1000 simpleFontCodec (some Example.truncated)
            Example.cleared = some (true, cv)) ∧
        ∀ (n : Nat) (st : Status) (cv : DiagramCanvas QDoubleBits),
          ∃ st1, FlowIO.loadShapesThrowing 1000 simpleFontCodec n ⟨[], st⟩ cv
            = some (cv, ⟨[], st1⟩)) ∧
      FlowIO.loadThrowing 1000 simpleFontCodec (some Example.truncated) Example.cleared
        = some (true, ⟨[.rectangle Example.rect, .rectangle Example.rect,
            .rectangle Example.rect], Qt.white, ⟨800, 600⟩⟩) :=
  ⟨by decide, load_never_false_after_magic 1000 simpleFontCodec Example.truncated
    Example.cleared (by decide), by decide⟩

/-- C27, as the code has it: for a stream with a valid `"FLOWCHART"` header that declares
the shape count `n`, `FlowIO::load` either ends in `std::bad_alloc`, when the allocation of
a connector's control points fails, or returns true and leaves at most `max(n, 0)` shapes
on the canvas; with `n ≤ 0` it returns true and leaves none.  An iteration of the shape
loop whose tag the factory does not recognise consumes the tag only and adds no shape: the
loop goes on from the stream right after the tag with the canvas unchanged. -/
theorem load_adds_at_most_declared_or_throws (capacity : Nat) (fc : QFontCodec)
    (bytes : List Byte) (canvas : DiagramCanvas QDoubleBits)
    (h : (readQString ⟨bytes, Status.Ok⟩).1 = FLOWCHART) :
    ( FlowIO.loadThrowing capacity fc (some bytes) canvas = none ∨
      ∃ cv, FlowIO.loadThrowing capacity fc (some bytes) canvas = some (true, cv) ∧
        ((cv.m_shapes.length : Int) ≤ max (declaredShapeCount ⟨bytes, Status.Ok⟩) 0)) ∧
    (declaredShapeCount ⟨bytes, Status.Ok⟩ ≤ 0 →
      ∃ cv, FlowIO.loadThrowing capacity fc (some bytes) canvas = some (true, cv) ∧
        cv.m_shapes = []) ∧
    (∀ (k : Nat) (s : QDataStream) (cv : DiagramCanvas QDoubleBits),
      (DiagramShape.createShape (readInt32 s).1 : Option (Shape QDoubleBits)) = none →
      FlowIO.loadShapesThrowing capacity fc (k + 1) s cv
        = FlowIO.loadShapesThrowing capacity fc k (readInt32 s).2 cv) := by
  obtain ⟨cleared, hc, hl⟩ := loadThrowing_after_magic capacity fc bytes canvas h
  refine ⟨?_, ?_, fun k s cv hk => loadShapesThrowing_unknown_tag capacity fc k s cv hk⟩
  · rw [hl]
    cases hr : FlowIO.loadShapesThrowing capacity fc
        (declaredShapeCount ⟨bytes, Status.Ok⟩).toNat _ cleared with
    | none => exact Or.inl rfl
    | some r =>
      refine Or.inr ⟨r.1, rfl, ?_⟩
      have hlen := loadShapesThrowing_length_le capacity fc _ _ cleared r hr
      rw [hc] at hlen
      simp only [List.length_nil, Nat.zero_add] at hlen
      omega
  · intro hn
    have h0 : (declaredShapeCount ⟨bytes, Status.Ok⟩).toNat = 0 := by omega
    rw [hl, h0]
    exact ⟨cleared, rfl, hc⟩

set_option maxRecDepth 100000 in
theorem load_adds_at_most_declared_or_throws_witness :
    (readQString ⟨Example.unknownTags, Status.Ok⟩).1 = FLOWCHART ∧
    (( FlowIO.loadThrowing 1000 simpleFontCodec (some Example.unknownTags) Example.doc = none ∨
      ∃ cv, FlowIO.loadThrowing 1000 simpleFontCodec (some Example.unknownTags) Example.doc
          = some (true, cv) ∧
        ((cv.m_shapes.length : Int)
          ≤ max (declaredShapeCount ⟨Example.unknownTags, Status.Ok⟩) 0)) ∧
    (declaredShapeCount ⟨Example.unknownTags, Status.Ok⟩ ≤ 0 →
      ∃ cv, FlowIO.loadThrowing 1000 simpleFontCodec (some Example.unknownTags) Example.doc
          = some (true, cv) ∧ cv.m_shapes = []) ∧
    (∀ (k : Nat) (s : QDataStream) (cv : DiagramCanvas QDoubleBits),
      (DiagramShape.createShape (readInt32 s).1 : Option (Shape QDoubleBits)) = none →
      FlowIO.loadShapesThrowing 1000 simpleFontCodec (k + 1) s cv
        = FlowIO.loadShapesThrowing 1000 simpleFontCodec k (readInt32 s).2 cv)) ∧
    declaredShapeCount ⟨Example.unknownTags, Status.Ok⟩ = 3 ∧
    FlowIO.loadThrowing 1000 simpleFontCodec (some Example.unknownTags) Example.doc
      = some (true, ⟨[Shape.rectangle Example.rect], Qt.white, ⟨800, 600⟩⟩) :=
  ⟨by decide, load_adds_at_most_declared_or_throws 1000 simpleFontCodec Example.unknownTags
    Example.doc (by decide), by decide, by decide⟩

theorem connector_loadThrowing_none (capacity : Nat) (self : ConnectorShape QDoubleBits)
    (s : QDataStream)
    (h : capacity < (readInt32 (readInt32 (readQPointF (readQPointF
      (self.toDiagramShape.load s).2).2).2).2).1.toNat) :
    ConnectorShape.loadThrowing capacity self s = none := by
  unfold ConnectorShape.loadThrowing
  generalize self.toDiagramShape.load s = q at h ⊢
  obtain ⟨base, s1⟩ := q
  dsimp only at h ⊢
  generalize readQPointF s1 = q at h ⊢
  obtain ⟨startPoint, s2⟩ := q
  dsimp only at h ⊢
  generalize readQPointF s2 = q at h ⊢
  obtain ⟨endPoint, s3⟩ := q
  dsimp only at h ⊢
  generalize readInt32 s3 = q at h ⊢
  obtain ⟨style, s4⟩ := q
  dsimp only at h ⊢
  generalize readInt32 s4 = q at h ⊢
  obtain ⟨pointCount, s5⟩ := q
  dsimp only at h ⊢
  rw [loadPointsThrowing_none capacity pointCount.toNat s5 [] (Nat.zero_le _)
    (by simpa using h)]

theorem loadShapesThrowing_connector_none (capacity : Nat) (fc : QFontCodec) (n : Nat)
    (s : QDataStream) (cv : DiagramCanvas QDoubleBits) (c : ConnectorShape QDoubleBits)
    (hc : (DiagramShape.createShape (readInt32 s).1 : Option (Shape QDoubleBits))
      = some (.connector c))
    (h : capacity < (readInt32 (readInt32 (readQPointF (readQPointF
      (c.toDiagramShape.load (readInt32 s).2).2).2).2).2).1.toNat) :
    FlowIO.loadShapesThrowing capacity fc (n + 1) s cv = none := by
  rw [ FlowIO.loadShapesThrowing]
  generalize readInt32 s = q at hc h ⊢
  obtain ⟨type, s1⟩ := q
  dsimp only at hc h ⊢
  rw [hc]
  dsimp only
  rw [Shape.loadThrowing, connector_loadThrowing_none capacity c s1 h]
  rfl

set_option maxRecDepth 100000 in
/-- C27 (as stated, refuted): the stream `Example.hugePointCount` has a valid header and
declares one shape, a Connector whose record declares `0x7fffffff` control points.  No
`QVector<QPointF>` grows that far, so whatever the allocator grants below that number, the
loop of `ConnectorShape::load` ends in `std::bad_alloc` and `FlowIO::load` returns
nothing: it does not return success. -/
theorem load_huge_point_count_throws :
    (readQString ⟨Example.hugePointCount, Status.Ok⟩).1 = FLOWCHART ∧
      declaredShapeCount ⟨Example.hugePointCount, Status.Ok⟩ = 1 ∧
      ∀ capacity : Nat,
        FlowIO.loadThrowing (min capacity (2 ^ 31 - 2)) simpleFontCodec
          (some Example.hugePointCount) Example.doc = none := by
  have hm : (readQString ⟨Example.hugePointCount, Status.Ok⟩).1 = FLOWCHART := by decide
  have hn : declaredShapeCount ⟨Example.hugePointCount, Status.Ok⟩ = 1 := by decide
  refine ⟨hm, hn, fun capacity => ?_⟩
  obtain ⟨cleared, -, hl⟩ := loadThrowing_after_magic (min capacity (2 ^ 31 - 2))
    simpleFontCodec Example.hugePointCount Example.doc hm
  rw [hl, hn]
  have hc : (DiagramShape.createShape (readInt32 (readInt32 (readQSize (readQColor
      (readInt32 (readQString ⟨Example.hugePointCount, Status.Ok⟩).2).2).2).2).2).1 :
        Option (Shape QDoubleBits)) = some (.connector ConnectorShape.ctor) := by decide
  have hp : (readInt32 (readInt32 (readQPointF (readQPointF
      ((ConnectorShape.ctor : ConnectorShape QDoubleBits).toDiagramShape.load
        (readInt32 (readInt32 (readQSize (readQColor (readInt32
          (readQString ⟨Example.hugePointCount, Status.Ok⟩).2).2).2).2).2).2).2).2).2).2).1
      = 2147483647 := by decide
  rw [show (1 : Int).toNat = 0 + 1 from rfl,
    loadShapesThrowing_connector_none (min capacity (2 ^ 31 - 2)) simpleFontCodec 0 _ cleared
      ConnectorShape.ctor hc (by rw [hp]; have : (2147483647 : Int).toNat = 2147483647 := rfl; omega)]
  rfl

/-! ## Double-precision arithmetic: order and rounding -/

theorem Double.toRat_fin_aligned (m e mn : Int) (h : mn ≤ e) :
    ((m * 2 ^ (e - mn).toNat : Int) : ℚ) * (2 : ℚ) ^ mn = (m : ℚ) * (2 : ℚ) ^ e := by
  have h2 : (2 : ℚ) ≠ 0 := by norm_num
  have he : e = ((e - mn).toNat : Int) + mn := by omega
  conv_rhs => rw [he, zpow_add₀ h2, zpow_natCast]
  push_cast
  ring

theorem Double.lt_fin_iff (m1 e1 m2 e2 : Int) :
    Double.lt (.fin m1 e1) (.fin m2 e2) = true ↔
      Double.toRat (.fin m1 e1) < Double.toRat (.fin m2 e2) := by
  simp only [Double.lt, Double.toRat, decide_eq_true_eq]
  rw [← Double.toRat_fin_aligned m1 e1 (min e1 e2) (min_le_left _ _),
    ← Double.toRat_fin_aligned m2 e2 (min e1 e2) (min_le_right _ _)]
  have hp : (0 : ℚ) < (2 : ℚ) ^ (min e1 e2) := zpow_pos (by norm_num) _
  rw [mul_lt_mul_right hp]
  exact Int.cast_lt.symm

theorem Double.eq_fin_iff (m1 e1 m2 e2 : Int) :
    Double.eq (.fin m1 e1) (.fin m2 e2) = true ↔
      Double.toRat (.fin m1 e1) = Double.toRat (.fin m2 e2) := by
  simp only [Double.eq, Double.toRat, decide_eq_true_eq]
  rw [← Double.toRat_fin_aligned m1 e1 (min e1 e2) (min_le_left _ _),
    ← Double.toRat_fin_aligned m2 e2 (min e1 e2) (min_le_right _ _)]
  have hp : (2 : ℚ) ^ (min e1 e2) ≠ 0 := (zpow_pos (by norm_num) _).ne'
  rw [mul_left_inj' hp]
  exact Int.cast_inj.symm

theorem Double.le_fin_iff (m1 e1 m2 e2 : Int) :
    Double.le (.fin m1 e1) (.fin m2 e2) = true ↔
      Double.toRat (.fin m1 e1) ≤ Double.toRat (.fin m2 e2) := by
  simp only [Double.le, Bool.or_eq_true, Double.lt_fin_iff, Double.eq_fin_iff]
  exact le_iff_lt_or_eq.symm

theorem Double.lt_irrefl (a : Double) : Double.lt a a = false := by
  cases a with
  | nan => rfl
  | inf s => cases s <;> rfl
  | fin m e => simp [Double.lt]

theorem Double.lt_asymm (a b : Double) (h : Double.lt a b = true) : Double.lt b a = false := by
  cases a with
  | nan => simp [Double.lt] at h
  | inf s =>
    cases b with
    | nan => simp [Double.lt] at h
    | inf t => cases s <;> cases t <;> simp_all [Double.lt]
    | fin m e => cases s <;> simp_all [Double.lt]
  | fin m1 e1 =>
    cases b with
    | nan => simp [Double.lt] at h
    | inf t => cases t <;> simp_all [Double.lt]
    | fin m2 e2 =>
      rw [Double.lt_fin_iff] at h
      rw [Bool.eq_false_iff, Ne, Double.lt_fin_iff]
      exact not_lt.mpr h.le

theorem Double.eq_of_lt (a b : Double) (h : Double.lt a b = true) : Double.eq a b = false := by
  cases a with
  | nan => simp [Double.lt] at h
  | inf s =>
    cases b with
    | nan => simp [Double.lt] at h
    | inf t => cases s <;> cases t <;> simp_all [Double.lt, Double.eq]
    | fin m e => rfl
  | fin m1 e1 =>
    cases b with
    | nan => simp [Double.lt] at h
    | inf t => rfl
    | fin m2 e2 =>
      rw [Double.lt_fin_iff] at h
      rw [Bool.eq_false_iff, Ne, Double.eq_fin_iff]
      exact h.ne

/-! ## Hit test and bounding rectangle of the box kinds, in double precision -/

theorem IEEE.QRectF_contains_bounds (r : QRectF Double) (p : QPointF Double)
    (hw : r.w.lt (Double.ofInt 0) = false) (hh : r.h.lt (Double.ofInt 0) = false)
    (h : IEEE.QRectF.contains r p = true) :
    p.xp.lt r.xp = false ∧ (r.xp.add r.w).lt p.xp = false ∧
      p.yp.lt r.yp = false ∧ (r.yp.add r.h).lt p.yp = false := by
  unfold IEEE.QRectF.contains at h
  simp only [hw, hh, Bool.false_eq_true, if_false] at h
  by_cases h1 : r.xp.eq (r.xp.add r.w) = true
  · simp [h1] at h
  · by_cases h2 : (p.xp.lt r.xp || (r.xp.add r.w).lt p.xp) = true
    · simp [h1, h2] at h
    · by_cases h3 : r.yp.eq (r.yp.add r.h) = true
      · simp [h1, h2, h3] at h
      · by_cases h4 : (p.yp.lt r.yp || (r.yp.add r.h).lt p.yp) = true
        · simp [h1, h2, h3, h4] at h
        · simp only [Bool.or_eq_true, not_or, Bool.not_eq_true] at h2 h4
          exact ⟨h2.1, h2.2, h4.1, h4.2⟩

theorem IEEE.QRectF_contains_corner (r : QRectF Double) (p : QPointF Double)
    (hw : (Double.ofInt 0).lt r.w = true) (hh : (Double.ofInt 0).lt r.h = true)
    (hx : r.xp.lt (r.xp.add r.w) = true) (hy : r.yp.lt (r.yp.add r.h) = true)
    (hpx : p.xp = r.xp ∨ p.xp = r.xp.add r.w) (hpy : p.yp = r.yp ∨ p.yp = r.yp.add r.h) :
    IEEE.QRectF.contains r p = true := by
  have hw0 := Double.lt_asymm _ _ hw
  have hh0 := Double.lt_asymm _ _ hh
  have hx0 := Double.lt_asymm _ _ hx
  have hy0 := Double.lt_asymm _ _ hy
  have hxe := Double.eq_of_lt _ _ hx
  have hye := Double.eq_of_lt _ _ hy
  unfold IEEE.QRectF.contains
  simp only [hw0, hh0, Bool.false_eq_true, if_false, hxe, hye]
  rcases hpx with e1 | e1 <;> rcases hpy with e2 | e2 <;>
    simp [e1, e2, Double.lt_irrefl, hx0, hy0]

theorem IEEE.Shape_contains_rect_text (s : Shape Double)
    (hk : s.kind = DiagramShape.Rectangle ∨ s.kind = DiagramShape.Text) (p : QPointF Double) :
    IEEE.Shape.contains s p = some (IEEE.QRectF.contains (IEEE.Shape.boundingRect s) p) := by
  cases s with
  | rectangle r => rfl
  | text r => rfl
  | ellipse r => rcases hk with e | e <;> (simp only [Shape.kind] at e; exact absurd e (by decide))
  | diamond r => rcases hk with e | e <;> (simp only [Shape.kind] at e; exact absurd e (by decide))
  | triangle r => rcases hk with e | e <;> (simp only [Shape.kind] at e; exact absurd e (by decide))
  | connector r =>
    rcases hk with e | e <;> (simp only [Shape.kind] at e; exact absurd e (by decide))

set_option maxRecDepth 100000 in
/-- C8 (as stated, refuted): the Diamond at (0,0) with size (2e-12, 2e-12) contains the point
(1000, 5e-13), which lies 1000 units right of its bounding rectangle: the last vertex
(0, 1e-12) and the first vertex (1e-12, 0) of its polygon are equal under `operator==` of
`QPointF`, whose tolerance is 1e-12, so `containsPoint` leaves out the closing edge and
counts one crossing. -/
theorem tiny_diamond_contains_far_point :
    (Double.ofInt 0).lt IEEE.Example.tinyDiamond.getSize.wd = true ∧
    (Double.ofInt 0).lt IEEE.Example.tinyDiamond.getSize.ht = true ∧
    IEEE.DiamondShape.contains IEEE.Example.tinyDiamond
      ⟨Double.ofInt 1000, Double.ofRatio 5 10000000000000⟩ = true ∧
    IEEE.QRectF.contains IEEE.Example.tinyDiamond.boundingRect
      ⟨Double.ofInt 1000, Double.ofRatio 5 10000000000000⟩ = false ∧
    (IEEE.QRectF.right IEEE.Example.tinyDiamond.boundingRect).lt (Double.ofInt 1) = true := by
  decide

/-- C8, as the code has it: for a Rectangle and for a Text shape `contains(p)` is
`boundingRect().contains(p)`; with width and height not negative, a contained point is
neither left of `x`, nor right of the computed `x + w`, nor above `y`, nor below the
computed `y + h`, so `contains` is false for every point beyond one of these four
bounds. -/
theorem rect_text_contains_in_boundingRect (s : Shape Double)
    (hk : s.kind = DiagramShape.Rectangle ∨ s.kind = DiagramShape.Text) :
    (∀ p, IEEE.Shape.contains s p = some (IEEE.QRectF.contains (IEEE.Shape.boundingRect s) p)) ∧
    (∀ p, (IEEE.Shape.boundingRect s).w.lt (Double.ofInt 0) = false →
      (IEEE.Shape.boundingRect s).h.lt (Double.ofInt 0) = false →
      IEEE.Shape.contains s p = some true →
      p.xp.lt (IEEE.Shape.boundingRect s).xp = false ∧
      (IEEE.QRectF.right (IEEE.Shape.boundingRect s)).lt p.xp = false ∧
      p.yp.lt (IEEE.Shape.boundingRect s).yp = false ∧
      (IEEE.QRectF.bottom (IEEE.Shape.boundingRect s)).lt p.yp = false) ∧
    (∀ p, (IEEE.Shape.boundingRect s).w.lt (Double.ofInt 0) = false →
      (IEEE.Shape.boundingRect s).h.lt (Double.ofInt 0) = false →
      (p.xp.lt (IEEE.Shape.boundingRect s).xp = true ∨
        (IEEE.QRectF.right (IEEE.Shape.boundingRect s)).lt p.xp = true ∨
        p.yp.lt (IEEE.Shape.boundingRect s).yp = true ∨
        (IEEE.QRectF.bottom (IEEE.Shape.boundingRect s)).lt p.yp = true) →
      IEEE.Shape.contains s p = some false) := by
  have key := IEEE.Shape_contains_rect_text s hk
  refine ⟨key, ?_, ?_⟩
  · intro p hw hh hc
    rw [key p] at hc
    exact IEEE.QRectF_contains_bounds _ p hw hh (Option.some.inj hc)
  · intro p hw hh hout
    rw [key p]
    congr 1
    by_contra hne
    have hc : IEEE.QRectF.contains (IEEE.Shape.boundingRect s) p = true := by
      simpa using hne
    obtain ⟨h1, h2, h3, h4⟩ := IEEE.QRectF_contains_bounds _ p hw hh hc
    simp only [IEEE.QRectF.right, IEEE.QRectF.bottom] at hout
    rcases hout with h | h | h | h <;> simp_all

set_option maxRecDepth 100000 in
theorem rect_text_contains_in_boundingRect_witness :
    ((Shape.rectangle IEEE.Example.box).kind = DiagramShape.Rectangle ∨
      (Shape.rectangle IEEE.Example.box).kind = DiagramShape.Text) ∧
    IEEE.Shape.contains (Shape.rectangle IEEE.Example.box)
      ⟨Double.ofInt 1130, Double.ofInt 50⟩ = some false ∧
    IEEE.Shape.contains (Shape.rectangle IEEE.Example.box)
      ⟨Double.ofInt 130, Double.ofInt 50⟩ = some true :=
  ⟨by decide,
    (rect_text_contains_in_boundingRect (Shape.rectangle IEEE.Example.box) (by decide)).2.2
      ⟨Double.ofInt 1130, Double.ofInt 50⟩ (by decide) (by decide) (Or.inr (Or.inl (by decide))),
    by decide⟩

/-! ## Corners of the bounding rectangle, in double precision -/

/-- C16, as the code has it: a Rectangle or a Text shape with positive width and height
whose computed right edge `x + w` lies right of `x` and whose computed bottom edge `y + h`
lies below `y` contains the four corners of its `boundingRect()`. -/
theorem rect_text_contains_corners (s : Shape Double)
    (hk : s.kind = DiagramShape.Rectangle ∨ s.kind = DiagramShape.Text)
    (hw : (Double.ofInt 0).lt (IEEE.Shape.boundingRect s).w = true)
    (hh : (Double.ofInt 0).lt (IEEE.Shape.boundingRect s).h = true)
    (hx : (IEEE.Shape.boundingRect s).xp.lt (IEEE.QRectF.right (IEEE.Shape.boundingRect s))
      = true)
    (hy : (IEEE.Shape.boundingRect s).yp.lt (IEEE.QRectF.bottom (IEEE.Shape.boundingRect s))
      = true) :
    IEEE.Shape.contains s (IEEE.Shape.boundingRect s).topLeft = some true ∧
    IEEE.Shape.contains s (IEEE.QRectF.topRight (IEEE.Shape.boundingRect s)) = some true ∧
    IEEE.Shape.contains s (IEEE.QRectF.bottomLeft (IEEE.Shape.boundingRect s)) = some true ∧
    IEEE.Shape.contains s (IEEE.QRectF.bottomRight (IEEE.Shape.boundingRect s))
      = some true := by
  have key := IEEE.Shape_contains_rect_text s hk
  simp only [key]
  exact ⟨congrArg some (IEEE.QRectF_contains_corner _ _ hw hh hx hy (Or.inl rfl) (Or.inl rfl)),
    congrArg some (IEEE.QRectF_contains_corner _ _ hw hh hx hy (Or.inr rfl) (Or.inl rfl)),
    congrArg some (IEEE.QRectF_contains_corner _ _ hw hh hx hy (Or.inl rfl) (Or.inr rfl)),
    congrArg some (IEEE.QRectF_contains_corner _ _ hw hh hx hy (Or.inr rfl) (Or.inr rfl))⟩

set_option maxRecDepth 100000 in
theorem rect_text_contains_corners_witness :
    ((Shape.rectangle IEEE.Example.box).kind = DiagramShape.Rectangle ∨
      (Shape.rectangle IEEE.Example.box).kind = DiagramShape.Text) ∧
    IEEE.QRectF.bottomRight (IEEE.Shape.boundingRect (Shape.rectangle IEEE.Example.box))
      = ⟨Double.ofInt 130, Double.ofInt 90⟩ ∧
    (IEEE.Shape.contains (Shape.rectangle IEEE.Example.box)
        (IEEE.Shape.boundingRect (Shape.rectangle IEEE.Example.box)).topLeft = some true ∧
      IEEE.Shape.contains (Shape.rectangle IEEE.Example.box)
        (IEEE.QRectF.topRight (IEEE.Shape.boundingRect (Shape.rectangle IEEE.Example.box)))
        = some true ∧
      IEEE.Shape.contains (Shape.rectangle IEEE.Example.box)
        (IEEE.QRectF.bottomLeft (IEEE.Shape.boundingRect (Shape.rectangle IEEE.Example.box)))
        = some true ∧
      IEEE.Shape.contains (Shape.rectangle IEEE.Example.box)
        (IEEE.QRectF.bottomRight (IEEE.Shape.boundingRect (Shape.rectangle IEEE.Example.box)))
        = some true) :=
  ⟨by decide, by decide,
    rect_text_contains_corners (Shape.rectangle IEEE.Example.box) (by decide) (by decide)
      (by decide) (by decide) (by decide)⟩

/-! ## Moving and the bounding rectangle, in double precision -/

set_option maxRecDepth 100000 in
/-- C10 (as stated, refuted): for the connector with start and end at (0.1, 0), moved by
(0.2, 0), `boundingRect()` after the move has its left edge at `(0.1 + 0.2) - 10`, which is
the `double` -9.6999999999999993, while the rectangle before the move translated by the
delta has it at `(0.1 - 10) + 0.2`, the `double` -9.7000000000000011. -/
theorem connector_boundingRect_moveBy_not_translated :
    (IEEE.ConnectorShape.boundingRect
      (IEEE.ConnectorShape.moveBy (IEEE.Example.dot (Double.ofRatio 1 10) (Double.ofInt 0))
        ⟨Double.ofRatio 2 10, Double.ofInt 0⟩)).xp = .fin (-5460614548186726) (-49) ∧
    (IEEE.QRectF.translated
      (IEEE.ConnectorShape.boundingRect (IEEE.Example.dot (Double.ofRatio 1 10) (Double.ofInt 0)))
      ⟨Double.ofRatio 2 10, Double.ofInt 0⟩).xp = .fin (-5460614548186727) (-49) ∧
    IEEE.Shape.boundingRect (IEEE.Shape.moveBy
        (.connector (IEEE.Example.dot (Double.ofRatio 1 10) (Double.ofInt 0)))
        ⟨Double.ofRatio 2 10, Double.ofInt 0⟩)
      ≠ IEEE.QRectF.translated
        (IEEE.Shape.boundingRect
          (.connector (IEEE.Example.dot (Double.ofRatio 1 10) (Double.ofInt 0))))
        ⟨Double.ofRatio 2 10, Double.ofInt 0⟩ := by
  decide!

/-- C10, as the code has it: for a shape of a box kind (Rectangle, Ellipse, Diamond,
Triangle, Text) and every delta, `boundingRect()` after `moveBy(delta)` is the
`boundingRect()` before the move translated by delta as `QRectF::translated` computes it:
the same width and height, the top-left corner at the rounded sums `x + dx` and `y + dy`. -/
theorem box_boundingRect_moveBy_translated (s : Shape Double)
    (hk : s.kind ≠ DiagramShape.Connector) (delta : QPointF Double) :
    IEEE.Shape.boundingRect (IEEE.Shape.moveBy s delta)
      = IEEE.QRectF.translated (IEEE.Shape.boundingRect s) delta ∧
    (IEEE.Shape.boundingRect (IEEE.Shape.moveBy s delta)).w = (IEEE.Shape.boundingRect s).w ∧
    (IEEE.Shape.boundingRect (IEEE.Shape.moveBy s delta)).h = (IEEE.Shape.boundingRect s).h ∧
    (IEEE.Shape.boundingRect (IEEE.Shape.moveBy s delta)).topLeft
      = IEEE.QPointF.add (IEEE.Shape.boundingRect s).topLeft delta := by
  cases s with
  | connector c => exact absurd rfl hk
  | rectangle r => exact ⟨rfl, rfl, rfl, rfl⟩
  | ellipse r => exact ⟨rfl, rfl, rfl, rfl⟩
  | diamond r => exact ⟨rfl, rfl, rfl, rfl⟩
  | triangle r => exact ⟨rfl, rfl, rfl, rfl⟩
  | text r => exact ⟨rfl, rfl, rfl, rfl⟩

set_option maxRecDepth 100000 in
theorem box_boundingRect_moveBy_translated_witness :
    (Shape.rectangle IEEE.Example.slimBox).kind ≠ DiagramShape.Connector ∧
    (IEEE.Shape.boundingRect (IEEE.Shape.moveBy (Shape.rectangle IEEE.Example.slimBox)
        ⟨Double.ofRatio 2 10, Double.ofInt 3⟩)
      = IEEE.QRectF.translated (IEEE.Shape.boundingRect (Shape.rectangle IEEE.Example.slimBox))
        ⟨Double.ofRatio 2 10, Double.ofInt 3⟩ ∧
    (IEEE.Shape.boundingRect (IEEE.Shape.moveBy (Shape.rectangle IEEE.Example.slimBox)
        ⟨Double.ofRatio 2 10, Double.ofInt 3⟩)).w
      = (IEEE.Shape.boundingRect (Shape.rectangle IEEE.Example.slimBox)).w ∧
    (IEEE.Shape.boundingRect (IEEE.Shape.moveBy (Shape.rectangle IEEE.Example.slimBox)
        ⟨Double.ofRatio 2 10, Double.ofInt 3⟩)).h
      = (IEEE.Shape.boundingRect (Shape.rectangle IEEE.Example.slimBox)).h ∧
    (IEEE.Shape.boundingRect (IEEE.Shape.moveBy (Shape.rectangle IEEE.Example.slimBox)
        ⟨Double.ofRatio 2 10, Double.ofInt 3⟩)).topLeft
      = IEEE.QPointF.add (IEEE.Shape.boundingRect (Shape.rectangle IEEE.Example.slimBox)).topLeft
        ⟨Double.ofRatio 2 10, Double.ofInt 3⟩) ∧
    IEEE.Shape.boundingRect (IEEE.Shape.moveBy (Shape.rectangle IEEE.Example.slimBox)
        ⟨Double.ofRatio 2 10, Double.ofInt 3⟩)
      = ⟨.fin 5404319552844596 (-54), Double.ofInt 3, Double.ofRatio 1 10, Double.ofInt 10⟩ :=
  ⟨by decide!, box_boundingRect_moveBy_translated (Shape.rectangle IEEE.Example.slimBox)
    (by decide!) ⟨Double.ofRatio 2 10, Double.ofInt 3⟩, by decide!⟩

/-! ## Size of a connector, in double precision -/

set_option maxRecDepth 100000 in
/-- C12 (as stated, refuted): on the connector from (0,0) to (1,1), `setSize((1, 0))` puts
the end point at (0.70710678118654746, 0.70710678118654746) and `getSize()` then returns
the width 0.99999999999999989, the `double` below 1, not 1. -/
theorem connector_setSize_misses_length :
    (IEEE.Example.ray (Double.ofInt 1) (Double.ofInt 1)).startPoint
      ≠ (IEEE.Example.ray (Double.ofInt 1) (Double.ofInt 1)).endPoint ∧
    (IEEE.ConnectorShape.setSize (IEEE.Example.ray (Double.ofInt 1) (Double.ofInt 1))
      ⟨Double.ofInt 1, Double.ofInt 0⟩).endPoint
      = ⟨.fin 6369051672525772 (-53), .fin 6369051672525772 (-53)⟩ ∧
    IEEE.ConnectorShape.getSize
      (IEEE.ConnectorShape.setSize (IEEE.Example.ray (Double.ofInt 1) (Double.ofInt 1))
        ⟨Double.ofInt 1, Double.ofInt 0⟩)
      = ⟨.fin 9007199254740991 (-53), Double.ofInt 0⟩ ∧
    Double.ofInt 1 = .fin 4503599627370496 (-52) ∧
    Double.lt (IEEE.ConnectorShape.getSize
      (IEEE.ConnectorShape.setSize (IEEE.Example.ray (Double.ofInt 1) (Double.ofInt 1))
        ⟨Double.ofInt 1, Double.ofInt 0⟩)).wd (Double.ofInt 1) = true := by
  decide!

/-- C12, as the code has it: `setSize` leaves the start point and the control points
unchanged; when the computed length `len = qSqrt(dx * dx + dy * dy)` of `end - start` is
positive, the end point becomes `start + ((end - start) / len) * L`, every operation
rounded to `double`, for the width `L` of the argument, of whatever sign, the height being
ignored; and `getSize()` returns the computed length of `end - start` as width and 0 as
height. -/
theorem connector_setSize_computed_end (c : ConnectorShape Double) (newSize : QSizeF Double)
    (hlen : (Double.ofInt 0).lt (IEEE.ConnectorShape.getSize c).wd = true) :
    (IEEE.ConnectorShape.setSize c newSize).startPoint = c.startPoint ∧
    (IEEE.ConnectorShape.setSize c newSize).controlPoints = c.controlPoints ∧
    (IEEE.ConnectorShape.setSize c newSize).endPoint
      = IEEE.QPointF.add c.startPoint
          (IEEE.QPointF.mulBy
            (IEEE.QPointF.divBy (IEEE.QPointF.sub c.endPoint c.startPoint)
              (IEEE.ConnectorShape.getSize c).wd)
            newSize.wd) ∧
    (IEEE.ConnectorShape.getSize c).wd
      = ((((c.endPoint.xp.sub c.startPoint.xp).mul (c.endPoint.xp.sub c.startPoint.xp)).add
          ((c.endPoint.yp.sub c.startPoint.yp).mul (c.endPoint.yp.sub c.startPoint.yp))).sqrt) ∧
    (IEEE.ConnectorShape.getSize (IEEE.ConnectorShape.setSize c newSize)).ht = Double.ofInt 0 ∧
    (IEEE.ConnectorShape.getSize (IEEE.ConnectorShape.setSize c newSize)).wd
      = IEEE.QLineF.length ⟨c.startPoint, (IEEE.ConnectorShape.setSize c newSize).endPoint⟩ := by
  have hlen2 : (Double.ofInt 0).lt
      ((((IEEE.QPointF.sub c.endPoint c.startPoint).xp.mul
          (IEEE.QPointF.sub c.endPoint c.startPoint).xp).add
        ((IEEE.QPointF.sub c.endPoint c.startPoint).yp.mul
          (IEEE.QPointF.sub c.endPoint c.startPoint).yp)).sqrt) = true := hlen
  have hset : IEEE.ConnectorShape.setSize c newSize
      = { c with endPoint := (IEEE.QPointF.add c.startPoint
            (IEEE.QPointF.mulBy
              (IEEE.QPointF.divBy (IEEE.QPointF.sub c.endPoint c.startPoint)
                (IEEE.ConnectorShape.getSize c).wd)
              newSize.wd)) } := by
    unfold IEEE.ConnectorShape.setSize
    simp only [hlen2, if_true]
    rfl
  rw [hset]
  exact ⟨rfl, rfl, rfl, rfl, rfl, rfl⟩

set_option maxRecDepth 100000 in
theorem connector_setSize_computed_end_witness :
    (Double.ofInt 0).lt
      (IEEE.ConnectorShape.getSize (IEEE.Example.ray (Double.ofInt 3) (Double.ofInt 4))).wd
      = true ∧
    (IEEE.ConnectorShape.setSize (IEEE.Example.ray (Double.ofInt 3) (Double.ofInt 4))
      ⟨Double.ofInt 10, Double.ofInt 7⟩).endPoint
      = IEEE.QPointF.add (IEEE.Example.ray (Double.ofInt 3) (Double.ofInt 4)).startPoint
          (IEEE.QPointF.mulBy
            (IEEE.QPointF.divBy
              (IEEE.QPointF.sub (IEEE.Example.ray (Double.ofInt 3) (Double.ofInt 4)).endPoint
                (IEEE.Example.ray (Double.ofInt 3) (Double.ofInt 4)).startPoint)
              (IEEE.ConnectorShape.getSize
                (IEEE.Example.ray (Double.ofInt 3) (Double.ofInt 4))).wd)
            (Double.ofInt 10)) ∧
    IEEE.ConnectorShape.getSize (IEEE.Example.ray (Double.ofInt 3) (Double.ofInt 4))
      = ⟨Double.ofInt 5, Double.ofInt 0⟩ ∧
    IEEE.ConnectorShape.getSize
      (IEEE.ConnectorShape.setSize (IEEE.Example.ray (Double.ofInt 3) (Double.ofInt 4))
        ⟨Double.ofInt 10, Double.ofInt 7⟩)
      = ⟨Double.ofInt 10, Double.ofInt 0⟩ :=
  ⟨by decide!,
    (connector_setSize_computed_end (IEEE.Example.ray (Double.ofInt 3) (Double.ofInt 4))
      ⟨Double.ofInt 10, Double.ofInt 7⟩ (by decide!)).2.2.1, by decide!, by decide!⟩

/-! ## The polygons of Diamond and Triangle, in double precision -/

theorem IEEE.containsPoint_four_flat (a b c d p : QPointF Double)
    (h1 : Double.qFuzzyCompare a.yp b.yp = true) (h2 : Double.qFuzzyCompare b.yp c.yp = true)
    (h3 : Double.qFuzzyCompare c.yp d.yp = true) (h4 : Double.qFuzzyCompare d.yp a.yp = true) :
    IEEE.QPolygonF.containsPoint [a, b, c, d] p = false := by
  simp only [IEEE.QPolygonF.containsPoint, IEEE.QPolygonF.windingLoop,
    IEEE.qt_polygon_isect_line, h1, h2, h3, h4, if_true, ite_self]
  rfl

theorem IEEE.diamond_contains_eq (d : DiamondShape Double) (p : QPointF Double) :
    IEEE.DiamondShape.contains d p =
      IEEE.QPolygonF.containsPoint
        [⟨d.position.xp.add (d.size.wd.div (Double.ofInt 2)), d.position.yp⟩,
         ⟨d.position.xp.add d.size.wd, d.position.yp.add (d.size.ht.div (Double.ofInt 2))⟩,
         ⟨d.position.xp.add (d.size.wd.div (Double.ofInt 2)), d.position.yp.add d.size.ht⟩,
         ⟨d.position.xp, d.position.yp.add (d.size.ht.div (Double.ofInt 2))⟩] p := rfl

theorem IEEE.triangle_contains_eq (t : TriangleShape Double) (p : QPointF Double) :
    IEEE.TriangleShape.contains t p =
      IEEE.QPolygonF.containsPoint
        [⟨t.position.xp.add (t.size.wd.div (Double.ofInt 2)), t.position.yp⟩,
         ⟨t.position.xp.add t.size.wd, t.position.yp.add t.size.ht⟩,
         ⟨t.position.xp, t.position.yp.add t.size.ht⟩] p := rfl

set_option maxRecDepth 100000 in
theorem IEEE.smallDiamond_contains_nothing (p : QPointF Double) :
    IEEE.DiamondShape.contains IEEE.Example.smallDiamond p = false := by
  rw [IEEE.diamond_contains_eq]
  exact IEEE.containsPoint_four_flat _ _ _ _ p (by decide!) (by decide!) (by decide!)
    (by decide!)

set_option maxRecDepth 100000 in
/-- C21 (as stated, refuted): the Diamond at (1000,1000) with size (4e-10, 4e-10) has positive
width and height, and the centre of its box lies strictly inside the quadrilateral through
the midpoints of the four sides, yet `contains` is false at the centre, as at every other
point: the heights of the ends of each edge differ by 2e-10, which `qFuzzyCompare` takes
for equal at the height 1000, so `containsPoint` ignores all four edges. -/
theorem diamond_misses_own_centre :
    (Double.ofInt 0).lt IEEE.Example.smallDiamond.getSize.wd = true ∧
    (Double.ofInt 0).lt IEEE.Example.smallDiamond.getSize.ht = true ∧
    StrictlyInside (sideMidpoints (QRectF.toRat IEEE.Example.smallDiamond.boundingRect))
      (QPointF.toRat (IEEE.QRectF.center IEEE.Example.smallDiamond.boundingRect)) ∧
    IEEE.DiamondShape.contains IEEE.Example.smallDiamond
      (IEEE.QRectF.center IEEE.Example.smallDiamond.boundingRect) = false ∧
    ∀ p, IEEE.DiamondShape.contains IEEE.Example.smallDiamond p = false := by
  refine ⟨by decide!, by decide!, ?_, IEEE.smallDiamond_contains_nothing _,
    IEEE.smallDiamond_contains_nothing⟩
  have hc : IEEE.QRectF.center IEEE.Example.smallDiamond.boundingRect
      = ⟨.fin 8796093022209759 (-43), .fin 8796093022209759 (-43)⟩ := by decide!
  have hb : IEEE.Example.smallDiamond.boundingRect
      = ⟨.fin 8796093022208000 (-43), .fin 8796093022208000 (-43),
         .fin 7737125245533627 (-84), .fin 7737125245533627 (-84)⟩ := by decide!
  rw [hc, hb]
  intro e he
  simp only [sideMidpoints, polygonEdges, QRectF.toRat, QPointF.toRat, Double.toRat,
    List.zip_cons_cons, List.cons_append, List.nil_append, List.zip_nil_right,
    List.mem_cons, List.mem_singleton, List.not_mem_nil, or_false] at he
  rcases he with h | h | h | h <;> subst h <;>
    simp only [edgeSide, QPointF.toRat, Double.toRat] <;> norm_num

theorem IEEE.paintText_no_polygon (self : DiagramShape Double) (rect : QRectF Double)
    (V : List (QPointF Double)) : PaintCmd.drawPolygon V ∉ self.paintText rect := by
  unfold DiagramShape.paintText
  split_ifs <;> simp

theorem IEEE.paintSelectionHandles_no_polygon (self : DiagramShape Double)
    (rect : QRectF Double) (V : List (QPointF Double)) :
    PaintCmd.drawPolygon V ∉ IEEE.DiagramShape.paintSelectionHandles self rect := by
  unfold IEEE.DiagramShape.paintSelectionHandles
  simp

/-- C21, as the code has it: `contains(p)` of a Diamond is
`QPolygonF::containsPoint(p, Qt::OddEvenFill)` of the polygon through the computed midpoints
of the four sides of the box, top, right, bottom, left, and `contains(p)` of a Triangle
that of the polygon with apex at the computed middle of the top side and base corners at
bottom-right and bottom-left; in each case this vertex list is the one polygon `paint`
draws.  `containsPoint` ignores an edge whose end heights are equal under `qFuzzyCompare`,
so a Diamond whose four edges are such contains no point, inside or not. -/
theorem polygon_hit_test_uses_painted_outline :
    (∀ (d : DiamondShape Double) (p : QPointF Double),
      IEEE.DiamondShape.contains d p =
        IEEE.QPolygonF.containsPoint
          [⟨d.position.xp.add (d.size.wd.div (Double.ofInt 2)), d.position.yp⟩,
           ⟨d.position.xp.add d.size.wd, d.position.yp.add (d.size.ht.div (Double.ofInt 2))⟩,
           ⟨d.position.xp.add (d.size.wd.div (Double.ofInt 2)), d.position.yp.add d.size.ht⟩,
           ⟨d.position.xp, d.position.yp.add (d.size.ht.div (Double.ofInt 2))⟩] p) ∧
    (∀ (d : DiamondShape Double) (V : List (QPointF Double)),
      PaintCmd.drawPolygon V ∈ IEEE.DiamondShape.paint d ↔
        V = [⟨d.position.xp.add (d.size.wd.div (Double.ofInt 2)), d.position.yp⟩,
             ⟨d.position.xp.add d.size.wd, d.position.yp.add (d.size.ht.div (Double.ofInt 2))⟩,
             ⟨d.position.xp.add (d.size.wd.div (Double.ofInt 2)), d.position.yp.add d.size.ht⟩,
             ⟨d.position.xp, d.position.yp.add (d.size.ht.div (Double.ofInt 2))⟩]) ∧
    (∀ (t : TriangleShape Double) (p : QPointF Double),
      IEEE.TriangleShape.contains t p =
        IEEE.QPolygonF.containsPoint
          [⟨t.position.xp.add (t.size.wd.div (Double.ofInt 2)), t.position.yp⟩,
           ⟨t.position.xp.add t.size.wd, t.position.yp.add t.size.ht⟩,
           ⟨t.position.xp, t.position.yp.add t.size.ht⟩] p) ∧
    (∀ (t : TriangleShape Double) (V : List (QPointF Double)),
      PaintCmd.drawPolygon V ∈ IEEE.TriangleShape.paint t ↔
        V = [⟨t.position.xp.add (t.size.wd.div (Double.ofInt 2)), t.position.yp⟩,
             ⟨t.position.xp.add t.size.wd, t.position.yp.add t.size.ht⟩,
             ⟨t.position.xp, t.position.yp.add t.size.ht⟩]) ∧
    (∀ (d : DiamondShape Double),
      Double.qFuzzyCompare d.position.yp
        (d.position.yp.add (d.size.ht.div (Double.ofInt 2))) = true →
      Double.qFuzzyCompare (d.position.yp.add (d.size.ht.div (Double.ofInt 2)))
        (d.position.yp.add d.size.ht) = true →
      Double.qFuzzyCompare (d.position.yp.add d.size.ht)
        (d.position.yp.add (d.size.ht.div (Double.ofInt 2))) = true →
      Double.qFuzzyCompare (d.position.yp.add (d.size.ht.div (Double.ofInt 2)))
        d.position.yp = true →
      ∀ p, IEEE.DiamondShape.contains d p = false) := by
  refine ⟨IEEE.diamond_contains_eq, ?_, IEEE.triangle_contains_eq, ?_, ?_⟩
  · intro d V
    have h1 := IEEE.paintText_no_polygon d.toDiagramShape
      (QRectF.ofTopLeftSize d.position d.size) V
    have h2 := IEEE.paintSelectionHandles_no_polygon d.toDiagramShape
      (QRectF.ofTopLeftSize d.position d.size) V
    unfold IEEE.DiamondShape.paint
    simp only [List.mem_append, List.mem_cons, List.mem_singleton, List.not_mem_nil, h1,
      or_false, false_or, reduceCtorEq, PaintCmd.drawPolygon.injEq]
    constructor
    · rintro (h | h)
      · exact h
      · split_ifs at h
        · exact absurd h h2
        · exact absurd h (List.not_mem_nil _)
    · intro h
      exact Or.inl h
  · intro t V
    have h1 := IEEE.paintText_no_polygon t.toDiagramShape
      (QRectF.ofTopLeftSize t.position t.size) V
    have h2 := IEEE.paintSelectionHandles_no_polygon t.toDiagramShape
      (QRectF.ofTopLeftSize t.position t.size) V
    unfold IEEE.TriangleShape.paint
    simp only [List.mem_append, List.mem_cons, List.mem_singleton, List.not_mem_nil, h1,
      or_false, false_or, reduceCtorEq, PaintCmd.drawPolygon.injEq]
    constructor
    · rintro (h | h)
      · exact h
      · split_ifs at h
        · exact absurd h h2
        · exact absurd h (List.not_mem_nil _)
    · intro h
      exact Or.inl h
  · intro d h1 h2 h3 h4 p
    rw [IEEE.diamond_contains_eq]
    exact IEEE.containsPoint_four_flat _ _ _ _ p h1 h2 h3 h4

theorem bitLength_zero (fuel : Nat) : bitLength fuel 0 = 0 := by
  cases fuel <;> simp [bitLength]

theorem bitLength_bounds (fuel n : Nat) (h : n ≤ fuel) (hn : n ≠ 0) :
    0 < bitLength fuel n ∧ 2 ^ (bitLength fuel n - 1) ≤ n ∧ n < 2 ^ bitLength fuel n := by
  induction fuel generalizing n with
  | zero => omega
  | succ k ih =>
    rw [bitLength, if_neg hn]
    by_cases h2 : n / 2 = 0
    · rw [h2, bitLength_zero]
      have : n = 1 := by omega
      subst this
      simp
    · obtain ⟨h3, h4, h5⟩ := ih (n / 2) (by omega) h2
      refine ⟨by omega, ?_, ?_⟩
      · simp only [Nat.add_sub_cancel]
        have : 2 ^ bitLength k (n / 2) = 2 * 2 ^ (bitLength k (n / 2) - 1) := by
          conv_lhs => rw [show bitLength k (n / 2) = (bitLength k (n / 2) - 1) + 1 by omega]
          rw [pow_succ]
          ring
        omega
      · rw [pow_succ]
        omega

theorem bitLength_unique (n a : Nat) (ha : 0 < a) (h1 : 2 ^ (a - 1) ≤ n) (h2 : n < 2 ^ a) :
    bitLength n n = a := by
  have hn : n ≠ 0 := by
    have : 0 < 2 ^ (a - 1) := Nat.pow_pos (by norm_num)
    omega
  obtain ⟨h3, h4, h5⟩ := bitLength_bounds n n le_rfl hn
  by_contra hne
  rcases Nat.lt_or_gt_of_ne hne with h | h
  · have : 2 ^ bitLength n n ≤ 2 ^ (a - 1) := Nat.pow_le_pow_right (by norm_num) (by omega)
    omega
  · have : 2 ^ a ≤ 2 ^ (bitLength n n - 1) := Nat.pow_le_pow_right (by norm_num) (by omega)
    omega

theorem bitLength_mul_pow (n k : Nat) (hn : n ≠ 0) :
    bitLength (n * 2 ^ k) (n * 2 ^ k) = bitLength n n + k := by
  obtain ⟨h3, h4, h5⟩ := bitLength_bounds n n le_rfl hn
  apply bitLength_unique
  · omega
  · rw [show bitLength n n + k - 1 = (bitLength n n - 1) + k by omega, pow_add]
    exact Nat.mul_le_mul_right _ h4
  · rw [pow_add]
    exact Nat.mul_lt_mul_of_pos_right h5 (Nat.pow_pos (by norm_num))

theorem roundShift_scale (M sh k : Nat) (hsh : 0 < sh) :
    roundShift (M * 2 ^ k) (sh + k) = roundShift M sh := by
  unfold roundShift
  have h1 : sh + k ≠ 0 := by omega
  have h2 : sh ≠ 0 := by omega
  rw [if_neg h1, if_neg h2]
  have hp : 0 < 2 ^ k := Nat.pow_pos (by norm_num)
  have e1 : M * 2 ^ k / 2 ^ (sh + k) = M / 2 ^ sh := by
    rw [pow_add, Nat.mul_div_mul_right _ _ hp]
  have e2 : M * 2 ^ k % 2 ^ (sh + k) = (M % 2 ^ sh) * 2 ^ k := by
    rw [pow_add, Nat.mul_mod_mul_right]
  have e3 : 2 ^ (sh + k - 1) = 2 ^ (sh - 1) * 2 ^ k := by
    rw [← pow_add]
    congr 1
    omega
  simp only [e1, e2, e3]
  have c1 : (2 ^ (sh - 1) * 2 ^ k < M % 2 ^ sh * 2 ^ k) ↔ (2 ^ (sh - 1) < M % 2 ^ sh) :=
    Nat.mul_lt_mul_right hp
  have c2 : (M % 2 ^ sh * 2 ^ k = 2 ^ (sh - 1) * 2 ^ k) ↔ (M % 2 ^ sh = 2 ^ (sh - 1)) :=
    Nat.mul_left_inj (by omega)
  simp only [c1, c2]

theorem roundShift_exact (M sh k : Nat) (hsh : 0 < sh) (hk : sh ≤ k) :
    roundShift (M * 2 ^ k) sh = M * 2 ^ (k - sh) := by
  unfold roundShift
  have h2 : sh ≠ 0 := by omega
  rw [if_neg h2]
  have hk2 : M * 2 ^ k = M * 2 ^ (k - sh) * 2 ^ sh := by
    rw [mul_assoc, ← pow_add]
    congr 2
    omega
  have e1 : M * 2 ^ k / 2 ^ sh = M * 2 ^ (k - sh) := by
    rw [hk2, Nat.mul_div_cancel _ (Nat.pow_pos (by norm_num))]
  have e2 : M * 2 ^ k % 2 ^ sh = 0 := by
    rw [hk2, Nat.mul_mod_left]
  have hp : 0 < 2 ^ (sh - 1) := Nat.pow_pos (by norm_num)
  simp only [e1, e2]
  rw [if_neg]
  rintro (h | ⟨h, -⟩) <;> omega

/-- Rounding depends on the value only: a significand scaled by `2 ^ k` with the exponent
lowered by `k` rounds to the same `double`. -/
theorem Double.round_scale (s : Bool) (M k : Nat) (E : Int) :
    Double.round s (M * 2 ^ k) (E - k) = Double.round s M E := by
  by_cases hM : M = 0
  · subst hM
    simp [Double.round]
  have hM2 : M * 2 ^ k ≠ 0 := Nat.mul_ne_zero hM (by positivity)
  unfold Double.round
  rw [if_neg hM, if_neg hM2]
  simp only [bitLength_mul_pow M k hM]
  have hq : max (E - (k : Int) + ((bitLength M M + k : Nat) : Int) - 53) (-1074)
      = max (E + ((bitLength M M : Nat) : Int) - 53) (-1074) := by
    congr 1
    push_cast
    ring
  rw [hq]
  generalize hqd : max (E + ((bitLength M M : Nat) : Int) - 53) (-1074) = q
  have ht : (if q ≤ E - (k : Int) then M * 2 ^ k * 2 ^ (E - (k : Int) - q).toNat
        else roundShift (M * 2 ^ k) (q - (E - (k : Int))).toNat)
      = (if q ≤ E then M * 2 ^ (E - q).toNat else roundShift M (q - E).toNat) := by
    by_cases c1 : q ≤ E - (k : Int)
    · have c2 : q ≤ E := by omega
      rw [if_pos c1, if_pos c2, mul_assoc, ← pow_add]
      congr 2
      omega
    · rw [if_neg c1]
      by_cases c2 : q ≤ E
      · rw [if_pos c2, roundShift_exact M _ k (by omega) (by omega)]
        congr 2
        omega
      · rw [if_neg c2, show (q - (E - (k : Int))).toNat = (q - E).toNat + k by omega,
          roundShift_scale M _ k (by omega)]
  simp only [ht]

theorem roundShift_bounds (M sh : Nat) :
    M / 2 ^ sh ≤ roundShift M sh ∧ roundShift M sh ≤ M / 2 ^ sh + 1 := by
  unfold roundShift
  by_cases h : sh = 0
  · subst h
    simp
  · rw [if_neg h]
    dsimp only
    split_ifs <;> omega

theorem Double.round_canonical (s : Bool) (M : Nat) (E : Int) :
    (Double.round s M E).Canonical := by
  by_cases hM : M = 0
  · subst hM
    simp [Double.round, Double.Canonical]
  obtain ⟨hn0, hn1, hn2⟩ := bitLength_bounds M M le_rfl hM
  unfold Double.round
  rw [if_neg hM]
  dsimp only
  generalize hn : bitLength M M = n at hn0 hn1 hn2
  generalize hq : max (E + (n : Int) - 53) (-1074) = q
  have hq1 : E + (n : Int) - 53 ≤ q := by rw [← hq]; exact le_max_left _ _
  have hq2 : -1074 ≤ q := by rw [← hq]; exact le_max_right _ _
  have hq3 : q = E + (n : Int) - 53 ∨ q = -1074 := by
    rw [← hq]
    rcases max_choice (E + (n : Int) - 53) (-1074) with h | h <;> rw [h] <;> simp
  generalize ht : (if q ≤ E then M * 2 ^ (E - q).toNat else roundShift M (q - E).toNat) = t
  have hp53 : (2 : Nat) ^ 53 = 2 * 2 ^ 52 := by norm_num
  -- bounds on the rounded significand
  have hle : t ≤ 2 ^ 53 := by
    rw [← ht]
    by_cases c : q ≤ E
    · rw [if_pos c]
      have h1 : (E - q).toNat + n ≤ 53 := by omega
      calc M * 2 ^ (E - q).toNat ≤ 2 ^ n * 2 ^ (E - q).toNat :=
            Nat.mul_le_mul_right _ hn2.le
        _ = 2 ^ (n + (E - q).toNat) := by rw [pow_add]
        _ ≤ 2 ^ 53 := Nat.pow_le_pow_right (by norm_num) (by omega)
    · rw [if_neg c]
      have h1 : n ≤ 53 + (q - E).toNat := by omega
      have h2 : M / 2 ^ (q - E).toNat < 2 ^ 53 := by
        rw [Nat.div_lt_iff_lt_mul (Nat.pow_pos (by norm_num))]
        calc M < 2 ^ n := hn2
          _ ≤ 2 ^ (53 + (q - E).toNat) := Nat.pow_le_pow_right (by norm_num) h1
          _ = 2 ^ 53 * 2 ^ (q - E).toNat := by rw [pow_add]
      have := (roundShift_bounds M (q - E).toNat).2
      omega
  have hlow : q = E + (n : Int) - 53 → 2 ^ 52 ≤ t := by
    intro hqe
    rw [← ht]
    by_cases c : q ≤ E
    · rw [if_pos c]
      have h1 : (n - 1) + (E - q).toNat = 52 := by omega
      calc 2 ^ 52 = 2 ^ (n - 1) * 2 ^ (E - q).toNat := by rw [← pow_add, h1]
        _ ≤ M * 2 ^ (E - q).toNat := Nat.mul_le_mul_right _ hn1
    · rw [if_neg c]
      have h1 : n - 1 = 52 + (q - E).toNat := by omega
      have h2 : 2 ^ 52 ≤ M / 2 ^ (q - E).toNat := by
        rw [Nat.le_div_iff_mul_le (Nat.pow_pos (by norm_num)), ← pow_add, ← h1]
        exact hn1
      have := (roundShift_bounds M (q - E).toNat).1
      omega
  have key : ∀ (t1 : Nat) (q1 : Int), t1 ≠ 0 → t1 < 2 ^ 53 → -1074 ≤ q1 →
      (2 ^ 52 ≤ t1 ∨ q1 = -1074) →
      (if 971 < q1 then Double.inf s
        else Double.fin (if s = true then -(t1 : Int) else (t1 : Int)) q1).Canonical := by
    intro t1 q1 h0 h1 h2 h3
    by_cases c1 : 971 < q1
    · rw [if_pos c1]
      trivial
    · rw [if_neg c1]
      simp only [Double.Canonical]
      right
      have hnat : (if s = true then -(t1 : Int) else (t1 : Int)).natAbs = t1 := by
        split_ifs <;> simp
      rw [hnat]
      refine ⟨?_, h1, h2, by omega, h3⟩
      split_ifs <;> omega
  by_cases c53 : t = 2 ^ 53
  · simp only [c53, if_true]
    rw [if_neg (by norm_num)]
    exact key (2 ^ 52) (q + 1) (by norm_num) (by norm_num) (by omega) (Or.inl le_rfl)
  · simp only [c53, if_false]
    by_cases c0 : t = 0
    · rw [if_pos c0]
      simp [Double.Canonical]
    · rw [if_neg c0]
      refine key t q c0 (by omega) hq2 ?_
      rcases hq3 with h | h
      · exact Or.inl (hlow h)
      · exact Or.inr h

theorem Double.roundInt_of_canonical (m e : Int) (h : (Double.fin m e).Canonical) :
    Double.roundInt m e = .fin m e := by
  simp only [Double.Canonical] at h
  rcases h with ⟨h1, h2⟩ | ⟨h0, h1, h2, h3, h4⟩
  · subst h1 h2
    rfl
  · have hM : m.natAbs ≠ 0 := by omega
    unfold Double.roundInt Double.round
    rw [if_neg hM]
    dsimp only
    have hq : max (e + ((bitLength m.natAbs m.natAbs : Nat) : Int) - 53) (-1074) = e := by
      rcases h4 with h4 | h4
      · rw [bitLength_unique m.natAbs 53 (by norm_num) h4 h1]
        simp
        omega
      · obtain ⟨b0, b1, b2⟩ := bitLength_bounds m.natAbs m.natAbs le_rfl hM
        have : bitLength m.natAbs m.natAbs ≤ 53 := by
          by_contra hc
          have : 2 ^ 53 ≤ 2 ^ (bitLength m.natAbs m.natAbs - 1) :=
            Nat.pow_le_pow_right (by norm_num) (by omega)
          omega
        rw [h4]
        apply max_eq_right
        omega
    rw [hq]
    simp only [le_refl, if_true, sub_self, Int.toNat_zero, pow_zero, mul_one]
    have h53 : m.natAbs ≠ 2 ^ 53 := by omega
    have h971 : ¬ (971 < e) := by omega
    simp only [h53, hM, h971, if_false]
    congr 1
    by_cases hs : m < 0
    · simp only [hs, decide_True, if_true]
      omega
    · simp only [hs, decide_False, Bool.false_eq_true, if_false]
      omega

/-- A value the rounding has produced is not changed by rounding it again. -/
theorem Double.round_idem (s : Bool) (M : Nat) (E m e : Int)
    (h : Double.round s M E = .fin m e) : Double.roundInt m e = .fin m e := by
  apply Double.roundInt_of_canonical
  rw [← h]
  exact Double.round_canonical s M E

theorem Double.roundInt_scale (m : Int) (k : Nat) (e : Int) :
    Double.roundInt (m * 2 ^ k) (e - k) = Double.roundInt m e := by
  unfold Double.roundInt
  have hp : (0 : Int) < 2 ^ k := by positivity
  have h1 : decide (m * 2 ^ k < 0) = decide (m < 0) := by
    congr 1
    apply propext
    constructor
    · intro h
      by_contra hc
      have : 0 ≤ m * 2 ^ k := mul_nonneg (not_lt.mp hc) hp.le
      omega
    · intro h
      exact mul_neg_of_neg_of_pos h hp
  have h2 : (m * 2 ^ k).natAbs = m.natAbs * 2 ^ k := by
    rw [Int.natAbs_mul, Int.natAbs_pow]
    rfl
  rw [h1, h2, Double.round_scale]

theorem Double.roundInt_congr (m1 e1 m2 e2 : Int)
    (h : Double.eq (.fin m1 e1) (.fin m2 e2) = true) :
    Double.roundInt m1 e1 = Double.roundInt m2 e2 := by
  simp only [Double.eq, decide_eq_true_eq] at h
  have a1 := Double.roundInt_scale m1 (e1 - min e1 e2).toNat e1
  have a2 := Double.roundInt_scale m2 (e2 - min e1 e2).toNat e2
  have b1 : e1 - ((e1 - min e1 e2).toNat : Int) = min e1 e2 := by
    have := min_le_left e1 e2
    omega
  have b2 : e2 - ((e2 - min e1 e2).toNat : Int) = min e1 e2 := by
    have := min_le_right e1 e2
    omega
  rw [b1] at a1
  rw [b2] at a2
  rw [← a1, ← a2, h]

theorem Double.roundInt_congr_toRat (m1 e1 m2 e2 : Int)
    (h : Double.toRat (.fin m1 e1) = Double.toRat (.fin m2 e2)) :
    Double.roundInt m1 e1 = Double.roundInt m2 e2 :=
  Double.roundInt_congr m1 e1 m2 e2 ((Double.eq_fin_iff m1 e1 m2 e2).mpr h)

theorem Double.add_fin (m1 e1 m2 e2 : Int) :
    Double.add (.fin m1 e1) (.fin m2 e2)
      = Double.roundInt (m1 * 2 ^ (e1 - min e1 e2).toNat + m2 * 2 ^ (e2 - min e1 e2).toNat)
          (min e1 e2) := rfl

theorem Double.toRat_aligned_sum (m1 e1 m2 e2 : Int) :
    Double.toRat (.fin (m1 * 2 ^ (e1 - min e1 e2).toNat + m2 * 2 ^ (e2 - min e1 e2).toNat)
        (min e1 e2))
      = Double.toRat (.fin m1 e1) + Double.toRat (.fin m2 e2) := by
  simp only [Double.toRat]
  rw [← Double.toRat_fin_aligned m1 e1 (min e1 e2) (min_le_left _ _),
    ← Double.toRat_fin_aligned m2 e2 (min e1 e2) (min_le_right _ _)]
  push_cast
  ring

/-- The sum of two finite values is the rounding of any exact representation of their
sum. -/
theorem Double.add_eq_roundInt (m1 e1 m2 e2 m e : Int)
    (h : Double.toRat (.fin m e) = Double.toRat (.fin m1 e1) + Double.toRat (.fin m2 e2)) :
    Double.add (.fin m1 e1) (.fin m2 e2) = Double.roundInt m e := by
  rw [Double.add_fin]
  apply Double.roundInt_congr_toRat
  rw [Double.toRat_aligned_sum, h]

theorem Double.roundInt_zero (e : Int) : Double.roundInt 0 e = .fin 0 0 := rfl

theorem Double.sub_self_fin (m e : Int) : Double.sub (.fin m e) (.fin m e) = .fin 0 0 := by
  unfold Double.sub Double.neg
  rw [Double.add_fin]
  have : m * 2 ^ (e - min e e).toNat + -m * 2 ^ (e - min e e).toNat = 0 := by ring
  rw [this]
  rfl

theorem Double.add_zero_of_canonical (x : Double) (hx : x.Canonical) :
    x.add (.fin 0 0) = x ∧ Double.add (.fin 0 0) x = x := by
  cases x with
  | nan => exact ⟨rfl, rfl⟩
  | inf s => exact ⟨rfl, rfl⟩
  | fin m e =>
    have hr := Double.roundInt_of_canonical m e hx
    constructor
    · rw [Double.add_eq_roundInt m e 0 0 m e (by simp [Double.toRat]), hr]
    · rw [Double.add_eq_roundInt 0 0 m e m e (by simp [Double.toRat]), hr]

theorem Double.roundInt_canonical (m e : Int) : (Double.roundInt m e).Canonical :=
  Double.round_canonical _ _ _

theorem Double.add_canonical (a b : Double) : (a.add b).Canonical := by
  cases a with
  | nan => cases b <;> trivial
  | inf s =>
    cases b with
    | nan => trivial
    | inf t =>
      simp only [Double.add]
      split_ifs <;> trivial
    | fin m e => trivial
  | fin m1 e1 =>
    cases b with
    | nan => trivial
    | inf t => trivial
    | fin m2 e2 => exact Double.roundInt_canonical _ _

theorem Double.sqrt_canonical (a : Double) : a.sqrt.Canonical := by
  cases a with
  | nan => trivial
  | inf s =>
    simp only [Double.sqrt]
    split_ifs <;> trivial
  | fin m e =>
    simp only [Double.sqrt]
    split_ifs <;> first | trivial | exact Double.round_canonical _ _ _

theorem Double.round_not (s : Bool) (M : Nat) (E : Int) :
    Double.round (!s) M E = (Double.round s M E).neg := by
  unfold Double.round
  by_cases hM : M = 0
  · rw [if_pos hM, if_pos hM]
    rfl
  · rw [if_neg hM, if_neg hM]
    dsimp only
    generalize (if (if max (E + ((bitLength M M : Nat) : Int) - 53) (-1074) ≤ E
        then M * 2 ^ (E - max (E + ((bitLength M M : Nat) : Int) - 53) (-1074)).toNat
        else roundShift M (max (E + ((bitLength M M : Nat) : Int) - 53) (-1074) - E).toNat)
          = 2 ^ 53 then 2 ^ 52
      else (if max (E + ((bitLength M M : Nat) : Int) - 53) (-1074) ≤ E
        then M * 2 ^ (E - max (E + ((bitLength M M : Nat) : Int) - 53) (-1074)).toNat
        else roundShift M (max (E + ((bitLength M M : Nat) : Int) - 53) (-1074) - E).toNat))
      = t1
    generalize (if (if max (E + ((bitLength M M : Nat) : Int) - 53) (-1074) ≤ E
        then M * 2 ^ (E - max (E + ((bitLength M M : Nat) : Int) - 53) (-1074)).toNat
        else roundShift M (max (E + ((bitLength M M : Nat) : Int) - 53) (-1074) - E).toNat)
          = 2 ^ 53 then max (E + ((bitLength M M : Nat) : Int) - 53) (-1074) + 1
      else max (E + ((bitLength M M : Nat) : Int) - 53) (-1074)) = q1
    by_cases h0 : t1 = 0
    · rw [if_pos h0, if_pos h0]
      rfl
    · rw [if_neg h0, if_neg h0]
      by_cases h1 : 971 < q1
      · rw [if_pos h1, if_pos h1]
        rfl
      · rw [if_neg h1, if_neg h1]
        cases s
        · simp [Double.neg]
        · simp [Double.neg]

theorem Double.roundInt_neg (i e : Int) :
    Double.roundInt (-i) e = (Double.roundInt i e).neg := by
  unfold Double.roundInt
  rcases lt_trichotomy i 0 with h | h | h
  · have h1 : decide (-i < 0) = !decide (i < 0) := by
      simp only [h, decide_True, Bool.not_true, decide_eq_false_iff_not]
      omega
    rw [h1, Int.natAbs_neg, Double.round_not]
  · subst h
    rfl
  · have h1 : decide (-i < 0) = !decide (i < 0) := by
      have : ¬ (i < 0) := by omega
      simp only [this, decide_False, Bool.not_false, decide_eq_true_eq]
      omega
    rw [h1, Int.natAbs_neg, Double.round_not]

theorem Double.sub_swap (a b : Double) : b.sub a = (a.sub b).neg := by
  cases a with
  | nan => cases b <;> rfl
  | inf s =>
    cases b with
    | nan => rfl
    | inf t => cases s <;> cases t <;> rfl
    | fin m e => rfl
  | fin m1 e1 =>
    cases b with
    | nan => rfl
    | inf t => cases t <;> rfl
    | fin m2 e2 =>
      show Double.add (.fin m2 e2) (.fin (-m1) e1)
        = (Double.add (.fin m1 e1) (.fin (-m2) e2)).neg
      rw [Double.add_fin, Double.add_fin, ← Double.roundInt_neg, min_comm e2 e1]
      congr 1
      ring

theorem Double.mul_neg_neg (u : Double) : u.neg.mul u.neg = u.mul u := by
  cases u with
  | nan => rfl
  | inf s => cases s <;> rfl
  | fin m e =>
    simp only [Double.neg, Double.mul]
    congr 1
    ring

theorem IEEE.QLineF_length_comm (a b : QPointF Double) :
    IEEE.QLineF.length ⟨a, b⟩ = IEEE.QLineF.length ⟨b, a⟩ := by
  unfold IEEE.QLineF.length
  dsimp only
  rw [Double.sub_swap b.xp a.xp, Double.sub_swap b.yp a.yp, Double.mul_neg_neg,
    Double.mul_neg_neg]

theorem IEEE.QLineF_length_self (a : QPointF Double) (hx : a.xp.IsFinite)
    (hy : a.yp.IsFinite) : IEEE.QLineF.length ⟨a, a⟩ = .fin 0 0 := by
  obtain ⟨x, y⟩ := a
  cases x with
  | nan => exact absurd hx id
  | inf s => exact absurd hx id
  | fin m1 e1 =>
    cases y with
    | nan => exact absurd hy id
    | inf s => exact absurd hy id
    | fin m2 e2 =>
      unfold IEEE.QLineF.length
      dsimp only
      rw [Double.sub_self_fin, Double.sub_self_fin]
      rfl

theorem IEEE.QLineF_length_canonical (l : QLineF Double) : (IEEE.QLineF.length l).Canonical :=
  Double.sqrt_canonical _

theorem IEEE.nearSegment_ends (thr : Double) (a b : QPointF Double)
    (hthr : Double.lt (.fin 0 0) thr = true)
    (hax : a.xp.IsFinite) (hay : a.yp.IsFinite) (hbx : b.xp.IsFinite) (hby : b.yp.IsFinite)
    (hL : (IEEE.QLineF.length ⟨a, b⟩).IsFinite) :
    IEEE.ConnectorShape.nearSegment thr a b a = true ∧
      IEEE.ConnectorShape.nearSegment thr a b b = true := by
  have hc := IEEE.QLineF_length_canonical ⟨a, b⟩
  have key : ((IEEE.QLineF.length ⟨a, b⟩).sub (IEEE.QLineF.length ⟨a, b⟩)).qAbs.lt thr
      = true := by
    generalize IEEE.QLineF.length ⟨a, b⟩ = L at hL
    cases L with
    | nan => exact absurd hL id
    | inf s => exact absurd hL id
    | fin m e =>
      rw [Double.sub_self_fin]
      exact hthr
  unfold IEEE.ConnectorShape.nearSegment
  dsimp only
  constructor
  · rw [IEEE.QLineF_length_self a hax hay, ← IEEE.QLineF_length_comm a b,
      (Double.add_zero_of_canonical _ hc).2]
    exact key
  · rw [IEEE.QLineF_length_self b hbx hby, (Double.add_zero_of_canonical _ hc).1]
    exact key

theorem IEEE.containsLoop_iff_segment (thr : Double) (p e : QPointF Double)
    (prev : QPointF Double) (cps : List (QPointF Double)) :
    IEEE.ConnectorShape.containsLoop thr p e prev cps = true ↔
      ∃ seg ∈ (prev :: cps ++ [e]).zip (cps ++ [e]),
        IEEE.ConnectorShape.nearSegment thr seg.1 seg.2 p = true := by
  induction cps generalizing prev with
  | nil => simp [IEEE.ConnectorShape.containsLoop]
  | cons c rest ih =>
    simp only [IEEE.ConnectorShape.containsLoop, List.cons_append, List.zip_cons_cons,
      List.mem_cons, exists_eq_or_imp]
    by_cases h : IEEE.ConnectorShape.nearSegment thr prev c p = true
    · simp [h]
    · simp only [h, Bool.false_eq_true, if_false, false_or]
      exact ih c

theorem IEEE.contains_iff_near (c : ConnectorShape Double) (p : QPointF Double) :
    IEEE.ConnectorShape.contains c p = true ↔
      ∃ seg ∈ c.segments,
        IEEE.ConnectorShape.nearSegment (Double.ofInt 5) seg.1 seg.2 p = true := by
  unfold IEEE.ConnectorShape.contains ConnectorShape.segments ConnectorShape.path
  cases hcp : c.controlPoints with
  | nil => simp
  | cons q rest =>
    simp only [List.isEmpty_cons, Bool.false_eq_true, if_false, List.tail_cons]
    exact IEEE.containsLoop_iff_segment (Double.ofInt 5) p c.endPoint c.startPoint (q :: rest)

/-! ## Hit test of a connector, in double precision -/

theorem mem_zip_tail_of_mem {α : Type} (l : List α) (a : α) (hl : 2 ≤ l.length)
    (ha : a ∈ l) : ∃ s ∈ l.zip l.tail, a = s.1 ∨ a = s.2 := by
  induction l with
  | nil => simp at hl
  | cons x rest ih =>
    cases rest with
    | nil => simp at hl
    | cons y rest2 =>
      simp only [List.tail_cons, List.zip_cons_cons, List.mem_cons, exists_eq_or_imp]
      rcases List.mem_cons.mp ha with h | h
      · exact Or.inl (Or.inl h)
      · cases rest2 with
        | nil =>
          have : a = y := by simpa using h
          exact Or.inl (Or.inr this)
        | cons z rest3 =>
          obtain ⟨s, hs, hs2⟩ := ih (by simp) h
          exact Or.inr ⟨s, by simpa using hs, hs2⟩

set_option maxRecDepth 100000 in
set_option exponentiation.threshold 5000 in
/-- C25 (as stated, refuted): the straight connector from (0,0) to (1e200, 0) does not contain
its own start point, at distance 0 from the path: the length of the segment overflows to
infinity and the difference of the two infinities is not a number.  And the connector of
length zero at (0,0) does not contain the point `(1.5, 2 - 2 ^ -52)`, whose distance from
the start is less than 2.5: the computed distance is the `double` 2.5. -/
theorem long_connector_misses_own_start :
    IEEE.ConnectorShape.contains (IEEE.Example.ray (Double.ofInt (10 ^ 200)) (Double.ofInt 0))
      (IEEE.Example.ray (Double.ofInt (10 ^ 200)) (Double.ofInt 0)).startPoint = false ∧
    IEEE.QLineF.length ⟨⟨Double.ofInt 0, Double.ofInt 0⟩,
      ⟨Double.ofInt (10 ^ 200), Double.ofInt 0⟩⟩ = .inf false ∧
    IEEE.ConnectorShape.contains (IEEE.Example.dot (Double.ofInt 0) (Double.ofInt 0))
      ⟨Double.ofRatio 3 2, .fin (2 ^ 53 - 1) (-52)⟩ = false ∧
    IEEE.QLineF.length ⟨⟨Double.ofInt 0, Double.ofInt 0⟩,
      ⟨Double.ofRatio 3 2, .fin (2 ^ 53 - 1) (-52)⟩⟩ = Double.ofRatio 5 2 ∧
    (Double.ofRatio 3 2).toRat * (Double.ofRatio 3 2).toRat
      + (Double.fin (2 ^ 53 - 1) (-52)).toRat * (Double.fin (2 ^ 53 - 1) (-52)).toRat
      < (5 / 2) * (5 / 2) := by
  refine ⟨by decide!, by decide!, by decide!, by decide!, ?_⟩
  have h : Double.ofRatio 3 2 = .fin 6755399441055744 (-52) := by decide!
  rw [h]
  simp only [Double.toRat]
  norm_num

/-- C25, as the code has it: a connector contains both ends of each segment of its path
whose computed length is finite, the coordinates of the two ends being finite; so it
contains start, end and every control point when no segment overflows.  A connector of
length zero without control points, at a start point with finite coordinates, contains
`p` exactly when `qAbs(d + d) < 5` for the computed distance `d` from the start to `p`. -/
theorem connector_contains_segment_ends (c : ConnectorShape Double) :
    (∀ seg ∈ c.segments, seg.1.xp.IsFinite → seg.1.yp.IsFinite → seg.2.xp.IsFinite →
      seg.2.yp.IsFinite → (IEEE.QLineF.length ⟨seg.1, seg.2⟩).IsFinite →
      IEEE.ConnectorShape.contains c seg.1 = true ∧
        IEEE.ConnectorShape.contains c seg.2 = true) ∧
    ((∀ pt ∈ c.path, pt.xp.IsFinite ∧ pt.yp.IsFinite) →
      (∀ seg ∈ c.segments, (IEEE.QLineF.length ⟨seg.1, seg.2⟩).IsFinite) →
      ∀ pt ∈ c.path, IEEE.ConnectorShape.contains c pt = true) ∧
    (c.controlPoints = [] → c.endPoint = c.startPoint → c.startPoint.xp.IsFinite →
      c.startPoint.yp.IsFinite →
      ∀ p, IEEE.ConnectorShape.contains c p
        = (((IEEE.QLineF.length ⟨c.startPoint, p⟩).add
            (IEEE.QLineF.length ⟨c.startPoint, p⟩)).qAbs.lt (Double.ofInt 5))) := by
  have h1 : ∀ seg ∈ c.segments, seg.1.xp.IsFinite → seg.1.yp.IsFinite → seg.2.xp.IsFinite →
      seg.2.yp.IsFinite → (IEEE.QLineF.length ⟨seg.1, seg.2⟩).IsFinite →
      IEEE.ConnectorShape.contains c seg.1 = true ∧
        IEEE.ConnectorShape.contains c seg.2 = true := by
    intro seg hs hax hay hbx hby hL
    obtain ⟨n1, n2⟩ := IEEE.nearSegment_ends (Double.ofInt 5) seg.1 seg.2 (by decide)
      hax hay hbx hby hL
    exact ⟨(IEEE.contains_iff_near c seg.1).mpr ⟨seg, hs, n1⟩,
      (IEEE.contains_iff_near c seg.2).mpr ⟨seg, hs, n2⟩⟩
  refine ⟨h1, ?_, ?_⟩
  · intro hfin hlen pt hpt
    have hl : 2 ≤ c.path.length := by
      simp [ConnectorShape.path]
    obtain ⟨s, hs, hs2⟩ := mem_zip_tail_of_mem c.path pt hl hpt
    have hs' : s ∈ c.segments := hs
    have m1 : s.1 ∈ c.path := (List.of_mem_zip hs).1
    have m2 : s.2 ∈ c.path := List.mem_of_mem_tail (List.of_mem_zip hs).2
    have r := h1 s hs' (hfin _ m1).1 (hfin _ m1).2 (hfin _ m2).1 (hfin _ m2).2 (hlen s hs')
    rcases hs2 with e | e
    · rw [e]
      exact r.1
    · rw [e]
      exact r.2
  · intro hcp hend hx hy p
    unfold IEEE.ConnectorShape.contains
    rw [hcp, hend]
    simp only [List.isEmpty_nil, if_true]
    unfold IEEE.ConnectorShape.nearSegment
    dsimp only
    rw [IEEE.QLineF_length_self c.startPoint hx hy]
    have hc := Double.add_canonical (IEEE.QLineF.length ⟨c.startPoint, p⟩)
      (IEEE.QLineF.length ⟨c.startPoint, p⟩)
    show (Double.add _ (Double.neg (.fin 0 0))).qAbs.lt _ = _
    rw [show Double.neg (.fin 0 0) = .fin 0 0 from rfl, (Double.add_zero_of_canonical _ hc).1]

/-! ## Bounding rectangle of a connector, in double precision -/

theorem Double.lt_iff_toRat (a b : Double) (ha : a.IsFinite) (hb : b.IsFinite) :
    a.lt b = true ↔ a.toRat < b.toRat := by
  cases a with
  | nan => exact absurd ha id
  | inf s => exact absurd ha id
  | fin m1 e1 =>
    cases b with
    | nan => exact absurd hb id
    | inf s => exact absurd hb id
    | fin m2 e2 => exact Double.lt_fin_iff m1 e1 m2 e2

theorem Double.eq_iff_toRat (a b : Double) (ha : a.IsFinite) (hb : b.IsFinite) :
    a.eq b = true ↔ a.toRat = b.toRat := by
  cases a with
  | nan => exact absurd ha id
  | inf s => exact absurd ha id
  | fin m1 e1 =>
    cases b with
    | nan => exact absurd hb id
    | inf s => exact absurd hb id
    | fin m2 e2 => exact Double.eq_fin_iff m1 e1 m2 e2

theorem Double.le_iff_toRat (a b : Double) (ha : a.IsFinite) (hb : b.IsFinite) :
    a.le b = true ↔ a.toRat ≤ b.toRat := by
  cases a with
  | nan => exact absurd ha id
  | inf s => exact absurd ha id
  | fin m1 e1 =>
    cases b with
    | nan => exact absurd hb id
    | inf s => exact absurd hb id
    | fin m2 e2 => exact Double.le_fin_iff m1 e1 m2 e2

theorem Double.isFinite_of_inRange (x : Double) (h : x.InRange) : x.IsFinite := by
  cases x with
  | nan => exact absurd h.1 (by decide)
  | inf s =>
    cases s
    · exact absurd h.2 (by decide)
    · exact absurd h.1 (by decide)
  | fin m e => trivial

theorem Double.qMin_cases (a b : Double) : Double.qMin a b = a ∨ Double.qMin a b = b := by
  unfold Double.qMin
  split_ifs
  · exact Or.inl rfl
  · exact Or.inr rfl

theorem Double.qMax_cases (a b : Double) : Double.qMax a b = a ∨ Double.qMax a b = b := by
  unfold Double.qMax
  split_ifs
  · exact Or.inr rfl
  · exact Or.inl rfl

theorem Double.qMin_toRat (a b : Double) (ha : a.IsFinite) (hb : b.IsFinite) :
    (Double.qMin a b).IsFinite ∧ (Double.qMin a b).toRat = min a.toRat b.toRat := by
  unfold Double.qMin
  by_cases h : a.lt b = true
  · rw [if_pos h]
    exact ⟨ha, (min_eq_left ((Double.lt_iff_toRat a b ha hb).mp h).le).symm⟩
  · rw [if_neg h]
    have : ¬ a.toRat < b.toRat := fun hh => h ((Double.lt_iff_toRat a b ha hb).mpr hh)
    exact ⟨hb, (min_eq_right (not_lt.mp this)).symm⟩

theorem Double.qMax_toRat (a b : Double) (ha : a.IsFinite) (hb : b.IsFinite) :
    (Double.qMax a b).IsFinite ∧ (Double.qMax a b).toRat = max a.toRat b.toRat := by
  unfold Double.qMax
  by_cases h : a.lt b = true
  · rw [if_pos h]
    exact ⟨hb, (max_eq_right ((Double.lt_iff_toRat a b ha hb).mp h).le).symm⟩
  · rw [if_neg h]
    have : ¬ a.toRat < b.toRat := fun hh => h ((Double.lt_iff_toRat a b ha hb).mpr hh)
    exact ⟨ha, (max_eq_left (not_lt.mp this)).symm⟩

theorem IEEE.extent_eq_foldl (pts : List (QPointF Double)) (a b c d : Double) :
    IEEE.ConnectorShape.extent pts (a, b, c, d)
      = ((pts.map (fun pt => pt.xp)).foldl Double.qMin a,
         (pts.map (fun pt => pt.yp)).foldl Double.qMin b,
         (pts.map (fun pt => pt.xp)).foldl Double.qMax c,
         (pts.map (fun pt => pt.yp)).foldl Double.qMax d) := by
  induction pts generalizing a b c d with
  | nil => rfl
  | cons pt rest ih =>
    rw [IEEE.ConnectorShape.extent, ih]
    rfl

theorem Double.foldl_qMin_spec (xs : List Double) (a : Double) (ha : a.IsFinite)
    (hxs : ∀ x ∈ xs, x.IsFinite) :
    (xs.foldl Double.qMin a).IsFinite ∧
      (∃ x ∈ a :: xs, (xs.foldl Double.qMin a).toRat = x.toRat) ∧
      ∀ x ∈ a :: xs, (xs.foldl Double.qMin a).toRat ≤ x.toRat := by
  induction xs generalizing a with
  | nil => exact ⟨ha, ⟨a, by simp, rfl⟩, by simp⟩
  | cons y rest ih =>
    have hy : y.IsFinite := hxs y (by simp)
    obtain ⟨f1, f2⟩ := Double.qMin_toRat a y ha hy
    obtain ⟨g1, ⟨x, hx, g2⟩, g3⟩ := ih (Double.qMin a y) f1
      (fun x hx => hxs x (List.mem_cons_of_mem _ hx))
    simp only [List.foldl_cons]
    refine ⟨g1, ?_, ?_⟩
    · rcases List.mem_cons.mp hx with e | e
      · subst e
        rcases Double.qMin_cases a y with e2 | e2
        · exact ⟨a, by simp, by rw [g2, e2]⟩
        · exact ⟨y, by simp, by rw [g2, e2]⟩
      · exact ⟨x, by simp [e], g2⟩
    · intro x hx2
      have hmin := g3 (Double.qMin a y) (by simp)
      rw [f2] at hmin
      rcases List.mem_cons.mp hx2 with e | e
      · subst e
        exact hmin.trans (min_le_left _ _)
      · rcases List.mem_cons.mp e with e3 | e3
        · subst e3
          exact hmin.trans (min_le_right _ _)
        · exact g3 x (List.mem_cons_of_mem _ e3)

theorem Double.foldl_qMax_spec (xs : List Double) (a : Double) (ha : a.IsFinite)
    (hxs : ∀ x ∈ xs, x.IsFinite) :
    (xs.foldl Double.qMax a).IsFinite ∧
      (∃ x ∈ a :: xs, (xs.foldl Double.qMax a).toRat = x.toRat) ∧
      ∀ x ∈ a :: xs, x.toRat ≤ (xs.foldl Double.qMax a).toRat := by
  induction xs generalizing a with
  | nil => exact ⟨ha, ⟨a, by simp, rfl⟩, by simp⟩
  | cons y rest ih =>
    have hy : y.IsFinite := hxs y (by simp)
    obtain ⟨f1, f2⟩ := Double.qMax_toRat a y ha hy
    obtain ⟨g1, ⟨x, hx, g2⟩, g3⟩ := ih (Double.qMax a y) f1
      (fun x hx => hxs x (List.mem_cons_of_mem _ hx))
    simp only [List.foldl_cons]
    refine ⟨g1, ?_, ?_⟩
    · rcases List.mem_cons.mp hx with e | e
      · subst e
        rcases Double.qMax_cases a y with e2 | e2
        · exact ⟨a, by simp, by rw [g2, e2]⟩
        · exact ⟨y, by simp, by rw [g2, e2]⟩
      · exact ⟨x, by simp [e], g2⟩
    · intro x hx2
      have hmax := g3 (Double.qMax a y) (by simp)
      rw [f2] at hmax
      rcases List.mem_cons.mp hx2 with e | e
      · subst e
        exact (le_max_left _ _).trans hmax
      · rcases List.mem_cons.mp e with e3 | e3
        · subst e3
          exact (le_max_right _ _).trans hmax
        · exact g3 x (List.mem_cons_of_mem _ e3)

/-- The least of a non-empty list of values in range, as the loop of `boundingRect` computes
it from the initial value `max()`. -/
theorem Double.foldl_qMin_least (xs : List Double) (hne : xs ≠ [])
    (hxs : ∀ x ∈ xs, x.InRange) :
    (xs.foldl Double.qMin Double.DBL_MAX).IsFinite ∧
      (∃ x ∈ xs, (xs.foldl Double.qMin Double.DBL_MAX).eq x = true) ∧
      ∀ x ∈ xs, (xs.foldl Double.qMin Double.DBL_MAX).le x = true := by
  have hfin : ∀ x ∈ xs, x.IsFinite := fun x hx => Double.isFinite_of_inRange x (hxs x hx)
  have hM : Double.DBL_MAX.IsFinite := trivial
  obtain ⟨g1, ⟨x, hx, g2⟩, g3⟩ := Double.foldl_qMin_spec xs Double.DBL_MAX hM hfin
  refine ⟨g1, ?_, fun x hx => (Double.le_iff_toRat _ _ g1 (hfin x hx)).mpr
    (g3 x (List.mem_cons_of_mem _ hx))⟩
  rcases List.mem_cons.mp hx with e | e
  · subst e
    obtain ⟨y, hy⟩ := List.exists_mem_of_ne_nil xs hne
    refine ⟨y, hy, (Double.eq_iff_toRat _ _ g1 (hfin y hy)).mpr ?_⟩
    have h1 := g3 y (List.mem_cons_of_mem _ hy)
    have h2 := (Double.le_iff_toRat _ _ (hfin y hy) hM).mp (hxs y hy).2
    rw [g2] at h1 ⊢
    exact le_antisymm h1 h2
  · exact ⟨x, e, (Double.eq_iff_toRat _ _ g1 (hfin x e)).mpr g2⟩

/-- The greatest of a non-empty list of values in range, as the loop of `boundingRect`
computes it from the initial value `lowest()`. -/
theorem Double.foldl_qMax_greatest (xs : List Double) (hne : xs ≠ [])
    (hxs : ∀ x ∈ xs, x.InRange) :
    (xs.foldl Double.qMax Double.DBL_MAX.neg).IsFinite ∧
      (∃ x ∈ xs, (xs.foldl Double.qMax Double.DBL_MAX.neg).eq x = true) ∧
      ∀ x ∈ xs, x.le (xs.foldl Double.qMax Double.DBL_MAX.neg) = true := by
  have hfin : ∀ x ∈ xs, x.IsFinite := fun x hx => Double.isFinite_of_inRange x (hxs x hx)
  have hM : Double.DBL_MAX.neg.IsFinite := trivial
  obtain ⟨g1, ⟨x, hx, g2⟩, g3⟩ := Double.foldl_qMax_spec xs Double.DBL_MAX.neg hM hfin
  refine ⟨g1, ?_, fun x hx => (Double.le_iff_toRat _ _ (hfin x hx) g1).mpr
    (g3 x (List.mem_cons_of_mem _ hx))⟩
  rcases List.mem_cons.mp hx with e | e
  · subst e
    obtain ⟨y, hy⟩ := List.exists_mem_of_ne_nil xs hne
    refine ⟨y, hy, (Double.eq_iff_toRat _ _ g1 (hfin y hy)).mpr ?_⟩
    have h1 := g3 y (List.mem_cons_of_mem _ hy)
    have h2 := (Double.le_iff_toRat _ _ hM (hfin y hy)).mp (hxs y hy).1
    rw [g2] at h1 ⊢
    exact le_antisymm h2 h1
  · exact ⟨x, e, (Double.eq_iff_toRat _ _ g1 (hfin x e)).mpr g2⟩

set_option maxRecDepth 100000 in
/-- C9 (as stated, refuted): for the connector with start and end at (0.3, 0) the left edge of
`boundingRect()` is the `double` nearest to `0.3 - 10`, which lies less than 10 units left
of the start point: the margin on that side is below 10. -/
theorem connector_margin_below_ten :
    (IEEE.ConnectorShape.boundingRect
      (IEEE.Example.dot (Double.ofRatio 3 10) (Double.ofInt 0))).xp
        = .fin (-5460614548186726) (-49) ∧
    Double.ofRatio 3 10 = .fin 5404319552844595 (-54) ∧
    (IEEE.Example.dot (Double.ofRatio 3 10) (Double.ofInt 0)).startPoint.xp.toRat
      - (IEEE.ConnectorShape.boundingRect
          (IEEE.Example.dot (Double.ofRatio 3 10) (Double.ofInt 0))).xp.toRat < 10 := by
  have h1 : (IEEE.ConnectorShape.boundingRect
      (IEEE.Example.dot (Double.ofRatio 3 10) (Double.ofInt 0))).xp
        = .fin (-5460614548186726) (-49) := by decide!
  have h2 : Double.ofRatio 3 10 = .fin 5404319552844595 (-54) := by decide!
  refine ⟨h1, h2, ?_⟩
  rw [h1]
  show (Double.ofRatio 3 10).toRat - _ < 10
  rw [h2]
  simp only [Double.toRat]
  norm_num

/-- C9, as the code has it: for a connector whose points have coordinates between `lowest()`
and `max()`, `boundingRect()` is the rectangle with left `minX - 10`, top `minY - 10`, width
`(maxX - minX) + 20` and height `(maxY - minY) + 20`, each difference and sum rounded to
`double`, where `minX`, `minY` are the least and `maxX`, `maxY` the greatest coordinates
of start, end and the control points. -/
theorem connector_boundingRect_computed_margin_box (c : ConnectorShape Double)
    (hfin : ∀ pt ∈ c.path, pt.xp.InRange ∧ pt.yp.InRange) :
    ∃ minX minY maxX maxY : Double,
      ((∃ pt ∈ c.path, minX.eq pt.xp = true) ∧ ∀ pt ∈ c.path, minX.le pt.xp = true) ∧
      ((∃ pt ∈ c.path, minY.eq pt.yp = true) ∧ ∀ pt ∈ c.path, minY.le pt.yp = true) ∧
      ((∃ pt ∈ c.path, maxX.eq pt.xp = true) ∧ ∀ pt ∈ c.path, pt.xp.le maxX = true) ∧
      ((∃ pt ∈ c.path, maxY.eq pt.yp = true) ∧ ∀ pt ∈ c.path, pt.yp.le maxY = true) ∧
      IEEE.ConnectorShape.boundingRect c
        = ⟨minX.sub (Double.ofInt 10), minY.sub (Double.ofInt 10),
           (maxX.sub minX).add (Double.ofInt 20), (maxY.sub minY).add (Double.ofInt 20)⟩ := by
  have hne : ∀ f : QPointF Double → Double, c.path.map f ≠ [] := by
    intro f
    simp [ConnectorShape.path]
  have hx : ∀ x ∈ c.path.map (fun pt => pt.xp), x.InRange := by
    intro x hx
    obtain ⟨pt, hpt, rfl⟩ := List.mem_map.mp hx
    exact (hfin pt hpt).1
  have hy : ∀ y ∈ c.path.map (fun pt => pt.yp), y.InRange := by
    intro y hy
    obtain ⟨pt, hpt, rfl⟩ := List.mem_map.mp hy
    exact (hfin pt hpt).2
  obtain ⟨-, ⟨x1, hx1, a1⟩, a2⟩ := Double.foldl_qMin_least _ (hne _) hx
  obtain ⟨-, ⟨y1, hy1, b1⟩, b2⟩ := Double.foldl_qMin_least _ (hne _) hy
  obtain ⟨-, ⟨x2, hx2, c1⟩, c2⟩ := Double.foldl_qMax_greatest _ (hne _) hx
  obtain ⟨-, ⟨y2, hy2, d1⟩, d2⟩ := Double.foldl_qMax_greatest _ (hne _) hy
  obtain ⟨p1, hp1, rfl⟩ := List.mem_map.mp hx1
  obtain ⟨p2, hp2, rfl⟩ := List.mem_map.mp hy1
  obtain ⟨p3, hp3, rfl⟩ := List.mem_map.mp hx2
  obtain ⟨p4, hp4, rfl⟩ := List.mem_map.mp hy2
  refine ⟨_, _, _, _, ⟨⟨p1, hp1, a1⟩, fun pt hpt => a2 _ (List.mem_map_of_mem _ hpt)⟩,
    ⟨⟨p2, hp2, b1⟩, fun pt hpt => b2 _ (List.mem_map_of_mem _ hpt)⟩,
    ⟨⟨p3, hp3, c1⟩, fun pt hpt => c2 _ (List.mem_map_of_mem _ hpt)⟩,
    ⟨⟨p4, hp4, d1⟩, fun pt hpt => d2 _ (List.mem_map_of_mem _ hpt)⟩, ?_⟩
  unfold IEEE.ConnectorShape.boundingRect
  dsimp only
  rw [show (c.startPoint :: c.controlPoints ++ [c.endPoint]) = c.path from rfl,
    IEEE.extent_eq_foldl]
  dsimp only
  rw [show (Double.ofInt 2).mul (Double.ofInt 10) = Double.ofInt 20 from by decide!]

set_option maxRecDepth 100000 in
theorem connector_boundingRect_computed_margin_box_witness :
    (∀ pt ∈ IEEE.Example.bent.path, pt.xp.InRange ∧ pt.yp.InRange) ∧
    (∃ minX minY maxX maxY : Double,
      ((∃ pt ∈ IEEE.Example.bent.path, minX.eq pt.xp = true) ∧
        ∀ pt ∈ IEEE.Example.bent.path, minX.le pt.xp = true) ∧
      ((∃ pt ∈ IEEE.Example.bent.path, minY.eq pt.yp = true) ∧
        ∀ pt ∈ IEEE.Example.bent.path, minY.le pt.yp = true) ∧
      ((∃ pt ∈ IEEE.Example.bent.path, maxX.eq pt.xp = true) ∧
        ∀ pt ∈ IEEE.Example.bent.path, pt.xp.le maxX = true) ∧
      ((∃ pt ∈ IEEE.Example.bent.path, maxY.eq pt.yp = true) ∧
        ∀ pt ∈ IEEE.Example.bent.path, pt.yp.le maxY = true) ∧
      IEEE.ConnectorShape.boundingRect IEEE.Example.bent
        = ⟨minX.sub (Double.ofInt 10), minY.sub (Double.ofInt 10),
           (maxX.sub minX).add (Double.ofInt 20), (maxY.sub minY).add (Double.ofInt 20)⟩) ∧
    IEEE.ConnectorShape.boundingRect IEEE.Example.bent
      = ⟨Double.ofInt (-10), Double.ofInt (-10), Double.ofInt 120, Double.ofInt 50⟩ := by
  have h : ∀ pt ∈ IEEE.Example.bent.path, pt.xp.InRange ∧ pt.yp.InRange := by
    intro pt hpt
    simp only [ConnectorShape.path, IEEE.Example.bent, List.cons_append, List.nil_append,
      List.mem_cons, List.mem_singleton, List.not_mem_nil, or_false] at hpt
    rcases hpt with e | e | e <;> subst e <;>
      exact ⟨⟨by decide!, by decide!⟩, ⟨by decide!, by decide!⟩⟩
  exact ⟨h, connector_boundingRect_computed_margin_box IEEE.Example.bent h, by decide!⟩

/-! ## Integers in double precision -/

theorem Double.ofInt_eq_fin (i : Int) (h1 : -2 ^ 53 < i) (h2 : i < 2 ^ 53) :
    ∃ m e : Int, Double.ofInt i = .fin m e ∧ (m : ℚ) * (2 : ℚ) ^ e = (i : ℚ) := by
  by_cases hi : i = 0
  · subst hi
    exact ⟨0, 0, rfl, by simp⟩
  have hM : i.natAbs ≠ 0 := by omega
  have hlt : i.natAbs < 2 ^ 53 := by omega
  obtain ⟨b0, b1, b2⟩ := bitLength_bounds i.natAbs i.natAbs le_rfl hM
  generalize hn : bitLength i.natAbs i.natAbs = n at b0 b1 b2
  have hn53 : n ≤ 53 := by
    by_contra hc
    have : 2 ^ 53 ≤ 2 ^ (n - 1) := Nat.pow_le_pow_right (by norm_num) (by omega)
    omega
  have hs := Double.roundInt_scale i (53 - n) 0
  have hnat : (i * 2 ^ (53 - n)).natAbs = i.natAbs * 2 ^ (53 - n) := by
    rw [Int.natAbs_mul, Int.natAbs_pow]
    rfl
  have hlo : 2 ^ 52 ≤ i.natAbs * 2 ^ (53 - n) := by
    calc 2 ^ 52 = 2 ^ (n - 1) * 2 ^ (53 - n) := by
          rw [← pow_add]
          congr 1
          omega
      _ ≤ i.natAbs * 2 ^ (53 - n) := Nat.mul_le_mul_right _ b1
  have hhi : i.natAbs * 2 ^ (53 - n) < 2 ^ 53 := by
    calc i.natAbs * 2 ^ (53 - n) < 2 ^ n * 2 ^ (53 - n) :=
          Nat.mul_lt_mul_of_pos_right b2 (Nat.pow_pos (by norm_num))
      _ = 2 ^ 53 := by
          rw [← pow_add]
          congr 1
          omega
  have hcan : (Double.fin (i * 2 ^ (53 - n)) (0 - ((53 - n : Nat) : Int))).Canonical := by
    simp only [Double.Canonical]
    right
    rw [hnat]
    refine ⟨?_, hhi, by omega, by omega, Or.inl hlo⟩
    exact mul_ne_zero hi (by positivity)
  refine ⟨i * 2 ^ (53 - n), 0 - ((53 - n : Nat) : Int), ?_, ?_⟩
  · show Double.roundInt i 0 = _
    rw [← hs]
    exact Double.roundInt_of_canonical _ _ hcan
  · have h2 : (2 : ℚ) ≠ 0 := by norm_num
    push_cast
    rw [zero_sub, zpow_neg, zpow_natCast, mul_assoc, mul_inv_cancel₀ (pow_ne_zero _ h2),
      mul_one]

theorem Double.ofInt_isFinite (i : Int) (h1 : -2 ^ 53 < i) (h2 : i < 2 ^ 53) :
    (Double.ofInt i).IsFinite := by
  obtain ⟨m, e, h, -⟩ := Double.ofInt_eq_fin i h1 h2
  rw [h]
  trivial

theorem Double.toRat_ofInt (i : Int) (h1 : -2 ^ 53 < i) (h2 : i < 2 ^ 53) :
    (Double.ofInt i).toRat = (i : ℚ) := by
  obtain ⟨m, e, h, hv⟩ := Double.ofInt_eq_fin i h1 h2
  rw [h]
  exact hv

theorem Double.ofInt_add (a b : Int) (ha1 : -2 ^ 53 < a) (ha2 : a < 2 ^ 53)
    (hb1 : -2 ^ 53 < b) (hb2 : b < 2 ^ 53) :
    (Double.ofInt a).add (Double.ofInt b) = Double.ofInt (a + b) := by
  obtain ⟨m1, e1, h1, v1⟩ := Double.ofInt_eq_fin a ha1 ha2
  obtain ⟨m2, e2, h2, v2⟩ := Double.ofInt_eq_fin b hb1 hb2
  rw [h1, h2, Double.add_eq_roundInt m1 e1 m2 e2 (a + b) 0]
  · rfl
  · simp only [Double.toRat, v1, v2]
    push_cast
    simp

theorem Double.neg_ofInt (a : Int) : (Double.ofInt a).neg = Double.ofInt (-a) :=
  (Double.roundInt_neg a 0).symm

theorem Double.ofInt_sub (a b : Int) (ha1 : -2 ^ 53 < a) (ha2 : a < 2 ^ 53)
    (hb1 : -2 ^ 53 < b) (hb2 : b < 2 ^ 53) :
    (Double.ofInt a).sub (Double.ofInt b) = Double.ofInt (a - b) := by
  unfold Double.sub
  rw [Double.neg_ofInt, Double.ofInt_add a (-b) ha1 ha2 (by omega) (by omega)]
  rfl

theorem Double.ofInt_lt (a b : Int) (ha1 : -2 ^ 53 < a) (ha2 : a < 2 ^ 53)
    (hb1 : -2 ^ 53 < b) (hb2 : b < 2 ^ 53) :
    (Double.ofInt a).lt (Double.ofInt b) = decide (a < b) := by
  rw [Bool.eq_iff_iff, Double.lt_iff_toRat _ _ (Double.ofInt_isFinite a ha1 ha2)
    (Double.ofInt_isFinite b hb1 hb2), Double.toRat_ofInt a ha1 ha2,
    Double.toRat_ofInt b hb1 hb2, decide_eq_true_eq]
  exact Int.cast_lt

theorem Double.ofInt_eq (a b : Int) (ha1 : -2 ^ 53 < a) (ha2 : a < 2 ^ 53)
    (hb1 : -2 ^ 53 < b) (hb2 : b < 2 ^ 53) :
    (Double.ofInt a).eq (Double.ofInt b) = decide (a = b) := by
  rw [Bool.eq_iff_iff, Double.eq_iff_toRat _ _ (Double.ofInt_isFinite a ha1 ha2)
    (Double.ofInt_isFinite b hb1 hb2), Double.toRat_ofInt a ha1 ha2,
    Double.toRat_ofInt b hb1 hb2, decide_eq_true_eq]
  exact Int.cast_inj

/-! ## Hit test and moving, in double precision -/

theorem IEEE.QRectF_contains_ofInt (x y w h px py : Int)
    (hx : -2 ^ 51 ≤ x ∧ x ≤ 2 ^ 51) (hy : -2 ^ 51 ≤ y ∧ y ≤ 2 ^ 51)
    (hw : -2 ^ 51 ≤ w ∧ w ≤ 2 ^ 51) (hh : -2 ^ 51 ≤ h ∧ h ≤ 2 ^ 51)
    (hpx : -2 ^ 51 ≤ px ∧ px ≤ 2 ^ 51) (hpy : -2 ^ 51 ≤ py ∧ py ≤ 2 ^ 51) :
    IEEE.QRectF.contains ⟨Double.ofInt x, Double.ofInt y, Double.ofInt w, Double.ofInt h⟩
        ⟨Double.ofInt px, Double.ofInt py⟩ = true ↔
      (w ≠ 0 ∧ h ≠ 0 ∧ min x (x + w) ≤ px ∧ px ≤ max x (x + w) ∧
        min y (y + h) ≤ py ∧ py ≤ max y (y + h)) := by
  have e1 : (Double.ofInt w).lt (Double.ofInt 0) = decide (w < 0) :=
    Double.ofInt_lt w 0 (by omega) (by omega) (by norm_num) (by norm_num)
  have e2 : (Double.ofInt h).lt (Double.ofInt 0) = decide (h < 0) :=
    Double.ofInt_lt h 0 (by omega) (by omega) (by norm_num) (by norm_num)
  have e3 : (Double.ofInt x).add (Double.ofInt w) = Double.ofInt (x + w) :=
    Double.ofInt_add x w (by omega) (by omega) (by omega) (by omega)
  have e4 : (Double.ofInt y).add (Double.ofInt h) = Double.ofInt (y + h) :=
    Double.ofInt_add y h (by omega) (by omega) (by omega) (by omega)
  have l1 : ∀ a b : Int, (-2 ^ 52 ≤ a ∧ a ≤ 2 ^ 52) → (-2 ^ 52 ≤ b ∧ b ≤ 2 ^ 52) →
      (Double.ofInt a).lt (Double.ofInt b) = decide (a < b) :=
    fun a b ha hb => Double.ofInt_lt a b (by omega) (by omega) (by omega) (by omega)
  have l2 : ∀ a b : Int, (-2 ^ 52 ≤ a ∧ a ≤ 2 ^ 52) → (-2 ^ 52 ≤ b ∧ b ≤ 2 ^ 52) →
      (Double.ofInt a).eq (Double.ofInt b) = decide (a = b) :=
    fun a b ha hb => Double.ofInt_eq a b (by omega) (by omega) (by omega) (by omega)
  unfold IEEE.QRectF.contains
  dsimp only
  rw [e1, e2, e3, e4]
  by_cases c1 : w < 0 <;> by_cases c2 : h < 0 <;>
    simp only [c1, c2, decide_True, decide_False, if_true, Bool.false_eq_true, if_false] <;>
    rw [l2 _ _ (by omega) (by omega), l1 _ _ (by omega) (by omega),
      l1 _ _ (by omega) (by omega), l2 _ _ (by omega) (by omega),
      l1 _ _ (by omega) (by omega), l1 _ _ (by omega) (by omega)] <;>
    simp only [Bool.or_eq_true, decide_eq_true_eq] <;>
    constructor
  all_goals
    first
    | (intro hc
       split_ifs at hc <;>
         first | exact absurd hc Bool.false_ne_true | (refine ⟨?_, ?_, ?_, ?_, ?_, ?_⟩ <;> omega))
    | (rintro ⟨q1, q2, q3, q4, q5, q6⟩
       rw [if_neg (by omega), if_neg (by omega), if_neg (by omega), if_neg (by omega)])

theorem IEEE.QRectF_contains_moved (pos : QPointF Double) (size : QSizeF Double)
    (p delta : QPointF Double) (hpos : pos.Integral) (hsize : size.Integral)
    (hp : p.Integral) (hd : delta.Integral) :
    IEEE.QRectF.contains (QRectF.ofTopLeftSize (IEEE.QPointF.add pos delta) size)
        (IEEE.QPointF.add p delta)
      = IEEE.QRectF.contains (QRectF.ofTopLeftSize pos size) p := by
  obtain ⟨⟨x, x1, x2, hx⟩, ⟨y, y1, y2, hy⟩⟩ := hpos
  obtain ⟨⟨w, w1, w2, hw⟩, ⟨h, h1, h2, hh⟩⟩ := hsize
  obtain ⟨⟨px, px1, px2, hpx⟩, ⟨py, py1, py2, hpy⟩⟩ := hp
  obtain ⟨⟨dx, dx1, dx2, hdx⟩, ⟨dy, dy1, dy2, hdy⟩⟩ := hd
  obtain ⟨posx, posy⟩ := pos
  obtain ⟨sw, sh⟩ := size
  obtain ⟨ppx, ppy⟩ := p
  obtain ⟨ddx, ddy⟩ := delta
  simp only at hx hy hw hh hpx hpy hdx hdy
  subst hx hy hw hh hpx hpy hdx hdy
  simp only [IEEE.QPointF.add, QRectF.ofTopLeftSize]
  rw [Double.ofInt_add x dx (by omega) (by omega) (by omega) (by omega),
    Double.ofInt_add y dy (by omega) (by omega) (by omega) (by omega),
    Double.ofInt_add px dx (by omega) (by omega) (by omega) (by omega),
    Double.ofInt_add py dy (by omega) (by omega) (by omega) (by omega),
    Bool.eq_iff_iff,
    IEEE.QRectF_contains_ofInt _ _ _ _ _ _ (by omega) (by omega) (by omega) (by omega)
      (by omega) (by omega),
    IEEE.QRectF_contains_ofInt _ _ _ _ _ _ (by omega) (by omega) (by omega) (by omega)
      (by omega) (by omega)]
  omega

theorem IEEE.QLineF_length_moved (a b delta : QPointF Double) (ha : a.Integral)
    (hb : b.Integral) (hd : delta.Integral) :
    IEEE.QLineF.length ⟨IEEE.QPointF.add a delta, IEEE.QPointF.add b delta⟩
      = IEEE.QLineF.length ⟨a, b⟩ := by
  obtain ⟨⟨ax, ax1, ax2, hax⟩, ⟨ay, ay1, ay2, hay⟩⟩ := ha
  obtain ⟨⟨bx, bx1, bx2, hbx⟩, ⟨bY, by1, by2, hby⟩⟩ := hb
  obtain ⟨⟨dx, dx1, dx2, hdx⟩, ⟨dy, dy1, dy2, hdy⟩⟩ := hd
  obtain ⟨aax, aay⟩ := a
  obtain ⟨bbx, bby⟩ := b
  obtain ⟨ddx, ddy⟩ := delta
  simp only at hax hay hbx hby hdx hdy
  subst hax hay hbx hby hdx hdy
  simp only [IEEE.QPointF.add, IEEE.QLineF.length]
  rw [Double.ofInt_add ax dx (by omega) (by omega) (by omega) (by omega),
    Double.ofInt_add ay dy (by omega) (by omega) (by omega) (by omega),
    Double.ofInt_add bx dx (by omega) (by omega) (by omega) (by omega),
    Double.ofInt_add bY dy (by omega) (by omega) (by omega) (by omega),
    Double.ofInt_sub (bx + dx) (ax + dx) (by omega) (by omega) (by omega) (by omega),
    Double.ofInt_sub (bY + dy) (ay + dy) (by omega) (by omega) (by omega) (by omega),
    Double.ofInt_sub bx ax (by omega) (by omega) (by omega) (by omega),
    Double.ofInt_sub bY ay (by omega) (by omega) (by omega) (by omega),
    show bx + dx - (ax + dx) = bx - ax by ring, show bY + dy - (ay + dy) = bY - ay by ring]

theorem IEEE.nearSegment_moved (thr : Double) (a b p delta : QPointF Double)
    (ha : a.Integral) (hb : b.Integral) (hp : p.Integral) (hd : delta.Integral) :
    IEEE.ConnectorShape.nearSegment thr (IEEE.QPointF.add a delta) (IEEE.QPointF.add b delta)
        (IEEE.QPointF.add p delta)
      = IEEE.ConnectorShape.nearSegment thr a b p := by
  unfold IEEE.ConnectorShape.nearSegment
  dsimp only
  rw [IEEE.QLineF_length_moved a p delta ha hp hd, IEEE.QLineF_length_moved b p delta hb hp hd,
    IEEE.QLineF_length_moved a b delta ha hb hd]

theorem IEEE.containsLoop_moved (thr : Double) (p e delta : QPointF Double)
    (hp : p.Integral) (he : e.Integral) (hd : delta.Integral) (prev : QPointF Double)
    (cps : List (QPointF Double)) (hprev : prev.Integral) (hcps : ∀ q ∈ cps, q.Integral) :
    IEEE.ConnectorShape.containsLoop thr (IEEE.QPointF.add p delta) (IEEE.QPointF.add e delta)
        (IEEE.QPointF.add prev delta) (cps.map (fun point => IEEE.QPointF.add point delta))
      = IEEE.ConnectorShape.containsLoop thr p e prev cps := by
  induction cps generalizing prev with
  | nil =>
    simp only [List.map_nil, IEEE.ConnectorShape.containsLoop]
    exact IEEE.nearSegment_moved thr prev e p delta hprev he hp hd
  | cons c rest ih =>
    have hc : c.Integral := hcps c (by simp)
    simp only [List.map_cons, IEEE.ConnectorShape.containsLoop]
    rw [IEEE.nearSegment_moved thr prev c p delta hprev hc hp hd,
      ih c hc (fun q hq => hcps q (List.mem_cons_of_mem _ hq))]

theorem IEEE.connector_contains_moved (c : ConnectorShape Double) (p delta : QPointF Double)
    (hc : ∀ pt ∈ c.path, pt.Integral) (hp : p.Integral) (hd : delta.Integral) :
    IEEE.ConnectorShape.contains (IEEE.ConnectorShape.moveBy c delta) (IEEE.QPointF.add p delta)
      = IEEE.ConnectorShape.contains c p := by
  have hs : c.startPoint.Integral := hc _ (by simp [ConnectorShape.path])
  have he : c.endPoint.Integral := hc _ (by simp [ConnectorShape.path])
  have hcps : ∀ q ∈ c.controlPoints, q.Integral :=
    fun q hq => hc q (by simp [ConnectorShape.path, hq])
  unfold IEEE.ConnectorShape.contains IEEE.ConnectorShape.moveBy
  dsimp only
  cases hcp : c.controlPoints with
  | nil =>
    simp only [List.map_nil, List.isEmpty_nil, if_true]
    exact IEEE.nearSegment_moved _ _ _ p delta hs he hp hd
  | cons q rest =>
    simp only [List.map_cons, List.isEmpty_cons, Bool.false_eq_true, if_false]
    have := IEEE.containsLoop_moved (Double.ofInt 5) p c.endPoint delta hp he hd c.startPoint
      (q :: rest) hs (hcp ▸ hcps)
    simpa using this

set_option maxRecDepth 100000 in
/-- C24 (as stated, refuted): the Rectangle at (0.1, 0) with size (0.1, 10) contains the point
(0.2, 5), on its right edge `0.1 + 0.1`; after `moveBy((0.4, 0))` it does not contain the
moved point `(0.2 + 0.4, 5)`, which lies right of the new right edge `(0.1 + 0.4) + 0.1`. -/
theorem rectangle_hit_test_changes_under_move :
    IEEE.Shape.contains (Shape.rectangle IEEE.Example.slimBox)
      ⟨Double.ofRatio 2 10, Double.ofInt 5⟩ = some true ∧
    IEEE.Shape.contains
      (IEEE.Shape.moveBy (Shape.rectangle IEEE.Example.slimBox)
        ⟨Double.ofRatio 4 10, Double.ofInt 0⟩)
      (IEEE.QPointF.add ⟨Double.ofRatio 2 10, Double.ofInt 5⟩
        ⟨Double.ofRatio 4 10, Double.ofInt 0⟩) = some false := by
  decide!

/-- C24, as the code has it: for a Rectangle, a Text shape and a Connector whose coordinates
are integers of magnitude at most `2 ^ 50`, every point `p` and every delta with such
coordinates, `contains(p + delta)` after `moveBy(delta)` equals `contains(p)` before the
move: all the sums and differences involved are exact. -/
theorem integral_hit_test_commutes_with_moveBy (s : Shape Double) (p delta : QPointF Double)
    (hk : s.kind = DiagramShape.Rectangle ∨ s.kind = DiagramShape.Text ∨
      s.kind = DiagramShape.Connector)
    (hs : s.Integral) (hp : p.Integral) (hd : delta.Integral) :
    IEEE.Shape.contains (IEEE.Shape.moveBy s delta) (IEEE.QPointF.add p delta)
      = IEEE.Shape.contains s p := by
  cases s with
  | rectangle r =>
    exact congrArg some (IEEE.QRectF_contains_moved r.position r.size p delta hs.1 hs.2 hp hd)
  | text r =>
    exact congrArg some (IEEE.QRectF_contains_moved r.position r.size p delta hs.1 hs.2 hp hd)
  | connector c => exact congrArg some (IEEE.connector_contains_moved c p delta hs hp hd)
  | ellipse r => rfl
  | diamond r =>
    rcases hk with e | e | e <;> (simp only [Shape.kind] at e; exact absurd e (by decide))
  | triangle r =>
    rcases hk with e | e | e <;> (simp only [Shape.kind] at e; exact absurd e (by decide))

set_option maxRecDepth 100000 in
theorem integral_hit_test_commutes_with_moveBy_witness :
    ((Shape.connector IEEE.Example.bent).kind = DiagramShape.Rectangle ∨
      (Shape.connector IEEE.Example.bent).kind = DiagramShape.Text ∨
      (Shape.connector IEEE.Example.bent).kind = DiagramShape.Connector) ∧
    (Shape.connector IEEE.Example.bent).Integral ∧
    QPointF.Integral ⟨Double.ofInt 25, Double.ofInt 15⟩ ∧
    QPointF.Integral ⟨Double.ofInt 7, Double.ofInt (-3)⟩ ∧
    IEEE.Shape.contains
        (IEEE.Shape.moveBy (Shape.connector IEEE.Example.bent)
          ⟨Double.ofInt 7, Double.ofInt (-3)⟩)
        (IEEE.QPointF.add ⟨Double.ofInt 25, Double.ofInt 15⟩ ⟨Double.ofInt 7, Double.ofInt (-3)⟩)
      = IEEE.Shape.contains (Shape.connector IEEE.Example.bent)
          ⟨Double.ofInt 25, Double.ofInt 15⟩ ∧
    IEEE.Shape.contains (Shape.connector IEEE.Example.bent)
      ⟨Double.ofInt 25, Double.ofInt 15⟩ = some true := by
  have hs : (Shape.connector IEEE.Example.bent).Integral := by
    intro pt hpt
    simp only [ConnectorShape.path, IEEE.Example.bent, List.cons_append, List.nil_append,
      List.mem_cons, List.mem_singleton, List.not_mem_nil, or_false] at hpt
    rcases hpt with e | e | e <;> subst e
    · exact ⟨⟨0, by norm_num, by norm_num, rfl⟩, ⟨0, by norm_num, by norm_num, rfl⟩⟩
    · exact ⟨⟨50, by norm_num, by norm_num, rfl⟩, ⟨30, by norm_num, by norm_num, rfl⟩⟩
    · exact ⟨⟨100, by norm_num, by norm_num, rfl⟩, ⟨0, by norm_num, by norm_num, rfl⟩⟩
  have hp : QPointF.Integral ⟨Double.ofInt 25, Double.ofInt 15⟩ :=
    ⟨⟨25, by norm_num, by norm_num, rfl⟩, ⟨15, by norm_num, by norm_num, rfl⟩⟩
  have hd : QPointF.Integral ⟨Double.ofInt 7, Double.ofInt (-3)⟩ :=
    ⟨⟨7, by norm_num, by norm_num, rfl⟩, ⟨-3, by norm_num, by norm_num, rfl⟩⟩
  exact ⟨by decide, hs, hp, hd,
    integral_hit_test_commutes_with_moveBy (Shape.connector IEEE.Example.bent) _ _ (by decide)
      hs hp hd, by decide!⟩

/-! ## The arrowhead, in double precision -/

theorem Double.round_exponent (s : Bool) (M : Nat) (E : Int)
    (hq : max (E + ((bitLength M M : Nat) : Int) - 53) (-1074) + 1 ≤ 971) :
    ∃ m e : Int, Double.round s M E = .fin m e ∧
      (m = 0 ∨ e ≤ max (E + ((bitLength M M : Nat) : Int) - 53) (-1074) + 1) := by
  unfold Double.round
  by_cases hM : M = 0
  · rw [if_pos hM]
    exact ⟨0, 0, rfl, Or.inl rfl⟩
  · rw [if_neg hM]
    dsimp only
    generalize max (E + ((bitLength M M : Nat) : Int) - 53) (-1074) = q at hq
    generalize (if q ≤ E then M * 2 ^ (E - q).toNat else roundShift M (q - E).toNat) = t
    by_cases c53 : t = 2 ^ 53
    · simp only [c53, if_true]
      rw [if_neg (by norm_num), if_neg (by omega)]
      exact ⟨_, _, rfl, Or.inr le_rfl⟩
    · simp only [c53, if_false]
      by_cases c0 : t = 0
      · rw [if_pos c0]
        exact ⟨0, 0, rfl, Or.inl rfl⟩
      · rw [if_neg c0, if_neg (by omega)]
        exact ⟨_, _, rfl, Or.inr (by omega)⟩

/-- A product of magnitude at most `2 ^ 4` rounds to a finite value below `2 ^ 6`: its
significand is below `2 ^ 53` and, unless it is zero, its exponent is at most `-47`. -/
theorem Double.roundInt_small (i E : Int) (h : |(i : ℚ)| * (2 : ℚ) ^ E ≤ 2 ^ (4 : Int)) :
    ∃ m e : Int, Double.roundInt i E = .fin m e ∧ m.natAbs < 2 ^ 53 ∧ (m = 0 ∨ e ≤ -47) := by
  by_cases hi : i = 0
  · subst hi
    exact ⟨0, 0, rfl, by norm_num, Or.inl rfl⟩
  have hM : i.natAbs ≠ 0 := by omega
  obtain ⟨b0, b1, b2⟩ := bitLength_bounds i.natAbs i.natAbs le_rfl hM
  generalize hn : bitLength i.natAbs i.natAbs = n at b0 b1 b2
  have hE : E + (n : Int) - 1 ≤ 4 := by
    have h2 : (1 : ℚ) < 2 := by norm_num
    have h3 : ((2 : ℚ) ^ ((n - 1 : Nat) : Int)) * (2 : ℚ) ^ E ≤ 2 ^ (4 : Int) := by
      refine le_trans (mul_le_mul_of_nonneg_right ?_ (zpow_nonneg (by norm_num) _)) h
      rw [zpow_natCast, ← Int.cast_abs, Int.abs_eq_natAbs]
      exact_mod_cast b1
    rw [← zpow_add₀ (by norm_num : (2 : ℚ) ≠ 0)] at h3
    have := (zpow_le_zpow_iff_right₀ h2).mp h3
    omega
  have hq : max (E + ((bitLength i.natAbs i.natAbs : Nat) : Int) - 53) (-1074) + 1 ≤ -47 := by
    rw [hn]
    have : max (E + (n : Int) - 53) (-1074) ≤ -48 := max_le (by omega) (by norm_num)
    omega
  obtain ⟨m, e, hr, he⟩ := Double.round_exponent (decide (i < 0)) i.natAbs E (by omega)
  have hc := Double.round_canonical (decide (i < 0)) i.natAbs E
  rw [hr] at hc
  refine ⟨m, e, hr, ?_, ?_⟩
  · simp only [Double.Canonical] at hc
    rcases hc with ⟨h1, -⟩ | ⟨-, h1, -⟩
    · subst h1
      norm_num
    · exact h1
  · rcases he with h1 | h1
    · exact Or.inl h1
    · exact Or.inr (by omega)

theorem roundShift_absorb (N k : Nat) (m : Int) (hk : 0 < k) (hm : m.natAbs < 2 ^ (k - 1))
    (hN : 0 < N) :
    roundShift ((N : Int) * 2 ^ k + m).natAbs k = N := by
  have hp : 0 < 2 ^ k := Nat.pow_pos (by norm_num)
  have hhalf : 2 ^ k = 2 * 2 ^ (k - 1) := by
    conv_lhs => rw [show k = (k - 1) + 1 by omega]
    rw [pow_succ]
    ring
  unfold roundShift
  rw [if_neg (by omega)]
  dsimp only
  by_cases hneg : m < 0
  · obtain ⟨a, rfl⟩ : ∃ a : Nat, m = -(a : Int) := ⟨m.natAbs, by omega⟩
    have ha : (-(a : Int)).natAbs = a := by simp
    rw [ha] at hm
    have h3 : 2 ^ k ≤ N * 2 ^ k := Nat.le_mul_of_pos_left _ hN
    have h4 : (N - 1) * 2 ^ k = N * 2 ^ k - 2 ^ k := by rw [Nat.sub_mul, one_mul]
    have hS : ((N : Int) * 2 ^ k + -(a : Int)).natAbs = (2 ^ k - a) + (N - 1) * 2 ^ k := by
      have h1 : (N : Int) * 2 ^ k + -(a : Int) = (((2 ^ k - a) + (N - 1) * 2 ^ k : Nat) : Int) := by
        rw [h4]
        have e1 : (((2 ^ k - a) + (N * 2 ^ k - 2 ^ k) : Nat) : Int)
            = ((2 ^ k : Nat) : Int) - (a : Int) + (((N * 2 ^ k : Nat) : Int) - ((2 ^ k : Nat) : Int)) := by
          rw [Nat.cast_add, Nat.cast_sub (by omega), Nat.cast_sub h3]
        rw [e1]
        push_cast
        ring
      rw [h1, Int.natAbs_ofNat]
    rw [hS, Nat.add_mul_div_right _ _ hp, Nat.add_mul_mod_self_right,
      Nat.div_eq_of_lt (by omega), Nat.mod_eq_of_lt (by omega)]
    rw [if_pos (Or.inl (by omega))]
    omega
  · obtain ⟨a, rfl⟩ : ∃ a : Nat, m = (a : Int) := ⟨m.natAbs, by omega⟩
    have ha : ((a : Int)).natAbs = a := by simp
    rw [ha] at hm
    have hS : ((N : Int) * 2 ^ k + (a : Int)).natAbs = a + N * 2 ^ k := by
      have h1 : (N : Int) * 2 ^ k + (a : Int) = ((a + N * 2 ^ k : Nat) : Int) := by
        push_cast
        ring
      rw [h1, Int.natAbs_ofNat]
    rw [hS, Nat.add_mul_div_right _ _ hp, Nat.add_mul_mod_self_right,
      Nat.div_eq_of_lt (by omega), Nat.mod_eq_of_lt (by omega)]
    rw [if_neg (by
      rintro (h | ⟨h, -⟩) <;> omega)]
    omega

theorem Double.add_absorb (m e : Int) (hm : m.natAbs < 2 ^ 53) (he : m = 0 ∨ e ≤ -47) :
    Double.add (.fin 7812500000000000 7) (.fin m e) = .fin 7812500000000000 7 := by
  have hcan : Double.roundInt 7812500000000000 7 = .fin 7812500000000000 7 := by decide!
  by_cases h0 : m = 0
  · subst h0
    rw [Double.add_eq_roundInt 7812500000000000 7 0 e 7812500000000000 7
      (by simp [Double.toRat]), hcan]
  have he2 : e ≤ -47 := by
    rcases he with h | h
    · exact absurd h h0
    · exact h
  rw [Double.add_fin, min_eq_right (by omega : e ≤ 7), sub_self, Int.toNat_zero, pow_zero,
    mul_one]
  obtain ⟨k, hk⟩ : ∃ k : Nat, (7 - e).toNat = k := ⟨_, rfl⟩
  rw [hk]
  have hk54 : 54 ≤ k := by omega
  have hmk : m.natAbs < 2 ^ (k - 1) :=
    lt_of_lt_of_le hm (Nat.pow_le_pow_right (by norm_num) (by omega))
  have hhalf : 2 ^ k = 2 * 2 ^ (k - 1) := by
    conv_lhs => rw [show k = (k - 1) + 1 by omega]
    rw [pow_succ]
    ring
  have hrs := roundShift_absorb 7812500000000000 k m (by omega) hmk (by norm_num)
  -- the exact sum, a positive integer of `53 + k` bits
  obtain ⟨S, hS⟩ : ∃ S : Nat, ((7812500000000000 : Nat) : Int) * 2 ^ k + m = (S : Int) := by
    refine ⟨(((7812500000000000 : Nat) : Int) * 2 ^ k + m).toNat, ?_⟩
    have : (0 : Int) ≤ ((7812500000000000 : Nat) : Int) * 2 ^ k + m := by
      have h1 : ((2 ^ k : Nat) : Int) = 2 ^ k := by push_cast; rfl
      have h2 : (m.natAbs : Int) < ((2 ^ (k - 1) : Nat) : Int) := by exact_mod_cast hmk
      have h3 : ((2 ^ k : Nat) : Int) = 2 * ((2 ^ (k - 1) : Nat) : Int) := by
        exact_mod_cast hhalf
      rw [← h1]
      push_cast at h2 h3 ⊢
      omega
    omega
  have hS2 : (7812500000000000 : Int) * 2 ^ k + m = (S : Int) := by
    simpa using hS
  have hSlo : 7812499999999999 * 2 ^ k ≤ S ∧ S ≤ 7812500000000001 * 2 ^ k := by
    have h2 : (m.natAbs : Int) < ((2 ^ (k - 1) : Nat) : Int) := by exact_mod_cast hmk
    have h3 : ((2 ^ k : Nat) : Int) = 2 * ((2 ^ (k - 1) : Nat) : Int) := by
      exact_mod_cast hhalf
    have h1 : ((2 ^ k : Nat) : Int) = 2 ^ k := by push_cast; rfl
    rw [← h1] at hS2
    constructor
    · have : ((7812499999999999 * 2 ^ k : Nat) : Int) ≤ (S : Int) := by
        push_cast at h2 h3 hS2 ⊢
        omega
      exact_mod_cast this
    · have : (S : Int) ≤ ((7812500000000001 * 2 ^ k : Nat) : Int) := by
        push_cast at h2 h3 hS2 ⊢
        omega
      exact_mod_cast this
  have hrs2 : roundShift S k = 7812500000000000 := by
    have : ((7812500000000000 : Nat) : Int) * 2 ^ k + m = (S : Int) := hS
    rw [this, Int.natAbs_ofNat] at hrs
    exact hrs
  have hbl : bitLength S S = 53 + k := by
    apply bitLength_unique
    · omega
    · rw [show 53 + k - 1 = 52 + k by omega, pow_add]
      calc 2 ^ 52 * 2 ^ k ≤ 7812499999999999 * 2 ^ k :=
            Nat.mul_le_mul_right _ (by norm_num)
        _ ≤ S := hSlo.1
    · rw [pow_add]
      calc S ≤ 7812500000000001 * 2 ^ k := hSlo.2
        _ < 2 ^ 53 * 2 ^ k :=
            Nat.mul_lt_mul_of_pos_right (by norm_num) (Nat.pow_pos (by norm_num))
  have hS0 : S ≠ 0 := by
    have : 0 < 7812499999999999 * 2 ^ k := Nat.mul_pos (by norm_num) (Nat.pow_pos (by norm_num))
    omega
  rw [hS2]
  unfold Double.roundInt Double.round
  rw [Int.natAbs_ofNat, if_neg hS0]
  dsimp only
  rw [hbl]
  have hq : max (e + ((53 + k : Nat) : Int) - 53) (-1074) = 7 := by
    have : e + ((53 + k : Nat) : Int) - 53 = 7 := by
      push_cast
      omega
    rw [this]
    rfl
  rw [hq, if_neg (by omega : ¬ (7 : Int) ≤ e), hk, hrs2]
  have hd : decide ((S : Int) < 0) = false := by
    simp
  rw [hd]
  rfl

theorem Double.mul_ten_absorb (v : Double)
    (hv : v = .nan ∨
      (Double.le (Double.ofInt (-1)) v = true ∧ Double.le v (Double.ofInt 1) = true)) :
    (Double.ofInt (10 ^ 18)).add (v.mul (Double.ofInt 10)) = Double.ofInt (10 ^ 18) ∨
      (Double.ofInt (10 ^ 18)).add (v.mul (Double.ofInt 10)) = .nan := by
  have hten : Double.ofInt 10 = .fin 5629499534213120 (-49) := by decide!
  have htip : Double.ofInt (10 ^ 18) = .fin 7812500000000000 7 := by decide!
  have hone : Double.ofInt 1 = .fin 4503599627370496 (-52) := by decide!
  have hmone : Double.ofInt (-1) = .fin (-4503599627370496) (-52) := by decide!
  rcases hv with h | ⟨h1, h2⟩
  · subst h
    exact Or.inr rfl
  · cases v with
    | nan => exact absurd h1 (by decide)
    | inf s =>
      cases s
      · exact absurd h2 (by decide)
      · exact absurd h1 (by decide)
    | fin m e =>
      left
      rw [hmone, Double.le_fin_iff] at h1
      rw [hone, Double.le_fin_iff] at h2
      simp only [Double.toRat] at h1 h2
      have habs : |(m : ℚ) * (2 : ℚ) ^ e| ≤ 1 := by
        rw [abs_le]
        constructor
        · have : ((-4503599627370496 : Int) : ℚ) * (2 : ℚ) ^ (-52 : Int) = -1 := by norm_num
          linarith
        · have : ((4503599627370496 : Int) : ℚ) * (2 : ℚ) ^ (-52 : Int) = 1 := by norm_num
          linarith
      have hsmall : |((m * 5629499534213120 : Int) : ℚ)| * (2 : ℚ) ^ (e + -49) ≤ 2 ^ (4 : Int) := by
        have hp : (0 : ℚ) < (2 : ℚ) ^ e := zpow_pos (by norm_num) _
        rw [abs_mul, abs_of_pos hp] at habs
        rw [zpow_add₀ (by norm_num : (2 : ℚ) ≠ 0)]
        push_cast
        rw [abs_mul]
        have h5 : |(5629499534213120 : ℚ)| * (2 : ℚ) ^ (-49 : Int) = 10 := by norm_num
        calc |(m : ℚ)| * |(5629499534213120 : ℚ)| * ((2 : ℚ) ^ e * (2 : ℚ) ^ (-49 : Int))
            = (|(m : ℚ)| * (2 : ℚ) ^ e) * (|(5629499534213120 : ℚ)| * (2 : ℚ) ^ (-49 : Int)) := by
              ring
          _ = (|(m : ℚ)| * (2 : ℚ) ^ e) * 10 := by rw [h5]
          _ ≤ 1 * 10 := mul_le_mul_of_nonneg_right habs (by norm_num)
          _ ≤ 2 ^ (4 : Int) := by norm_num
      obtain ⟨m2, e2, hr, hb1, hb2⟩ := Double.roundInt_small _ _ hsmall
      rw [hten, htip]
      show Double.add _ (Double.roundInt (m * 5629499534213120) (e + -49)) = _
      rw [hr]
      exact Double.add_absorb m2 e2 hb1 hb2

set_option maxRecDepth 100000 in
/-- C28 (as stated, refuted): with the tip at (1e18, 1e18), whatever the reference point and
whatever the library returns for `atan2`, sine and cosine, each base vertex of the arrowhead
has the coordinates of the tip itself, or a not-a-number where the library returned one: an
offset of magnitude at most 10 is less than half the spacing, 128, of the `double` values at
1e18, so adding it changes nothing.  The base vertices are not at distance 10 from the
tip. -/
theorem arrowhead_base_collapses_onto_tip :
    Double.ofInt (10 ^ 18) = .fin 7812500000000000 7 ∧
    ∀ (libm : Libm) (fromPt : QPointF Double),
      ∃ p1 p2 : QPointF Double,
        IEEE.ConnectorShape.drawArrow libm ⟨Double.ofInt (10 ^ 18), Double.ofInt (10 ^ 18)⟩
          fromPt = [⟨Double.ofInt (10 ^ 18), Double.ofInt (10 ^ 18)⟩, p1, p2] ∧
        (p1.xp = Double.ofInt (10 ^ 18) ∨ p1.xp = .nan) ∧
        (p1.yp = Double.ofInt (10 ^ 18) ∨ p1.yp = .nan) ∧
        (p2.xp = Double.ofInt (10 ^ 18) ∨ p2.xp = .nan) ∧
        (p2.yp = Double.ofInt (10 ^ 18) ∨ p2.yp = .nan) ∧
        IEEE.QLineF.length ⟨⟨Double.ofInt (10 ^ 18), Double.ofInt (10 ^ 18)⟩, p1⟩
          ≠ Double.ofInt 10 ∧
        IEEE.QLineF.length ⟨⟨Double.ofInt (10 ^ 18), Double.ofInt (10 ^ 18)⟩, p2⟩
          ≠ Double.ofInt 10 := by
  refine ⟨by decide!, ?_⟩
  intro libm fromPt
  have hlen : ∀ p : QPointF Double,
      (p.xp = Double.ofInt (10 ^ 18) ∨ p.xp = .nan) →
      (p.yp = Double.ofInt (10 ^ 18) ∨ p.yp = .nan) →
      IEEE.QLineF.length ⟨⟨Double.ofInt (10 ^ 18), Double.ofInt (10 ^ 18)⟩, p⟩
        ≠ Double.ofInt 10 := by
    rintro ⟨x, y⟩ hx hy
    simp only at hx hy
    rcases hx with hx | hx <;> rcases hy with hy | hy <;> subst hx <;> subst hy <;> decide!
  have a1 := Double.mul_ten_absorb _
    (libm.sin_range ((libm.atan2
      (IEEE.QLineF.dy ⟨fromPt, ⟨Double.ofInt (10 ^ 18), Double.ofInt (10 ^ 18)⟩⟩).neg
      (IEEE.QLineF.dx ⟨fromPt, ⟨Double.ofInt (10 ^ 18), Double.ofInt (10 ^ 18)⟩⟩).neg).add
        (Double.M_PI.div (Double.ofInt 3))))
  have a2 := Double.mul_ten_absorb _
    (libm.cos_range ((libm.atan2
      (IEEE.QLineF.dy ⟨fromPt, ⟨Double.ofInt (10 ^ 18), Double.ofInt (10 ^ 18)⟩⟩).neg
      (IEEE.QLineF.dx ⟨fromPt, ⟨Double.ofInt (10 ^ 18), Double.ofInt (10 ^ 18)⟩⟩).neg).add
        (Double.M_PI.div (Double.ofInt 3))))
  have a3 := Double.mul_ten_absorb _
    (libm.sin_range (((libm.atan2
      (IEEE.QLineF.dy ⟨fromPt, ⟨Double.ofInt (10 ^ 18), Double.ofInt (10 ^ 18)⟩⟩).neg
      (IEEE.QLineF.dx ⟨fromPt, ⟨Double.ofInt (10 ^ 18), Double.ofInt (10 ^ 18)⟩⟩).neg).add
        Double.M_PI).sub (Double.M_PI.div (Double.ofInt 3))))
  have a4 := Double.mul_ten_absorb _
    (libm.cos_range (((libm.atan2
      (IEEE.QLineF.dy ⟨fromPt, ⟨Double.ofInt (10 ^ 18), Double.ofInt (10 ^ 18)⟩⟩).neg
      (IEEE.QLineF.dx ⟨fromPt, ⟨Double.ofInt (10 ^ 18), Double.ofInt (10 ^ 18)⟩⟩).neg).add
        Double.M_PI).sub (Double.M_PI.div (Double.ofInt 3))))
  exact ⟨_, _, rfl, a1, a2, a3, a4, hlen _ a1 a2, hlen _ a3 a4⟩

/-- C28, as the code has it: for every tip and every reference point, equal to the tip or
not, the polygon `drawArrow` draws is a triangle whose first vertex is the tip and whose
other two vertices are the tip plus `(sin(b) * 10, cos(b) * 10)`, each for one angle `b`,
with sine and cosine as the C library returns them and the products and sums rounded to
`double`. -/
theorem arrowhead_tip_first_base_offsets (libm : Libm) (tip fromPt : QPointF Double) :
    (IEEE.ConnectorShape.drawArrow libm tip fromPt).head? = some tip ∧
    (IEEE.ConnectorShape.drawArrow libm tip fromPt).length = 3 ∧
    (∃ b1 b2 : Double,
      IEEE.ConnectorShape.drawArrow libm tip fromPt
        = [tip,
           IEEE.QPointF.add tip
             ⟨(libm.sin b1).mul (Double.ofInt 10), (libm.cos b1).mul (Double.ofInt 10)⟩,
           IEEE.QPointF.add tip
             ⟨(libm.sin b2).mul (Double.ofInt 10), (libm.cos b2).mul (Double.ofInt 10)⟩]) ∧
    (∃ b1 b2 : Double,
      IEEE.ConnectorShape.drawArrow libm tip tip
        = [tip,
           IEEE.QPointF.add tip
             ⟨(libm.sin b1).mul (Double.ofInt 10), (libm.cos b1).mul (Double.ofInt 10)⟩,
           IEEE.QPointF.add tip
             ⟨(libm.sin b2).mul (Double.ofInt 10), (libm.cos b2).mul (Double.ofInt 10)⟩]) :=
  ⟨rfl, rfl, ⟨_, _, rfl⟩, ⟨_, _, rfl⟩⟩

end Flow
